import Mathlib

/-! The POSIX subsystem's process core.

A shallow embedding of `posix/subsystem/src/process.cpp`: the region map of
`VmContext` (an ordered map from base address to `Area`) with its split, map,
remap, protect and unmap operations; the signal queues of `SignalContext` with
polling, the handling of a signal, its delivery to a thread and the way back; and
of `Process` the methods `retire`, `terminate` and `wait`, the creation of
processes by `init`, `fork` and `clone`, `exec`, and the process groups, sessions
and controlling terminals, over a heap of processes, contexts, generations,
groups and sessions.

Machine words are natural numbers; every addition and subtraction of the source
on `uintptr_t`, `size_t` or `uint64_t` is reduced modulo `2 ^ 64` explicitly.
Calls into the kernel (`helMapMemory`, `helUnmapMemory`, ...) are not part of the
sources: their answers are arguments of the operations. A coroutine is modelled
up to its next suspension, and resumed by a function of its own.

The definitions come first: the model of the source, then the vocabulary of the
specification. The lemmas and the theorems for the claims follow.
-/

set_option linter.unusedVariables false

namespace Posix

/-! ## Machine arithmetic -/

/-- Modulus of `uintptr_t`, `size_t` and `uint64_t` arithmetic, `2 ^ 64`. -/
def wordMod : Nat := 18446744073709551616

/-- Unsigned 64-bit addition `a + b`. -/
def uadd (a b : Nat) : Nat := (a + b) % wordMod

/-- Unsigned 64-bit subtraction `a - b`. -/
def usub (a b : Nat) : Nat := (a + (wordMod - b % wordMod)) % wordMod

/-- The expression `(size + 0xFFF) & ~size_t(0xFFF)` of `mapFile`, `remapFile`,
`protectFile` and `unmapFile`. -/
def alignSize (size : Nat) : Nat := uadd size 0xFFF &&& (wordMod - 1 - 0xFFF)

/-- The size rounded up to the next multiple of the page size 4096, as a number
(no wrap-around): the `S` of the specification. -/
def roundUpPage (size : Nat) : Nat := (size + 4095) / 4096 * 4096

/-! ## Outcomes -/

/-- How a call ends: it returns, it aborts the server (a failed `HEL_CHECK` or
`assert`), or it leaves defined behaviour (an iterator used past `end()`). -/
inductive Outcome (α : Type) where
  | done (a : α)
  | fatal
  | undefined
deriving DecidableEq, Repr

/-- Error codes of the kernel that the code tells apart; every other code is
`kHelErrOther`. -/
inductive HelError where
  | kHelErrNone
  | kHelErrAlreadyExists
  | kHelErrNoMemory
  | kHelErrOther (code : Nat)
deriving DecidableEq, Repr

/-- The values of the POSIX server's `Error` enumeration that the modelled
methods return. -/
inductive Error where
  | success
  | alreadyExists
  | noMemory
  | noChildProcesses
  | interrupted
  | illegalArguments
  | insufficientPermissions
  | other (code : Nat)
deriving DecidableEq, Repr

deriving instance DecidableEq for Except

/-! ## Areas and the area tree -/

/-- A `helix::UniqueDescriptor`, identified with the kernel object it refers to
(`none` is the null descriptor); `dup()` yields a descriptor of the same object. -/
abbrev Descriptor := Option Nat

/-- The method `UniqueDescriptor::dup`. -/
def Descriptor.dup (d : Descriptor) : Descriptor := d

/-- The structure `Area`: the fields that `process.cpp` reads and writes. The
`offset` (an `intptr_t`) is kept as its 64-bit pattern. -/
structure Area where
  copyOnWrite : Bool
  areaSize : Nat
  nativeFlags : Nat
  fileView : Descriptor
  copyView : Descriptor
  file : Option Nat
  offset : Nat
deriving DecidableEq, Repr

/-- The member `_areaTree`, a `std::map<uintptr_t, Area>`: its nodes in ascending
key order. -/
abbrev AreaTree := List (Nat × Area)

/-- An iterator of the area tree: the key of the node it points to, `none` for
`end()`. -/
abbrev Iter := Option Nat

/-- The iterator `begin()`. -/
def mapBegin : AreaTree → Iter
  | [] => none
  | (k, _) :: _ => some k

/-- The call `upper_bound(addr)`: the first node whose key is greater than `addr`. -/
def upperBound : AreaTree → Nat → Iter
  | [], _ => none
  | (k, _) :: rest, addr => if addr < k then some k else upperBound rest addr

/-- The call `lower_bound(addr)`: the first node whose key is not less than `addr`. -/
def lowerBound : AreaTree → Nat → Iter
  | [], _ => none
  | (k, _) :: rest, addr => if addr ≤ k then some k else lowerBound rest addr

/-- Walks the nodes up to `it`, remembering the node seen last. -/
def prevFrom (last : Iter) : AreaTree → Iter → Iter
  | [], _ => last
  | (k, _) :: rest, it => if it = some k then last else prevFrom (some k) rest it

/-- The call `std::prev(it)` for `it` other than `begin()`. -/
def mapPrev (t : AreaTree) (it : Iter) : Iter := prevFrom none t it

/-- The call `std::next(it)`, also `++it`, for `it` other than `end()`: the node
with the next greater key. -/
def mapNext (t : AreaTree) (it : Iter) : Iter :=
  match it with
  | none => none
  | some k => upperBound t k

/-- The call `find(key)`, giving the area of the node. -/
def mapFind : AreaTree → Nat → Option Area
  | [], _ => none
  | (k, a) :: rest, key => if k = key then some a else mapFind rest key

/-- The call `emplace(key, area)`: inserts in key order unless the key is present. -/
def emplace : AreaTree → Nat → Area → AreaTree
  | [], key, area => [(key, area)]
  | (k, a) :: rest, key, area =>
    if key < k then (key, area) :: (k, a) :: rest
    else if key = k then (k, a) :: rest
    else (k, a) :: emplace rest key area

/-- The call `erase(it)` for the node with the given key. -/
def mapErase (t : AreaTree) (key : Nat) : AreaTree :=
  t.filter (fun e => decide (e.1 ≠ key))

/-- An assignment through a reference into the node with the given key. -/
def mapUpdate (t : AreaTree) (key : Nat) (f : Area → Area) : AreaTree :=
  t.map (fun e => if e.1 = key then (e.1, f e.2) else e)

/-! ## VmContext -/

/-- The lambda `performSingleSplit` of `splitAreaOn_`: the tree afterwards and the
iterator returned. -/
def performSingleSplit (t : AreaTree) (addr : Nat) : Outcome (AreaTree × Iter) :=
  let it0 := upperBound t addr
  let it := if it0 ≠ mapBegin t then mapPrev t it0 else it0
  match it with
  | none => .undefined
  | some base =>
    match mapFind t base with
    | none => .undefined
    | some area =>
      if base < addr ∧ uadd base area.areaSize > addr then
        let right : Area :=
          { copyOnWrite := area.copyOnWrite
            areaSize := usub area.areaSize (usub addr base)
            nativeFlags := area.nativeFlags
            fileView := area.fileView.dup
            copyView := area.copyView.dup
            file := area.file
            offset := uadd area.offset (usub addr base) }
        let t1 := emplace t addr right
        .done (mapUpdate t1 base (fun a => { a with areaSize := usub addr base }), it)
      else
        .done (t, it)

/-- The method `VmContext::splitAreaOn_`: the tree afterwards and the pair of
iterators returned. The two splits run left to right (a braced initialiser). -/
def splitAreaOn_ (t : AreaTree) (addr size : Nat) : Outcome (AreaTree × Iter × Iter) :=
  if t.length = 0 then .done (t, none, none)
  else
    match performSingleSplit t addr with
    | .fatal => .fatal
    | .undefined => .undefined
    | .done (t1, startIt) =>
      match performSingleSplit t1 (uadd addr size) with
      | .fatal => .fatal
      | .undefined => .undefined
      | .done (t2, it2) => .done (t2, startIt, mapNext t2 it2)

/-- The loop of `mapFile` and of `unmapFile` from `it` to `endIt`, erasing every
area that lies within the target range. Every round moves to a greater key, so
`fuel` above the number of nodes is never used up on a tree in key order. -/
def eraseLoop (address alignedSize : Nat) (endIt : Iter) :
    Nat → AreaTree → Iter → Outcome AreaTree
  | 0, _, _ => .undefined
  | fuel + 1, t, it =>
    if it = endIt then .done t
    else
      match it with
      | none => .undefined
      | some addr =>
        match mapFind t addr with
        | none => .undefined
        | some area =>
          if addr ≥ address ∧ uadd addr area.areaSize ≤ uadd address alignedSize then
            eraseLoop address alignedSize endIt fuel (mapErase t addr) (mapNext t it)
          else
            eraseLoop address alignedSize endIt fuel t (mapNext t it)

/-- The statements `nativeFlags &= ~(R | W | X); nativeFlags |= protectionFlags`
on a `uint32_t`, with `protMask` the value `R | W | X`. -/
def applyProtection (protMask protectionFlags : Nat) (a : Area) : Area :=
  { a with nativeFlags :=
      (a.nativeFlags &&& (4294967295 - protMask % 4294967296)) ||| protectionFlags }

/-- The loop of `protectFile` from `it` to `endIt`, updating the flags of every
area that lies within the target range. -/
def protectLoop (protMask protectionFlags address alignedSize : Nat) (endIt : Iter) :
    Nat → AreaTree → Iter → Outcome AreaTree
  | 0, _, _ => .undefined
  | fuel + 1, t, it =>
    if it = endIt then .done t
    else
      match it with
      | none => .undefined
      | some addr =>
        match mapFind t addr with
        | none => .undefined
        | some area =>
          if addr ≥ address ∧ uadd addr area.areaSize ≤ uadd address alignedSize then
            protectLoop protMask protectionFlags address alignedSize endIt fuel
              (mapUpdate t addr (applyProtection protMask protectionFlags)) (mapNext t it)
          else
            protectLoop protMask protectionFlags address alignedSize endIt fuel t
              (mapNext t it)

/-- The class `VmContext`: the address-space descriptor and the area tree. -/
structure VmContext where
  _space : Descriptor
  _areaTree : AreaTree
deriving DecidableEq, Repr

/-- The kernel's answers to the calls of `mapFile`: `helCopyOnWrite` (error, new
handle) and `helMapMemory` (error, pointer). -/
structure MapFileKernel where
  copyOnWrite : HelError × Nat
  mapMemory : HelError × Nat
deriving DecidableEq, Repr

/-- The method `VmContext::mapFile`: the value returned (an error or the pointer)
and the context afterwards. -/
def mapFile (self : VmContext) (hint : Nat) (memory : Descriptor) (file : Option Nat)
    (offset size : Nat) (copyOnWrite : Bool) (nativeFlags : Nat) (k : MapFileKernel) :
    Outcome (Except Error Nat × VmContext) :=
  let alignedSize := alignSize size
  let mapped : Outcome (Descriptor × HelError × Nat) :=
    if copyOnWrite then
      if k.copyOnWrite.1 ≠ HelError.kHelErrNone then .fatal
      else .done (some k.copyOnWrite.2, k.mapMemory.1, k.mapMemory.2)
    else .done (none, k.mapMemory.1, k.mapMemory.2)
  match mapped with
  | .fatal => .fatal
  | .undefined => .undefined
  | .done (copyView, error, pointer) =>
    if error = HelError.kHelErrAlreadyExists then .done (.error Error.alreadyExists, self)
    else if error = HelError.kHelErrNoMemory then .done (.error Error.noMemory, self)
    else if error ≠ HelError.kHelErrNone then .fatal
    else
      let address := pointer
      match splitAreaOn_ self._areaTree address alignedSize with
      | .fatal => .fatal
      | .undefined => .undefined
      | .done (t2, startIt, endIt) =>
        match eraseLoop address alignedSize endIt (t2.length + 1) t2 startIt with
        | .fatal => .fatal
        | .undefined => .undefined
        | .done t3 =>
          let area : Area :=
            { copyOnWrite := copyOnWrite
              areaSize := alignedSize
              nativeFlags := nativeFlags
              fileView := memory
              copyView := copyView
              file := file
              offset := offset }
          .done (.ok pointer, { self with _areaTree := emplace t3 address area })

/-- The method `VmContext::protectFile`, with the error of the kernel's
`ProtectMemory` answer: the context afterwards. -/
def protectFile (protMask : Nat) (self : VmContext) (pointer size protectionFlags : Nat)
    (protectError : HelError) : Outcome VmContext :=
  let alignedSize := alignSize size
  let address := pointer
  if protectError ≠ HelError.kHelErrNone then .fatal
  else
    match splitAreaOn_ self._areaTree address alignedSize with
    | .fatal => .fatal
    | .undefined => .undefined
    | .done (t2, startIt, endIt) =>
      match protectLoop protMask protectionFlags address alignedSize endIt
          (t2.length + 1) t2 startIt with
      | .fatal => .fatal
      | .undefined => .undefined
      | .done t3 => .done { self with _areaTree := t3 }

/-- The method `VmContext::unmapFile`, with the error of `helUnmapMemory`: the
context afterwards. -/
def unmapFile (self : VmContext) (pointer size : Nat) (unmapError : HelError) :
    Outcome VmContext :=
  let alignedSize := alignSize size
  let address := pointer
  if unmapError ≠ HelError.kHelErrNone then .fatal
  else
    match splitAreaOn_ self._areaTree address alignedSize with
    | .fatal => .fatal
    | .undefined => .undefined
    | .done (t2, startIt, endIt) =>
      match eraseLoop address alignedSize endIt (t2.length + 1) t2 startIt with
      | .fatal => .fatal
      | .undefined => .undefined
      | .done t3 => .done { self with _areaTree := t3 }

/-- The answers to the calls of `remapFile`: the memory view of the file
(`accessMemory`), `helMapMemory` (error, pointer) and `helUnmapMemory`. -/
structure RemapKernel where
  accessMemory : Descriptor
  mapMemory : HelError × Nat
  unmapMemory : HelError
deriving DecidableEq, Repr

/-- The method `VmContext::remapFile`: the pointer returned and the context
afterwards. A failed `assert` is fatal. -/
def remapFile (self : VmContext) (oldPointer oldSize newSize : Nat) (k : RemapKernel) :
    Outcome (Nat × VmContext) :=
  let alignedOldSize := alignSize oldSize
  let alignedNewSize := alignSize newSize
  match mapFind self._areaTree oldPointer with
  | none => .fatal
  | some old =>
    if old.areaSize ≠ alignedOldSize then .fatal
    else if old.copyOnWrite then .fatal
    else
      match old.file with
      | none => .undefined
      | some _ =>
        if k.mapMemory.1 ≠ HelError.kHelErrNone then .fatal
        else if k.unmapMemory ≠ HelError.kHelErrNone then .fatal
        else
          let pointer := k.mapMemory.2
          let area : Area :=
            { copyOnWrite := old.copyOnWrite
              areaSize := alignedNewSize
              nativeFlags := old.nativeFlags
              fileView := old.fileView
              copyView := old.copyView
              file := old.file
              offset := old.offset }
          let t1 := mapErase self._areaTree oldPointer
          let address := pointer
          let succ := lowerBound t1 (uadd address alignedNewSize)
          let sane : Outcome Unit :=
            if succ ≠ mapBegin t1 then
              match mapPrev t1 succ with
              | none => .undefined
              | some pred =>
                match mapFind t1 pred with
                | none => .undefined
                | some predArea =>
                  if uadd pred predArea.areaSize ≤ address then .done () else .fatal
            else .done ()
          match sane with
          | .fatal => .fatal
          | .undefined => .undefined
          | .done _ => .done (pointer, { self with _areaTree := emplace t1 address area })

/-- The kernel's answers to the calls of `VmContext::clone`: `helCreateSpace`
(error, handle) and, for the area at each address, `helForkMemory` (error, new
handle) and the error of `helMapMemory`. -/
structure CloneKernel where
  createSpace : HelError × Nat
  forkMemory : Nat → HelError × Nat
  mapMemory : Nat → HelError

/-- The loop of `VmContext::clone` over the areas of the original, building the
tree of the new context. -/
def cloneAreas (k : CloneKernel) : AreaTree → AreaTree → Outcome AreaTree
  | [], built => .done built
  | (address, area) :: rest, built =>
    let view : Outcome Descriptor :=
      if area.copyOnWrite then
        if (k.forkMemory address).1 ≠ HelError.kHelErrNone then .fatal
        else if k.mapMemory address ≠ HelError.kHelErrNone ∧
            k.mapMemory address ≠ HelError.kHelErrAlreadyExists then .fatal
        else .done (some (k.forkMemory address).2)
      else
        if k.mapMemory address ≠ HelError.kHelErrNone then .fatal else .done none
    match view with
    | .fatal => .fatal
    | .undefined => .undefined
    | .done copyView =>
      cloneAreas k rest (emplace built address
        { copyOnWrite := area.copyOnWrite
          areaSize := area.areaSize
          nativeFlags := area.nativeFlags
          fileView := area.fileView.dup
          copyView := copyView
          file := area.file
          offset := area.offset })

/-- The method `VmContext::clone`: the new context. -/
def VmContext.clone (original : VmContext) (k : CloneKernel) : Outcome VmContext :=
  if k.createSpace.1 ≠ HelError.kHelErrNone then .fatal
  else
    match cloneAreas k original._areaTree [] with
    | .fatal => .fatal
    | .undefined => .undefined
    | .done t => .done ⟨some k.createSpace.2, t⟩

/-! ## SignalContext -/

/-- The payload of a signal, `SignalInfo`: a `UserSignal` or a `TimerSignal`. -/
inductive SignalInfo where
  | user (pid uid : Int)
  | timer (timerId : Int)
deriving DecidableEq, Repr

/-- The structure `SignalItem`. -/
structure SignalItem where
  signalNumber : Int
  info : SignalInfo
deriving DecidableEq, Repr

/-- The enumeration `SignalDisposition`. -/
inductive SignalDisposition where
  | none
  | ignore
  | handle
deriving DecidableEq, Repr

/-- The structure `SignalHandler`: the fields that `process.cpp` reads and writes. -/
structure SignalHandler where
  disposition : SignalDisposition
  flags : Nat
  mask : Nat
  handlerIp : Nat
  restorerIp : Nat
deriving DecidableEq, Repr

/-- One element of `_slots`: the sequence of the last raise and the queue of
pending items, front first. -/
structure SignalSlot where
  raiseSeq : Nat
  asyncQueue : List SignalItem
deriving DecidableEq, Repr

/-- The class `SignalContext`: the handler table, the 64 slots, the sequence
counter and the active set. -/
structure SignalContext where
  _handlers : List SignalHandler
  _slots : List SignalSlot
  _currentSeq : Nat
  _activeSet : Nat
deriving DecidableEq, Repr

/-- Modelled from the spec: the declaration of the slots (`process.hpp`) is not among the
sources; a slot starts idle, with an empty queue and no raise recorded. -/
def SignalSlot.idle : SignalSlot := { raiseSeq := 0, asyncQueue := [] }

/-- The constructor `SignalContext::SignalContext`, `_currentSeq{1}` and
`_activeSet{0}`, over a handler table (set by `create` or copied by `clone`). -/
def SignalContext.init (handlers : List SignalHandler) : SignalContext :=
  { _handlers := handlers
    _slots := List.replicate 64 SignalSlot.idle
    _currentSeq := 1
    _activeSet := 0 }

/-- The element `_slots[i]`. -/
def SignalContext.slot (s : SignalContext) (i : Nat) : SignalSlot :=
  s._slots.getD i SignalSlot.idle

/-- The method `SignalContext::issueSignal`; a failed `assert` is fatal. The
raise of the signal bell wakes the waiters and changes no field. -/
def issueSignal (s : SignalContext) (sn : Int) (info : SignalInfo) : Outcome SignalContext :=
  if ¬ (sn > 0) then .fatal
  else if ¬ (sn - 1 < 64) then .fatal
  else
    let item : SignalItem := { signalNumber := sn, info := info }
    let i := (sn - 1).toNat
    let seq := uadd s._currentSeq 1
    .done { s with
      _currentSeq := seq
      _slots := (s._slots.set i
        { raiseSeq := seq, asyncQueue := (s.slot i).asyncQueue ++ [item] })
      _activeSet := s._activeSet ||| (1 <<< i) }

/-- The `for` loop of `fetchSignal` from `sn` on: the value of `sn` when the loop
is left, 65 when no slot was found. -/
def fetchScan (s : SignalContext) (mask : Nat) : Nat → Nat → Nat
  | 0, sn => sn
  | fuel + 1, sn =>
    if sn ≤ 64 then
      if mask &&& (1 <<< (sn - 1)) = 0 then fetchScan s mask fuel (sn + 1)
      else if ¬ (s.slot (sn - 1)).asyncQueue.isEmpty then sn
      else fetchScan s mask fuel (sn + 1)
    else sn

/-- What a call of `fetchSignal` hands back: an item, the null pointer, or
nothing yet because the coroutine is suspended on the signal bell (it scans again
when the bell is raised and returns the null pointer when it is cancelled). -/
inductive FetchResult where
  | item (i : SignalItem)
  | null
  | suspended
deriving DecidableEq, Repr

/-- The method `SignalContext::fetchSignal`, one pass of its outer loop. -/
def fetchSignal (s : SignalContext) (mask : Nat) (nonBlock : Bool) :
    Outcome (FetchResult × SignalContext) :=
  let sn := fetchScan s mask 64 1
  if sn - 1 ≠ 64 then
    match (s.slot (sn - 1)).asyncQueue with
    | [] => .fatal
    | item :: rest =>
      let slots := s._slots.set (sn - 1) { s.slot (sn - 1) with asyncQueue := rest }
      if rest.isEmpty then
        .done (.item item, { s with
          _slots := slots
          _activeSet := s._activeSet &&& (wordMod - 1 - (1 <<< (sn - 1))) })
      else
        .done (.item item, { s with _slots := slots })
  else if nonBlock then .done (.null, s)
  else .done (.suspended, s)

/-- The structure `CheckSignalResult`. -/
structure CheckSignalResult where
  seq : Nat
  active : Nat
deriving DecidableEq, Repr

/-- The method `SignalContext::checkSignal`. -/
def checkSignal (s : SignalContext) : CheckSignalResult :=
  { seq := s._currentSeq, active := s._activeSet }

/-- The method `SignalContext::getHandler`; an index outside the table is
undefined. -/
def getHandler (s : SignalContext) (sn : Int) : Outcome SignalHandler :=
  if sn < 1 then .undefined
  else
    match s._handlers[(sn - 1).toNat]? with
    | none => .undefined
    | some h => .done h

/-- The method `SignalContext::changeHandler`: the handler stored before and the
context afterwards. -/
def changeHandler (s : SignalContext) (sn : Int) (handler : SignalHandler) :
    Outcome (SignalHandler × SignalContext) :=
  if ¬ (sn - 1 < 64) then .fatal
  else if sn < 1 then .undefined
  else
    match s._handlers[(sn - 1).toNat]? with
    | none => .undefined
    | some old => .done (old, { s with _handlers := s._handlers.set (sn - 1).toNat handler })

/-- The method `SignalContext::resetHandlers`. -/
def resetHandlers (s : SignalContext) : SignalContext :=
  { s with _handlers := s._handlers.map (fun h =>
      if h.disposition = SignalDisposition.handle then
        { h with disposition := SignalDisposition.none }
      else h) }

/-- The structure `SignalContext::SignalHandling`. -/
structure SignalHandling where
  handler : SignalHandler
  ignored : Bool
  killed : Bool
deriving DecidableEq, Repr

/-- The method `SignalContext::determineHandling`, with the flag `signalOnce` and
the numbers of `SIGCHLD`, `SIGURG` and `SIGWINCH` as parameters (their
declarations are not among the sources): the handling and the context afterwards.
The call `process->enterSignal()` touches the process only. -/
def determineHandling (signalOnce : Nat) (SIGCHLD SIGURG SIGWINCH : Int)
    (s : SignalContext) (item : SignalItem) : Outcome (SignalHandling × SignalContext) :=
  if item.signalNumber < 1 then .undefined
  else
    match s._handlers[(item.signalNumber - 1).toNat]? with
    | none => .undefined
    | some handler =>
      let s1 : SignalContext :=
        if handler.flags &&& signalOnce ≠ 0 then
          { s with _handlers := (s._handlers.set (item.signalNumber - 1).toNat
              { handler with disposition := SignalDisposition.none }) }
        else s
      match handler.disposition with
      | SignalDisposition.none =>
        if item.signalNumber = SIGCHLD ∨ item.signalNumber = SIGURG ∨
            item.signalNumber = SIGWINCH then
          .done ({ handler := handler, ignored := true, killed := false }, s1)
        else
          .done ({ handler := handler, ignored := false, killed := true }, s1)
      | SignalDisposition.ignore =>
        .done ({ handler := handler, ignored := true, killed := false }, s1)
      | SignalDisposition.handle =>
        .done ({ handler := handler, ignored := false, killed := false }, s1)

/-- The structure `PollSignalResult`. -/
structure PollSignalResult where
  seq : Nat
  edges : Nat
deriving DecidableEq, Repr

/-- The `for` loop of `pollSignal` over `sn = 1 .. 64`, the index being `sn - 1`. -/
def pollEdges (s : SignalContext) (inSeq : Nat) : Nat :=
  (List.range 64).foldl
    (fun edges i => if (s.slot i).raiseSeq > inSeq then edges ||| (1 <<< i) else edges) 0

/-- The two `co_await` points of `pollSignal`: in the first `while` loop and in
the second one. -/
inductive PollPhase where
  | awaitSeq
  | awaitActive
deriving DecidableEq, Repr

/-- What a pass of the coroutine `pollSignal` ends in: a failed `assert`, a
suspension on the signal bell, or the result. -/
inductive PollOutcome where
  | fatal
  | suspended (phase : PollPhase)
  | returned (r : PollSignalResult)
deriving DecidableEq, Repr

/-- The second `while` loop of `pollSignal` and what follows it, entered with
the context `s` and the state `cancelled` of the token. The method writes no
field: the context is handed back as it was taken. -/
def pollActive (s : SignalContext) (inSeq mask : Nat) (cancelled : Bool) :
    PollOutcome × SignalContext :=
  if s._activeSet &&& mask = 0 ∧ cancelled = false then (.suspended .awaitActive, s)
  else (.returned { seq := s._currentSeq, edges := pollEdges s inSeq }, s)

/-- The first `while` loop of `pollSignal` and what follows it. -/
def pollSeq (s : SignalContext) (inSeq mask : Nat) (cancelled : Bool) :
    PollOutcome × SignalContext :=
  if inSeq = s._currentSeq ∧ cancelled = false then (.suspended .awaitSeq, s)
  else pollActive s inSeq mask cancelled

/-- The method `SignalContext::pollSignal` up to its first suspension or its
return; a failed `assert` is fatal. -/
def pollSignal (s : SignalContext) (inSeq mask : Nat) (cancelled : Bool) :
    PollOutcome × SignalContext :=
  if ¬ (inSeq ≤ s._currentSeq) then (.fatal, s)
  else pollSeq s inSeq mask cancelled

/-- The coroutine `pollSignal` resumed at a `co_await` by a raise of the bell or by
the cancellation: the condition of its loop is read again on the context `s` of
that moment. -/
def pollResume (phase : PollPhase) (s : SignalContext) (inSeq mask : Nat) (cancelled : Bool) :
    PollOutcome × SignalContext :=
  match phase with
  | .awaitSeq => pollSeq s inSeq mask cancelled
  | .awaitActive => pollActive s inSeq mask cancelled

/-! ## Process -/

/-- The identity of an object on the heap (a `Process`, a `SignalContext`, a
`ProcessGroup`): what a pointer or a `shared_ptr` holds. -/
abbrev Ref := Nat

/-- The variant `TerminationState`: not terminated, `TerminationByExit` or
`TerminationBySignal`. -/
inductive TerminationState where
  | none
  | byExit (code : Int)
  | bySignal (signo : Int)
deriving DecidableEq, Repr

/-- The enumeration `NotifyType`, the two values that `process.cpp` uses. -/
inductive NotifyType where
  | null
  | terminated
deriving DecidableEq, Repr

/-- The usage counters `_generationUsage` and `_childrenUsage`. -/
structure ResourceUsage where
  userTime : Nat := 0
deriving DecidableEq, Repr

/-- The class `ProcessGroup`: its member list, its hull and its session. -/
structure ProcessGroup where
  members_ : List Ref := []
  hull_ : Option Ref := none
  sessionPointer_ : Option Ref := none
deriving DecidableEq, Repr

/-- The class `PidHull`: the pid and the weak pointers to the process, the process
group and the session of that pid. -/
structure PidHull where
  pid_ : Int
  process_ : Option Ref := none
  processGroup_ : Option Ref := none
  terminalSession_ : Option Ref := none
deriving DecidableEq, Repr

/-- The class `TerminalSession`. -/
structure TerminalSession where
  hull_ : Option Ref := none
  groups_ : List Ref := []
  foregroundGroup_ : Option Ref := none
  ctsPointer_ : Option Ref := none
deriving DecidableEq, Repr

/-- The class `ControllingTerminalState`. -/
structure ControllingTerminalState where
  associatedSession_ : Option Ref := none
deriving DecidableEq, Repr

/-- The class `Generation`: the flag `inTermination`, whether `cancelServe` has
been cancelled, and whether the events `signalsDone` and `requestsDone` have been
raised. -/
structure Generation where
  inTermination : Bool := false
  cancelServe : Bool := false
  signalsDone : Bool := false
  requestsDone : Bool := false
deriving DecidableEq, Repr

/-- The class `FsContext`; a `ViewPath` is kept as an identifier. -/
structure FsContext where
  _root : Nat := 0
  _workDir : Nat := 0
  _umask : Nat := 0
deriving DecidableEq, Repr

/-- The structure `FileDescriptor`. -/
structure FileDescriptor where
  file : Nat
  closeOnExec : Bool
deriving DecidableEq, Repr

/-- The class `FileContext`: the universe, the memory of the file table, the
table `_fileTable` (a `std::map`, ascending descriptors), the window
`_fileTableWindow` onto the handles (as a list of the slots written) and the
lane `_clientMbusLane`. -/
structure FileContext where
  _universe : Descriptor := none
  _fileTableMemory : Descriptor := none
  _fileTableWindow : List (Int × Nat) := []
  _fileTable : List (Int × FileDescriptor) := []
  _clientMbusLane : Nat := 0
deriving DecidableEq, Repr

/-- The class `Process`: the fields that the modelled methods read and write.
The field `_procfs_dir` holds whether the directory is still linked, when there is
one; the fields of the alternate signal stack stand behind the accessors
`isAltStackEnabled`, `altStackSp` and `altStackSize`. -/
structure Process where
  pid : Int
  _uid : Int := 0
  _parent : Option Ref := none
  _children : List Ref := []
  _notifyQueue : List Ref := []
  _state : TerminationState := TerminationState.none
  notifyType_ : NotifyType := NotifyType.null
  parentDeathSignal_ : Option Int := none
  _signalMask : Nat := 0
  _vmContext : Option Ref := none
  _fsContext : Option Ref := none
  _fileContext : Option Ref := none
  _signalContext : Option Ref := none
  _currentGeneration : Option Ref := none
  _threadDescriptor : Descriptor := none
  _posixLane : Descriptor := none
  _pgPointer : Option Ref := none
  _generationUsage : ResourceUsage := {}
  _childrenUsage : ResourceUsage := {}
  _procfs_dir : Option Bool := none
  altStackEnabled : Bool := false
  altStackSp : Nat := 0
  altStackSize : Nat := 0
  _hull : Option Ref := none
  _path : List Char := []
  _name : List Char := []
  _euid : Int := 0
  _gid : Int := 0
  _egid : Int := 0
  _didExecute : Bool := false
  _threadPageMemory : Descriptor := none
  _cancelEventMemory : Descriptor := none
  _clientPosixLane : Nat := 0
  _clientThreadPage : Nat := 0
  _clientCancelEvent : Nat := 0
  _clientFileTable : Nat := 0
  _clientClkTrackerPage : Nat := 0
  _clientAuxBegin : Nat := 0
  _clientAuxEnd : Nat := 0
deriving DecidableEq, Repr

/-- The heap of the server: the processes, the signal contexts (shared between
the processes that `Process::clone` made), the process groups, the hulls, the
sessions, the controlling terminals, the generations and the other contexts; the
registry `globalPidMap` (from a pid to its hull) and the counter `nextPid`; and
the address `nextRef` that the next object made gets. -/
structure World where
  procs : Ref → Option Process
  sigctxs : Ref → Option SignalContext := fun _ => none
  groups : Ref → Option ProcessGroup := fun _ => none
  hulls : Ref → Option PidHull := fun _ => none
  sessions : Ref → Option TerminalSession := fun _ => none
  terminals : Ref → Option ControllingTerminalState := fun _ => none
  gens : Ref → Option Generation := fun _ => none
  vmctxs : Ref → Option VmContext := fun _ => none
  fsctxs : Ref → Option FsContext := fun _ => none
  filectxs : Ref → Option FileContext := fun _ => none
  globalPidMap : Int → Option Ref := fun _ => none
  nextPid : Int := 2
  nextRef : Ref := 0

/-- The heap with the process at `ref` replaced. -/
def World.setProc (w : World) (ref : Ref) (p : Process) : World :=
  { w with procs := Function.update w.procs ref (some p) }

/-- The heap with the signal context at `ref` replaced. -/
def World.setSigctx (w : World) (ref : Ref) (s : SignalContext) : World :=
  { w with sigctxs := Function.update w.sigctxs ref (some s) }

/-- The heap with the process group at `ref` replaced. -/
def World.setGroup (w : World) (ref : Ref) (g : ProcessGroup) : World :=
  { w with groups := Function.update w.groups ref (some g) }

/-- The heap with the hull at `ref` replaced. -/
def World.setHull (w : World) (ref : Ref) (h : PidHull) : World :=
  { w with hulls := Function.update w.hulls ref (some h) }

/-- The heap with the session at `ref` replaced. -/
def World.setSession (w : World) (ref : Ref) (s : TerminalSession) : World :=
  { w with sessions := Function.update w.sessions ref (some s) }

/-- The heap with the controlling terminal at `ref` replaced. -/
def World.setTerminal (w : World) (ref : Ref) (t : ControllingTerminalState) : World :=
  { w with terminals := Function.update w.terminals ref (some t) }

/-- The heap with the generation at `ref` replaced. -/
def World.setGen (w : World) (ref : Ref) (g : Generation) : World :=
  { w with gens := Function.update w.gens ref (some g) }

/-- The heap with the address-space context at `ref` replaced. -/
def World.setVmctx (w : World) (ref : Ref) (c : VmContext) : World :=
  { w with vmctxs := Function.update w.vmctxs ref (some c) }

/-- The heap with the filesystem context at `ref` replaced. -/
def World.setFsctx (w : World) (ref : Ref) (c : FsContext) : World :=
  { w with fsctxs := Function.update w.fsctxs ref (some c) }

/-- The heap with the file-descriptor context at `ref` replaced. -/
def World.setFilectx (w : World) (ref : Ref) (c : FileContext) : World :=
  { w with filectxs := Function.update w.filectxs ref (some c) }

/-- The structure `Process::WaitResult`. -/
structure WaitResult where
  pid : Int := 0
  uid : Int := 0
  state : TerminationState := TerminationState.none
  stats : ResourceUsage := {}
deriving DecidableEq, Repr

/-- The bits of `WaitFlags`; their values are declared outside the sources. -/
structure WaitFlagBits where
  waitNonBlocking : Nat
  waitExited : Nat
  waitLeaveZombie : Nat
deriving DecidableEq, Repr

/-- The method `Process::retire`. A pointer to no live object is undefined. -/
def retire (w : World) (ref : Ref) : Outcome World :=
  match w.procs ref with
  | none => .undefined
  | some process =>
    let w1 : World :=
      match process._procfs_dir with
      | some _ => w.setProc ref { process with _procfs_dir := some false }
      | none => w
    match process._parent with
    | none => .fatal
    | some pref =>
      match w1.procs pref with
      | none => .undefined
      | some parent =>
        .done (w1.setProc pref { parent with
          _childrenUsage :=
            { userTime := uadd parent._childrenUsage.userTime process._generationUsage.userTime }
          _children := parent._children.filter (fun e => decide (e ≠ ref)) })

/-- The search `std::ranges::find_if` of `hasChild` over the children from some
position on; `none` when a child pointer is dangling. -/
def hasChildIn (w : World) (pid : Int) : List Ref → Option Bool
  | [] => some false
  | c :: rest =>
    match w.procs c with
    | none => none
    | some child => if child.pid = pid then some true else hasChildIn w pid rest

/-- The method `Process::hasChild`. -/
def hasChild (w : World) (self : Process) (pid : Int) : Option Bool :=
  hasChildIn w pid self._children

/-- The expression `a & ~m`: the bits of `a` that `m` lacks, whatever the width. -/
def andNot (a m : Nat) : Nat := a ^^^ (a &&& m)

/-- The test `std::holds_alternative<TerminationByExit>`. -/
def TerminationState.isByExit : TerminationState → Bool
  | .byExit _ => true
  | _ => false

/-- The test `std::holds_alternative<TerminationBySignal>`. -/
def TerminationState.isBySignal : TerminationState → Bool
  | .bySignal _ => true
  | _ => false

/-- What a pass of the coroutine `Process::wait` ends in: a result, an error, or a
suspension on the notify bell. -/
inductive WaitOutcome where
  | result (r : WaitResult)
  | error (e : Error)
  | suspended
deriving DecidableEq, Repr

/-- The `for` loop of `Process::wait` over `_notifyQueue` up to its `break`: the
first entry that is not skipped, `some none` when the loop runs to the end and
`none` when an entry is dangling. -/
def waitFind (bits : WaitFlagBits) (w : World) (pid : Int) (flags : Nat) :
    List Ref → Option (Option (Ref × Process))
  | [] => some none
  | q :: rest =>
    match w.procs q with
    | none => none
    | some proc =>
      if pid > 0 ∧ pid ≠ proc.pid then waitFind bits w pid flags rest
      else if proc._state.isByExit = true ∧ flags &&& bits.waitExited = 0 then
        waitFind bits w pid flags rest
      else if proc._state.isBySignal = true ∧ flags &&& bits.waitExited = 0 then
        waitFind bits w pid flags rest
      else some (some (q, proc))

/-- One pass of the `while(true)` loop of `Process::wait`, up to its `co_return`
or its `co_await`. An object is linked in `_notifyQueue` at most once, so
`erase(it)` removes the first occurrence of the entry found. -/
def waitPass (bits : WaitFlagBits) (w : World) (self : Ref) (pid : Int) (flags : Nat) :
    Outcome (WaitOutcome × World) :=
  match w.procs self with
  | none => .undefined
  | some me =>
    match waitFind bits w pid flags me._notifyQueue with
    | none => .undefined
    | some none =>
      if flags &&& bits.waitNonBlocking ≠ 0 then .done (.result {}, w)
      else .done (.suspended, w)
    | some (some (q, proc)) =>
      let result : WaitResult :=
        { pid := proc.pid, uid := proc._uid, state := proc._state,
          stats := proc._generationUsage }
      if flags &&& bits.waitLeaveZombie = 0 then
        match retire (w.setProc self { me with _notifyQueue := me._notifyQueue.erase q }) q with
        | .done w2 => .done (.result result, w2)
        | .fatal => .fatal
        | .undefined => .undefined
      else .done (.result result, w)

/-- The method `Process::wait` up to its first suspension or its return; a failed
`assert` is fatal. -/
def wait (bits : WaitFlagBits) (w : World) (self : Ref) (pid : Int) (flags : Nat) :
    Outcome (WaitOutcome × World) :=
  if ¬ (pid = -1 ∨ pid > 0) then .fatal
  else if flags &&& bits.waitExited = 0 then .fatal
  else if andNot flags (bits.waitNonBlocking ||| bits.waitExited ||| bits.waitLeaveZombie) ≠ 0
    then .fatal
  else
    match w.procs self with
    | none => .undefined
    | some me =>
      if me._children.isEmpty then .done (.error Error.noChildProcesses, w)
      else if pid > 0 then
        match hasChild w me pid with
        | none => .undefined
        | some false => .done (.error Error.noChildProcesses, w)
        | some true => waitPass bits w self pid flags
      else waitPass bits w self pid flags

/-- The coroutine `Process::wait` resumed at its `co_await`: `woken` is what
`_notifyBell.async_wait(ct)` returns, false when the token was cancelled. -/
def waitResume (bits : WaitFlagBits) (w : World) (self : Ref) (pid : Int) (flags : Nat)
    (woken : Bool) : Outcome (WaitOutcome × World) :=
  if woken = false then .done (.error Error.interrupted, w)
  else
    match w.procs self with
    | none => .undefined
    | some me =>
      if me._children.isEmpty then .done (.error Error.noChildProcesses, w)
      else waitPass bits w self pid flags

/-- The answers of the kernel to the calls of `Process::terminate`. -/
structure TerminateKernel where
  killThread : HelError
  queryThreadStats : HelError
  userTime : Nat
deriving DecidableEq, Repr

/-- The loop `while(reparent_to->getParent())` of `Process::terminate`, from
`r` on: `none` when it has not ended after `fuel` rounds. -/
def reparentTo (w : World) : Nat → Ref → Option (Outcome Ref)
  | 0, _ => none
  | fuel + 1, r =>
    match w.procs r with
    | none => some .undefined
    | some p =>
      match p._parent with
      | none => some (.done r)
      | some q => reparentTo w fuel q

/-- The body of `if((*it)->parentDeathSignal_)` in the loop of
`Process::terminate`: the signal that the child has asked for is issued on its
signal context. The member `uid` of the `UserSignal` is not assigned: `uid0` is
the value it is constructed with. -/
def sendParentDeathSignal (uid0 : Int) (selfPid : Int) (w : World) (child : Process) :
    Outcome World :=
  match child.parentDeathSignal_ with
  | none => .done w
  | some sn =>
    match child._signalContext with
    | none => .undefined
    | some sc =>
      match w.sigctxs sc with
      | none => .undefined
      | some ctx =>
        match issueSignal ctx sn (SignalInfo.user selfPid uid0) with
        | .done ctx2 => .done (w.setSigctx sc ctx2)
        | .fatal => .fatal
        | .undefined => .undefined

/-- The `for` loop of `Process::terminate` over the children that are left; each
round erases the first child, and `reparent_to` is not the process itself (it has
no parent). -/
def reparentChildren (uid0 : Int) (self : Ref) (selfPid : Int) (reparent_to : Ref) :
    World → List Ref → Outcome World
  | w, [] => .done w
  | w, c :: rest =>
    match w.procs c with
    | none => .undefined
    | some child =>
      match (w.setProc c { child with _parent := some reparent_to }).procs reparent_to with
      | none => .undefined
      | some root =>
        match sendParentDeathSignal uid0 selfPid
          ((w.setProc c { child with _parent := some reparent_to }).setProc reparent_to
            { root with _children := root._children ++ [c] }) child with
        | .done w3 =>
          match w3.procs self with
          | none => .undefined
          | some me =>
            reparentChildren uid0 self selfPid reparent_to
              (w3.setProc self { me with _children := rest }) rest
        | .fatal => .fatal
        | .undefined => .undefined

/-- The end of `Process::terminate`, from `assert(notifyType_ == NotifyType::null)`
on: the notification of the parent. -/
def notifyParent (SIGCHLD : Int) (signalNoChildWait : Nat) (uid0 : Int) (w : World)
    (self parent : Ref) (state : TerminationState) : Outcome World :=
  match w.procs self with
  | none => .undefined
  | some me =>
    if me.notifyType_ ≠ NotifyType.null then .fatal
    else
      let w1 := w.setProc self { me with notifyType_ := NotifyType.terminated, _state := state }
      match w1.procs parent with
      | none => .undefined
      | some par =>
        match par._signalContext with
        | none => .undefined
        | some sc =>
          match w1.sigctxs sc with
          | none => .undefined
          | some ctx =>
            match getHandler ctx SIGCHLD with
            | .done sigchldHandling =>
              let notified : Outcome World :=
                if sigchldHandling.disposition ≠ SignalDisposition.ignore ∧
                    sigchldHandling.flags &&& signalNoChildWait = 0 then
                  .done (w1.setProc parent
                    { par with _notifyQueue := par._notifyQueue ++ [self] })
                else retire w1 self
              match notified with
              | .done w2 =>
                match issueSignal ctx SIGCHLD (SignalInfo.user me.pid uid0) with
                | .done ctx2 => .done (w2.setSigctx sc ctx2)
                | .fatal => .fatal
                | .undefined => .undefined
              | .fatal => .fatal
              | .undefined => .undefined
            | .fatal => .fatal
            | .undefined => .undefined

/-- The method `Process::terminate` run in one piece, with the number of `SIGCHLD`
and the flag `signalNoChildWait` as parameters: nothing else runs during its two
waits, so that the parent read at its start is still the parent when it goes on.
`none` when the walk up the parent links has not ended after `fuel` rounds. The
waits and the cancelling of the timer change no field of a `Process`; the marks
on the generation before the waits (`inTermination`, `cancelServe`) are left to
`terminateBegin`, which with `terminateFinish` gives the method cut at its
waits. -/
def terminate (SIGCHLD : Int) (signalNoChildWait : Nat) (uid0 : Int) (k : TerminateKernel)
    (fuel : Nat) (w : World) (self : Ref) (state : TerminationState) :
    Option (Outcome World) :=
  match w.procs self with
  | none => some .undefined
  | some me =>
    match me._parent with
    | none => some .fatal
    | some parent =>
      if k.killThread ≠ HelError.kHelErrNone then some .fatal
      else
        match me._currentGeneration with
        | none => some .undefined
        | some _ =>
          if k.queryThreadStats ≠ HelError.kHelErrNone then some .fatal
          else
            let w1 := w.setProc self { me with
              _generationUsage := { userTime := uadd me._generationUsage.userTime k.userTime }
              _posixLane := none
              _threadDescriptor := none
              _vmContext := none
              _fsContext := none
              _fileContext := none
              _currentGeneration := none }
            match reparentTo w1 fuel parent with
            | none => none
            | some (.done reparent_to) =>
              match reparentChildren uid0 self me.pid reparent_to w1 me._children with
              | .done w2 =>
                some (notifyParent SIGCHLD signalNoChildWait uid0 w2 self parent state)
              | .fatal => some .fatal
              | .undefined => some .undefined
            | some .fatal => some .fatal
            | some .undefined => some .undefined

/-! ## Signal delivery -/

/-- The fields of `siginfo_t` that `process.cpp` writes; `memset` zeroes them. -/
structure SigInfo where
  si_signo : Int := 0
  si_code : Int := 0
  si_pid : Int := 0
  si_uid : Int := 0
  si_timerid : Int := 0
deriving DecidableEq, Repr

/-- The visitor `CompileSignalInfo`, with the constant `SI_TIMER` as parameter. -/
def CompileSignalInfo (SI_TIMER : Int) (si : SigInfo) : SignalInfo → SigInfo
  | .user pid uid => { si with si_pid := pid, si_uid := uid }
  | .timer timerId => { si with si_code := SI_TIMER, si_timerid := timerId }

/-- The structure `SignalFrame` of x86_64: the return address, of the `ucontext`
the registers `uc_mcontext.gregs`, the pointer `uc_mcontext.fpregs` and the word
`uc_sigmask.sig[0]`, and the `siginfo_t`. -/
structure SignalFrame where
  returnAddress : Nat := 0
  gregs : List Nat := []
  fpregs : Nat := 0
  sigmask : Nat := 0
  info : SigInfo := {}
deriving DecidableEq, Repr

/-- The constant `redZoneSize` of x86_64. -/
def redZoneSize : Nat := 128

/-- The constant `stackCallMisalign` of x86_64. -/
def stackCallMisalign : Nat := 8

/-- What `raiseContext` and `restoreContext` take from declarations outside the
sources: the size, the alignment and two offsets of `SignalFrame`, the size of the
SIMD state (asked from the kernel once), the indices of the registers, the flags
of a handler, three signal numbers, `SI_TIMER`, the switch `debugFaults` and the
method `Process::isOnAltStack`. -/
structure DeliveryConsts where
  sizeofSignalFrame : Nat
  alignofSignalFrame : Nat
  simdStateSize : Nat
  offsetofInfo : Nat
  offsetofUcontext : Nat
  REG_RDI : Nat
  REG_RSI : Nat
  REG_RDX : Nat
  REG_RAX : Nat
  REG_RIP : Nat
  REG_RSP : Nat
  signalReentrant : Nat
  signalInfo : Nat
  signalOnStack : Nat
  SIGABRT : Int
  SIGILL : Int
  SIGSEGV : Int
  SI_TIMER : Int
  debugFaults : Bool
  isOnAltStack : Process → Nat → Bool

/-- The answers of the kernel to the calls of `raiseContext`: the two register
images it loads and the error codes of the two writes and of the store. -/
structure RaiseKernel where
  loadSignalRegs : HelError × List Nat
  loadSimdRegs : HelError × List Nat
  storeFrame : HelError
  storeSimd : HelError
  storeSignalRegs : HelError
deriving DecidableEq, Repr

/-- The function `sigaddset` of the C library on the first word of a `sigset_t`:
it sets bit `sn - 1` for a signal number in 1..64 and fails otherwise. -/
def sigaddset (set : Nat) (sn : Int) : Nat :=
  if 1 ≤ sn ∧ sn ≤ 64 then set ||| (1 <<< (sn - 1).toNat) else set

/-- The lambda `alignFrame` of `raiseContext`. -/
def alignFrame (nsp size : Nat) : Nat :=
  usub (usub nsp size &&& (wordMod - 1 - 15)) stackCallMisalign

/-- What a delivery leaves: the process with its new signal mask, the address of
the frame, the frame and the SIMD state written to the stack (at `frame` and at
`frame + sizeof(SignalFrame)`), and the register image stored to the thread. -/
structure Delivery where
  process : Process
  frame : Nat
  storedFrame : SignalFrame
  storedSimd : List Nat
  storedSignalRegs : List Nat
deriving DecidableEq, Repr

/-- How `raiseContext` ends: the item is discarded, the thread is parked for the
debugger, `process->terminate(TerminationBySignal)` is run, or the signal is
delivered. -/
inductive RaiseResult where
  | discarded
  | suspendedIndefinitely
  | terminate (state : TerminationState)
  | delivered (d : Delivery)
deriving DecidableEq, Repr

/-- The value of an `int` stored to a 64-bit register. -/
def regOfInt (v : Int) : Nat := (v % (wordMod : Int)).toNat

/-- The signal mask that `raiseContext` hands to `setSignalMask`: the word
`handlerMask.sig[0]`. -/
def handlerMask (c : DeliveryConsts) (process : Process) (handling : SignalHandling)
    (sn : Int) : Nat :=
  if handling.handler.flags &&& c.signalReentrant = 0 then
    sigaddset (process._signalMask ||| handling.handler.mask) sn
  else process._signalMask ||| handling.handler.mask

/-- The process after `process->setSignalMask(handlerMask.sig[0])`. -/
def maskedProcess (c : DeliveryConsts) (process : Process) (handling : SignalHandling)
    (sn : Int) : Process :=
  { process with _signalMask := handlerMask c process handling sn }

/-- The stack pointer `threadSp` of `raiseContext` after the choice of the
alternate stack, from the stack pointer of the thread. -/
def signalStack (c : DeliveryConsts) (process : Process) (handling : SignalHandling)
    (threadSp : Nat) : Nat :=
  if handling.handler.flags &&& c.signalOnStack ≠ 0 ∧ process.altStackEnabled = true then
    if c.isOnAltStack process threadSp = false then uadd process.altStackSp process.altStackSize
    else threadSp
  else threadSp

/-- The address `frame` of `raiseContext`: `alignFrame(totalFrameSize)` on
`nsp = threadSp - redZoneSize`. -/
def frameAddress (c : DeliveryConsts) (threadSp : Nat) : Nat :=
  alignFrame (usub threadSp redZoneSize) (uadd c.simdStateSize c.sizeofSignalFrame)

/-- The address `frame` of a delivery, from the registers that the kernel hands
out and the process after `setSignalMask`. -/
def deliveryFrame (c : DeliveryConsts) (k : RaiseKernel) (item : SignalItem)
    (process : Process) (handling : SignalHandling) : Nat :=
  frameAddress c (signalStack c (maskedProcess c process handling item.signalNumber) handling
    (k.loadSignalRegs.2.getD c.REG_RSP 0))

/-- The frame `sf` of `raiseContext` as it is written to the stack: zeroed, then
the registers loaded from the thread, the return address, the signal mask of the
process before it is changed, the `siginfo_t` if the handler asks for it, and
the pointer to the SIMD state. -/
def savedFrame (c : DeliveryConsts) (k : RaiseKernel) (item : SignalItem)
    (process : Process) (handling : SignalHandling) (frame : Nat) : SignalFrame :=
  { returnAddress := handling.handler.restorerIp
    gregs := k.loadSignalRegs.2
    fpregs := uadd frame c.sizeofSignalFrame
    sigmask := process._signalMask
    info :=
      if handling.handler.flags &&& c.signalInfo ≠ 0 then
        CompileSignalInfo c.SI_TIMER { si_signo := item.signalNumber } item.info
      else {} }

/-- The register image that `raiseContext` stores to the thread: the saved
registers with the arguments of the handler, its entry and the new stack
pointer. -/
def handlerRegs (c : DeliveryConsts) (gregs : List Nat) (sn : Int) (frame handlerIp : Nat) :
    List Nat :=
  (((((gregs.set c.REG_RDI (regOfInt sn)).set c.REG_RSI (uadd frame c.offsetofInfo)).set
    c.REG_RDX (uadd frame c.offsetofUcontext)).set c.REG_RAX 0).set c.REG_RIP handlerIp).set
    c.REG_RSP frame

/-- The method `SignalContext::raiseContext`, the branch of x86_64. A failed
`assert` or `HEL_CHECK` is fatal; the pieces of the frame are `handlerMask`,
`savedFrame`, `deliveryFrame` and `handlerRegs`. -/
def raiseContext (c : DeliveryConsts) (k : RaiseKernel) (item : SignalItem)
    (process : Process) (handling : SignalHandling) : Outcome RaiseResult :=
  if handling.ignored = true then .done .discarded
  else if handling.handler.disposition = SignalDisposition.none ∧
      (item.signalNumber = c.SIGABRT ∨ item.signalNumber = c.SIGILL ∨
        item.signalNumber = c.SIGSEGV) ∧ c.debugFaults = true then
    .done .suspendedIndefinitely
  else if handling.handler.disposition = SignalDisposition.none ∧
      ¬ (item.signalNumber = c.SIGABRT ∨ item.signalNumber = c.SIGILL ∨
        item.signalNumber = c.SIGSEGV) ∧ handling.killed = false then .fatal
  else if handling.killed = true then
    .done (.terminate (TerminationState.bySignal item.signalNumber))
  else if k.loadSignalRegs.1 ≠ HelError.kHelErrNone then .fatal
  else if k.loadSimdRegs.1 ≠ HelError.kHelErrNone then .fatal
  else if deliveryFrame c k item process handling &&& (c.alignofSignalFrame - 1) ≠ 0 then .fatal
  else if k.storeFrame ≠ HelError.kHelErrNone then .fatal
  else if k.storeSimd ≠ HelError.kHelErrNone then .fatal
  else if k.storeSignalRegs ≠ HelError.kHelErrNone then .fatal
  else
    .done (.delivered
      { process := maskedProcess c process handling item.signalNumber
        frame := deliveryFrame c k item process handling
        storedFrame := savedFrame c k item process handling
          (deliveryFrame c k item process handling)
        storedSimd := k.loadSimdRegs.2
        storedSignalRegs := handlerRegs c k.loadSignalRegs.2 item.signalNumber
          (deliveryFrame c k item process handling) handling.handler.handlerIp })

/-- The answers of the kernel to the calls of `restoreContext`: the stack pointer
among the program registers, what the memory of the thread holds at an address
(for a read of the size of a `SignalFrame` and for a read of the SIMD state), and
the error codes of the two stores. -/
structure RestoreKernel where
  loadProgramRegs : HelError × Nat
  loadFrame : Nat → Nat → HelError × SignalFrame
  loadSimd : Nat → Nat → HelError × List Nat
  storeSignalRegs : HelError
  storeSimdRegs : HelError

/-- What `restoreContext` leaves: the process with its signal mask set, and the
two register images stored to the thread. -/
structure Restored where
  process : Process
  storedSignalRegs : List Nat
  storedSimdRegs : List Nat
deriving DecidableEq, Repr

/-- The method `SignalContext::restoreContext`, the branch of x86_64. -/
def restoreContext (c : DeliveryConsts) (k : RestoreKernel) (process : Process) :
    Outcome Restored :=
  if k.loadProgramRegs.1 ≠ HelError.kHelErrNone then .fatal
  else
    let frame := usub k.loadProgramRegs.2 stackCallMisalign
    let loadFrame := k.loadFrame frame c.sizeofSignalFrame
    let loadSimd := k.loadSimd (uadd frame c.sizeofSignalFrame) c.simdStateSize
    if loadFrame.1 ≠ HelError.kHelErrNone then .fatal
    else if loadSimd.1 ≠ HelError.kHelErrNone then .fatal
    else
      let sf := loadFrame.2
      let process1 : Process := { process with _signalMask := sf.sigmask }
      if k.storeSignalRegs ≠ HelError.kHelErrNone then .fatal
      else if k.storeSimdRegs ≠ HelError.kHelErrNone then .fatal
      else
        .done
          { process := process1
            storedSignalRegs := sf.gregs
            storedSimdRegs := loadSimd.2 }

/-! ## Process groups and sessions -/

/-- The constructor `PidHull::PidHull`: the hull is entered into `globalPidMap`;
a pid that is already there fails the `assert`. The new object gets the address
`nextRef`. -/
def PidHull.construct (w : World) (pid : Int) : Outcome (Ref × World) :=
  match w.globalPidMap pid with
  | some _ => .fatal
  | none =>
    .done (w.nextRef,
      { w.setHull w.nextRef { pid_ := pid } with
        globalPidMap := Function.update w.globalPidMap pid (some w.nextRef)
        nextRef := w.nextRef + 1 })

/-- The method `PidHull::initializeProcess`. -/
def initializeProcess (w : World) (hull process : Ref) : Outcome World :=
  match w.hulls hull with
  | none => .undefined
  | some h => .done (w.setHull hull { h with process_ := some process })

/-- The method `PidHull::initializeTerminalSession`. -/
def initializeTerminalSession (w : World) (hull session : Ref) : Outcome World :=
  match w.hulls hull with
  | none => .undefined
  | some h => .done (w.setHull hull { h with terminalSession_ := some session })

/-- The method `PidHull::initializeProcessGroup`. -/
def initializeProcessGroup (w : World) (hull group : Ref) : Outcome World :=
  match w.hulls hull with
  | none => .undefined
  | some h => .done (w.setHull hull { h with processGroup_ := some group })

/-- The first statement of `ProcessGroup::reassociateProcess`: the process is
unlinked from the member list of its old group, if it has one. To unlink an
object from a list that does not hold it is undefined. -/
def leaveOldGroup (w : World) (p : Ref) (process : Process) : Outcome World :=
  match process._pgPointer with
  | none => .done w
  | some old =>
    match w.groups old with
    | none => .undefined
    | some oldGroup =>
      if p ∈ oldGroup.members_ then
        .done (w.setGroup old { oldGroup with members_ := oldGroup.members_.erase p })
      else .undefined

/-- The method `ProcessGroup::reassociateProcess` of the group at `G`. -/
def reassociateProcess (w : World) (G p : Ref) : Outcome World :=
  match w.procs p with
  | none => .undefined
  | some process =>
    match leaveOldGroup w p process with
    | .done w1 =>
      match (w1.setProc p { process with _pgPointer := some G }).groups G with
      | none => .undefined
      | some group =>
        .done ((w1.setProc p { process with _pgPointer := some G }).setGroup G
          { group with members_ := group.members_ ++ [p] })
    | .fatal => .fatal
    | .undefined => .undefined

/-- The method `ProcessGroup::dropProcess` of the group at `G`. The group object
stays on the heap. -/
def dropProcess (w : World) (G p : Ref) : Outcome World :=
  match w.procs p with
  | none => .undefined
  | some process =>
    if process._pgPointer ≠ some G then .fatal
    else
      match w.groups G with
      | none => .undefined
      | some group =>
        if p ∈ group.members_ then
          .done ((w.setGroup G { group with members_ := group.members_.erase p }).setProc p
            { process with _pgPointer := none })
        else .undefined

/-- The method `TerminalSession::spawnProcessGroup` of the session at `S`: the
address of the new group and the heap afterwards. -/
def spawnProcessGroup (w : World) (S groupLeader : Ref) : Outcome (Ref × World) :=
  match w.procs groupLeader with
  | none => .undefined
  | some leader =>
    let G := w.nextRef
    let w1 : World := { w.setGroup G { hull_ := leader._hull } with nextRef := G + 1 }
    match reassociateProcess w1 G groupLeader with
    | .done w2 =>
      match w2.groups G, w2.sessions S with
      | some group, some session =>
        let w3 := (w2.setGroup G { group with sessionPointer_ := some S }).setSession S
          { session with groups_ := session.groups_ ++ [G] }
        match group.hull_ with
        | none => .undefined
        | some hull =>
          match initializeProcessGroup w3 hull G with
          | .done w4 => .done (G, w4)
          | .fatal => .fatal
          | .undefined => .undefined
      | _, _ => .undefined
    | .fatal => .fatal
    | .undefined => .undefined

/-- The function `TerminalSession::initializeNewSession`: the address of the new
session and the heap afterwards. -/
def initializeNewSession (w : World) (sessionLeader : Ref) : Outcome (Ref × World) :=
  match w.procs sessionLeader with
  | none => .undefined
  | some leader =>
    let S := w.nextRef
    let w1 : World := { w.setSession S { hull_ := leader._hull } with nextRef := S + 1 }
    match spawnProcessGroup w1 S sessionLeader with
    | .done (G, w2) =>
      match w2.sessions S with
      | none => .undefined
      | some session =>
        let w3 := w2.setSession S { session with foregroundGroup_ := some G }
        match session.hull_ with
        | none => .undefined
        | some hull => 
          match initializeTerminalSession w3 hull S with
          | .done w4 => .done (S, w4)
          | .fatal => .fatal
          | .undefined => .undefined
    | .fatal => .fatal
    | .undefined => .undefined

/-- The method `TerminalSession::dropGroup` of the session at `S`. -/
def dropGroup (w : World) (S G : Ref) : Outcome World :=
  match w.groups G, w.sessions S with
  | some group, some session =>
    if group.sessionPointer_ ≠ some S then .fatal
    else if G ∈ session.groups_ then
      .done ((w.setSession S
        { session with
          foregroundGroup_ :=
            if session.foregroundGroup_ = some G then none else session.foregroundGroup_
          groups_ := session.groups_.erase G }).setGroup G
        { group with sessionPointer_ := none })
    else .undefined
  | _, _ => .undefined

/-- The method `TerminalSession::setForegroundGroup` of the session at `S`; a
null `group` fails the `assert`. -/
def setForegroundGroup (w : World) (S : Ref) (group : Option Ref) : Outcome (Error × World) :=
  match group with
  | none => .fatal
  | some G =>
    match w.groups G, w.sessions S with
    | some g, some session =>
      if g.sessionPointer_ ≠ some S then .done (Error.insufficientPermissions, w)
      else .done (Error.success, w.setSession S { session with foregroundGroup_ := some G })
    | _, _ => .undefined

/-- The method `ControllingTerminalState::assignSessionOf` of the terminal at
`T`: the error returned and the heap afterwards. -/
def assignSessionOf (w : World) (T p : Ref) : Outcome (Error × World) :=
  match w.terminals T, w.procs p with
  | some cts, some process =>
    match process._pgPointer with
    | none => .undefined
    | some g =>
      match w.groups g with
      | none => .undefined
      | some group =>
        match group.sessionPointer_ with
        | none => .undefined
        | some S =>
          match w.sessions S with
          | none => .undefined
          | some session =>
            if process._hull ≠ session.hull_ then .done (Error.illegalArguments, w)
            else if cts.associatedSession_ ≠ none then
              .done (Error.insufficientPermissions, w)
            else if session.ctsPointer_ ≠ none then .done (Error.insufficientPermissions, w)
            else
              .done (Error.success,
                (w.setTerminal T { cts with associatedSession_ := some S }).setSession S
                  { session with ctsPointer_ := some T })
  | _, _ => .undefined

/-- The method `ControllingTerminalState::dropSession` of the terminal at `T`. -/
def dropSession (w : World) (T : Ref) (session : Option Ref) : Outcome World :=
  match w.terminals T with
  | none => .undefined
  | some cts =>
    if cts.associatedSession_ ≠ session then .fatal
    else
      match session with
      | none => .undefined
      | some S =>
        match (w.setTerminal T { cts with associatedSession_ := none }).sessions S with
        | none => .undefined
        | some ses =>
          .done ((w.setTerminal T { cts with associatedSession_ := none }).setSession S
            { ses with ctsPointer_ := none })

/-! ## Creation of processes -/

/-- The method `VmContext::create`, with the answer of `helCreateSpace`. -/
def VmContext.create (createSpace : HelError × Nat) : Outcome VmContext :=
  if createSpace.1 ≠ HelError.kHelErrNone then .fatal
  else .done ⟨some createSpace.2, []⟩

/-- The method `FsContext::create`: `rootPath` is what `rootPath()` returns, and
`umask` is the value that the member `_umask` is constructed with. -/
def FsContext.create (rootPath umask : Nat) : FsContext :=
  { _root := rootPath, _workDir := rootPath, _umask := umask }

/-- The method `FsContext::clone`. -/
def FsContext.clone (original : FsContext) : FsContext :=
  { _root := original._root, _workDir := original._workDir, _umask := original._umask }

/-- The kernel's answers to the calls of `FileContext::create`, `FileContext::clone`
and `FileContext::attachFile`: `helCreateUniverse`, `helAllocateMemory`, the
`helMapMemory` of the window, and `helTransferDescriptor` for the file of a
descriptor and for the lane of the mbus (error, handle). -/
structure FileKernel where
  createUniverse : HelError × Nat
  allocateMemory : HelError × Nat
  mapWindow : HelError
  transferFile : Int → HelError × Nat
  transferMbus : HelError × Nat

/-- The assignment `m[key] = v` on a `std::map` kept as a list with ascending
keys, and the write of the slot `key` of the window. -/
def tableSet {α : Type} : List (Int × α) → Int → α → List (Int × α)
  | [], key, v => [(key, v)]
  | (k, x) :: rest, key, v =>
    if key < k then (key, v) :: (k, x) :: rest
    else if key = k then (key, v) :: rest
    else (k, x) :: tableSet rest key v

/-- The method `FileContext::attachFile(fd, file, close_on_exec)`. -/
def FileContext.attachFile (k : FileKernel) (c : FileContext) (fd : Int) (file : Nat)
    (close_on_exec : Bool) : Outcome FileContext :=
  if (k.transferFile fd).1 ≠ HelError.kHelErrNone then .fatal
  else
    .done { c with
      _fileTable := tableSet c._fileTable fd ⟨file, close_on_exec⟩
      _fileTableWindow := tableSet c._fileTableWindow fd (k.transferFile fd).2 }

/-- The loop of `FileContext::clone` over the entries of the original that are
left. -/
def attachAll (k : FileKernel) : List (Int × FileDescriptor) → FileContext → Outcome FileContext
  | [], c => .done c
  | (fd, d) :: rest, c =>
    match FileContext.attachFile k c fd d.file d.closeOnExec with
    | .done c2 => attachAll k rest c2
    | .fatal => .fatal
    | .undefined => .undefined

/-- The method `FileContext::create`. -/
def FileContext.create (k : FileKernel) : Outcome FileContext :=
  if k.createUniverse.1 ≠ HelError.kHelErrNone then .fatal
  else if k.allocateMemory.1 ≠ HelError.kHelErrNone then .fatal
  else if k.mapWindow ≠ HelError.kHelErrNone then .fatal
  else if k.transferMbus.1 ≠ HelError.kHelErrNone then .fatal
  else
    .done { _universe := some k.createUniverse.2
            _fileTableMemory := some k.allocateMemory.2
            _clientMbusLane := k.transferMbus.2 }

/-- The method `FileContext::clone`. -/
def FileContext.clone (original : FileContext) (k : FileKernel) : Outcome FileContext :=
  if k.createUniverse.1 ≠ HelError.kHelErrNone then .fatal
  else if k.allocateMemory.1 ≠ HelError.kHelErrNone then .fatal
  else if k.mapWindow ≠ HelError.kHelErrNone then .fatal
  else
    match attachAll k original._fileTable
        { _universe := some k.createUniverse.2, _fileTableMemory := some k.allocateMemory.2 } with
    | .done c =>
      if k.transferMbus.1 ≠ HelError.kHelErrNone then .fatal
      else .done { c with _clientMbusLane := k.transferMbus.2 }
    | .fatal => .fatal
    | .undefined => .undefined

/-- The method `SignalContext::create`: every handler of the table gets the
default disposition; `blank` is a handler as it is constructed. -/
def SignalContext.create (blank : SignalHandler) : SignalContext :=
  SignalContext.init
    (List.replicate 64 { blank with disposition := SignalDisposition.none })

/-- The method `SignalContext::clone`: the 64 handlers of the original are copied
into a context that is constructed anew. -/
def SignalContext.clone (original : SignalContext) : SignalContext :=
  SignalContext.init (original._handlers.take 64)

/-- The kernel's answers to the calls that `Process::init`, `Process::fork` and
`Process::clone` make themselves: `helAllocateMemory` for the thread page and the
cancel event, the server lane of `createStream`, `helTransferDescriptor` of the
client lane, the four calls of `helMapMemory` and `helCreateThread` (error,
handle or pointer). -/
structure ProcessKernel where
  allocateThreadPage : HelError × Nat
  allocateCancelEvent : HelError × Nat
  serverLane : Nat
  transferLane : HelError × Nat
  mapThreadPage : HelError × Nat
  mapCancelEvent : HelError × Nat
  mapFileTable : HelError × Nat
  mapClkTracker : HelError × Nat
  createThread : HelError × Nat

/-- The kernel's answers to the calls of `Process::fork`. -/
structure ForkKernel where
  vm : CloneKernel
  file : FileKernel
  process : ProcessKernel

/-- The addresses of the four contexts of a process. -/
structure Contexts where
  vm : Ref
  fs : Ref
  file : Ref
  signal : Ref
deriving DecidableEq, Repr

/-- The four calls of `clone` in `Process::fork` on the contexts of the original:
the new contexts get the next four addresses. -/
def cloneContexts (k : ForkKernel) (w : World) (orig : Process) : Outcome (Contexts × World) :=
  match orig._vmContext.bind w.vmctxs with
  | none => .undefined
  | some vc =>
    match VmContext.clone vc k.vm with
    | .fatal => .fatal
    | .undefined => .undefined
    | .done vc2 =>
      match orig._fsContext.bind w.fsctxs with
      | none => .undefined
      | some fc =>
        match orig._fileContext.bind w.filectxs with
        | none => .undefined
        | some flc =>
          match FileContext.clone flc k.file with
          | .fatal => .fatal
          | .undefined => .undefined
          | .done flc2 =>
            match orig._signalContext.bind w.sigctxs with
            | none => .undefined
            | some sc =>
              .done (⟨w.nextRef, w.nextRef + 1, w.nextRef + 2, w.nextRef + 3⟩,
                { (((w.setVmctx w.nextRef vc2).setFsctx (w.nextRef + 1)
                    (FsContext.clone fc)).setFilectx (w.nextRef + 2) flc2).setSigctx
                    (w.nextRef + 3) (SignalContext.clone sc) with
                  nextRef := w.nextRef + 4 })

/-- The end of `Process::fork` and of `Process::clone`, from
`original->_children.push_back(process)` on: the child at `P` is entered into the
children of the original and into its hull, its thread is created and its
generation is made. The directory in procfs is made linked. -/
def finishChild (k : ProcessKernel) (w : World) (original P hull : Ref) :
    Outcome (Ref × World) :=
  match w.procs original with
  | none => .undefined
  | some orig =>
    match initializeProcess
        (w.setProc original { orig with _children := orig._children ++ [P] }) hull P with
    | .fatal => .fatal
    | .undefined => .undefined
    | .done w1 =>
      match w1.procs P with
      | none => .undefined
      | some child =>
        if k.createThread.1 ≠ HelError.kHelErrNone then .fatal
        else
          .done (P,
            { (w1.setProc P { child with
                  _didExecute := false
                  _procfs_dir := some true
                  _threadDescriptor := some k.createThread.2
                  _posixLane := some k.serverLane
                  _currentGeneration := some w1.nextRef }).setGen w1.nextRef {} with
              nextRef := w1.nextRef + 1 })

/-- The part that `Process::fork` and `Process::clone` share, from the call of
`reassociateProcess` on; the process object of the child is at `P`. With
`ownTables` the file table and the tracker page are mapped for the child (fork),
without it their addresses are those of the original (clone). -/
def launchChild (k : ProcessKernel) (ownTables : Bool) (w : World) (original P hull : Ref) :
    Outcome (Ref × World) :=
  match w.procs original with
  | none => .undefined
  | some orig =>
    match orig._pgPointer with
    | none => .undefined
    | some G =>
      match reassociateProcess w G P with
      | .fatal => .fatal
      | .undefined => .undefined
      | .done w1 =>
        if k.allocateThreadPage.1 ≠ HelError.kHelErrNone ∨
            k.allocateCancelEvent.1 ≠ HelError.kHelErrNone then .fatal
        else
          match w1.procs P, w1.procs original with
          | some child, some orig1 =>
            match child._fileContext.bind w1.filectxs, child._vmContext.bind w1.vmctxs with
            | some _, some _ =>
              if k.transferLane.1 ≠ HelError.kHelErrNone ∨
                  k.mapThreadPage.1 ≠ HelError.kHelErrNone ∨
                  k.mapCancelEvent.1 ≠ HelError.kHelErrNone ∨
                  (ownTables = true ∧ (k.mapFileTable.1 ≠ HelError.kHelErrNone ∨
                    k.mapClkTracker.1 ≠ HelError.kHelErrNone)) then .fatal
              else
                finishChild k
                  (w1.setProc P { child with
                    _threadPageMemory := some k.allocateThreadPage.2
                    _cancelEventMemory := some k.allocateCancelEvent.2
                    _signalMask := orig1._signalMask
                    _clientPosixLane := k.transferLane.2
                    _clientThreadPage := k.mapThreadPage.2
                    _clientCancelEvent := k.mapCancelEvent.2
                    _clientFileTable :=
                      if ownTables = true then k.mapFileTable.2 else orig1._clientFileTable
                    _clientClkTrackerPage :=
                      if ownTables = true then k.mapClkTracker.2
                      else orig1._clientClkTrackerPage
                    _clientAuxBegin := orig1._clientAuxBegin
                    _clientAuxEnd := orig1._clientAuxEnd
                    _uid := orig1._uid
                    _euid := orig1._euid
                    _gid := orig1._gid
                    _egid := orig1._egid })
                  original P hull
            | _, _ => .undefined
          | _, _ => .undefined

/-- The function `Process::fork`: the address of the child and the heap
afterwards. The type `ProcessId` of the counter `nextPid` is declared outside the
sources: `pidMax` is its largest value, and `nextPid++` beyond it is undefined.
The objects get their addresses in the order hull, contexts, process,
generation. -/
def fork (pidMax : Int) (k : ForkKernel) (w : World) (original : Ref) :
    Outcome (Ref × World) :=
  if pidMax ≤ w.nextPid then .undefined
  else
    match PidHull.construct { w with nextPid := w.nextPid + 1 } w.nextPid with
    | .fatal => .fatal
    | .undefined => .undefined
    | .done (hull, w1) =>
      match w1.procs original with
      | none => .undefined
      | some orig =>
        match cloneContexts k w1 orig with
        | .fatal => .fatal
        | .undefined => .undefined
        | .done (c, w2) =>
          launchChild k.process true
            { w2.setProc w2.nextRef
                { pid := w.nextPid
                  _parent := some original
                  _hull := some hull
                  _path := orig._path
                  _name := orig._name
                  _vmContext := some c.vm
                  _fsContext := some c.fs
                  _fileContext := some c.file
                  _signalContext := some c.signal } with
              nextRef := w2.nextRef + 1 }
            original w2.nextRef hull

/-- The function `Process::clone`: the address of the new process and the heap
afterwards; the new process shares the four contexts of the original. -/
def clone (pidMax : Int) (k : ProcessKernel) (w : World) (original : Ref) :
    Outcome (Ref × World) :=
  if pidMax ≤ w.nextPid then .undefined
  else
    match PidHull.construct { w with nextPid := w.nextPid + 1 } w.nextPid with
    | .fatal => .fatal
    | .undefined => .undefined
    | .done (hull, w1) =>
      match w1.procs original with
      | none => .undefined
      | some orig =>
        launchChild k false
          { w1.setProc w1.nextRef
              { pid := w.nextPid
                _parent := some original
                _hull := some hull
                _path := orig._path
                _name := orig._name
                _vmContext := orig._vmContext
                _fsContext := orig._fsContext
                _fileContext := orig._fileContext
                _signalContext := orig._signalContext } with
            nextRef := w1.nextRef + 1 }
          original w1.nextRef hull

/-- What the loader returns when it succeeds: the thread of the new image and
the bounds of its auxiliary vector. -/
structure ExecResult where
  thread : Nat
  auxBegin : Nat
  auxEnd : Nat
deriving DecidableEq, Repr

/-- The answer of the loader: its result or its error, and the area tree that it
has built up to then. -/
structure LoaderAnswer where
  result : Except Error ExecResult
  areaTree : AreaTree

/-- Modelled from the spec: the loader `execute` (`exec.hpp`) is not among the sources. It
builds the image in the address-space context that it is given and touches no
other object of the heap. -/
def execute (a : LoaderAnswer) (w : World) (vmContext : Ref) :
    Outcome (Except Error ExecResult × World) :=
  match w.vmctxs vmContext with
  | none => .undefined
  | some c => .done (a.result, w.setVmctx vmContext { c with _areaTree := a.areaTree })

/-- The expression `path.substr(path.rfind(/) + 1)`: what follows the last
slash. -/
def afterLastSlash (path : List Char) : List Char :=
  (path.reverse.takeWhile (fun c => decide (c ≠ '/'))).reverse

/-- The answers of the environment to `Process::init`: those of the kernel, the
constants of the constructors and the answer of the loader. -/
structure InitKernel where
  createSpace : HelError × Nat
  file : FileKernel
  process : ProcessKernel
  rootPath : Nat
  umask : Nat
  blank : SignalHandler
  loader : LoaderAnswer

/-- The end of `Process::init`, from the call of the loader on; a loader that
fails makes `init` throw, which ends the server. -/
def initLoad (k : InitKernel) (w : World) (P vm : Ref) : Outcome (Ref × World) :=
  match execute k.loader w vm with
  | .fatal => .fatal
  | .undefined => .undefined
  | .done (Except.error _, _) => .fatal
  | .done (Except.ok r, w1) =>
    match w1.procs P with
    | none => .undefined
    | some p =>
      .done (P,
        { (w1.setProc P { p with
              _threadDescriptor := some r.thread
              _clientAuxBegin := r.auxBegin
              _clientAuxEnd := r.auxEnd
              _posixLane := some k.process.serverLane
              _didExecute := true
              _procfs_dir := some true
              _currentGeneration := some w1.nextRef }).setGen w1.nextRef {} with
          nextRef := w1.nextRef + 1 })

/-- The coroutine `Process::init`, run to its end: the address of the process of
pid 1 and the heap afterwards. -/
def init (k : InitKernel) (w : World) (path : List Char) : Outcome (Ref × World) :=
  match PidHull.construct w 1 with
  | .fatal => .fatal
  | .undefined => .undefined
  | .done (hull, w1) =>
    if '/' ∉ path then .fatal
    else
      match VmContext.create k.createSpace with
      | .fatal => .fatal
      | .undefined => .undefined
      | .done vc =>
        match FileContext.create k.file with
        | .fatal => .fatal
        | .undefined => .undefined
        | .done flc =>
          match initializeNewSession
              { ((((w1.setProc w1.nextRef
                    { pid := 1
                      _hull := some hull
                      _path := path
                      _name := afterLastSlash path
                      _vmContext := some (w1.nextRef + 1)
                      _fsContext := some (w1.nextRef + 2)
                      _fileContext := some (w1.nextRef + 3)
                      _signalContext := some (w1.nextRef + 4) }).setVmctx (w1.nextRef + 1)
                    vc).setFsctx (w1.nextRef + 2)
                    (FsContext.create k.rootPath k.umask)).setFilectx (w1.nextRef + 3)
                    flc).setSigctx (w1.nextRef + 4) (SignalContext.create k.blank) with
                nextRef := w1.nextRef + 5 }
              w1.nextRef with
          | .fatal => .fatal
          | .undefined => .undefined
          | .done (_, w2) =>
            if k.process.allocateThreadPage.1 ≠ HelError.kHelErrNone ∨
                k.process.allocateCancelEvent.1 ≠ HelError.kHelErrNone ∨
                k.process.transferLane.1 ≠ HelError.kHelErrNone ∨
                k.process.mapThreadPage.1 ≠ HelError.kHelErrNone ∨
                k.process.mapCancelEvent.1 ≠ HelError.kHelErrNone ∨
                k.process.mapFileTable.1 ≠ HelError.kHelErrNone ∨
                k.process.mapClkTracker.1 ≠ HelError.kHelErrNone then .fatal
            else
              match w2.procs w1.nextRef with
              | none => .undefined
              | some p =>
                match initializeProcess
                    (w2.setProc w1.nextRef { p with
                      _threadPageMemory := some k.process.allocateThreadPage.2
                      _cancelEventMemory := some k.process.allocateCancelEvent.2
                      _signalMask := 0
                      _clientPosixLane := k.process.transferLane.2
                      _clientThreadPage := k.process.mapThreadPage.2
                      _clientCancelEvent := k.process.mapCancelEvent.2
                      _clientFileTable := k.process.mapFileTable.2
                      _clientClkTrackerPage := k.process.mapClkTracker.2
                      _uid := 0
                      _euid := 0
                      _gid := 0
                      _egid := 0 }) hull w1.nextRef with
                | .fatal => .fatal
                | .undefined => .undefined
                | .done w3 => initLoad k w3 w1.nextRef (w1.nextRef + 1)

/-- The heap at the start of the server: no object, `nextPid` is 2. -/
def World.start : World := { procs := fun _ => none }

/-! ## Replacing the image of a process -/

/-- The answers of the environment to `Process::exec`: `helCreateSpace`, the
loader, the server lane of `createStream`, `helTransferDescriptor` of the client
lane, the four calls of `helMapMemory`, `helKillThread`, and `helCloseDescriptor`
for each descriptor closed. -/
structure ExecKernel where
  createSpace : HelError × Nat
  loader : LoaderAnswer
  serverLane : Nat
  transferLane : HelError × Nat
  mapThreadPage : HelError × Nat
  mapCancelEvent : HelError × Nat
  mapClkTracker : HelError × Nat
  mapFileTable : HelError × Nat
  killThread : HelError
  closeDescriptor : Int → HelError

/-- The local variables of `Process::exec` that live across its two waits. -/
structure ExecFrame where
  exec_vm_context : Ref
  execResult : ExecResult
  server_lane : Nat
  exec_posix_lane : Nat
  exec_thread_page : Nat
  exec_cancel_event : Nat
  exec_clk_tracker_page : Nat
  exec_client_table : Nat
  previousGeneration : Ref
deriving DecidableEq, Repr

/-- How `Process::exec` leaves its first part: it has returned the error of the
loader, or it waits for the event `signalsDone` of the previous generation. -/
inductive ExecStart where
  | failed (e : Error)
  | waiting (frame : ExecFrame)
deriving DecidableEq, Repr

/-- The coroutine `Process::exec` up to its first wait. The loader works on a
context made for it; when it fails, `FRG_CO_TRY` returns its error and the
context, held by the local `exec_vm_context` alone, is destroyed. -/
def execBegin (k : ExecKernel) (w : World) (process : Ref) : Outcome (ExecStart × World) :=
  match VmContext.create k.createSpace with
  | .fatal => .fatal
  | .undefined => .undefined
  | .done vc =>
    match w.procs process with
    | none => .undefined
    | some p =>
      match p._fsContext.bind w.fsctxs, p._fileContext.bind w.filectxs with
      | some _, some _ =>
        match execute k.loader
            { w.setVmctx w.nextRef vc with nextRef := w.nextRef + 1 } w.nextRef with
        | .fatal => .fatal
        | .undefined => .undefined
        | .done (Except.error e, w1) =>
          .done (ExecStart.failed e,
            { w1 with vmctxs := Function.update w1.vmctxs w.nextRef none })
        | .done (Except.ok result, w1) =>
          if k.transferLane.1 ≠ HelError.kHelErrNone ∨
              k.mapThreadPage.1 ≠ HelError.kHelErrNone ∨
              k.mapCancelEvent.1 ≠ HelError.kHelErrNone ∨
              k.mapClkTracker.1 ≠ HelError.kHelErrNone ∨
              k.mapFileTable.1 ≠ HelError.kHelErrNone ∨
              k.killThread ≠ HelError.kHelErrNone then .fatal
          else
            match p._currentGeneration with
            | none => .undefined
            | some g =>
              match w1.gens g with
              | none => .undefined
              | some gen =>
                .done (ExecStart.waiting
                    { exec_vm_context := w.nextRef
                      execResult := result
                      server_lane := k.serverLane
                      exec_posix_lane := k.transferLane.2
                      exec_thread_page := k.mapThreadPage.2
                      exec_cancel_event := k.mapCancelEvent.2
                      exec_clk_tracker_page := k.mapClkTracker.2
                      exec_client_table := k.mapFileTable.2
                      previousGeneration := g },
                  w1.setGen g { gen with inTermination := true, cancelServe := true })
      | _, _ => .undefined

/-- The loop of `FileContext::closeOnExec` over the entries that are left. -/
def closeLoop (close : Int → HelError) :
    List (Int × FileDescriptor) → FileContext → Outcome FileContext
  | [], c => .done c
  | (fd, d) :: rest, c =>
    if d.closeOnExec = true then
      if close fd ≠ HelError.kHelErrNone then .fatal
      else
        closeLoop close rest
          { c with
            _fileTableWindow := tableSet c._fileTableWindow fd 0
            _fileTable := c._fileTable.filter (fun e => decide (e.1 ≠ fd)) }
    else closeLoop close rest c

/-- The method `FileContext::closeOnExec`. -/
def FileContext.closeOnExec (close : Int → HelError) (c : FileContext) : Outcome FileContext :=
  closeLoop close c._fileTable c

/-- The coroutine `Process::exec` from the end of its second wait on: the
descriptors marked close-on-exec are closed, the new image is committed and a new
generation is made. -/
def execFinish (k : ExecKernel) (f : ExecFrame) (w : World) (process : Ref)
    (path : List Char) : Outcome (Error × World) :=
  match w.procs process with
  | none => .undefined
  | some p =>
    match p._fileContext with
    | none => .undefined
    | some fcr =>
      match w.filectxs fcr with
      | none => .undefined
      | some fc =>
        match FileContext.closeOnExec k.closeDescriptor fc with
        | .fatal => .fatal
        | .undefined => .undefined
        | .done fc2 =>
          if '/' ∉ path then .fatal
          else
            match p._signalContext with
            | none => .undefined
            | some scr =>
              match w.sigctxs scr with
              | none => .undefined
              | some sc =>
                .done (Error.success,
                  { (((w.setFilectx fcr fc2).setProc process
                      { p with
                        _name := afterLastSlash path
                        _path := path
                        _posixLane := some f.server_lane
                        _threadDescriptor := some f.execResult.thread
                        _vmContext := some f.exec_vm_context
                        _clientThreadPage := f.exec_thread_page
                        _clientCancelEvent := f.exec_cancel_event
                        _clientPosixLane := f.exec_posix_lane
                        _clientFileTable := f.exec_client_table
                        _clientClkTrackerPage := f.exec_clk_tracker_page
                        _clientAuxBegin := f.execResult.auxBegin
                        _clientAuxEnd := f.execResult.auxEnd
                        _didExecute := true
                        _currentGeneration := some w.nextRef }).setSigctx scr
                      (resetHandlers sc)).setGen w.nextRef {} with
                    nextRef := w.nextRef + 1 })

/-- The coroutine `Process::exec`, run to its end: the error returned and the
heap afterwards. The two waits on the previous generation are passed when its
serve loops have finished. -/
def exec (k : ExecKernel) (w : World) (process : Ref) (path : List Char) :
    Outcome (Error × World) :=
  match execBegin k w process with
  | .fatal => .fatal
  | .undefined => .undefined
  | .done (ExecStart.failed e, w1) => .done (e, w1)
  | .done (ExecStart.waiting f, w1) => execFinish k f w1 process path

/-- The coroutine `Process::terminate` up to its first wait: the parent and the
generation that it holds across its waits, and the heap. -/
def terminateBegin (k : TerminateKernel) (w : World) (self : Ref) :
    Outcome ((Ref × Ref) × World) :=
  match w.procs self with
  | none => .undefined
  | some me =>
    match me._parent with
    | none => .fatal
    | some parent =>
      if k.killThread ≠ HelError.kHelErrNone then .fatal
      else
        match me._currentGeneration with
        | none => .undefined
        | some g =>
          match w.gens g with
          | none => .undefined
          | some gen =>
            .done ((parent, g),
              w.setGen g { gen with inTermination := true, cancelServe := true })

/-- The coroutine `Process::terminate` from the end of its second wait on, with
the parent that it read at its start; `none` when the walk up the parent links
has not ended after `fuel` rounds. -/
def terminateFinish (SIGCHLD : Int) (signalNoChildWait : Nat) (uid0 : Int)
    (k : TerminateKernel) (fuel : Nat) (w : World) (self parent : Ref)
    (state : TerminationState) : Option (Outcome World) :=
  match w.procs self with
  | none => some .undefined
  | some me =>
    if k.queryThreadStats ≠ HelError.kHelErrNone then some .fatal
    else
      match reparentTo
          (w.setProc self { me with
            _generationUsage := { userTime := uadd me._generationUsage.userTime k.userTime }
            _posixLane := none
            _threadDescriptor := none
            _vmContext := none
            _fsContext := none
            _fileContext := none
            _currentGeneration := none }) fuel parent with
      | none => none
      | some (.done reparent_to) =>
        match reparentChildren uid0 self me.pid reparent_to
            (w.setProc self { me with
              _generationUsage :=
                { userTime := uadd me._generationUsage.userTime k.userTime }
              _posixLane := none
              _threadDescriptor := none
              _vmContext := none
              _fsContext := none
              _fileContext := none
              _currentGeneration := none }) me._children with
        | .done w2 =>
          some (notifyParent SIGCHLD signalNoChildWait uid0 w2 self parent state)
        | .fatal => some .fatal
        | .undefined => some .undefined
      | some .fatal => some .fatal
      | some .undefined => some .undefined

/-! ## Specification of the region map -/

/-- The keys of the tree are strictly ascending, as in every `std::map`. -/
def KeysSorted (t : AreaTree) : Prop := t.Pairwise (fun a b => a.1 < b.1)

/-- The region map is non-overlapping: keys ascend, every region ends below
`2 ^ 64` (its end `base + areaSize` does not wrap, as for every region made by a
call whose range does not wrap), and a region ends before the next one begins. -/
def WellFormed (t : AreaTree) : Prop :=
  KeysSorted t ∧ (∀ e ∈ t, e.1 + e.2.areaSize < wordMod) ∧
    (∀ e1 ∈ t, ∀ e2 ∈ t, e1.1 < e2.1 → e1.1 + e1.2.areaSize ≤ e2.1)

/-- Address `x` lies in the range `[base, base + areaSize)` of the node. -/
def inArea (e : Nat × Area) (x : Nat) : Prop := e.1 ≤ x ∧ x < e.1 + e.2.areaSize

instance (e : Nat × Area) (x : Nat) : Decidable (inArea e x) := by
  unfold inArea; infer_instance

/-- What an address is mapped to: flags, copy-on-write flag, backing file and the
file offset of that very address (64-bit pattern). -/
structure AddrInfo where
  nativeFlags : Nat
  copyOnWrite : Bool
  file : Option Nat
  fileOffset : Nat
deriving DecidableEq, Repr

/-- The mapping of address `x` by the node `e` (for `x` within the node). -/
def infoAt (e : Nat × Area) (x : Nat) : AddrInfo :=
  { nativeFlags := e.2.nativeFlags
    copyOnWrite := e.2.copyOnWrite
    file := e.2.file
    fileOffset := uadd e.2.offset (x - e.1) }

/-- The mapping of address `x` in the region map, `none` when no region covers it. -/
def lookupAddr (t : AreaTree) (x : Nat) : Option AddrInfo :=
  (t.find? (fun e => decide (inArea e x))).map (fun e => infoAt e x)

/-- The iterator that `performSingleSplit` dereferences: the node before
`upper_bound(addr)`, or `begin()` when there is none. -/
def splitIter (t : AreaTree) (addr : Nat) : Iter :=
  if upperBound t addr ≠ mapBegin t then mapPrev t (upperBound t addr) else upperBound t addr

/-- The left part of a split at `addr`: the area keeps everything but its size. -/
def leftPart (a : Area) (base addr : Nat) : Area :=
  { a with areaSize := addr - base }

/-- The right part of a split at `addr`: the rest of the size, the offset advanced
by the split distance. -/
def rightPart (a : Area) (base addr : Nat) : Area :=
  { a with areaSize := a.areaSize - (addr - base), offset := uadd a.offset (addr - base) }

/-- The node `(base, a)` has `addr` strictly inside. -/
def straddles (base : Nat) (a : Area) (addr : Nat) : Prop :=
  base < addr ∧ addr < base + a.areaSize

instance (base : Nat) (a : Area) (addr : Nat) : Decidable (straddles base a addr) := by
  unfold straddles; infer_instance

/-- The effect of one split on a non-overlapping map, in terms of its nodes. -/
structure SplitResult (t : AreaTree) (addr : Nat) (t1 : AreaTree) (b : Nat) (a0 : Area) :
    Prop where
  node : (b, a0) ∈ t
  place : (b ≤ addr ∧ ∀ e ∈ t, e.1 ≤ addr → e.1 ≤ b) ∨ (addr < b ∧ ∀ e ∈ t, b ≤ e.1)
  sorted : KeysSorted t1
  nodes : (¬ straddles b a0 addr ∧ t1 = t) ∨
    (straddles b a0 addr ∧ ∀ e, e ∈ t1 ↔
      ((e ∈ t ∧ e.1 ≠ b) ∨ e = (b, leftPart a0 b addr) ∨ e = (addr, rightPart a0 b addr)))

/-- Some node of the map covers address `x` and maps it to `i`. -/
def Covers (t : AreaTree) (x : Nat) (i : AddrInfo) : Prop :=
  ∃ e ∈ t, inArea e x ∧ infoAt e x = i

/-- The node with key `key` is at or after the iterator `it`. -/
def atOrAfter (it : Iter) (key : Nat) : Bool :=
  match it with
  | none => false
  | some k => decide (k ≤ key)

/-- The node with key `key` is before the iterator `endIt`. -/
def beforeIter (endIt : Iter) (key : Nat) : Bool :=
  match endIt with
  | none => true
  | some e => decide (key < e)

/-- The test of the three loops: the area lies within the target range. -/
def contained (address alignedSize : Nat) (e : Nat × Area) : Bool :=
  decide (e.1 ≥ address ∧ uadd e.1 e.2.areaSize ≤ uadd address alignedSize)

/-- The iterator is `end()` or points to a node of the tree. -/
def ValidIter (t : AreaTree) (it : Iter) : Prop := ∀ k, it = some k → ∃ a, (k, a) ∈ t

/-- The iterator `it` is not after `endIt`. -/
def iterLe (it endIt : Iter) : Prop :=
  match it, endIt with
  | _, none => True
  | none, some _ => False
  | some k, some e => k ≤ e

/-- The update that the loop of `protectFile` leaves on the tree. -/
def protectNode (protMask protectionFlags address S : Nat) (it endIt : Iter)
    (e : Nat × Area) : Nat × Area :=
  if atOrAfter it e.1 && beforeIter endIt e.1 && contained address S e then
    (e.1, applyProtection protMask protectionFlags e.2)
  else e

/-- What `splitAreaOn_` leaves on a non-overlapping, non-empty map. -/
structure SplitAreaResult (t : AreaTree) (addr size : Nat) (t2 : AreaTree) (b1 : Nat)
    (endIt : Iter) : Prop where
  wf : WellFormed t2
  covers : ∀ x i, Covers t2 x i ↔ Covers t x i
  noStraddleLo : ∀ e ∈ t2, ¬ straddles e.1 e.2 addr
  noStraddleHi : ∀ e ∈ t2, ¬ straddles e.1 e.2 (addr + size)
  validStart : ValidIter t2 (some b1)
  validEnd : ValidIter t2 endIt
  ordered : iterLe (some b1) endIt
  inRange : ∀ e ∈ t2, contained addr size e = true →
    atOrAfter (some b1) e.1 = true ∧ beforeIter endIt e.1 = true
  origin : ∀ (P : Nat × Area → Prop), (∀ e ∈ t, P e) →
    (∀ b a c, P (b, a) → straddles b a c → (c = addr ∨ c = addr + size) →
      P (b, leftPart a b c) ∧ P (c, rightPart a b c)) → ∀ e ∈ t2, P e

/-- The tree `t2` is the tree `t` split on the borders of `[addr, addr + size)`. -/
structure Prepared (t : AreaTree) (addr size : Nat) (t2 : AreaTree) : Prop where
  wf : WellFormed t2
  covers : ∀ x i, Covers t2 x i ↔ Covers t x i
  noStraddleLo : ∀ e ∈ t2, ¬ straddles e.1 e.2 addr
  noStraddleHi : ∀ e ∈ t2, ¬ straddles e.1 e.2 (addr + size)
  origin : ∀ (P : Nat × Area → Prop), (∀ e ∈ t, P e) →
    (∀ b a c, P (b, a) → straddles b a c → (c = addr ∨ c = addr + size) →
      P (b, leftPart a b c) ∧ P (c, rightPart a b c)) → ∀ e ∈ t2, P e

/-- The area that `mapFile` constructs. -/
def newArea (memory : Descriptor) (file : Option Nat) (offset size : Nat)
    (copyOnWrite : Bool) (nativeFlags : Nat) (k : MapFileKernel) : Area :=
  { copyOnWrite := copyOnWrite
    areaSize := alignSize size
    nativeFlags := nativeFlags
    fileView := memory
    copyView := if copyOnWrite then some k.copyOnWrite.2 else none
    file := file
    offset := offset }

/-- The flags of an address after `protectFile`, from its mapping before. -/
def protectInfo (protMask prot p S x : Nat) (i : AddrInfo) : AddrInfo :=
  if p ≤ x ∧ x < p + S then
    { i with nativeFlags := (i.nativeFlags &&& (4294967295 - protMask % 4294967296)) ||| prot }
  else i

instance (t : AreaTree) : Decidable (KeysSorted t) := by
  unfold KeysSorted; infer_instance

instance (t : AreaTree) : Decidable (WellFormed t) := by
  unfold WellFormed; infer_instance

/-- The contexts reached from `VmContext::create` by successful `mapFile`,
`unmapFile` and `protectFile` calls, each with a non-zero size and a target
range that does not wrap; the kernel may answer `mapFile` with any address. -/
inductive VmReachable : VmContext → Prop where
  | create (space : Descriptor) : VmReachable ⟨space, []⟩
  | mapFile {c c2 : VmContext} (hint : Nat) (memory : Descriptor) (file : Option Nat)
      (offset size : Nat) (copyOnWrite : Bool) (nativeFlags : Nat) (k : MapFileKernel)
      (A : Nat) : VmReachable c → 0 < size → A + roundUpPage size < wordMod →
      Posix.mapFile c hint memory file offset size copyOnWrite nativeFlags k =
        .done (.ok A, c2) → VmReachable c2
  | unmapFile {c c2 : VmContext} (p size : Nat) (err : HelError) : VmReachable c →
      0 < size → p + roundUpPage size < wordMod →
      Posix.unmapFile c p size err = .done c2 → VmReachable c2
  | protectFile {c c2 : VmContext} (protMask p size prot : Nat) (err : HelError) :
      VmReachable c → 0 < size → p + roundUpPage size < wordMod →
      Posix.protectFile protMask c p size prot err = .done c2 → VmReachable c2

/-- An area of two pages backed by file 1, used in the examples. -/
def sampleArea : Area :=
  { copyOnWrite := false, areaSize := 8192, nativeFlags := 3, fileView := some 7,
    copyView := none, file := some 1, offset := 0 }

/-- A kernel that accepts the mapping at the given address. -/
def kernelMapsAt (A : Nat) : MapFileKernel :=
  { copyOnWrite := (HelError.kHelErrNone, 9), mapMemory := (HelError.kHelErrNone, A) }

/-- Every region's base and size are multiples of the page size. -/
def PageAligned (t : AreaTree) : Prop := ∀ e ∈ t, 4096 ∣ e.1 ∧ 4096 ∣ e.2.areaSize

instance (t : AreaTree) : Decidable (PageAligned t) := by
  unfold PageAligned; infer_instance

/-- The contexts reached from `VmContext::create` by `mapFile`, `unmapFile`,
`protectFile`, `remapFile` and `VmContext::clone`, with a kernel that returns
page-aligned addresses only. With `alignedPointers` the pointers passed to
`unmapFile` and `protectFile` are page-aligned as well; without, they are
arbitrary. -/
inductive VmOps (alignedPointers : Bool) : VmContext → Prop where
  | create (space : Descriptor) : VmOps alignedPointers ⟨space, []⟩
  | mapFile {c c2 : VmContext} (hint : Nat) (memory : Descriptor) (file : Option Nat)
      (offset size : Nat) (copyOnWrite : Bool) (nativeFlags : Nat) (k : MapFileKernel)
      (A : Nat) : VmOps alignedPointers c → 4096 ∣ A →
      Posix.mapFile c hint memory file offset size copyOnWrite nativeFlags k =
        .done (.ok A, c2) → VmOps alignedPointers c2
  | unmapFile {c c2 : VmContext} (p size : Nat) (err : HelError) :
      VmOps alignedPointers c → (alignedPointers = true → 4096 ∣ p) →
      Posix.unmapFile c p size err = .done c2 → VmOps alignedPointers c2
  | protectFile {c c2 : VmContext} (protMask p size prot : Nat) (err : HelError) :
      VmOps alignedPointers c → (alignedPointers = true → 4096 ∣ p) →
      Posix.protectFile protMask c p size prot err = .done c2 → VmOps alignedPointers c2
  | remapFile {c c2 : VmContext} (oldPointer oldSize newSize : Nat) (k : RemapKernel)
      (A : Nat) : VmOps alignedPointers c → 4096 ∣ A →
      Posix.remapFile c oldPointer oldSize newSize k = .done (A, c2) →
      VmOps alignedPointers c2
  | clone {c c2 : VmContext} (k : CloneKernel) : VmOps alignedPointers c →
      VmContext.clone c k = .done c2 → VmOps alignedPointers c2

/-! ## Specification of the signal queues -/

/-- Signal `n` can be fetched under `mask`: it is one of 1..64, bit `n-1` of the
mask is set and its queue is not empty. -/
def Eligible (s : SignalContext) (mask n : Nat) : Prop :=
  1 ≤ n ∧ n ≤ 64 ∧ mask.testBit (n - 1) = true ∧ (s.slot (n - 1)).asyncQueue ≠ []

instance (s : SignalContext) (mask n : Nat) : Decidable (Eligible s mask n) := by
  unfold Eligible; infer_instance

/-- The least signal that can be fetched under `mask`. -/
def LeastEligible (s : SignalContext) (mask n : Nat) : Prop :=
  Eligible s mask n ∧ ∀ m, Eligible s mask m → n ≤ m

/-- The contexts reached from a freshly constructed `SignalContext` by
`issueSignal` and `fetchSignal` calls. -/
inductive SignalReachable : SignalContext → Prop where
  | init (handlers : List SignalHandler) : SignalReachable (SignalContext.init handlers)
  | issue {s s2 : SignalContext} (sn : Int) (info : SignalInfo) : SignalReachable s →
      issueSignal s sn info = .done s2 → SignalReachable s2
  | fetch {s s2 : SignalContext} (mask : Nat) (nonBlock : Bool) (r : FetchResult) :
      SignalReachable s → fetchSignal s mask nonBlock = .done (r, s2) → SignalReachable s2

/-- The invariant of the slots: there are 64 of them, a bit of the active set is
set iff the queue of its slot is not empty, and the items queued in slot `j`
carry the signal number `j + 1`. -/
structure SlotsInv (s : SignalContext) : Prop where
  len : s._slots.length = 64
  active : ∀ j, j < 64 → (s._activeSet.testBit j = true ↔ (s.slot j).asyncQueue ≠ [])
  numbered : ∀ j, j < 64 → ∀ it ∈ (s.slot j).asyncQueue, it.signalNumber = (j : Int) + 1

/-- The context after signal 5 was issued on a fresh context. -/
def sampleQueued : SignalContext :=
  { _handlers := []
    _slots := (List.replicate 64 SignalSlot.idle).set 4 ⟨2, [⟨5, SignalInfo.user 1 2⟩]⟩
    _currentSeq := 2
    _activeSet := 16 }

/-- The context after that signal was fetched again. -/
def sampleFetched : SignalContext :=
  { _handlers := []
    _slots := (List.replicate 64 SignalSlot.idle).set 4 ⟨2, []⟩
    _currentSeq := 2
    _activeSet := 0 }

/-- A call on a `SignalContext`: `issueSignal(sn, info)` or `fetchSignal(mask,
nonBlock)`. -/
inductive SignalOp where
  | issue (sn : Int) (info : SignalInfo)
  | fetch (mask : Nat) (nonBlock : Bool)
deriving DecidableEq, Repr

/-- Runs the calls in order: the context at the end and the items that the
fetches returned, in the order of their return; `none` when a call is fatal. -/
def runOps : SignalContext → List SignalOp → Option (SignalContext × List SignalItem)
  | s, [] => some (s, [])
  | s, SignalOp.issue sn info :: rest =>
    match issueSignal s sn info with
    | .done s2 => runOps s2 rest
    | _ => none
  | s, SignalOp.fetch mask nonBlock :: rest =>
    match fetchSignal s mask nonBlock with
    | .done (FetchResult.item i, s2) =>
      match runOps s2 rest with
      | some (sf, items) => some (sf, i :: items)
      | none => none
    | .done (_, s2) => runOps s2 rest
    | _ => none

/-- The items issued for signal `n` by the calls, in issue order. -/
def issuedFor (n : Int) : List SignalOp → List SignalItem
  | [] => []
  | SignalOp.issue sn info :: rest =>
    if sn = n then { signalNumber := sn, info := info } :: issuedFor n rest
    else issuedFor n rest
  | SignalOp.fetch _ _ :: rest => issuedFor n rest

/-- The items among `items` that carry the signal number `n`. -/
def itemsOf (n : Int) (items : List SignalItem) : List SignalItem :=
  items.filter (fun it => decide (it.signalNumber = n))

/-- A run: signal 5 issued twice, signal 2 once, two fetches of signal 5. -/
def sampleRun : List SignalOp :=
  [SignalOp.issue 5 (SignalInfo.user 1 2), SignalOp.issue 5 (SignalInfo.timer 7),
    SignalOp.issue 2 (SignalInfo.user 3 4), SignalOp.fetch 16 true, SignalOp.fetch 16 true]

/-- The context at the end of `sampleRun`. -/
def sampleRunEnd : SignalContext :=
  { _handlers := []
    _slots := ((List.replicate 64 SignalSlot.idle).set 4 ⟨3, []⟩).set 1
      ⟨4, [⟨2, SignalInfo.user 3 4⟩]⟩
    _currentSeq := 4
    _activeSet := 2 }

/-- One state-changing call on a `SignalContext`: `issueSignal` (the counter not
at its 64-bit maximum), `fetchSignal`, `changeHandler`, `resetHandlers` or
`determineHandling`. The methods `getHandler`, `checkSignal` and `pollSignal`
only read the context. -/
inductive SignalStep : SignalContext → SignalContext → Prop where
  | issue {s s2 : SignalContext} (sn : Int) (info : SignalInfo) :
      s._currentSeq + 1 < wordMod → issueSignal s sn info = .done s2 → SignalStep s s2
  | fetch {s s2 : SignalContext} (mask : Nat) (nonBlock : Bool) (r : FetchResult) :
      fetchSignal s mask nonBlock = .done (r, s2) → SignalStep s s2
  | changeHandler {s s2 : SignalContext} (sn : Int) (handler old : SignalHandler) :
      Posix.changeHandler s sn handler = .done (old, s2) → SignalStep s s2
  | resetHandlers (s : SignalContext) : SignalStep s (Posix.resetHandlers s)
  | determineHandling {s s2 : SignalContext} (signalOnce : Nat)
      (SIGCHLD SIGURG SIGWINCH : Int) (item : SignalItem) (r : SignalHandling) :
      Posix.determineHandling signalOnce SIGCHLD SIGURG SIGWINCH s item = .done (r, s2) →
      SignalStep s s2

/-- The contexts reached from a freshly constructed `SignalContext` by
state-changing calls. -/
inductive SignalRun : SignalContext → Prop where
  | init (handlers : List SignalHandler) : SignalRun (SignalContext.init handlers)
  | step {s s2 : SignalContext} : SignalRun s → SignalStep s s2 → SignalRun s2

/-- A call that changes a `SignalContext` and is not `issueSignal`. -/
inductive QuietStep : SignalContext → SignalContext → Prop where
  | fetch {s s2 : SignalContext} (mask : Nat) (nonBlock : Bool) (r : FetchResult) :
      fetchSignal s mask nonBlock = .done (r, s2) → QuietStep s s2
  | changeHandler {s s2 : SignalContext} (sn : Int) (handler old : SignalHandler) :
      Posix.changeHandler s sn handler = .done (old, s2) → QuietStep s s2
  | resetHandlers (s : SignalContext) : QuietStep s (Posix.resetHandlers s)
  | determineHandling {s s2 : SignalContext} (signalOnce : Nat)
      (SIGCHLD SIGURG SIGWINCH : Int) (item : SignalItem) (r : SignalHandling) :
      Posix.determineHandling signalOnce SIGCHLD SIGURG SIGWINCH s item = .done (r, s2) →
      QuietStep s s2

/-- The context `s2` is reached from `s` without any `issueSignal`. -/
inductive QuietRun : SignalContext → SignalContext → Prop where
  | refl (s : SignalContext) : QuietRun s s
  | step {s s2 s3 : SignalContext} : QuietRun s s2 → QuietStep s2 s3 → QuietRun s s3

/-- A wake-up of a suspended `pollSignal`: the context at that moment and whether
the token is cancelled by then. -/
abbrev PollWake := SignalContext × Bool

/-- The coroutine `pollSignal` over the wake-ups that follow: a suspended
coroutine reads the next wake-up, a finished one reads no more. -/
def pollRun (inSeq mask : Nat) : PollOutcome × SignalContext → List PollWake →
    PollOutcome × SignalContext
  | (.suspended phase, _), (s, cancelled) :: rest =>
    pollRun inSeq mask (pollResume phase s inSeq mask cancelled) rest
  | r, _ => r

/-- The contexts that a call of `pollSignal` on `s` reads: `s` and those of the
wake-ups. -/
def pollSeen (s : SignalContext) (wakes : List PollWake) : List SignalContext :=
  s :: wakes.map Prod.fst

/-! ## Specification of the delivery -/

/-- Constants of a delivery as on Linux x86_64, for the examples. -/
def sampleConsts : DeliveryConsts :=
  { sizeofSignalFrame := 1096
    alignofSignalFrame := 8
    simdStateSize := 512
    offsetofInfo := 968
    offsetofUcontext := 8
    REG_RDI := 8
    REG_RSI := 9
    REG_RDX := 12
    REG_RAX := 13
    REG_RIP := 16
    REG_RSP := 15
    signalReentrant := 2
    signalInfo := 1
    signalOnStack := 8
    SIGABRT := 6
    SIGILL := 4
    SIGSEGV := 11
    SI_TIMER := -2
    debugFaults := false
    isOnAltStack := fun p sp => decide (p.altStackSp ≤ sp ∧ sp < p.altStackSp + p.altStackSize) }

/-- A thread with 23 general registers, its stack pointer at `0x7ffff000`, and a
SIMD state of four bytes shown. -/
def sampleRaiseKernel : RaiseKernel :=
  { loadSignalRegs := (HelError.kHelErrNone, (List.replicate 23 7).set 15 2147479552)
    loadSimdRegs := (HelError.kHelErrNone, [1, 2, 3, 4])
    storeFrame := HelError.kHelErrNone
    storeSimd := HelError.kHelErrNone
    storeSignalRegs := HelError.kHelErrNone }

/-- A process whose signal mask blocks signal 1. -/
def sampleProcess : Process := { pid := 2, _signalMask := 1 }

/-- A user handler with an empty mask and no flag. -/
def sampleHandling : SignalHandling :=
  { handler := ⟨SignalDisposition.handle, 0, 0, 4198400, 4202496⟩
    ignored := false
    killed := false }

/-- The delivery of signal 5 to `sampleProcess`. -/
def sampleDelivery : Delivery :=
  { process := { pid := 2, _signalMask := 17 }
    frame := 2147477800
    storedFrame :=
      { returnAddress := 4202496
        gregs := (List.replicate 23 7).set 15 2147479552
        fpregs := 2147478896
        sigmask := 1
        info := {} }
    storedSimd := [1, 2, 3, 4]
    storedSignalRegs := [7, 7, 7, 7, 7, 7, 7, 7, 5, 2147478768, 7, 7, 2147477808, 0, 7,
      2147477800, 4198400, 7, 7, 7, 7, 7, 7] }

/-- The kernel at a return from the handler of `sampleDelivery`: the stack
pointer is the frame address plus the call misalignment, and the memory holds what
the delivery wrote. -/
def sampleRestoreKernel : RestoreKernel :=
  { loadProgramRegs := (HelError.kHelErrNone, 2147477808)
    loadFrame := fun address size =>
      if address = 2147477800 ∧ size = 1096 then
        (HelError.kHelErrNone, sampleDelivery.storedFrame)
      else (HelError.kHelErrOther 1, {})
    loadSimd := fun address size =>
      if address = 2147478896 ∧ size = 512 then (HelError.kHelErrNone, [1, 2, 3, 4])
      else (HelError.kHelErrOther 1, [])
    storeSignalRegs := HelError.kHelErrNone
    storeSimdRegs := HelError.kHelErrNone }

/-! ## Specification of processes -/

/-- The `WaitResult` that `wait` builds from the process at `c`. -/
def resultOf (w : World) (c : Ref) : WaitResult :=
  match w.procs c with
  | some pc =>
    { pid := pc.pid, uid := pc._uid, state := pc._state, stats := pc._generationUsage }
  | none => {}

/-- The flags of a `wait` that reaps: `waitExited` is among them, `waitLeaveZombie`
is not, and no bit outside the three flags is set. -/
def ReapingFlags (bits : WaitFlagBits) (flags : Nat) : Prop :=
  flags &&& bits.waitExited ≠ 0 ∧ flags &&& bits.waitLeaveZombie = 0 ∧
    andNot flags (bits.waitNonBlocking ||| bits.waitExited ||| bits.waitLeaveZombie) = 0

/-- What a call of `wait` handed back, without the heap. -/
def waitAnswer : Outcome (WaitOutcome × World) → Option WaitOutcome
  | .done (a, _) => some a
  | _ => none

/-- The heap that a call of `terminate`, or its part after the waits, leaves; the
empty heap when the call does not return. -/
def worldAfter : Option (Outcome World) → World
  | some (.done w) => w
  | _ => { procs := fun _ => none }

/-- Values for the bits of `WaitFlags`, for the examples. -/
def sampleBits : WaitFlagBits := { waitNonBlocking := 1, waitExited := 2, waitLeaveZombie := 4 }

/-- A handler table with every signal at its default disposition. -/
def sampleHandlers : List SignalHandler :=
  List.replicate 64 ⟨SignalDisposition.none, 0, 0, 0, 0⟩

/-- A kernel whose calls succeed; the thread has used 5 units of user time. -/
def sampleTerminateKernel : TerminateKernel :=
  { killThread := HelError.kHelErrNone, queryThreadStats := HelError.kHelErrNone, userTime := 5 }

/-- The process 1 without a parent (at 1) and its two children 2 and 3 (at 2
and 3), each with a signal context of its own (at 10, 11 and 12). -/
def sampleFamily : World :=
  { procs := fun r =>
      if r = 1 then
        some { pid := 1, _children := [2, 3], _signalContext := some 10,
               _currentGeneration := some 20 }
      else if r = 2 then
        some { pid := 2, _parent := some 1, _signalContext := some 11,
               _currentGeneration := some 21 }
      else if r = 3 then
        some { pid := 3, _parent := some 1, _signalContext := some 12,
               _currentGeneration := some 22 }
      else none
    sigctxs := fun r =>
      if r = 10 ∨ r = 11 ∨ r = 12 then some (SignalContext.init sampleHandlers) else none }

/-- The parent-death signals that the children `cs` whose signal context is `X`
have asked for, in the order of `cs`. -/
def pdeathSignals (w : World) (X : Ref) (cs : List Ref) : List Int :=
  cs.filterMap (fun c => (w.procs c).bind (fun pc =>
    if pc._signalContext = some X then pc.parentDeathSignal_ else none))

/-- The context after `issueSignal(sn, info)` for each `sn` of the list, in order;
`none` when one of the calls does not return. -/
def issueAll (info : SignalInfo) : SignalContext → List Int → Option SignalContext
  | s, [] => some s
  | s, sn :: rest =>
    match issueSignal s sn info with
    | .done s2 => issueAll info s2 rest
    | _ => none

/-- The children `cs` are live objects, and each of them that has asked for a
parent-death signal has asked for one of 1..64 and has a signal context. -/
def LiveChildren (w : World) (cs : List Ref) : Prop :=
  ∀ c ∈ cs, ∃ pc, w.procs c = some pc ∧
    ∀ sn, pc.parentDeathSignal_ = some sn →
      1 ≤ sn ∧ sn ≤ 64 ∧ ∃ X ctx, pc._signalContext = some X ∧ w.sigctxs X = some ctx

/-- The test of `Process::terminate` on the `SIGCHLD` handler of the parent: the
terminated process is queued for `wait`. -/
def keepsZombie (signalNoChildWait : Nat) (h : SignalHandler) : Prop :=
  h.disposition ≠ SignalDisposition.ignore ∧ h.flags &&& signalNoChildWait = 0

instance (signalNoChildWait : Nat) (h : SignalHandler) :
    Decidable (keepsZombie signalNoChildWait h) := by
  unfold keepsZombie; infer_instance

/-- The process 1 without a parent, its child 2, and two children 3 and 4 of
process 2 that `Process::clone` made: they share the signal context of process 2
(at 11), and each has asked for signal 15 at the death of its parent. -/
def sampleThreads : World :=
  { procs := fun r =>
      if r = 1 then
        some { pid := 1, _children := [2], _signalContext := some 10,
               _currentGeneration := some 20 }
      else if r = 2 then
        some { pid := 2, _parent := some 1, _children := [3, 4], _signalContext := some 11,
               _currentGeneration := some 21 }
      else if r = 3 then
        some { pid := 3, _parent := some 2, _signalContext := some 11,
               _currentGeneration := some 22, parentDeathSignal_ := some 15 }
      else if r = 4 then
        some { pid := 4, _parent := some 2, _signalContext := some 11,
               _currentGeneration := some 23, parentDeathSignal_ := some 15 }
      else none
    sigctxs := fun r =>
      if r = 10 ∨ r = 11 then some (SignalContext.init sampleHandlers) else none }

/-- The heap that `terminateBegin` leaves at the first wait of `terminate`; the
empty heap when it does not get there. -/
def beginWorld : Outcome ((Ref × Ref) × World) → World
  | .done (_, w) => w
  | _ => { procs := fun _ => none }

/-- The chain of the processes 1, 2 and 3 (at 1, 2 and 3): process 2 is the child
of process 1 and process 3 the child of process 2. Each has a signal context of
its own with every signal at its default disposition (at 10, 11 and 12) and a
generation (at 20, 21 and 22), and all three are members of the process group
at 30. -/
def sampleChain : World :=
  { procs := fun r =>
      if r = 1 then
        some { pid := 1, _children := [2], _signalContext := some 10,
               _currentGeneration := some 20, _pgPointer := some 30 }
      else if r = 2 then
        some { pid := 2, _parent := some 1, _children := [3], _signalContext := some 11,
               _currentGeneration := some 21, _pgPointer := some 30 }
      else if r = 3 then
        some { pid := 3, _parent := some 2, _signalContext := some 12,
               _currentGeneration := some 22, _pgPointer := some 30 }
      else none
    sigctxs := fun r =>
      if r = 10 ∨ r = 11 ∨ r = 12 then some (SignalContext.init sampleHandlers) else none
    gens := fun r => if r = 20 ∨ r = 21 ∨ r = 22 then some {} else none
    groups := fun r => if r = 30 then some { members_ := [1, 2, 3] } else none }

/-- The heap `sampleChain` with the `SIGCHLD` handler (signal 17) of process 1 set
to ignore, without the flag `signalNoChildWait`. -/
def sampleIgnoring : World :=
  { sampleChain with
    sigctxs := fun r =>
      if r = 10 then
        some (SignalContext.init (sampleHandlers.set 16 ⟨SignalDisposition.ignore, 0, 0, 0, 0⟩))
      else sampleChain.sigctxs r }

/-- The heap after process 2 of `sampleIgnoring` has terminated, with nothing
else happening during its waits (`SIGCHLD` is 17, the flag `signalNoChildWait`
is 16). -/
def sampleRetired : World :=
  worldAfter (terminateFinish 17 16 0 sampleTerminateKernel 4
    (beginWorld (terminateBegin sampleTerminateKernel sampleIgnoring 2)) 2 1
    (TerminationState.byExit 0))

/-- The heap `sampleChain` after process 3 has begun to terminate (it has read
process 2 as its parent and stands at its waits) and process 2 has then
terminated from start to end. -/
def sampleOvertaken : World :=
  worldAfter (terminateFinish 17 16 0 sampleTerminateKernel 4
    (beginWorld (terminateBegin sampleTerminateKernel
      (beginWorld (terminateBegin sampleTerminateKernel sampleChain 3)) 2)) 2 1
    (TerminationState.byExit 0))

/-- The heap after process 3 has then passed its waits and finished, with the
parent that it read at its start, process 2. -/
def sampleStale : World :=
  worldAfter (terminateFinish 17 16 0 sampleTerminateKernel 4 sampleOvertaken 3 2
    (TerminationState.byExit 0))

/-- The state in which `terminate` is called on the process `me` at `self`: the
calls of the kernel succeed; the process is live, not yet terminated, and has a
generation and the parent `par` at `parent`; the walk up the parent links from
`parent` ends in `R`; its children are distinct live processes that have it as
their parent, each with a signal context if it asked for a parent-death signal
(one of 1..64); and the signal context `ctx` (at `sc`) of the parent has the
handler `h` in its slot for `SIGCHLD`, one of 1..64. -/
structure Terminating (SIGCHLD : Int) (k : TerminateKernel) (fuel : Nat) (w : World)
    (self : Ref) (me par : Process) (parent R sc : Ref) (ctx : SignalContext)
    (h : SignalHandler) : Prop where
  live : w.procs self = some me
  hasParent : me._parent = some parent
  killed : k.killThread = HelError.kHelErrNone
  stats : k.queryThreadStats = HelError.kHelErrNone
  generation : me._currentGeneration ≠ none
  running : me.notifyType_ = NotifyType.null
  walk : reparentTo w fuel parent = some (.done R)
  distinct : me._children.Nodup
  children : ∀ c ∈ me._children, ∃ pc, w.procs c = some pc ∧ pc._parent = some self
  requests : LiveChildren w me._children
  parentLive : w.procs parent = some par
  parentContext : par._signalContext = some sc
  context : w.sigctxs sc = some ctx
  sigchldPos : 1 ≤ SIGCHLD
  sigchldMax : SIGCHLD ≤ 64
  handler : ctx._handlers[(SIGCHLD - 1).toNat]? = some h

/-- The member lists and the group pointers agree: no process is twice in a
member list, every member of a group is a live process whose group pointer is
that group, and every live process with a group pointer is a member of that
group (which is live). -/
structure GroupsConsistent (w : World) : Prop where
  nodup : ∀ g grp, w.groups g = some grp → grp.members_.Nodup
  member : ∀ g grp q, w.groups g = some grp → q ∈ grp.members_ →
    ∃ pq, w.procs q = some pq ∧ pq._pgPointer = some g
  pointer : ∀ q pq g, w.procs q = some pq → pq._pgPointer = some g →
    ∃ grp, w.groups g = some grp ∧ q ∈ grp.members_

/-- Two groups at 30 and 31: the processes 1 and 2 are members of the first,
process 3 of the second. -/
def sampleGroups : World :=
  { procs := fun r =>
      if r = 1 then some { pid := 1, _pgPointer := some 30 }
      else if r = 2 then some { pid := 2, _pgPointer := some 30 }
      else if r = 3 then some { pid := 3, _pgPointer := some 31 }
      else none
    groups := fun r =>
      if r = 30 then some { members_ := [1, 2] }
      else if r = 31 then some { members_ := [3] }
      else none }

/-- No terminal has a session and no session has a terminal. -/
def Unbound (w : World) : Prop :=
  (∀ T cts, w.terminals T = some cts → cts.associatedSession_ = none) ∧
    (∀ S ses, w.sessions S = some ses → ses.ctsPointer_ = none)

/-- The heaps reached from an unbound heap by calls of `assignSessionOf` and
`dropSession` that return. -/
inductive TerminalReachable : World → Prop where
  | start (w : World) : Unbound w → TerminalReachable w
  | assign {w w2 : World} (T p : Ref) (e : Error) : TerminalReachable w →
      assignSessionOf w T p = .done (e, w2) → TerminalReachable w2
  | drop {w w2 : World} (T : Ref) (session : Option Ref) : TerminalReachable w →
      dropSession w T session = .done w2 → TerminalReachable w2

/-- The binding of terminals and sessions is one-to-one: the terminal `T` has the
session `S` if and only if the controlling terminal of `S` is `T`. -/
def BoundOneToOne (w : World) : Prop :=
  ∀ T S cts ses, w.terminals T = some cts → w.sessions S = some ses →
    (cts.associatedSession_ = some S ↔ ses.ctsPointer_ = some T)

/-- A terminal at 50 and a session at 40 with the group at 30; process 1 is the
leader of the session (they share the hull at 60), process 2 is a member of the
group with a hull of its own. -/
def sampleSession : World :=
  { procs := fun r =>
      if r = 1 then some { pid := 1, _pgPointer := some 30, _hull := some 60 }
      else if r = 2 then some { pid := 2, _pgPointer := some 30, _hull := some 61 }
      else none
    groups := fun r =>
      if r = 30 then some { members_ := [1, 2], hull_ := some 60, sessionPointer_ := some 40 }
      else none
    sessions := fun r =>
      if r = 40 then some { hull_ := some 60, groups_ := [30], foregroundGroup_ := some 30 }
      else none
    terminals := fun r => if r = 50 then some {} else none }

/-- The heap after process 1 of `sampleSession` has taken the terminal at 50. -/
def sampleBound : World :=
  match assignSessionOf sampleSession 50 1 with
  | .done (_, w) => w
  | _ => sampleSession

/-- Answers of the kernel to `FileContext::create` and `clone` without an error. -/
def okFileKernel : FileKernel :=
  { createUniverse := (HelError.kHelErrNone, 1)
    allocateMemory := (HelError.kHelErrNone, 2)
    mapWindow := HelError.kHelErrNone
    transferFile := fun _ => (HelError.kHelErrNone, 3)
    transferMbus := (HelError.kHelErrNone, 4) }

/-- Answers of the kernel to `Process::init`, `fork` and `clone` without an
error. -/
def okProcessKernel : ProcessKernel :=
  { allocateThreadPage := (HelError.kHelErrNone, 5)
    allocateCancelEvent := (HelError.kHelErrNone, 6)
    serverLane := 7
    transferLane := (HelError.kHelErrNone, 8)
    mapThreadPage := (HelError.kHelErrNone, 4096)
    mapCancelEvent := (HelError.kHelErrNone, 8192)
    mapFileTable := (HelError.kHelErrNone, 12288)
    mapClkTracker := (HelError.kHelErrNone, 16384)
    createThread := (HelError.kHelErrNone, 9) }

/-- Answers of the kernel to `VmContext::clone` without an error. -/
def okCloneKernel : CloneKernel :=
  { createSpace := (HelError.kHelErrNone, 10)
    forkMemory := fun _ => (HelError.kHelErrNone, 11)
    mapMemory := fun _ => HelError.kHelErrNone }

/-- Answers of the kernel to `Process::fork` without an error. -/
def okForkKernel : ForkKernel :=
  { vm := okCloneKernel, file := okFileKernel, process := okProcessKernel }

/-- An environment in which `Process::init` succeeds: the loader builds an image
of one private area. -/
def okInitKernel : InitKernel :=
  { createSpace := (HelError.kHelErrNone, 12)
    file := okFileKernel
    process := okProcessKernel
    rootPath := 1
    umask := 18
    blank := ⟨SignalDisposition.none, 0, 0, 0, 0⟩
    loader := { result := Except.ok ⟨13, 100, 200⟩, areaTree := [(4096, sampleArea)] } }

/-- The path `/sbin/init`. -/
def samplePath : List Char := "/sbin/init".toList

/-- The heap after `Process::init` on the heap of the start. -/
def sampleInit : World :=
  match init okInitKernel World.start samplePath with
  | .done (_, w) => w
  | _ => World.start

/-- The heap after the process of pid 1 in `sampleInit` has forked. -/
def sampleForked : World :=
  match fork 2147483647 okForkKernel sampleInit 1 with
  | .done (_, w) => w
  | _ => World.start

/-- The calls of `VmContext::clone` to the kernel return no error. -/
def CloneKernel.Ok (k : CloneKernel) : Prop :=
  k.createSpace.1 = HelError.kHelErrNone ∧
    (∀ a, (k.forkMemory a).1 = HelError.kHelErrNone) ∧
    ∀ a, k.mapMemory a = HelError.kHelErrNone

/-- The calls of `FileContext::create` and `clone` to the kernel return no
error. -/
def FileKernel.Ok (k : FileKernel) : Prop :=
  k.createUniverse.1 = HelError.kHelErrNone ∧ k.allocateMemory.1 = HelError.kHelErrNone ∧
    k.mapWindow = HelError.kHelErrNone ∧
    (∀ fd, (k.transferFile fd).1 = HelError.kHelErrNone) ∧
    k.transferMbus.1 = HelError.kHelErrNone

/-- The calls of `Process::init`, `fork` and `clone` to the kernel return no
error. -/
def ProcessKernel.Ok (k : ProcessKernel) : Prop :=
  k.allocateThreadPage.1 = HelError.kHelErrNone ∧
    k.allocateCancelEvent.1 = HelError.kHelErrNone ∧
    k.transferLane.1 = HelError.kHelErrNone ∧
    k.mapThreadPage.1 = HelError.kHelErrNone ∧
    k.mapCancelEvent.1 = HelError.kHelErrNone ∧
    k.mapFileTable.1 = HelError.kHelErrNone ∧
    k.mapClkTracker.1 = HelError.kHelErrNone ∧
    k.createThread.1 = HelError.kHelErrNone

/-- All calls of `Process::fork` to the kernel return no error. -/
def ForkKernel.Ok (k : ForkKernel) : Prop := k.vm.Ok ∧ k.file.Ok ∧ k.process.Ok

/-- The heaps reached from the start of the server by `Process::init` and then
by calls of `Process::fork`, `Process::clone` and `Process::terminate` that
return, whatever the kernel answers. -/
inductive ProcReachable (pidMax SIGCHLD : Int) (signalNoChildWait : Nat) (uid0 : Int) :
    World → Prop where
  | init (k : InitKernel) (path : List Char) (r : Ref) (w : World) :
      init k World.start path = .done (r, w) →
      ProcReachable pidMax SIGCHLD signalNoChildWait uid0 w
  | fork (k : ForkKernel) (original child : Ref) {w w2 : World} :
      ProcReachable pidMax SIGCHLD signalNoChildWait uid0 w →
      fork pidMax k w original = .done (child, w2) →
      ProcReachable pidMax SIGCHLD signalNoChildWait uid0 w2
  | clone (k : ProcessKernel) (original child : Ref) {w w2 : World} :
      ProcReachable pidMax SIGCHLD signalNoChildWait uid0 w →
      clone pidMax k w original = .done (child, w2) →
      ProcReachable pidMax SIGCHLD signalNoChildWait uid0 w2
  | terminate (k : TerminateKernel) (fuel : Nat) (self : Ref) (state : TerminationState)
      {w w2 : World} :
      ProcReachable pidMax SIGCHLD signalNoChildWait uid0 w →
      terminate SIGCHLD signalNoChildWait uid0 k fuel w self state = some (.done w2) →
      ProcReachable pidMax SIGCHLD signalNoChildWait uid0 w2

/-- What holds of the heap between the calls of `init`, `fork`, `clone` and
`terminate`: the registered pids and the pids of the processes are below
`nextPid`; no object is at or above `nextRef`; the parent of a process is a
process of lower rank; a child in the list of `q` has the parent `q`, and no
list has a child twice; no process has asked for a parent-death signal; every
process has a signal context of 64 handlers and a process group; a process that
has not terminated has its three other contexts; and a process with a generation
or with an address-space context has not terminated. -/
structure ProcInv (w : World) : Prop where
  registered : ∀ pid r, w.globalPidMap pid = some r → pid < w.nextPid
  pids : ∀ r p, w.procs r = some p → p.pid < w.nextPid
  fresh : ∀ r, w.nextRef ≤ r →
    w.procs r = none ∧ w.sigctxs r = none ∧ w.groups r = none ∧ w.hulls r = none ∧
      w.gens r = none ∧ w.vmctxs r = none ∧ w.fsctxs r = none ∧ w.filectxs r = none
  rank : ∃ rank : Ref → Nat, ∀ x p q, w.procs x = some p → p._parent = some q →
    (∃ pq, w.procs q = some pq) ∧ rank q < rank x
  children : ∀ q pq c, w.procs q = some pq → c ∈ pq._children →
    ∃ pc, w.procs c = some pc ∧ pc._parent = some q
  nodup : ∀ q pq, w.procs q = some pq → pq._children.Nodup
  noPdeath : ∀ r p, w.procs r = some p → p.parentDeathSignal_ = none
  signal : ∀ r p, w.procs r = some p →
    ∃ sc ctx, p._signalContext = some sc ∧ w.sigctxs sc = some ctx ∧
      ctx._handlers.length = 64
  group : ∀ r p, w.procs r = some p → ∃ G g, p._pgPointer = some G ∧ w.groups G = some g
  running : ∀ r p, w.procs r = some p → p.notifyType_ = NotifyType.null →
    (∃ v c, p._vmContext = some v ∧ w.vmctxs v = some c) ∧
    (∃ v c, p._fsContext = some v ∧ w.fsctxs v = some c) ∧
    (∃ v c, p._fileContext = some v ∧ w.filectxs v = some c)
  generation : ∀ r p, w.procs r = some p → p._currentGeneration ≠ none →
    p.notifyType_ = NotifyType.null
  terminated : ∀ r p, w.procs r = some p → p._vmContext ≠ none →
    p.notifyType_ = NotifyType.null

/-- The calls to the kernel that `Process::fork` (with `ownTables`) or
`Process::clone` (without) checks, from `reassociateProcess` on, return no
error. -/
def ProcessKernel.Launches (k : ProcessKernel) (ownTables : Bool) : Prop :=
  k.allocateThreadPage.1 = HelError.kHelErrNone ∧
    k.allocateCancelEvent.1 = HelError.kHelErrNone ∧
    k.transferLane.1 = HelError.kHelErrNone ∧
    k.mapThreadPage.1 = HelError.kHelErrNone ∧
    k.mapCancelEvent.1 = HelError.kHelErrNone ∧
    (ownTables = true → k.mapFileTable.1 = HelError.kHelErrNone ∧
      k.mapClkTracker.1 = HelError.kHelErrNone) ∧
    k.createThread.1 = HelError.kHelErrNone

/-- What `Process::fork` and `Process::clone` of the process `orig` at `original`
leave: a new process `child` at `P` with the pid that `nextPid` had, entered
last into the children of the original and into its process group at `G`; every
other process and group is as before, and so is every other object that was
there. -/
structure Spawned (w w2 : World) (original P : Ref) (orig child : Process) (G : Ref)
    (grp : ProcessGroup) : Prop where
  live : w.procs original = some orig
  isNew : w.nextRef ≤ P
  inGroup : orig._pgPointer = some G
  groupLive : w.groups G = some grp
  made : w2.procs P = some child
  pid : child.pid = w.nextPid
  parent : child._parent = some original
  noChildren : child._children = []
  noQueue : child._notifyQueue = []
  notTerminated : child.notifyType_ = NotifyType.null
  noPdeath : child.parentDeathSignal_ = none
  mask : child._signalMask = orig._signalMask
  pgPointer : child._pgPointer = some G
  generation : child._currentGeneration ≠ none
  contexts : (∃ v c, child._vmContext = some v ∧ w2.vmctxs v = some c) ∧
    (∃ v c, child._fsContext = some v ∧ w2.fsctxs v = some c) ∧
    (∃ v c, child._fileContext = some v ∧ w2.filectxs v = some c)
  originalAfter : w2.procs original = some { orig with _children := orig._children ++ [P] }
  others : ∀ r, r ≠ P → r ≠ original → w2.procs r = w.procs r
  groupAfter : w2.groups G = some { grp with members_ := grp.members_ ++ [P] }
  otherGroups : ∀ g, g ≠ G → g < w.nextRef → w2.groups g = w.groups g
  kept : ∀ r, r < w.nextRef →
    w2.sigctxs r = w.sigctxs r ∧ w2.hulls r = w.hulls r ∧ w2.gens r = w.gens r ∧
      w2.vmctxs r = w.vmctxs r ∧ w2.fsctxs r = w.fsctxs r ∧ w2.filectxs r = w.filectxs r
  fresh : ∀ r, w2.nextRef ≤ r →
    w2.procs r = none ∧ w2.sigctxs r = none ∧ w2.groups r = none ∧ w2.hulls r = none ∧
      w2.gens r = none ∧ w2.vmctxs r = none ∧ w2.fsctxs r = none ∧ w2.filectxs r = none
  grows : w.nextRef ≤ w2.nextRef
  registry : ∀ pid r, w2.globalPidMap pid = some r →
    pid = w.nextPid ∨ w.globalPidMap pid = some r
  registeredNow : w2.globalPidMap w.nextPid ≠ none
  counter : w2.nextPid = w.nextPid + 1
  signal : ∃ sc ctx, child._signalContext = some sc ∧ w2.sigctxs sc = some ctx ∧
    ctx._handlers.length = 64

/-- The heap `w2` has the hulls, sessions, terminals, generations and contexts
other than signal contexts of `w`, and its registry and counters. -/
def FrameKept (w w2 : World) : Prop :=
  w2.hulls = w.hulls ∧ w2.sessions = w.sessions ∧ w2.terminals = w.terminals ∧
    w2.gens = w.gens ∧ w2.vmctxs = w.vmctxs ∧ w2.fsctxs = w.fsctxs ∧
    w2.filectxs = w.filectxs ∧ w2.globalPidMap = w.globalPidMap ∧
    w2.nextPid = w.nextPid ∧ w2.nextRef = w.nextRef

/-- What `fork(original)` is to leave, from the heap `w` to the heap `w2` with the
child at `P`: the child is a new process whose pid was not registered and is the
pid of no process of `w`; its parent is the original; it is the last child of the
original, whose other children are as before; it is a member of the process
group of the original; its signal mask is that of the original, and its signal
context has the 64 handlers of the original's and no pending signal. -/
def ForkPost (w w2 : World) (original P : Ref) : Prop :=
  ∃ orig child G grp sc ctx sc2 ctx2,
    w.procs original = some orig ∧ w.procs P = none ∧ w2.procs P = some child ∧
    w.globalPidMap child.pid = none ∧ (∀ r p, w.procs r = some p → p.pid ≠ child.pid) ∧
    child._parent = some original ∧
    w2.procs original = some { orig with _children := orig._children ++ [P] } ∧
    orig._pgPointer = some G ∧ child._pgPointer = some G ∧ w.groups G = some grp ∧
    w2.groups G = some { grp with members_ := grp.members_ ++ [P] } ∧
    child._signalMask = orig._signalMask ∧
    orig._signalContext = some sc ∧ w.sigctxs sc = some ctx ∧
    child._signalContext = some sc2 ∧ w2.sigctxs sc2 = some ctx2 ∧
    ctx2._handlers = ctx._handlers ∧ ctx2._handlers.length = 64 ∧
    (∀ i, (ctx2.slot i).asyncQueue = []) ∧ ctx2._activeSet = 0

/-- Modelled from the spec: the serve loops of a generation (`serve`, defined outside the
sources) raise its events `signalsDone` and `requestsDone` when they have
finished, and a raised event stays raised. These are the steps of the
environment while `exec` or `terminate` stands at a wait. -/
inductive ServeStep : World → World → Prop where
  | signalsDone {w : World} (g : Ref) (gen : Generation) : w.gens g = some gen →
      ServeStep w (w.setGen g { gen with signalsDone := true })
  | requestsDone {w : World} (g : Ref) (gen : Generation) : w.gens g = some gen →
      ServeStep w (w.setGen g { gen with requestsDone := true })

/-- Where a call of `Process::exec` stands: before its start, at the wait for
`signalsDone`, at the wait for `requestsDone`, or returned. -/
inductive ExecPc where
  | start
  | awaitSignals (frame : ExecFrame)
  | awaitRequests (frame : ExecFrame)
  | returned (e : Error)
deriving DecidableEq, Repr

/-- A step of a call of `exec` on the process at `process`, or of the serve loops
meanwhile: `exec` passes a wait only when the event of the previous generation
has been raised. -/
inductive ExecStep (k : ExecKernel) (process : Ref) (path : List Char) :
    World × ExecPc → World × ExecPc → Prop where
  | begin {w w2 : World} {f : ExecFrame} :
      execBegin k w process = .done (ExecStart.waiting f, w2) →
      ExecStep k process path (w, ExecPc.start) (w2, ExecPc.awaitSignals f)
  | fail {w w2 : World} {e : Error} :
      execBegin k w process = .done (ExecStart.failed e, w2) →
      ExecStep k process path (w, ExecPc.start) (w2, ExecPc.returned e)
  | signals {w : World} {f : ExecFrame} {gen : Generation} :
      w.gens f.previousGeneration = some gen → gen.signalsDone = true →
      ExecStep k process path (w, ExecPc.awaitSignals f) (w, ExecPc.awaitRequests f)
  | requests {w w2 : World} {f : ExecFrame} {gen : Generation} {e : Error} :
      w.gens f.previousGeneration = some gen → gen.requestsDone = true →
      execFinish k f w process path = .done (e, w2) →
      ExecStep k process path (w, ExecPc.awaitRequests f) (w2, ExecPc.returned e)
  | serve {w w2 : World} {pc : ExecPc} : ServeStep w w2 →
      ExecStep k process path (w, pc) (w2, pc)

/-- The states of a call of `exec` that starts in the heap `w0`. -/
inductive ExecRun (k : ExecKernel) (process : Ref) (path : List Char) (w0 : World) :
    World × ExecPc → Prop where
  | start : ExecRun k process path w0 (w0, ExecPc.start)
  | step {c c2 : World × ExecPc} : ExecRun k process path w0 c →
      ExecStep k process path c c2 → ExecRun k process path w0 c2

/-- Where a call of `Process::terminate` stands; at its waits it holds the parent
and the generation that it read at its start. -/
inductive TerminatePc where
  | start
  | awaitSignals (parent g : Ref)
  | awaitRequests (parent g : Ref)
  | finished
deriving DecidableEq, Repr

/-- A step of a call of `terminate` on the process at `self`, or of the serve
loops meanwhile. -/
inductive TerminateStep (SIGCHLD : Int) (signalNoChildWait : Nat) (uid0 : Int)
    (k : TerminateKernel) (fuel : Nat) (self : Ref) (state : TerminationState) :
    World × TerminatePc → World × TerminatePc → Prop where
  | begin {w w2 : World} {parent g : Ref} :
      terminateBegin k w self = .done ((parent, g), w2) →
      TerminateStep SIGCHLD signalNoChildWait uid0 k fuel self state
        (w, TerminatePc.start) (w2, TerminatePc.awaitSignals parent g)
  | signals {w : World} {parent g : Ref} {gen : Generation} :
      w.gens g = some gen → gen.signalsDone = true →
      TerminateStep SIGCHLD signalNoChildWait uid0 k fuel self state
        (w, TerminatePc.awaitSignals parent g) (w, TerminatePc.awaitRequests parent g)
  | requests {w w2 : World} {parent g : Ref} {gen : Generation} :
      w.gens g = some gen → gen.requestsDone = true →
      terminateFinish SIGCHLD signalNoChildWait uid0 k fuel w self parent state =
        some (.done w2) →
      TerminateStep SIGCHLD signalNoChildWait uid0 k fuel self state
        (w, TerminatePc.awaitRequests parent g) (w2, TerminatePc.finished)
  | serve {w w2 : World} {pc : TerminatePc} : ServeStep w w2 →
      TerminateStep SIGCHLD signalNoChildWait uid0 k fuel self state (w, pc) (w2, pc)

/-- The states of a call of `terminate` that starts in the heap `w0`. -/
inductive TerminateRun (SIGCHLD : Int) (signalNoChildWait : Nat) (uid0 : Int)
    (k : TerminateKernel) (fuel : Nat) (self : Ref) (state : TerminationState)
    (w0 : World) : World × TerminatePc → Prop where
  | start : TerminateRun SIGCHLD signalNoChildWait uid0 k fuel self state w0
      (w0, TerminatePc.start)
  | step {c c2 : World × TerminatePc} :
      TerminateRun SIGCHLD signalNoChildWait uid0 k fuel self state w0 c →
      TerminateStep SIGCHLD signalNoChildWait uid0 k fuel self state c c2 →
      TerminateRun SIGCHLD signalNoChildWait uid0 k fuel self state w0 c2

/-- Both events of the generation at `g`, `signalsDone` and `requestsDone`, have
been raised. -/
def Drained (w : World) (g : Ref) : Prop :=
  ∃ gen, w.gens g = some gen ∧ gen.signalsDone = true ∧ gen.requestsDone = true

/-- The generation at `g` is marked in termination and its token is cancelled. -/
def Marked (w : World) (g : Ref) : Prop :=
  ∃ gen, w.gens g = some gen ∧ gen.inTermination = true ∧ gen.cancelServe = true

/-- Answers of the environment to `Process::exec` without an error: the loader
builds an image of one private area. -/
def okExecKernel : ExecKernel :=
  { createSpace := (HelError.kHelErrNone, 20)
    loader := { result := Except.ok ⟨21, 300, 400⟩, areaTree := [(8192, sampleArea)] }
    serverLane := 22
    transferLane := (HelError.kHelErrNone, 23)
    mapThreadPage := (HelError.kHelErrNone, 20480)
    mapCancelEvent := (HelError.kHelErrNone, 24576)
    mapClkTracker := (HelError.kHelErrNone, 28672)
    mapFileTable := (HelError.kHelErrNone, 32768)
    killThread := HelError.kHelErrNone
    closeDescriptor := fun _ => HelError.kHelErrNone }

/-- Answers of the environment to `Process::exec` in which the loader fails with
the error `noMemory`, after it has mapped one area. -/
def failingExecKernel : ExecKernel :=
  { okExecKernel with
    loader := { result := Except.error Error.noMemory, areaTree := [(8192, sampleArea)] } }

/-- The process of pid 1 in the heap `sampleInit`. -/
def sampleInitProcess : Process :=
  match sampleInit.procs 1 with
  | some p => p
  | none => { pid := 1 }

/-- The state of `exec` of the path `/sbin/init` on the process of pid 1 in
`sampleInit` at its first wait. -/
def sampleExecWaiting : World × ExecPc :=
  match execBegin okExecKernel sampleInit 1 with
  | .done (ExecStart.waiting f, w) => (w, ExecPc.awaitSignals f)
  | _ => (sampleInit, ExecPc.start)

/-- The pair that `terminateBegin` hands to the rest of `terminate`: the parent
that it has read and its generation. -/
def beginAnswer : Outcome ((Ref × Ref) × World) → Option (Ref × Ref)
  | .done (a, _) => some a
  | _ => none

/-- A family around a process that calls `wait`: the heap; whether a call of
`wait` stands at its `co_await` on the notify bell; the calls of `terminate` of
children that stand at their waits, each with the parent and the generation that
it read at its start; the children whose `terminate` has finished, in that order,
each with the result that `wait` is to build from it; the children that
terminating children have handed over to the process; and the results that its
calls of `wait` have returned, in call order. -/
structure WaitState where
  world : World
  suspended : Bool := false
  begun : List (Ref × Ref × Ref) := []
  exited : List (Ref × WaitResult) := []
  adopted : List Ref := []
  returned : List WaitResult := []

/-- The children that `terminate` of the process at `c` hands over to the process
at `self`, its parent: all of them when `self` has no parent, so that the walk up
the parent links ends in it, and none otherwise. -/
def handedOver (w : World) (self c : Ref) : List Ref :=
  match w.procs self, w.procs c with
  | some me, some pc => if me._parent = none then pc._children else []
  | _, _ => []

/-- The family after a call of `wait`, or a resumption of one, has ended in `o`
and left the heap `w2`. -/
def WaitState.answered (s : WaitState) (o : WaitOutcome) (w2 : World) : WaitState :=
  match o with
  | .result r => { s with world := w2, suspended := false, returned := s.returned ++ [r] }
  | .error _ => { s with world := w2, suspended := false }
  | .suspended => { s with world := w2, suspended := true }

/-- A step of the family of the process at `self`. A child in its children list
begins to terminate and comes to stand at its waits; the serve loops raise an
event; a child whose generation has raised both events finishes `terminate`, with
the parent that it read at its start, and its calls of `terminate` are under way
no more; the process calls `wait(-1, flags)`; or its
call of `wait` is resumed at the notify bell, which `terminate` raises (a resumed
call that finds no queued child suspends again, so a resumption is a step
whenever the call is suspended). -/
inductive WaitStep (bits : WaitFlagBits) (flags : Nat) (SIGCHLD : Int)
    (signalNoChildWait : Nat) (uid0 : Int) (self : Ref) : WaitState → WaitState → Prop where
  | begin {s : WaitState} (k : TerminateKernel) (c parent g : Ref) (me : Process)
      (w2 : World) :
      s.world.procs self = some me → c ∈ me._children →
      terminateBegin k s.world c = .done ((parent, g), w2) →
      WaitStep bits flags SIGCHLD signalNoChildWait uid0 self s
        { s with world := w2, begun := (c, parent, g) :: s.begun }
  | serve {s : WaitState} (w2 : World) : ServeStep s.world w2 →
      WaitStep bits flags SIGCHLD signalNoChildWait uid0 self s { s with world := w2 }
  | finish {s : WaitState} (k : TerminateKernel) (fuel : Nat) (c parent g : Ref)
      (state : TerminationState) (w2 : World) :
      (c, parent, g) ∈ s.begun → Drained s.world g →
      terminateFinish SIGCHLD signalNoChildWait uid0 k fuel s.world c parent state =
        some (.done w2) →
      WaitStep bits flags SIGCHLD signalNoChildWait uid0 self s
        { s with
          world := w2
          begun := s.begun.filter (fun b => decide (b.1 ≠ c))
          exited := s.exited ++ [(c, resultOf w2 c)]
          adopted := s.adopted ++ handedOver s.world self c }
  | call {s : WaitState} (o : WaitOutcome) (w2 : World) : s.suspended = false →
      wait bits s.world self (-1) flags = .done (o, w2) →
      WaitStep bits flags SIGCHLD signalNoChildWait uid0 self s (s.answered o w2)
  | resume {s : WaitState} (o : WaitOutcome) (w2 : World) : s.suspended = true →
      waitResume bits s.world self (-1) flags true = .done (o, w2) →
      WaitStep bits flags SIGCHLD signalNoChildWait uid0 self s (s.answered o w2)

/-- The families reached from the heap `w0`, in which no call of `terminate` or
of `wait` is under way. -/
inductive WaitRun (bits : WaitFlagBits) (flags : Nat) (SIGCHLD : Int)
    (signalNoChildWait : Nat) (uid0 : Int) (self : Ref) (w0 : World) : WaitState → Prop where
  | start : WaitRun bits flags SIGCHLD signalNoChildWait uid0 self w0 { world := w0 }
  | step {s s2 : WaitState} : WaitRun bits flags SIGCHLD signalNoChildWait uid0 self w0 s →
      WaitStep bits flags SIGCHLD signalNoChildWait uid0 self s s2 →
      WaitRun bits flags SIGCHLD signalNoChildWait uid0 self w0 s2

/-- The children that have been reaped: those of the first `n` that terminated. -/
def reapedOf (s : WaitState) : List Ref :=
  (s.exited.take s.returned.length).map Prod.fst

/-- The children that have terminated and are not reaped, with their results. -/
def pendingOf (s : WaitState) : List (Ref × WaitResult) :=
  s.exited.drop s.returned.length

/-- What the process at `self` gets when it calls `wait(-1, flags)` now, or when
its suspended call is resumed now. -/
def nextWait (bits : WaitFlagBits) (flags : Nat) (self : Ref) (s : WaitState) :
    Outcome (WaitOutcome × World) :=
  if s.suspended = true then waitResume bits s.world self (-1) flags true
  else wait bits s.world self (-1) flags

/-- What holds of a family of the process at `self`, whose record is `me` and was
`me0` at the start: the heap has the invariant of the heap; the results returned
are those of the children that terminated first, in order; the notification queue
holds the other children that have terminated, in order; the children list holds
the children of the start and the children handed over that have not been
reaped; the signal context (at `sc`) of the process has the handler `h` for
`SIGCHLD`; a child that has terminated is a live process whose parent is the
process, and it is in the children list until it is reaped; and a child that
stands at its waits has read the process as its parent, which it still is, has
not terminated, has its generation and is in the children list. -/
structure WaitInv (SIGCHLD : Int) (self : Ref) (me0 : Process) (sc : Ref)
    (h : SignalHandler) (s : WaitState) (me : Process) : Prop where
  inv : ProcInv s.world
  live : s.world.procs self = some me
  count : s.returned.length ≤ s.exited.length
  order : s.returned = (s.exited.take s.returned.length).map Prod.snd
  queue : me._notifyQueue = (pendingOf s).map Prod.fst
  children : me._children =
    (me0._children ++ s.adopted).filter (fun c => decide (c ∉ reapedOf s))
  parent : me._parent = me0._parent
  context : me._signalContext = some sc
  handler : ∃ ctx, s.world.sigctxs sc = some ctx ∧
    ctx._handlers[(SIGCHLD - 1).toNat]? = some h
  exited : ∀ e ∈ s.exited, ∃ pc, s.world.procs e.1 = some pc ∧ pc._parent = some self ∧
    pc.notifyType_ = NotifyType.terminated
  pending : ∀ e ∈ pendingOf s, resultOf s.world e.1 = e.2 ∧ e.1 ∈ me._children
  distinct : (s.exited.map Prod.fst).Nodup
  begun : ∀ b ∈ s.begun, b.2.1 = self ∧ ∃ pc, s.world.procs b.1 = some pc ∧
    pc._parent = some self ∧ pc.notifyType_ = NotifyType.null ∧
    pc._currentGeneration ≠ none ∧ b.1 ∈ me._children

/-- An event of a family, for a script: see `WaitStep`. -/
inductive WaitEvent where
  | begin (k : TerminateKernel) (c : Ref)
  | signalsDone (g : Ref)
  | requestsDone (g : Ref)
  | finish (k : TerminateKernel) (fuel : Nat) (c parent g : Ref) (state : TerminationState)
  | call
  | resume

/-- The family after the event `e`; `none` when the event is no step of the
family. -/
def waitEvent (bits : WaitFlagBits) (flags : Nat) (SIGCHLD : Int) (signalNoChildWait : Nat)
    (uid0 : Int) (self : Ref) (s : WaitState) : WaitEvent → Option WaitState
  | .begin k c =>
    match s.world.procs self with
    | none => none
    | some me =>
      if c ∈ me._children then
        match terminateBegin k s.world c with
        | .done ((parent, g), w2) =>
          some { s with world := w2, begun := (c, parent, g) :: s.begun }
        | _ => none
      else none
  | .signalsDone g =>
    match s.world.gens g with
    | some gen => some { s with world := s.world.setGen g { gen with signalsDone := true } }
    | none => none
  | .requestsDone g =>
    match s.world.gens g with
    | some gen => some { s with world := s.world.setGen g { gen with requestsDone := true } }
    | none => none
  | .finish k fuel c parent g state =>
    if (c, parent, g) ∈ s.begun then
      match s.world.gens g with
      | some gen =>
        if gen.signalsDone = true ∧ gen.requestsDone = true then
          match terminateFinish SIGCHLD signalNoChildWait uid0 k fuel s.world c parent state with
          | some (.done w2) =>
            some { s with
              world := w2
              begun := s.begun.filter (fun b => decide (b.1 ≠ c))
              exited := s.exited ++ [(c, resultOf w2 c)]
              adopted := s.adopted ++ handedOver s.world self c }
          | _ => none
        else none
      | none => none
    else none
  | .call =>
    if s.suspended = false then
      match wait bits s.world self (-1) flags with
      | .done (o, w2) => some (s.answered o w2)
      | _ => none
    else none
  | .resume =>
    if s.suspended = true then
      match waitResume bits s.world self (-1) flags true with
      | .done (o, w2) => some (s.answered o w2)
      | _ => none
    else none

/-- The family after the events of a script, one after the other. -/
def waitScript (bits : WaitFlagBits) (flags : Nat) (SIGCHLD : Int) (signalNoChildWait : Nat)
    (uid0 : Int) (self : Ref) : WaitState → List WaitEvent → Option WaitState
  | s, [] => some s
  | s, e :: rest =>
    match waitEvent bits flags SIGCHLD signalNoChildWait uid0 self s e with
    | some s2 => waitScript bits flags SIGCHLD signalNoChildWait uid0 self s2 rest
    | none => none

/-- The heap that a call of `wait` leaves; the empty heap when the call does not
return. -/
def waitWorld : Outcome (WaitOutcome × World) → World
  | .done (_, w) => w
  | _ => { procs := fun _ => none }

/-- The heap `sampleChain` after process 3 has exited with code 3 and then
process 2 with code 7, each from the start of `terminate` to its end. -/
def sampleOrphaned : World :=
  worldAfter (terminateFinish 17 16 0 sampleTerminateKernel 4
    (beginWorld (terminateBegin sampleTerminateKernel
      (worldAfter (terminateFinish 17 16 0 sampleTerminateKernel 4
        (beginWorld (terminateBegin sampleTerminateKernel sampleChain 3)) 3 2
        (TerminationState.byExit 3))) 2)) 2 1
    (TerminationState.byExit 7))

/-- The heap after the process of pid 1 in `sampleForked` has forked once more:
its children are the processes of pid 2 (at 14) and of pid 3 (at 21). -/
def sampleTwins : World :=
  match fork 2147483647 okForkKernel sampleForked 1 with
  | .done (_, w) => w
  | _ => World.start

/-- A script for the family of the process of pid 1 in `sampleTwins`: the child
at 14 begins to terminate; the process calls `wait`, which suspends; the child
exits with code 3 and the call is resumed; then the child at 21 exits with code 7
and the process calls `wait` again. -/
def sampleWaitScript : List WaitEvent :=
  [.begin sampleTerminateKernel 14, .call, .signalsDone 15, .requestsDone 15,
   .finish sampleTerminateKernel 4 14 1 15 (TerminationState.byExit 3), .resume,
   .begin sampleTerminateKernel 21, .signalsDone 22, .requestsDone 22,
   .finish sampleTerminateKernel 4 21 1 22 (TerminationState.byExit 7), .call]

/-- The family after the script `sampleWaitScript` (`SIGCHLD` is 17, the flag
`signalNoChildWait` is 16, the flags of `wait` are `waitExited`). -/
def sampleReaped : WaitState :=
  match waitScript sampleBits 2 17 16 0 1 { world := sampleTwins } sampleWaitScript with
  | some s => s
  | none => { world := World.start }

/-! ## Lemmas on the map primitives -/

theorem mem_of_mapFind {t : AreaTree} {k : Nat} {a : Area} (h : mapFind t k = some a) :
    (k, a) ∈ t := by
  induction t with
  | nil => simp [mapFind] at h
  | cons hd tl ih =>
    obtain ⟨k0, a0⟩ := hd
    simp only [mapFind] at h
    by_cases hk : k0 = k
    · simp only [hk, if_true, Option.some.injEq] at h
      subst hk; subst h; exact List.mem_cons_self _ _
    · simp only [hk, if_false] at h
      exact List.mem_cons_of_mem _ (ih h)

theorem mapFind_of_mem {t : AreaTree} {k : Nat} {a : Area} (hs : KeysSorted t)
    (h : (k, a) ∈ t) : mapFind t k = some a := by
  induction t with
  | nil => simp at h
  | cons hd tl ih =>
    obtain ⟨k0, a0⟩ := hd
    have hs2 := List.pairwise_cons.mp hs
    rcases List.mem_cons.mp h with h1 | h1
    · cases h1; simp [mapFind]
    · have hlt : k0 < k := hs2.1 (k, a) h1
      have hne : k0 ≠ k := Nat.ne_of_lt hlt
      simp only [mapFind, hne, if_false]
      exact ih hs2.2 h1

theorem key_unique {t : AreaTree} {k : Nat} {a a2 : Area} (hs : KeysSorted t)
    (h1 : (k, a) ∈ t) (h2 : (k, a2) ∈ t) : a = a2 := by
  have e1 := mapFind_of_mem hs h1
  have e2 := mapFind_of_mem hs h2
  rw [e1] at e2
  exact Option.some.inj e2

theorem entry_unique {t : AreaTree} {e1 e2 : Nat × Area} (hs : KeysSorted t)
    (h1 : e1 ∈ t) (h2 : e2 ∈ t) (hk : e1.1 = e2.1) : e1 = e2 := by
  obtain ⟨k1, a1⟩ := e1
  obtain ⟨k2, a2⟩ := e2
  simp only at hk
  subst hk
  rw [key_unique hs h1 h2]

theorem upperBound_none {t : AreaTree} {x : Nat} (h : upperBound t x = none) :
    ∀ e ∈ t, e.1 ≤ x := by
  induction t with
  | nil => simp
  | cons hd tl ih =>
    obtain ⟨k0, a0⟩ := hd
    simp only [upperBound] at h
    by_cases hk : x < k0
    · simp [hk] at h
    · simp only [hk, if_false] at h
      intro e he
      rcases List.mem_cons.mp he with h1 | h1
      · subst h1; exact Nat.le_of_not_lt hk
      · exact ih h e h1

theorem upperBound_some {t : AreaTree} {x k : Nat} (h : upperBound t x = some k) :
    x < k ∧ ∃ a, (k, a) ∈ t := by
  induction t with
  | nil => simp [upperBound] at h
  | cons hd tl ih =>
    obtain ⟨k0, a0⟩ := hd
    simp only [upperBound] at h
    by_cases hk : x < k0
    · simp only [hk, if_true, Option.some.injEq] at h
      subst h
      exact ⟨hk, a0, List.mem_cons_self _ _⟩
    · simp only [hk, if_false] at h
      obtain ⟨h1, a, h2⟩ := ih h
      exact ⟨h1, a, List.mem_cons_of_mem _ h2⟩

theorem upperBound_least {t : AreaTree} {x k : Nat} (hs : KeysSorted t)
    (h : upperBound t x = some k) : ∀ e ∈ t, x < e.1 → k ≤ e.1 := by
  induction t with
  | nil => simp
  | cons hd tl ih =>
    obtain ⟨k0, a0⟩ := hd
    have hs2 := List.pairwise_cons.mp hs
    simp only [upperBound] at h
    by_cases hk : x < k0
    · simp only [hk, if_true, Option.some.injEq] at h
      subst h
      intro e he _
      rcases List.mem_cons.mp he with h1 | h1
      · subst h1; exact Nat.le_refl _
      · exact Nat.le_of_lt (hs2.1 e h1)
    · simp only [hk, if_false] at h
      intro e he hx
      rcases List.mem_cons.mp he with h1 | h1
      · subst h1; exact absurd hx hk
      · exact ih hs2.2 h e h1 hx

theorem prevFrom_upperBound (addr : Nat) (rest : AreaTree) :
    ∀ (k : Nat) (v : Area), k ≤ addr → KeysSorted ((k, v) :: rest) →
      ∃ b, prevFrom (some k) rest (upperBound rest addr) = some b ∧ b ≤ addr ∧
        (∃ a, (b, a) ∈ (k, v) :: rest) ∧ ∀ e ∈ (k, v) :: rest, e.1 ≤ addr → e.1 ≤ b := by
  induction rest with
  | nil =>
    intro k v hk _
    refine ⟨k, by simp [prevFrom, upperBound], hk, ⟨v, List.mem_cons_self _ _⟩, ?_⟩
    intro e he _
    simp only [List.mem_singleton] at he
    subst he; exact Nat.le_refl _
  | cons hd tl ih =>
    obtain ⟨k2, v2⟩ := hd
    intro k v hk hs
    have hs1 := List.pairwise_cons.mp hs
    have hs2 := List.pairwise_cons.mp hs1.2
    have hk12 : k < k2 := hs1.1 (k2, v2) (List.mem_cons_self _ _)
    by_cases hlt : addr < k2
    · refine ⟨k, by simp [prevFrom, upperBound, hlt], hk, ⟨v, List.mem_cons_self _ _⟩, ?_⟩
      intro e he hea
      rcases List.mem_cons.mp he with h1 | h1
      · subst h1; exact Nat.le_refl _
      · rcases List.mem_cons.mp h1 with h2 | h2
        · subst h2; simp only at hea; omega
        · have := hs2.1 e h2; omega
    · have hk2 : k2 ≤ addr := Nat.le_of_not_lt hlt
      obtain ⟨b, hb, hba, ⟨a, hmem⟩, hmax⟩ := ih k2 v2 hk2 hs1.2
      have hne : upperBound tl addr ≠ some k2 := by
        intro hcon
        obtain ⟨h1, _⟩ := upperBound_some hcon
        omega
      refine ⟨b, ?_, hba, ⟨a, List.mem_cons_of_mem _ hmem⟩, ?_⟩
      · simp only [upperBound, hlt, if_false, prevFrom, hne]
        exact hb
      · intro e he hea
        rcases List.mem_cons.mp he with h1 | h1
        · subst h1
          have := hmax (k2, v2) (List.mem_cons_self _ _) hk2
          simp only at this ⊢; omega
        · exact hmax e h1 hea

/-- The iterator dereferenced by `performSingleSplit` on a non-empty tree: the node
with the greatest key not above `addr`, or the first node when all keys are above. -/
theorem splitIter_spec {t : AreaTree} (addr : Nat) (hs : KeysSorted t) (hne : t ≠ []) :
    ∃ b, splitIter t addr = some b ∧ (∃ a, (b, a) ∈ t) ∧
      ((b ≤ addr ∧ ∀ e ∈ t, e.1 ≤ addr → e.1 ≤ b) ∨ (addr < b ∧ ∀ e ∈ t, b ≤ e.1)) := by
  cases t with
  | nil => exact absurd rfl hne
  | cons hd tl =>
    obtain ⟨k, v⟩ := hd
    have hs1 := List.pairwise_cons.mp hs
    by_cases hlt : addr < k
    · refine ⟨k, by simp [splitIter, upperBound, mapBegin, hlt], ⟨v, List.mem_cons_self _ _⟩,
        Or.inr ⟨hlt, ?_⟩⟩
      intro e he
      rcases List.mem_cons.mp he with h1 | h1
      · subst h1; exact Nat.le_refl _
      · exact Nat.le_of_lt (hs1.1 e h1)
    · have hk : k ≤ addr := Nat.le_of_not_lt hlt
      obtain ⟨b, hb, hba, hmem, hmax⟩ := prevFrom_upperBound addr tl k v hk hs
      have hne2 : upperBound tl addr ≠ some k := by
        intro hcon
        obtain ⟨h1, _⟩ := upperBound_some hcon
        omega
      refine ⟨b, ?_, hmem, Or.inl ⟨hba, hmax⟩⟩
      simp only [splitIter, upperBound, hlt, if_false, mapBegin, ne_eq, hne2, not_false_eq_true,
        if_true, mapPrev, prevFrom]
      exact hb

theorem mem_emplace_of_mem {t : AreaTree} {key : Nat} {area : Area} {e : Nat × Area}
    (h : e ∈ t) : e ∈ emplace t key area := by
  induction t with
  | nil => simp at h
  | cons hd tl ih =>
    obtain ⟨k, a⟩ := hd
    simp only [emplace]
    split
    · exact List.mem_cons_of_mem _ h
    · split
      · exact h
      · rcases List.mem_cons.mp h with h1 | h1
        · subst h1; exact List.mem_cons_self _ _
        · exact List.mem_cons_of_mem _ (ih h1)

theorem mem_emplace {t : AreaTree} {key : Nat} {area : Area} {e : Nat × Area}
    (h : e ∈ emplace t key area) : e ∈ t ∨ e = (key, area) := by
  induction t with
  | nil =>
    simp only [emplace, List.mem_singleton] at h
    exact Or.inr h
  | cons hd tl ih =>
    obtain ⟨k, a⟩ := hd
    simp only [emplace] at h
    split at h
    · rcases List.mem_cons.mp h with h1 | h1
      · exact Or.inr h1
      · exact Or.inl h1
    · split at h
      · exact Or.inl h
      · rcases List.mem_cons.mp h with h1 | h1
        · subst h1; exact Or.inl (List.mem_cons_self _ _)
        · rcases ih h1 with h2 | h2
          · exact Or.inl (List.mem_cons_of_mem _ h2)
          · exact Or.inr h2

theorem emplace_mem_new {t : AreaTree} {key : Nat} {area : Area}
    (hno : ∀ e ∈ t, e.1 ≠ key) : (key, area) ∈ emplace t key area := by
  induction t with
  | nil => simp [emplace]
  | cons hd tl ih =>
    obtain ⟨k, a⟩ := hd
    have hk : k ≠ key := hno (k, a) (List.mem_cons_self _ _)
    simp only [emplace]
    split
    · exact List.mem_cons_self _ _
    · split
      · rename_i h2; exact absurd h2.symm hk
      · exact List.mem_cons_of_mem _ (ih (fun e he => hno e (List.mem_cons_of_mem _ he)))

theorem emplace_present {t : AreaTree} {key : Nat} {area : Area} (hs : KeysSorted t)
    (hin : ∃ a, (key, a) ∈ t) : emplace t key area = t := by
  induction t with
  | nil => obtain ⟨a, h⟩ := hin; simp at h
  | cons hd tl ih =>
    obtain ⟨k, a⟩ := hd
    have hs1 := List.pairwise_cons.mp hs
    obtain ⟨a2, h2⟩ := hin
    simp only [emplace]
    rcases List.mem_cons.mp h2 with h1 | h1
    · cases h1; simp
    · have hlt : k < key := hs1.1 _ h1
      have h3 : ¬ key < k := by omega
      have h4 : ¬ key = k := by omega
      simp only [h3, h4, if_false]
      rw [ih hs1.2 ⟨a2, h1⟩]

theorem keysSorted_emplace {t : AreaTree} {key : Nat} {area : Area} (hs : KeysSorted t) :
    KeysSorted (emplace t key area) := by
  induction t with
  | nil => simp [emplace, KeysSorted]
  | cons hd tl ih =>
    obtain ⟨k, a⟩ := hd
    have hs1 := List.pairwise_cons.mp hs
    simp only [emplace]
    split
    · rename_i hlt
      refine List.pairwise_cons.mpr ⟨?_, hs⟩
      intro e he
      rcases List.mem_cons.mp he with h1 | h1
      · subst h1; exact hlt
      · have := hs1.1 e h1; simp only at this ⊢; omega
    · split
      · exact hs
      · rename_i h1 h2
        refine List.pairwise_cons.mpr ⟨?_, ih hs1.2⟩
        intro e he
        rcases mem_emplace he with h3 | h3
        · exact hs1.1 e h3
        · subst h3; simp only; omega

theorem keysSorted_mapErase {t : AreaTree} (key : Nat) (hs : KeysSorted t) :
    KeysSorted (mapErase t key) :=
  List.Pairwise.sublist (List.filter_sublist t) hs

theorem mem_mapErase {t : AreaTree} {key : Nat} {e : Nat × Area} :
    e ∈ mapErase t key ↔ e ∈ t ∧ e.1 ≠ key := by
  simp [mapErase, List.mem_filter]

theorem keysSorted_mapUpdate {t : AreaTree} (key : Nat) (f : Area → Area)
    (hs : KeysSorted t) : KeysSorted (mapUpdate t key f) := by
  unfold mapUpdate KeysSorted
  rw [List.pairwise_map]
  refine List.Pairwise.imp ?_ hs
  intro a b hab
  by_cases h1 : a.1 = key <;> by_cases h2 : b.1 = key <;> simp [h1, h2] <;> omega

theorem mem_mapUpdate {t : AreaTree} {key : Nat} {f : Area → Area} {e : Nat × Area} :
    e ∈ mapUpdate t key f ↔
      ∃ e0 ∈ t, e = if e0.1 = key then (e0.1, f e0.2) else e0 := by
  simp only [mapUpdate, List.mem_map]
  constructor
  · rintro ⟨e0, h0, h1⟩; exact ⟨e0, h0, h1.symm⟩
  · rintro ⟨e0, h0, h1⟩; exact ⟨e0, h0, h1.symm⟩

/-! ## The single split -/

theorem uadd_eq {a b : Nat} (h : a + b < wordMod) : uadd a b = a + b := by
  unfold uadd; exact Nat.mod_eq_of_lt h

theorem usub_eq {a b : Nat} (hb : b ≤ a) (ha : a < wordMod) : usub a b = a - b := by
  unfold usub wordMod at *
  omega

theorem performSingleSplit_spec {t : AreaTree} {addr : Nat} (hw : WellFormed t)
    (hne : t ≠ []) (ha : addr < wordMod) :
    ∃ t1 b a0, performSingleSplit t addr = .done (t1, some b) ∧
      SplitResult t addr t1 b a0 := by
  obtain ⟨hs, hwrap, hord⟩ := hw
  obtain ⟨b, hb, ⟨a0, hmem⟩, hplace⟩ := splitIter_spec addr hs hne
  have hfind := mapFind_of_mem hs hmem
  have hbw := hwrap _ hmem
  simp only at hbw
  have hunf : performSingleSplit t addr =
      (match splitIter t addr with
        | none => .undefined
        | some base =>
          match mapFind t base with
          | none => .undefined
          | some area =>
            if base < addr ∧ uadd base area.areaSize > addr then
              .done (mapUpdate (emplace t addr
                { copyOnWrite := area.copyOnWrite
                  areaSize := usub area.areaSize (usub addr base)
                  nativeFlags := area.nativeFlags
                  fileView := area.fileView.dup
                  copyView := area.copyView.dup
                  file := area.file
                  offset := uadd area.offset (usub addr base) }) base
                (fun a => { a with areaSize := usub addr base }), splitIter t addr)
            else .done (t, splitIter t addr)) := rfl
  rw [hunf, hb]
  simp only [hfind, uadd_eq hbw]
  by_cases hst : b < addr ∧ b + a0.areaSize > addr
  · rw [if_pos hst]
    have hs1 : usub addr b = addr - b := usub_eq (Nat.le_of_lt hst.1) ha
    have hs2 : usub a0.areaSize (addr - b) = a0.areaSize - (addr - b) :=
      usub_eq (by omega) (by omega)
    rw [hs1, hs2]
    have hright : ({ copyOnWrite := a0.copyOnWrite
                     areaSize := a0.areaSize - (addr - b)
                     nativeFlags := a0.nativeFlags
                     fileView := a0.fileView.dup
                     copyView := a0.copyView.dup
                     file := a0.file
                     offset := uadd a0.offset (addr - b) } : Area) = rightPart a0 b addr := rfl
    rw [hright]
    have hnokey : ∀ e ∈ t, e.1 ≠ addr := by
      intro e he hea
      rcases hplace with ⟨_, hmax⟩ | ⟨hlt, _⟩
      · have := hmax e he (by omega); omega
      · omega
    refine ⟨_, b, a0, rfl, hmem, hplace,
      keysSorted_mapUpdate _ _ (keysSorted_emplace hs), Or.inr ⟨⟨hst.1, hst.2⟩, ?_⟩⟩
    intro e
    rw [mem_mapUpdate]
    constructor
    · rintro ⟨e0, he0, rfl⟩
      rcases mem_emplace he0 with h1 | h1
      · by_cases hk : e0.1 = b
        · have : e0 = (b, a0) := entry_unique hs h1 hmem hk
          subst this
          simp [leftPart]
        · simp only [hk, if_false]
          exact Or.inl ⟨h1, hk⟩
      · subst h1
        have : addr ≠ b := by omega
        simp [this]
    · rintro (⟨h1, h2⟩ | h1 | h1)
      · exact ⟨e, mem_emplace_of_mem h1, by simp [h2]⟩
      · exact ⟨(b, a0), mem_emplace_of_mem hmem, by simp [h1, leftPart]⟩
      · refine ⟨(addr, rightPart a0 b addr), emplace_mem_new hnokey, ?_⟩
        have : addr ≠ b := by omega
        simp [h1, this]
  · rw [if_neg hst]
    exact ⟨t, b, a0, rfl, hmem, hplace, hs, Or.inl ⟨fun h => hst ⟨h.1, h.2⟩, rfl⟩⟩

theorem covering_unique {t : AreaTree} (hw : WellFormed t) {e1 e2 : Nat × Area} {x : Nat}
    (h1 : e1 ∈ t) (h2 : e2 ∈ t) (c1 : inArea e1 x) (c2 : inArea e2 x) : e1 = e2 := by
  obtain ⟨hs, _, hord⟩ := hw
  unfold inArea at c1 c2
  apply entry_unique hs h1 h2
  rcases Nat.lt_trichotomy e1.1 e2.1 with h | h | h
  · have := hord e1 h1 e2 h2 h; omega
  · exact h
  · have := hord e2 h2 e1 h1 h; omega

theorem lookupAddr_eq_some_iff {t : AreaTree} (hw : WellFormed t) (x : Nat) (i : AddrInfo) :
    lookupAddr t x = some i ↔ Covers t x i := by
  unfold lookupAddr Covers
  constructor
  · intro h
    rw [Option.map_eq_some'] at h
    obtain ⟨e, he, hi⟩ := h
    have hp : decide (inArea e x) = true :=
      @List.find?_some _ (fun e => decide (inArea e x)) _ _ he
    exact ⟨e, List.mem_of_find?_eq_some he, of_decide_eq_true hp, hi⟩
  · rintro ⟨e, he, hin, hi⟩
    cases hf : t.find? (fun e => decide (inArea e x)) with
    | none =>
      rw [List.find?_eq_none] at hf
      exact absurd (decide_eq_true hin) (hf e he)
    | some e2 =>
      have hp : inArea e2 x :=
        of_decide_eq_true (@List.find?_some _ (fun e => decide (inArea e x)) _ _ hf)
      have hm := List.mem_of_find?_eq_some hf
      have := covering_unique hw hm he hp hin
      subst this
      simp [hi]

theorem lookupAddr_congr {t t2 : AreaTree} (hw : WellFormed t) (hw2 : WellFormed t2) (x : Nat)
    (h : ∀ i, Covers t2 x i ↔ Covers t x i) : lookupAddr t2 x = lookupAddr t x := by
  apply Option.ext
  intro i
  simp only [Option.mem_def]
  rw [lookupAddr_eq_some_iff hw2, lookupAddr_eq_some_iff hw]
  exact h i

theorem split_wellFormed {t t1 : AreaTree} {addr b : Nat} {a0 : Area} (hw : WellFormed t)
    (ha : addr < wordMod) (h : SplitResult t addr t1 b a0) : WellFormed t1 := by
  obtain ⟨hs, hwrap, hord⟩ := hw
  rcases h.nodes with ⟨_, heq⟩ | ⟨hst, hmem⟩
  · rw [heq]; exact ⟨hs, hwrap, hord⟩
  · have hb := hwrap _ h.node
    have hkey : ∀ e ∈ t, e.1 ≤ addr → e.1 ≤ b := by
      rcases h.place with ⟨_, hmax⟩ | ⟨hlt, _⟩
      · exact hmax
      · unfold straddles at hst; omega
    unfold straddles at hst
    simp only at hb
    refine ⟨h.sorted, ?_, ?_⟩
    · intro e he
      rcases (hmem e).mp he with ⟨h1, _⟩ | h1 | h1
      · exact hwrap e h1
      · subst h1; simp only [leftPart]; omega
      · subst h1; simp only [rightPart]; omega
    · intro e1 he1 e2 he2 hlt
      rcases (hmem e1).mp he1 with ⟨h1, n1⟩ | h1 | h1 <;>
        rcases (hmem e2).mp he2 with ⟨h2, n2⟩ | h2 | h2
      · exact hord e1 h1 e2 h2 hlt
      · subst h2
        have := hord e1 h1 _ h.node hlt
        simp only [leftPart] at this ⊢; omega
      · subst h2
        simp only at hlt
        have k1 := hkey e1 h1 (by omega)
        have := hord e1 h1 _ h.node (by simp only; omega)
        simp only at this ⊢; omega
      · subst h1
        simp only at hlt
        have := hord _ h.node e2 h2 hlt
        simp only [leftPart] at this ⊢; omega
      · subst h1; subst h2; simp only at hlt; omega
      · subst h1; subst h2; simp only [leftPart]; omega
      · subst h1
        simp only at hlt
        have := hord _ h.node e2 h2 (by simp only; omega)
        simp only [rightPart] at this ⊢; omega
      · subst h1; subst h2; simp only at hlt; omega
      · subst h1; subst h2; simp only at hlt; omega

theorem uadd_uadd_sub {off b addr x : Nat} (h1 : b ≤ addr) (h2 : addr ≤ x) :
    uadd (uadd off (addr - b)) (x - addr) = uadd off (x - b) := by
  unfold uadd wordMod
  omega

theorem split_covers {t t1 : AreaTree} {addr b : Nat} {a0 : Area} (hw : WellFormed t)
    (h : SplitResult t addr t1 b a0) (x : Nat) (i : AddrInfo) :
    Covers t1 x i ↔ Covers t x i := by
  obtain ⟨hs, hwrap, hord⟩ := hw
  rcases h.nodes with ⟨_, heq⟩ | ⟨hst, hmem⟩
  · rw [heq]
  · unfold straddles at hst
    unfold Covers
    constructor
    · rintro ⟨e, he, hin, hi⟩
      rcases (hmem e).mp he with ⟨h1, _⟩ | h1 | h1
      · exact ⟨e, h1, hin, hi⟩
      · subst h1
        refine ⟨(b, a0), h.node, ?_, ?_⟩
        · unfold inArea at *; simp only [leftPart] at hin ⊢; omega
        · rw [← hi]; rfl
      · subst h1
        refine ⟨(b, a0), h.node, ?_, ?_⟩
        · unfold inArea at *; simp only [rightPart] at hin ⊢; omega
        · rw [← hi]
          unfold inArea at hin
          simp only [infoAt, rightPart, AddrInfo.mk.injEq, true_and]
          exact (uadd_uadd_sub (Nat.le_of_lt hst.1) hin.1).symm
    · rintro ⟨e, he, hin, hi⟩
      by_cases hk : e.1 = b
      · have : e = (b, a0) := entry_unique hs he h.node hk
        subst this
        by_cases hx : x < addr
        · refine ⟨(b, leftPart a0 b addr), (hmem _).mpr (Or.inr (Or.inl rfl)), ?_, ?_⟩
          · unfold inArea at *; simp only [leftPart] at hin ⊢; omega
          · rw [← hi]; rfl
        · refine ⟨(addr, rightPart a0 b addr), (hmem _).mpr (Or.inr (Or.inr rfl)), ?_, ?_⟩
          · unfold inArea at *; simp only [rightPart] at hin ⊢; omega
          · rw [← hi]
            simp only [infoAt, rightPart, AddrInfo.mk.injEq, true_and]
            exact uadd_uadd_sub (Nat.le_of_lt hst.1) (Nat.le_of_not_lt hx)
      · exact ⟨e, (hmem e).mpr (Or.inl ⟨he, hk⟩), hin, hi⟩

theorem split_noStraddle {t t1 : AreaTree} {addr b : Nat} {a0 : Area} (hw : WellFormed t)
    (h : SplitResult t addr t1 b a0) : ∀ e ∈ t1, ¬ straddles e.1 e.2 addr := by
  obtain ⟨hs, hwrap, hord⟩ := hw
  intro e he hcon
  unfold straddles at hcon
  have hall : ∀ e ∈ t, e.1 ≠ b → ¬ (e.1 < addr ∧ addr < e.1 + e.2.areaSize) := by
    intro e he hk hcon
    rcases h.place with ⟨hba, hmax⟩ | ⟨hlt, hmin⟩
    · have k1 := hmax e he (by omega)
      have := hord e he _ h.node (by simp only; omega)
      simp only at this; omega
    · have := hmin e he; omega
  rcases h.nodes with ⟨hns, heq⟩ | ⟨hst, hmem⟩
  · subst heq
    by_cases hk : e.1 = b
    · have : e = (b, a0) := entry_unique hs he h.node hk
      subst this
      exact hns hcon
    · exact hall e he hk hcon
  · rcases (hmem e).mp he with ⟨h1, n1⟩ | h1 | h1
    · exact hall e h1 n1 hcon
    · subst h1; simp only [leftPart] at hcon; unfold straddles at hst; omega
    · subst h1; simp only at hcon; omega

theorem split_keeps_noStraddle {t t1 : AreaTree} {addr b c : Nat} {a0 : Area}
    (h : SplitResult t addr t1 b a0) (hc : ∀ e ∈ t, ¬ straddles e.1 e.2 c) :
    ∀ e ∈ t1, ¬ straddles e.1 e.2 c := by
  intro e he hcon
  rcases h.nodes with ⟨_, heq⟩ | ⟨hst, hmem⟩
  · subst heq; exact hc e he hcon
  · have hb := hc _ h.node
    unfold straddles at *
    rcases (hmem e).mp he with ⟨h1, n1⟩ | h1 | h1
    · exact hc e h1 hcon
    · subst h1; simp only [leftPart] at hcon hb; omega
    · subst h1; simp only [rightPart] at hcon hb; omega

/-- Every node after a split is a node from before, or one of the two parts. -/
theorem split_nodes {t t1 : AreaTree} {addr b : Nat} {a0 : Area}
    (h : SplitResult t addr t1 b a0) :
    ∀ e ∈ t1, e ∈ t ∨ (straddles b a0 addr ∧
      (e = (b, leftPart a0 b addr) ∨ e = (addr, rightPart a0 b addr))) := by
  intro e he
  rcases h.nodes with ⟨_, heq⟩ | ⟨hst, hmem⟩
  · subst heq; exact Or.inl he
  · rcases (hmem e).mp he with ⟨h1, _⟩ | h1 | h1
    · exact Or.inl h1
    · exact Or.inr ⟨hst, Or.inl h1⟩
    · exact Or.inr ⟨hst, Or.inr h1⟩

/-- Every key from before a split is still a key after it. -/
theorem split_keeps_keys {t t1 : AreaTree} {addr b : Nat} {a0 : Area}
    (h : SplitResult t addr t1 b a0) : ∀ e ∈ t, ∃ a, (e.1, a) ∈ t1 := by
  intro e he
  rcases h.nodes with ⟨_, heq⟩ | ⟨hst, hmem⟩
  · subst heq; exact ⟨e.2, he⟩
  · by_cases hk : e.1 = b
    · exact ⟨leftPart a0 b addr, (hmem _).mpr (Or.inr (Or.inl (by rw [hk])))⟩
    · exact ⟨e.2, (hmem _).mpr (Or.inl ⟨he, hk⟩)⟩

/-! ## The loops over an iterator range -/

theorem next_atOrAfter {t : AreaTree} {k : Nat} (hs : KeysSorted t) :
    ∀ e ∈ t, e.1 ≠ k → atOrAfter (upperBound t k) e.1 = decide (k ≤ e.1) := by
  intro e he hk
  cases hu : upperBound t k with
  | none =>
    have := upperBound_none hu e he
    simp only [atOrAfter]
    symm; rw [decide_eq_false_iff_not]; omega
  | some k2 =>
    have h1 := (upperBound_some hu).1
    have h2 := upperBound_least hs hu e he
    simp only [atOrAfter]
    by_cases hle : k ≤ e.1
    · have := h2 (by omega)
      simp [hle, this]
    · have : ¬ k2 ≤ e.1 := by omega
      simp [hle, this]

theorem next_atOrAfter_self (t : AreaTree) (k : Nat) :
    atOrAfter (upperBound t k) k = false := by
  cases hu : upperBound t k with
  | none => rfl
  | some k2 =>
    have h1 := (upperBound_some hu).1
    simp only [atOrAfter, decide_eq_false_iff_not]; omega

theorem next_fuel {t t2 : AreaTree} {k n : Nat} {a : Area} (hs : KeysSorted t)
    (hka : (k, a) ∈ t)
    (h1 : (t2.filter (fun e => atOrAfter (upperBound t k) e.1)).length ≤
      (t.filter (fun e => atOrAfter (upperBound t k) e.1)).length)
    (hfuel : (t.filter (fun e => atOrAfter (some k) e.1)).length < n + 1) :
    (t2.filter (fun e => atOrAfter (upperBound t k) e.1)).length < n := by
  have h2 : t.filter (fun e => atOrAfter (upperBound t k) e.1) =
      (t.filter (fun e => atOrAfter (some k) e.1)).filter
        (fun e => atOrAfter (upperBound t k) e.1) := by
    rw [List.filter_filter]
    apply List.filter_congr
    intro e he
    by_cases hk : e.1 = k
    · rw [hk, next_atOrAfter_self]; rfl
    · rw [next_atOrAfter hs e he hk]; simp [atOrAfter]
  have h3 : ((t.filter (fun e => atOrAfter (some k) e.1)).filter
        (fun e => atOrAfter (upperBound t k) e.1)).length <
      (t.filter (fun e => atOrAfter (some k) e.1)).length := by
    rw [List.length_filter_lt_length_iff_exists]
    refine ⟨(k, a), ?_, ?_⟩
    · rw [List.mem_filter]; exact ⟨hka, by simp [atOrAfter]⟩
    · simp only [next_atOrAfter_self]; simp
  rw [h2] at h1
  omega

theorem next_valid {t : AreaTree} (k : Nat) : ValidIter t (upperBound t k) := by
  intro k2 hk2
  exact (upperBound_some hk2).2

theorem next_iterLe {t : AreaTree} {k : Nat} {endIt : Iter} (hs : KeysSorted t)
    (hve : ValidIter t endIt) (hle : iterLe (some k) endIt) (hne : some k ≠ endIt) :
    iterLe (upperBound t k) endIt := by
  cases endIt with
  | none => simp [iterLe]
  | some e =>
    simp only [iterLe] at hle
    have hlt : k < e := by
      rcases Nat.lt_or_ge k e with h | h
      · exact h
      · exfalso; apply hne; congr 1; omega
    obtain ⟨ae, hae⟩ := hve e rfl
    cases hu : upperBound t k with
    | none =>
      have := upperBound_none hu _ hae
      simp only at this; omega
    | some k2 =>
      have := upperBound_least hs hu _ hae hlt
      simpa [iterLe] using this

theorem before_of_ne {k : Nat} {endIt : Iter} (hle : iterLe (some k) endIt)
    (hne : some k ≠ endIt) : beforeIter endIt k = true := by
  cases endIt with
  | none => rfl
  | some e =>
    simp only [iterLe] at hle
    simp only [beforeIter, decide_eq_true_eq]
    rcases Nat.lt_or_ge k e with h | h
    · exact h
    · exfalso; apply hne; congr 1; omega

theorem eraseLoop_spec (address S : Nat) (endIt : Iter) :
    ∀ (fuel : Nat) (t : AreaTree) (it : Iter), KeysSorted t → ValidIter t it →
      ValidIter t endIt → iterLe it endIt →
      (t.filter (fun e => atOrAfter it e.1)).length < fuel →
      eraseLoop address S endIt fuel t it =
        .done (t.filter (fun e =>
          !(atOrAfter it e.1 && beforeIter endIt e.1 && contained address S e))) := by
  intro fuel
  induction fuel with
  | zero => intro t it _ _ _ _ h; omega
  | succ n ih =>
    intro t it hs hv hve hle hfuel
    unfold eraseLoop
    by_cases heq : it = endIt
    · rw [if_pos heq]
      congr 1; symm
      rw [List.filter_eq_self]
      intro e _
      subst heq
      cases it with
      | none => simp [atOrAfter]
      | some k =>
        simp only [atOrAfter, beforeIter, Bool.not_eq_true', Bool.and_eq_false_imp,
          Bool.and_eq_true, decide_eq_true_eq, decide_eq_false_iff_not]
        omega
    · rw [if_neg heq]
      cases it with
      | none =>
        cases endIt with
        | none => exact absurd rfl heq
        | some e => simp [iterLe] at hle
      | some k =>
        obtain ⟨a, hka⟩ := hv k rfl
        simp only [mapFind_of_mem hs hka, mapNext]
        have hbefore := before_of_ne hle heq
        have hle2 := next_iterLe hs hve hle heq
        by_cases hc : k ≥ address ∧ uadd k a.areaSize ≤ uadd address S
        · rw [if_pos hc]
          have hve2 : ValidIter (mapErase t k) endIt := by
            intro e he
            obtain ⟨ae, hae⟩ := hve e he
            refine ⟨ae, mem_mapErase.mpr ⟨hae, ?_⟩⟩
            intro hcon; simp only at hcon; apply heq; rw [he, hcon]
          have hv2 : ValidIter (mapErase t k) (upperBound t k) := by
            intro k2 hk2
            obtain ⟨h1, a2, h2⟩ := upperBound_some hk2
            exact ⟨a2, mem_mapErase.mpr ⟨h2, by simp only; omega⟩⟩
          rw [ih _ _ (keysSorted_mapErase k hs) hv2 hve2 hle2
            (next_fuel hs hka ((List.filter_sublist t).filter _).length_le hfuel)]
          congr 1
          unfold mapErase
          rw [List.filter_filter]
          apply List.filter_congr
          intro e he
          by_cases hk : e.1 = k
          · have : e = (k, a) := entry_unique hs he hka hk
            subst this
            simp [atOrAfter, hbefore, contained, hc]
          · rw [next_atOrAfter hs e he hk]
            simp [atOrAfter, hk]
        · rw [if_neg hc]
          rw [ih _ _ hs (next_valid k) hve hle2 (next_fuel hs hka (Nat.le_refl _) hfuel)]
          congr 1
          apply List.filter_congr
          intro e he
          by_cases hk : e.1 = k
          · have : e = (k, a) := entry_unique hs he hka hk
            subst this
            simp [next_atOrAfter_self, contained, hc]
          · rw [next_atOrAfter hs e he hk]
            simp [atOrAfter]

theorem filter_mapUpdate_length (t : AreaTree) (k : Nat) (f : Area → Area) (p : Nat → Bool) :
    ((mapUpdate t k f).filter (fun e => p e.1)).length = (t.filter (fun e => p e.1)).length := by
  induction t with
  | nil => rfl
  | cons hd tl ih =>
    have hkey : (if hd.1 = k then (hd.1, f hd.2) else hd).1 = hd.1 := by
      split <;> rfl
    have hcons : mapUpdate (hd :: tl) k f =
        (if hd.1 = k then (hd.1, f hd.2) else hd) :: mapUpdate tl k f := rfl
    rw [hcons]
    simp only [List.filter_cons, hkey]
    split
    · simp only [List.length_cons, ih]
    · exact ih

theorem protectLoop_spec (protMask prot address S : Nat) (endIt : Iter) :
    ∀ (fuel : Nat) (t : AreaTree) (it : Iter), KeysSorted t → ValidIter t it →
      ValidIter t endIt → iterLe it endIt →
      (t.filter (fun e => atOrAfter it e.1)).length < fuel →
      protectLoop protMask prot address S endIt fuel t it =
        .done (t.map (protectNode protMask prot address S it endIt)) := by
  intro fuel
  induction fuel with
  | zero => intro t it _ _ _ _ h; omega
  | succ n ih =>
    intro t it hs hv hve hle hfuel
    unfold protectLoop
    by_cases heq : it = endIt
    · rw [if_pos heq]
      congr 1; symm
      apply List.map_id''
      intro e
      subst heq
      unfold protectNode
      cases it with
      | none => simp [atOrAfter]
      | some k =>
        have : (atOrAfter (some k) e.1 && beforeIter (some k) e.1) = false := by
          simp only [atOrAfter, beforeIter, Bool.and_eq_false_imp, decide_eq_true_eq,
            decide_eq_false_iff_not]
          omega
        simp [this]
    · rw [if_neg heq]
      cases it with
      | none =>
        cases endIt with
        | none => exact absurd rfl heq
        | some e => simp [iterLe] at hle
      | some k =>
        obtain ⟨a, hka⟩ := hv k rfl
        simp only [mapFind_of_mem hs hka, mapNext]
        have hbefore := before_of_ne hle heq
        have hle2 := next_iterLe hs hve hle heq
        by_cases hc : k ≥ address ∧ uadd k a.areaSize ≤ uadd address S
        · rw [if_pos hc]
          have hkeep : ∀ (it2 : Iter), ValidIter t it2 →
              ValidIter (mapUpdate t k (applyProtection protMask prot)) it2 := by
            intro it2 h2 k2 hk2
            obtain ⟨a2, ha2⟩ := h2 k2 hk2
            by_cases hk : k2 = k
            · exact ⟨applyProtection protMask prot a2,
                mem_mapUpdate.mpr ⟨(k2, a2), ha2, by simp [hk]⟩⟩
            · exact ⟨a2, mem_mapUpdate.mpr ⟨(k2, a2), ha2, by simp [hk]⟩⟩
          rw [ih _ _ (keysSorted_mapUpdate k _ hs) (hkeep _ (next_valid k)) (hkeep _ hve) hle2
            (next_fuel hs hka (Nat.le_of_eq (filter_mapUpdate_length t k _ _)) hfuel)]
          congr 1
          unfold mapUpdate
          rw [List.map_map]
          apply List.map_congr_left
          intro e he
          by_cases hk : e.1 = k
          · have : e = (k, a) := entry_unique hs he hka hk
            subst this
            simp only [Function.comp, if_true, protectNode, next_atOrAfter_self]
            simp [atOrAfter, hbefore, contained, hc]
          · simp only [Function.comp, hk, if_false, protectNode]
            rw [next_atOrAfter hs e he hk]
            simp [atOrAfter]
        · rw [if_neg hc]
          rw [ih _ _ hs (next_valid k) hve hle2 (next_fuel hs hka (Nat.le_refl _) hfuel)]
          congr 1
          apply List.map_congr_left
          intro e he
          by_cases hk : e.1 = k
          · have : e = (k, a) := entry_unique hs he hka hk
            subst this
            simp [protectNode, next_atOrAfter_self, contained, hc]
          · simp only [protectNode]
            rw [next_atOrAfter hs e he hk]
            simp [atOrAfter]

/-! ## The double split -/

theorem split_origin {t t1 : AreaTree} {c b : Nat} {a0 : Area}
    (h : SplitResult t c t1 b a0) (P : Nat × Area → Prop) (hP : ∀ e ∈ t, P e)
    (hstep : P (b, a0) → straddles b a0 c →
      P (b, leftPart a0 b c) ∧ P (c, rightPart a0 b c)) : ∀ e ∈ t1, P e := by
  intro e he
  rcases split_nodes h e he with h1 | ⟨hst, h1 | h1⟩
  · exact hP e h1
  · rw [h1]; exact (hstep (hP _ h.node) hst).1
  · rw [h1]; exact (hstep (hP _ h.node) hst).2

theorem splitAreaOn_spec {t : AreaTree} {addr size : Nat} (hw : WellFormed t) (hne : t ≠ [])
    (hsum : addr + size < wordMod) :
    ∃ t2 b1 endIt, splitAreaOn_ t addr size = .done (t2, some b1, endIt) ∧
      SplitAreaResult t addr size t2 b1 endIt := by
  have ha : addr < wordMod := by omega
  obtain ⟨t1, b1, a1, h1, r1⟩ := performSingleSplit_spec hw hne ha
  have hw1 := split_wellFormed hw ha r1
  have hne1 : t1 ≠ [] := by
    obtain ⟨a, hmem⟩ := split_keeps_keys r1 _ r1.node
    exact List.ne_nil_of_mem hmem
  obtain ⟨t2, b2, a2, h2, r2⟩ := performSingleSplit_spec hw1 hne1 hsum
  have hw2 := split_wellFormed hw1 hsum r2
  have hlen : ¬ t.length = 0 := by
    intro h; exact hne (List.length_eq_zero.mp h)
  have hb1t1 : ∃ a, (b1, a) ∈ t1 := split_keeps_keys r1 _ r1.node
  have hb12 : b1 ≤ b2 := by
    obtain ⟨a, hb1⟩ := hb1t1
    have hn2 := split_nodes r1 _ r2.node
    rcases r2.place with ⟨hle2, hmax2⟩ | ⟨hlt2, hmin2⟩
    · rcases r1.place with ⟨hle1, _⟩ | ⟨hlt1, hmin1⟩
      · exact hmax2 _ hb1 (by simp only; omega)
      · rcases hn2 with h | ⟨hst, _⟩
        · exact hmin1 _ h
        · unfold straddles at hst; omega
    · rcases hn2 with h | ⟨hst, h | h⟩
      · rcases r1.place with ⟨hle1, hmax1⟩ | ⟨hlt1, hmin1⟩
        · have := hmin2 _ hb1; simp only at this; omega
        · exact hmin1 _ h
      · cases h; exact Nat.le_refl _
      · cases h; omega
  refine ⟨t2, b1, upperBound t2 b2, ?_, ?_⟩
  · unfold splitAreaOn_
    rw [if_neg hlen, h1]
    simp only [uadd_eq hsum, h2, mapNext]
  · refine ⟨hw2, ?_, split_keeps_noStraddle r2 (split_noStraddle hw r1),
      split_noStraddle hw1 r2, ?_, next_valid b2, ?_, ?_, ?_⟩
    · intro x i
      rw [split_covers hw1 r2, split_covers hw r1]
    · intro k hk
      cases hk
      obtain ⟨a, hb1⟩ := hb1t1
      exact split_keeps_keys r2 _ hb1
    · cases hu : upperBound t2 b2 with
      | none => simp [iterLe]
      | some k =>
        have := (upperBound_some hu).1
        simp only [iterLe]; omega
    · intro e he hc
      simp only [contained, decide_eq_true_eq] at hc
      have hwe := hw2.2.1 e he
      rw [uadd_eq hwe, uadd_eq hsum] at hc
      have hn := split_nodes r2 e he
      constructor
      · simp only [atOrAfter, decide_eq_true_eq]
        rcases r1.place with ⟨hle1, _⟩ | ⟨hlt1, hmin1⟩
        · omega
        · have ht1 : ∀ e ∈ t1, b1 ≤ e.1 := by
            intro e2 he2
            rcases split_nodes r1 e2 he2 with h | ⟨hst, _⟩
            · exact hmin1 _ h
            · unfold straddles at hst; omega
          rcases hn with h | ⟨hst, h | h⟩
          · exact ht1 _ h
          · rw [h]; exact hb12
          · rw [h]; unfold straddles at hst; simp only; omega
      · have hle : e.1 ≤ b2 := by
          rcases r2.place with ⟨hle2, hmax2⟩ | ⟨hlt2, hmin2⟩
          · rcases hn with h | ⟨hst, h | h⟩
            · exact hmax2 _ h (by omega)
            · rw [h]
            · rw [h] at hc
              unfold straddles at hst
              simp only [rightPart] at hc
              omega
          · rcases hn with h | ⟨hst, _⟩
            · have := hmin2 _ h; omega
            · unfold straddles at hst; omega
        cases hu : upperBound t2 b2 with
        | none => rfl
        | some k =>
          have := (upperBound_some hu).1
          simp only [beforeIter, decide_eq_true_eq]; omega
    · intro P hP hstep
      have hP1 : ∀ e ∈ t1, P e :=
        split_origin r1 P hP (fun h0 hst => hstep _ _ _ h0 hst (Or.inl rfl))
      exact split_origin r2 P hP1 (fun h0 hst => hstep _ _ _ h0 hst (Or.inr rfl))

/-- The mask `& ~size_t(0xFFF)` clears the twelve low bits. -/
theorem and_pageMask (n : Nat) (h : n < 18446744073709551616) :
    n &&& (18446744073709551616 - 1 - 0xFFF) = n / 4096 * 4096 := by
  apply Nat.eq_of_testBit_eq
  intro i
  have hM : (18446744073709551616 - 1 - 0xFFF : Nat) = 2 ^ 12 * (2 ^ 52 - 1) := by norm_num
  have hR : n / 4096 * 4096 = 2 ^ 12 * (n >>> 12) := by
    rw [Nat.shiftRight_eq_div_pow]; norm_num [Nat.mul_comm]
  rw [Nat.testBit_and, hM, hR, Nat.testBit_mul_pow_two, Nat.testBit_mul_pow_two,
    Nat.testBit_two_pow_sub_one, Nat.testBit_shiftRight]
  by_cases hi : i ≥ 12
  · have e : 12 + (i - 12) = i := by omega
    rw [e]
    by_cases h64 : i < 64
    · have : i - 12 < 52 := by omega
      simp [hi, this]
    · have hb : n.testBit i = false := by
        apply Nat.testBit_lt_two_pow
        calc n < 2 ^ 64 := by norm_num; exact h
          _ ≤ 2 ^ i := Nat.pow_le_pow_right (by norm_num) (by omega)
      simp [hb]
  · simp [hi]

/-- The aligned size computed by the code is always a multiple of the page size. -/
theorem alignSize_dvd (size : Nat) : 4096 ∣ alignSize size := by
  unfold alignSize
  have h : uadd size 0xFFF < 18446744073709551616 := by
    unfold uadd wordMod; omega
  have := and_pageMask _ h
  unfold wordMod
  rw [this]
  exact Nat.dvd_mul_left _ _

/-- Without wrap-around the aligned size is the size rounded up to the page size. -/
theorem alignSize_eq {size : Nat} (h : roundUpPage size < wordMod) :
    alignSize size = roundUpPage size := by
  unfold roundUpPage wordMod at *
  have h1 : size + 4095 < 18446744073709551616 := by omega
  unfold alignSize uadd wordMod
  rw [Nat.mod_eq_of_lt h1]
  exact and_pageMask _ h1

/-! ## Splitting followed by a loop -/

theorem splitThenErase {t : AreaTree} {addr size : Nat} (hw : WellFormed t)
    (hsum : addr + size < wordMod) :
    ∃ t2 startIt endIt, splitAreaOn_ t addr size = .done (t2, startIt, endIt) ∧
      eraseLoop addr size endIt (t2.length + 1) t2 startIt =
        .done (t2.filter (fun e => !contained addr size e)) ∧
      Prepared t addr size t2 := by
  by_cases hne : t = []
  · subst hne
    refine ⟨[], none, none, rfl, rfl, hw, fun _ _ => Iff.rfl, ?_, ?_, ?_⟩
    · intro e he; simp at he
    · intro e he; simp at he
    · intro P hP _ e he; simp at he
  · obtain ⟨t2, b1, endIt, h1, r⟩ := splitAreaOn_spec hw hne hsum
    refine ⟨t2, some b1, endIt, h1, ?_, r.wf, r.covers, r.noStraddleLo, r.noStraddleHi, r.origin⟩
    rw [eraseLoop_spec addr size endIt _ _ _ r.wf.1 r.validStart r.validEnd r.ordered
      (Nat.lt_succ_of_le (List.length_filter_le _ _))]
    congr 1
    apply List.filter_congr
    intro e he
    by_cases hc : contained addr size e = true
    · obtain ⟨h2, h3⟩ := r.inRange e he hc
      rw [h2, h3, hc]; rfl
    · simp only [Bool.not_eq_true] at hc
      rw [hc]; simp

theorem splitThenProtect {t : AreaTree} {addr size : Nat} (protMask prot : Nat)
    (hw : WellFormed t) (hsum : addr + size < wordMod) :
    ∃ t2 startIt endIt, splitAreaOn_ t addr size = .done (t2, startIt, endIt) ∧
      protectLoop protMask prot addr size endIt (t2.length + 1) t2 startIt =
        .done (t2.map (fun e => if contained addr size e then
          (e.1, applyProtection protMask prot e.2) else e)) ∧
      Prepared t addr size t2 := by
  by_cases hne : t = []
  · subst hne
    refine ⟨[], none, none, rfl, rfl, hw, fun _ _ => Iff.rfl, ?_, ?_, ?_⟩
    · intro e he; simp at he
    · intro e he; simp at he
    · intro P hP _ e he; simp at he
  · obtain ⟨t2, b1, endIt, h1, r⟩ := splitAreaOn_spec hw hne hsum
    refine ⟨t2, some b1, endIt, h1, ?_, r.wf, r.covers, r.noStraddleLo, r.noStraddleHi, r.origin⟩
    rw [protectLoop_spec protMask prot addr size endIt _ _ _ r.wf.1 r.validStart r.validEnd
      r.ordered (Nat.lt_succ_of_le (List.length_filter_le _ _))]
    congr 1
    apply List.map_congr_left
    intro e he
    unfold protectNode
    by_cases hc : contained addr size e = true
    · obtain ⟨h2, h3⟩ := r.inRange e he hc
      rw [h2, h3, hc]; rfl
    · simp only [Bool.not_eq_true] at hc
      rw [hc]; simp

theorem wellFormed_filter {t : AreaTree} (p : Nat × Area → Bool) (hw : WellFormed t) :
    WellFormed (t.filter p) := by
  obtain ⟨hs, hwrap, hord⟩ := hw
  refine ⟨List.Pairwise.sublist (List.filter_sublist t) hs, ?_, ?_⟩
  · intro e he; exact hwrap e (List.mem_of_mem_filter he)
  · intro e1 h1 e2 h2
    exact hord e1 (List.mem_of_mem_filter h1) e2 (List.mem_of_mem_filter h2)

/-- After the split, a node meets the target range only if it lies within it. -/
theorem contained_of_meets {t t2 : AreaTree} {addr size : Nat} (hp : Prepared t addr size t2)
    (hsum : addr + size < wordMod) {e : Nat × Area} (he : e ∈ t2) {x : Nat}
    (hx : addr ≤ x ∧ x < addr + size) (hin : inArea e x) : contained addr size e = true := by
  have h1 := hp.noStraddleLo e he
  have h2 := hp.noStraddleHi e he
  have hwe := hp.wf.2.1 e he
  unfold straddles at h1 h2
  unfold inArea at hin
  simp only [contained, decide_eq_true_eq]
  rw [uadd_eq hwe, uadd_eq hsum]
  omega

/-- A node within the target range covers no address outside of it. -/
theorem inside_of_contained {t2 : AreaTree} {addr size : Nat} (hw : WellFormed t2)
    (hsum : addr + size < wordMod) {e : Nat × Area} (he : e ∈ t2) {x : Nat}
    (hc : contained addr size e = true) (hin : inArea e x) : addr ≤ x ∧ x < addr + size := by
  have hwe := hw.2.1 e he
  unfold inArea at hin
  simp only [contained, decide_eq_true_eq] at hc
  rw [uadd_eq hwe, uadd_eq hsum] at hc
  omega

theorem erased_covers_outside {t t2 : AreaTree} {addr size : Nat}
    (hp : Prepared t addr size t2) (hsum : addr + size < wordMod) {x : Nat}
    (hx : ¬ (addr ≤ x ∧ x < addr + size)) (i : AddrInfo) :
    Covers (t2.filter (fun e => !contained addr size e)) x i ↔ Covers t x i := by
  rw [← hp.covers]
  unfold Covers
  constructor
  · rintro ⟨e, he, hin, hi⟩
    exact ⟨e, List.mem_of_mem_filter he, hin, hi⟩
  · rintro ⟨e, he, hin, hi⟩
    refine ⟨e, List.mem_filter.mpr ⟨he, ?_⟩, hin, hi⟩
    cases hc : contained addr size e with
    | false => rfl
    | true => exact absurd (inside_of_contained hp.wf hsum he hc hin) hx

theorem erased_misses_range {t t2 : AreaTree} {addr size : Nat}
    (hp : Prepared t addr size t2) (hsum : addr + size < wordMod) :
    ∀ e ∈ t2.filter (fun e => !contained addr size e), ∀ x,
      addr ≤ x → x < addr + size → ¬ inArea e x := by
  intro e he x h1 h2 hin
  obtain ⟨hm, hc⟩ := List.mem_filter.mp he
  have := contained_of_meets hp hsum hm ⟨h1, h2⟩ hin
  rw [this] at hc
  simp at hc

/-! ## The operations on a non-overlapping map -/

/-- What a successful `mapFile` leaves: the nodes of the split map that are not
within the target range, and the new node. -/
theorem mapFile_spec (self : VmContext) (hint : Nat) (memory : Descriptor)
    (file : Option Nat) (offset size : Nat) (copyOnWrite : Bool) (nativeFlags : Nat)
    (k : MapFileKernel) (A : Nat) (hw : WellFormed self._areaTree)
    (hsum : A + alignSize size < wordMod)
    (hcow : copyOnWrite = true → k.copyOnWrite.1 = HelError.kHelErrNone)
    (hmap : k.mapMemory = (HelError.kHelErrNone, A)) :
    ∃ t2, Prepared self._areaTree A (alignSize size) t2 ∧
      mapFile self hint memory file offset size copyOnWrite nativeFlags k =
        .done (.ok A, VmContext.mk self._space
          (emplace (t2.filter (fun e => !contained A (alignSize size) e)) A
            (newArea memory file offset size copyOnWrite nativeFlags k))) := by
  obtain ⟨t2, startIt, endIt, h1, h2, hp⟩ := splitThenErase hw hsum
  refine ⟨t2, hp, ?_⟩
  unfold mapFile
  cases copyOnWrite with
  | true =>
    have hc := hcow rfl
    simp only [hc, hmap, newArea]
    simp
    rw [h1]
    simp only
    rw [h2]
  | false =>
    simp only [hmap, newArea]
    simp
    rw [h1]
    simp only
    rw [h2]

/-- The properties of the map after erasing the target range and inserting a
node for it. -/
theorem inserted_spec {t t2 : AreaTree} {A S : Nat} (hp : Prepared t A S t2)
    (hS : 0 < S) (hsum : A + S < wordMod) (area : Area) (hsize : area.areaSize = S) :
    WellFormed (emplace (t2.filter (fun e => !contained A S e)) A area) ∧
      (A, area) ∈ emplace (t2.filter (fun e => !contained A S e)) A area ∧
      (∀ e ∈ emplace (t2.filter (fun e => !contained A S e)) A area,
        e = (A, area) ∨ (e ∈ t2 ∧ e.1 ≠ A ∧ ∀ x, A ≤ x → x < A + S → ¬ inArea e x)) ∧
      (∀ x, ¬ (A ≤ x ∧ x < A + S) → ∀ i,
        (Covers (emplace (t2.filter (fun e => !contained A S e)) A area) x i ↔
          Covers t x i)) := by
  have hw3 := wellFormed_filter (fun e => !contained A S e) hp.wf
  have hmiss := erased_misses_range hp hsum
  have hnokey : ∀ e ∈ t2.filter (fun e => !contained A S e), e.1 ≠ A := by
    intro e he hk
    have hm := List.mem_of_mem_filter he
    have hwe := hp.wf.2.1 e hm
    have h2 := hp.noStraddleHi e hm
    unfold straddles at h2
    by_cases hz : 0 < e.2.areaSize
    · exact hmiss e he A (Nat.le_refl _) (by omega) ⟨by omega, by omega⟩
    · have hc : contained A S e = true := by
        simp only [contained, decide_eq_true_eq]
        rw [uadd_eq hwe, uadd_eq hsum]; omega
      have := (List.mem_filter.mp he).2
      rw [hc] at this
      simp at this
  have hnew : (A, area) ∈ emplace (t2.filter (fun e => !contained A S e)) A area :=
    emplace_mem_new hnokey
  have hnodes : ∀ e ∈ emplace (t2.filter (fun e => !contained A S e)) A area,
      e = (A, area) ∨ (e ∈ t2 ∧ e.1 ≠ A ∧ ∀ x, A ≤ x → x < A + S → ¬ inArea e x) := by
    intro e he
    rcases mem_emplace he with h | h
    · exact Or.inr ⟨List.mem_of_mem_filter h, hnokey e h, hmiss e h⟩
    · exact Or.inl h
  refine ⟨⟨keysSorted_emplace hw3.1, ?_, ?_⟩, hnew, hnodes, ?_⟩
  · intro e he
    rcases hnodes e he with h | ⟨h, _⟩
    · subst h; simp only [hsize]; exact hsum
    · exact hp.wf.2.1 e h
  · intro e1 he1 e2 he2 hlt
    rcases hnodes e1 he1 with h1 | ⟨h1, n1, m1⟩ <;> rcases hnodes e2 he2 with h2 | ⟨h2, n2, m2⟩
    · subst h1; subst h2; simp only at hlt; omega
    · subst h1
      simp only [hsize] at hlt ⊢
      have hwe := hp.wf.2.1 e2 h2
      have hs2 := hp.noStraddleHi e2 h2
      unfold straddles at hs2
      by_cases hz : 0 < e2.2.areaSize
      · have := m2 e2.1 (Nat.le_of_lt hlt)
        unfold inArea at this
        omega
      · have hc : ¬ (contained A S e2 = true) := by
          intro hc
          have hf := mem_emplace he2
          rcases hf with hf | hf
          · have := (List.mem_filter.mp hf).2
            rw [hc] at this; simp at this
          · rw [hf] at n2; exact n2 rfl
        simp only [contained, decide_eq_true_eq] at hc
        rw [uadd_eq hwe, uadd_eq hsum] at hc
        omega
    · subst h2
      simp only at hlt ⊢
      have hs1 := hp.noStraddleLo e1 h1
      unfold straddles at hs1
      omega
    · exact hp.wf.2.2 e1 h1 e2 h2 hlt
  · intro x hx i
    rw [← erased_covers_outside hp hsum hx i]
    unfold Covers
    constructor
    · rintro ⟨e, he, hin, hi⟩
      rcases mem_emplace he with h | h
      · exact ⟨e, h, hin, hi⟩
      · subst h
        unfold inArea at hin
        simp only [hsize] at hin
        exact absurd hin hx
    · rintro ⟨e, he, hin, hi⟩
      exact ⟨e, mem_emplace_of_mem he, hin, hi⟩

theorem unmapFile_spec (self : VmContext) (p size : Nat) (hw : WellFormed self._areaTree)
    (hsum : p + alignSize size < wordMod) :
    ∃ t2, Prepared self._areaTree p (alignSize size) t2 ∧
      unmapFile self p size HelError.kHelErrNone =
        .done (VmContext.mk self._space
          (t2.filter (fun e => !contained p (alignSize size) e))) := by
  obtain ⟨t2, startIt, endIt, h1, h2, hp⟩ := splitThenErase hw hsum
  refine ⟨t2, hp, ?_⟩
  unfold unmapFile
  simp
  rw [h1]
  simp only
  rw [h2]

theorem protectFile_spec (protMask : Nat) (self : VmContext) (p size prot : Nat)
    (hw : WellFormed self._areaTree) (hsum : p + alignSize size < wordMod) :
    ∃ t2, Prepared self._areaTree p (alignSize size) t2 ∧
      protectFile protMask self p size prot HelError.kHelErrNone =
        .done (VmContext.mk self._space
          (t2.map (fun e => if contained p (alignSize size) e then
            (e.1, applyProtection protMask prot e.2) else e))) := by
  obtain ⟨t2, startIt, endIt, h1, h2, hp⟩ := splitThenProtect protMask prot hw hsum
  refine ⟨t2, hp, ?_⟩
  unfold protectFile
  simp
  rw [h1]
  simp only
  rw [h2]

theorem protected_wellFormed {t2 : AreaTree} (protMask prot p S : Nat) (hw : WellFormed t2) :
    WellFormed (t2.map (fun e => if contained p S e then
      (e.1, applyProtection protMask prot e.2) else e)) := by
  obtain ⟨hs, hwrap, hord⟩ := hw
  have hkey : ∀ e : Nat × Area, (if contained p S e then
      (e.1, applyProtection protMask prot e.2) else e).1 = e.1 := by
    intro e; split <;> rfl
  have hsz : ∀ e : Nat × Area, (if contained p S e then
      (e.1, applyProtection protMask prot e.2) else e).2.areaSize = e.2.areaSize := by
    intro e; split <;> rfl
  refine ⟨?_, ?_, ?_⟩
  · unfold KeysSorted
    rw [List.pairwise_map]
    refine List.Pairwise.imp ?_ hs
    intro a b hab
    rw [hkey, hkey]; exact hab
  · intro e he
    obtain ⟨e0, h0, rfl⟩ := List.mem_map.mp he
    rw [hkey, hsz]; exact hwrap e0 h0
  · intro e1 he1 e2 he2
    obtain ⟨a1, h1, rfl⟩ := List.mem_map.mp he1
    obtain ⟨a2, h2, rfl⟩ := List.mem_map.mp he2
    rw [hkey, hkey, hsz]; exact hord a1 h1 a2 h2

theorem protected_covers {t t2 : AreaTree} {p S : Nat} (protMask prot : Nat)
    (hp : Prepared t p S t2) (hsum : p + S < wordMod) (x : Nat) (j : AddrInfo) :
    Covers (t2.map (fun e => if contained p S e then
      (e.1, applyProtection protMask prot e.2) else e)) x j ↔
      ∃ i, Covers t x i ∧ j = protectInfo protMask prot p S x i := by
  constructor
  · rintro ⟨e, he, hin, hi⟩
    obtain ⟨e0, h0, rfl⟩ := List.mem_map.mp he
    by_cases hc : contained p S e0 = true
    · simp only [hc, if_true] at hin hi
      have hin0 : inArea e0 x := hin
      have hx := inside_of_contained hp.wf hsum h0 hc hin0
      refine ⟨infoAt e0 x, (hp.covers x _).mp ⟨e0, h0, hin0, rfl⟩, ?_⟩
      rw [← hi]
      simp only [protectInfo, hx, and_self, if_true]
      rfl
    · simp only [hc, Bool.false_eq_true, if_false] at hin hi
      have hx : ¬ (p ≤ x ∧ x < p + S) := fun hx => hc (contained_of_meets hp hsum h0 hx hin)
      refine ⟨infoAt e0 x, (hp.covers x _).mp ⟨e0, h0, hin, rfl⟩, ?_⟩
      rw [← hi]
      simp only [protectInfo, hx, if_false]
  · rintro ⟨i, hc, rfl⟩
    obtain ⟨e0, h0, hin, hi⟩ := (hp.covers x i).mpr hc
    refine ⟨_, List.mem_map.mpr ⟨e0, h0, rfl⟩, ?_, ?_⟩
    · by_cases hcon : contained p S e0 = true
      · simp only [hcon, if_true]; exact hin
      · simp only [hcon, Bool.false_eq_true, if_false]; exact hin
    · by_cases hcon : contained p S e0 = true
      · have hx := inside_of_contained hp.wf hsum h0 hcon hin
        simp only [hcon, if_true, protectInfo, hx, and_self, ← hi]
        rfl
      · have hx : ¬ (p ≤ x ∧ x < p + S) :=
          fun hx => hcon (contained_of_meets hp hsum h0 hx hin)
        simp only [hcon, Bool.false_eq_true, protectInfo, hx, if_false, ← hi]

theorem lookupAddr_protected {t t3 : AreaTree} (hw : WellFormed t) (hw3 : WellFormed t3)
    (f : AddrInfo → AddrInfo) (x : Nat)
    (h : ∀ j, Covers t3 x j ↔ ∃ i, Covers t x i ∧ j = f i) :
    lookupAddr t3 x = (lookupAddr t x).map f := by
  apply Option.ext
  intro j
  simp only [Option.mem_def, Option.map_eq_some']
  rw [lookupAddr_eq_some_iff hw3, h]
  constructor
  · rintro ⟨i, hc, rfl⟩
    exact ⟨i, (lookupAddr_eq_some_iff hw x i).mpr hc, rfl⟩
  · rintro ⟨i, hl, rfl⟩
    exact ⟨i, (lookupAddr_eq_some_iff hw x i).mp hl, rfl⟩

/-! ## Reachable region maps -/

theorem roundUpPage_pos {size : Nat} (h : 0 < size) : 0 < roundUpPage size := by
  unfold roundUpPage; omega

theorem alignSize_of_sum {p size : Nat} (h : p + roundUpPage size < wordMod) :
    alignSize size = roundUpPage size :=
  alignSize_eq (by omega)

/-- A `mapFile` that returns a pointer got past both kernel calls. -/
theorem mapFile_ok_inv {self c2 : VmContext} {hint : Nat} {memory : Descriptor}
    {file : Option Nat} {offset size : Nat} {copyOnWrite : Bool} {nativeFlags : Nat}
    {k : MapFileKernel} {A : Nat}
    (h : mapFile self hint memory file offset size copyOnWrite nativeFlags k =
      .done (.ok A, c2)) :
    (copyOnWrite = true → k.copyOnWrite.1 = HelError.kHelErrNone) ∧
      k.mapMemory = (HelError.kHelErrNone, A) := by
  obtain ⟨⟨ce, ch⟩, ⟨me, mp⟩⟩ := k
  unfold mapFile at h
  simp only at h
  have hcow : copyOnWrite = true → ce = HelError.kHelErrNone := by
    intro hc
    by_contra hcon
    simp [hc, hcon] at h
  refine ⟨hcow, ?_⟩
  have hme : me = HelError.kHelErrNone := by
    by_contra hcon
    cases copyOnWrite with
    | true =>
      simp only [hcow rfl, ne_eq, not_true_eq_false, if_false, if_true] at h
      split at h
      · cases h
      · split at h
        · cases h
        · simp [hcon] at h
    | false =>
      simp only [Bool.false_eq_true, if_false] at h
      split at h
      · cases h
      · split at h
        · cases h
        · simp [hcon] at h
  subst hme
  have hmp : mp = A := by
    cases copyOnWrite with
    | true =>
      simp only [hcow rfl, ne_eq, not_true_eq_false, if_false, if_true] at h
      simp only [reduceCtorEq, if_false] at h
      split at h
      · cases h
      · cases h
      · split at h
        · cases h
        · cases h
        · cases h; rfl
    | false =>
      simp only [Bool.false_eq_true, if_false, ne_eq, not_true_eq_false] at h
      simp only [reduceCtorEq, if_false] at h
      split at h
      · cases h
      · cases h
      · split at h
        · cases h
        · cases h
        · cases h; rfl
  subst hmp
  rfl

theorem unmapFile_done_inv {self c2 : VmContext} {p size : Nat} {err : HelError}
    (h : unmapFile self p size err = .done c2) : err = HelError.kHelErrNone := by
  unfold unmapFile at h
  by_contra hcon
  simp [hcon] at h

theorem protectFile_done_inv {self c2 : VmContext} {protMask p size prot : Nat}
    {err : HelError} (h : protectFile protMask self p size prot err = .done c2) :
    err = HelError.kHelErrNone := by
  unfold protectFile at h
  by_contra hcon
  simp [hcon] at h

/-- Every reachable region map is non-overlapping. -/
theorem wellFormed_of_reachable {c : VmContext} (h : VmReachable c) :
    WellFormed c._areaTree := by
  induction h with
  | create space =>
    exact ⟨List.Pairwise.nil, fun e he => by simp at he, fun e he => by simp at he⟩
  | @mapFile c c2 hint memory file offset size cow flags k A _ hsize hsum hres ih =>
    obtain ⟨hcow, hmap⟩ := mapFile_ok_inv hres
    have hal := alignSize_of_sum hsum
    obtain ⟨t2, hp, heq⟩ := mapFile_spec c hint memory file offset size cow flags k A ih
      (by rw [hal]; exact hsum) hcow hmap
    rw [heq] at hres
    cases hres
    exact (inserted_spec hp (by rw [hal]; exact roundUpPage_pos hsize)
      (by rw [hal]; exact hsum) _ rfl).1
  | @unmapFile c c2 p size err _ hsize hsum hres ih =>
    have he := unmapFile_done_inv hres
    subst he
    have hal := alignSize_of_sum hsum
    obtain ⟨t2, hp, heq⟩ := unmapFile_spec c p size ih (by rw [hal]; exact hsum)
    rw [heq] at hres
    cases hres
    exact wellFormed_filter _ hp.wf
  | @protectFile c c2 protMask p size prot err _ hsize hsum hres ih =>
    have he := protectFile_done_inv hres
    subst he
    have hal := alignSize_of_sum hsum
    obtain ⟨t2, hp, heq⟩ := protectFile_spec protMask c p size prot ih (by rw [hal]; exact hsum)
    rw [heq] at hres
    cases hres
    exact protected_wellFormed protMask prot p _ hp.wf

/-! ## Claims on the region map -/

/-- C1. Region-map non-overlap invariant: in every context reached from an empty
region map by successful `mapFile`, `unmapFile` and `protectFile` calls (non-zero
size, target range not wrapping, any address from the kernel), the keys are
distinct and the ranges `[b1, b1+s1)` and `[b2, b2+s2)` of two distinct entries
share no address. -/
theorem region_map_never_overlaps (c : VmContext) (h : VmReachable c) :
    KeysSorted c._areaTree ∧
      ∀ e1 ∈ c._areaTree, ∀ e2 ∈ c._areaTree, e1 ≠ e2 →
        ∀ x, ¬ (inArea e1 x ∧ inArea e2 x) := by
  have hw := wellFormed_of_reachable h
  refine ⟨hw.1, ?_⟩
  intro e1 h1 e2 h2 hne x hx
  exact hne (covering_unique hw h1 h2 hx.1 hx.2)

/-- C1 at a map reached by mapping two pages at 4096 and then one page over the
second of them. -/
theorem region_map_never_overlaps_witness :
    KeysSorted [(4096, { sampleArea with areaSize := 4096 }),
        (8192, { sampleArea with areaSize := 4096, nativeFlags := 5, file := some 2 })] ∧
      ∀ e1 ∈ [(4096, { sampleArea with areaSize := 4096 }),
        (8192, { sampleArea with areaSize := 4096, nativeFlags := 5, file := some 2 })],
      ∀ e2 ∈ [(4096, { sampleArea with areaSize := 4096 }),
        (8192, { sampleArea with areaSize := 4096, nativeFlags := 5, file := some 2 })],
      e1 ≠ e2 → ∀ x, ¬ (inArea e1 x ∧ inArea e2 x) :=
  region_map_never_overlaps
    ⟨some 1, [(4096, { sampleArea with areaSize := 4096 }),
      (8192, { sampleArea with areaSize := 4096, nativeFlags := 5, file := some 2 })]⟩
    (VmReachable.mapFile 0 (some 7) (some 2) 0 4096 false 5 (kernelMapsAt 8192) 8192
      (VmReachable.mapFile 0 (some 7) (some 1) 0 8192 false 3 (kernelMapsAt 4096) 4096
        (VmReachable.create (some 1)) (by decide) (by decide)
        (show mapFile ⟨some 1, []⟩ 0 (some 7) (some 1) 0 8192 false 3 (kernelMapsAt 4096) =
          .done (.ok 4096, ⟨some 1, [(4096, sampleArea)]⟩) from by decide))
      (by decide) (by decide) (by decide))

/-- C2 as stated fails for size 0 and for a wrapping range: with the kernel
accepting the mapping at `A`, the entry keyed at `A` afterwards is the old one
(`emplace` does not replace a present key), not one with size `S` and the given
flags and file. -/
theorem mapFile_postcondition_counterexample :
    (WellFormed [(4096, sampleArea)] ∧
      mapFile ⟨some 1, [(4096, sampleArea)]⟩ 4096 (some 7) (some 2) 0 0 false 5
          (kernelMapsAt 4096) = .done (.ok 4096, ⟨some 1, [(4096, sampleArea)]⟩) ∧
      roundUpPage 0 = 0 ∧ sampleArea.areaSize = 8192 ∧ sampleArea.nativeFlags = 3) ∧
    (WellFormed [(18446744073709543424, { sampleArea with areaSize := 4096 })] ∧
      mapFile ⟨some 1, [(18446744073709543424, { sampleArea with areaSize := 4096 })]⟩ 0
          (some 7) (some 2) 0 8192 false 5 (kernelMapsAt 18446744073709543424) =
        .done (.ok 18446744073709543424,
          ⟨some 1, [(18446744073709543424, { sampleArea with areaSize := 4096 })]⟩) ∧
      roundUpPage 8192 = 8192 ∧ sampleArea.nativeFlags = 3) := by
  decide

/-- C2, amended. On a non-overlapping map, when the kernel calls succeed and
the mapping is placed at `A`, for a non-zero size and `S` the size rounded up to
the page size with `A + S` not wrapping: `mapFile` returns `A`; the entry keyed
at `A` has size `S` and the given copy-on-write flag, flags, file and offset; no
other entry meets `[A, A+S)`; every address outside `[A, A+S)` is mapped as
before (same coverage, flags, copy-on-write flag, file and file offset). -/
theorem mapFile_postcondition (self : VmContext) (hint : Nat) (memory : Descriptor)
    (file : Option Nat) (offset size : Nat) (copyOnWrite : Bool) (nativeFlags : Nat)
    (k : MapFileKernel) (A : Nat) (hw : WellFormed self._areaTree) (hsize : 0 < size)
    (hsum : A + roundUpPage size < wordMod)
    (hcow : copyOnWrite = true → k.copyOnWrite.1 = HelError.kHelErrNone)
    (hmap : k.mapMemory = (HelError.kHelErrNone, A)) :
    ∃ c2 area, mapFile self hint memory file offset size copyOnWrite nativeFlags k =
        .done (.ok A, c2) ∧
      mapFind c2._areaTree A = some area ∧
      area.areaSize = roundUpPage size ∧ area.copyOnWrite = copyOnWrite ∧
      area.nativeFlags = nativeFlags ∧ area.file = file ∧ area.offset = offset ∧
      (∀ e ∈ c2._areaTree, e.1 ≠ A →
        ∀ x, A ≤ x → x < A + roundUpPage size → ¬ inArea e x) ∧
      (∀ x, ¬ (A ≤ x ∧ x < A + roundUpPage size) →
        lookupAddr c2._areaTree x = lookupAddr self._areaTree x) := by
  have hal := alignSize_of_sum hsum
  obtain ⟨t2, hp, heq⟩ := mapFile_spec self hint memory file offset size copyOnWrite
    nativeFlags k A hw (by rw [hal]; exact hsum) hcow hmap
  rw [hal] at hp
  obtain ⟨hw4, hnew, hnodes, hcov⟩ := inserted_spec hp (roundUpPage_pos hsize) hsum
    (newArea memory file offset size copyOnWrite nativeFlags k) hal
  rw [hal] at heq
  refine ⟨_, newArea memory file offset size copyOnWrite nativeFlags k, heq,
    mapFind_of_mem hw4.1 hnew, hal, rfl, rfl, rfl, rfl, ?_, ?_⟩
  · intro e he hk
    rcases hnodes e he with h | ⟨_, _, h⟩
    · rw [h] at hk; exact absurd rfl hk
    · exact h
  · intro x hx
    exact lookupAddr_congr hw hw4 x (hcov x hx)

/-- C2, amended, at the map holding two pages at 4096, with one page mapped at
8192. -/
theorem mapFile_postcondition_witness :
    WellFormed [(4096, sampleArea)] ∧ 0 < 4096 ∧ 8192 + roundUpPage 4096 < wordMod ∧
    ∃ c2 area, mapFile ⟨some 1, [(4096, sampleArea)]⟩ 0 (some 7) (some 2) 0 4096 false 5
        (kernelMapsAt 8192) = .done (.ok 8192, c2) ∧
      mapFind c2._areaTree 8192 = some area ∧
      area.areaSize = roundUpPage 4096 ∧ area.copyOnWrite = false ∧
      area.nativeFlags = 5 ∧ area.file = some 2 ∧ area.offset = 0 ∧
      (∀ e ∈ c2._areaTree, e.1 ≠ 8192 →
        ∀ x, 8192 ≤ x → x < 8192 + roundUpPage 4096 → ¬ inArea e x) ∧
      (∀ x, ¬ (8192 ≤ x ∧ x < 8192 + roundUpPage 4096) →
        lookupAddr c2._areaTree x = lookupAddr [(4096, sampleArea)] x) :=
  ⟨by decide, by decide, by decide,
    mapFile_postcondition ⟨some 1, [(4096, sampleArea)]⟩ 0 (some 7) (some 2) 0 4096 false 5
      (kernelMapsAt 8192) 8192 (by decide) (by decide) (by decide)
      (fun h => by cases h) rfl⟩

/-- C3. `mapFile` failure is typed and atomic: once the mapping call is reached,
an 'already exists' answer makes `mapFile` return `Error::alreadyExists` and a
'no memory' answer `Error::noMemory`, both with the context exactly as before;
every other kernel error ends in the fatal check, not in a returned error. -/
theorem mapFile_failure_atomic (self : VmContext) (hint : Nat) (memory : Descriptor)
    (file : Option Nat) (offset size : Nat) (copyOnWrite : Bool) (nativeFlags : Nat)
    (k : MapFileKernel)
    (hcow : copyOnWrite = true → k.copyOnWrite.1 = HelError.kHelErrNone) :
    (k.mapMemory.1 = HelError.kHelErrAlreadyExists →
      mapFile self hint memory file offset size copyOnWrite nativeFlags k =
        .done (.error Error.alreadyExists, self)) ∧
    (k.mapMemory.1 = HelError.kHelErrNoMemory →
      mapFile self hint memory file offset size copyOnWrite nativeFlags k =
        .done (.error Error.noMemory, self)) ∧
    (∀ code, k.mapMemory.1 = HelError.kHelErrOther code →
      mapFile self hint memory file offset size copyOnWrite nativeFlags k = .fatal) := by
  refine ⟨?_, ?_, ?_⟩
  · intro h
    unfold mapFile
    cases copyOnWrite with
    | true => simp [hcow rfl, h]
    | false => simp [h]
  · intro h
    unfold mapFile
    cases copyOnWrite with
    | true => simp [hcow rfl, h]
    | false => simp [h]
  · intro code h
    unfold mapFile
    cases copyOnWrite with
    | true => simp [hcow rfl, h]
    | false => simp [h]

/-- C3 at a copy-on-write mapping over the sample map. -/
theorem mapFile_failure_atomic_witness :
    ((HelError.kHelErrNone, 9) : HelError × Nat).1 = HelError.kHelErrNone ∧
    mapFile ⟨some 1, [(4096, sampleArea)]⟩ 4096 none none 0 4096 true 3
      ⟨(HelError.kHelErrNone, 9), (HelError.kHelErrAlreadyExists, 0)⟩ =
        .done (.error Error.alreadyExists, ⟨some 1, [(4096, sampleArea)]⟩) :=
  ⟨rfl, (mapFile_failure_atomic ⟨some 1, [(4096, sampleArea)]⟩ 4096 none none 0 4096 true 3
    ⟨(HelError.kHelErrNone, 9), (HelError.kHelErrAlreadyExists, 0)⟩ (fun _ => rfl)).1 rfl⟩

/-- The 32-bit expression `(old & ~mask) | prot` bit by bit: a bit is set iff it
is set in `prot`, or set in `old` and not part of `mask`. -/
theorem clearedFlags_testBit (old mask prot i : Nat) (ho : old < 4294967296)
    (hm : mask < 4294967296) :
    ((old &&& (4294967295 - mask % 4294967296)) ||| prot).testBit i =
      ((old.testBit i && !mask.testBit i) || prot.testBit i) := by
  have h1 : (4294967295 - mask % 4294967296 : Nat) = 2 ^ 32 - (mask + 1) := by
    rw [Nat.mod_eq_of_lt hm]; norm_num; omega
  have h2 : mask < 2 ^ 32 := by norm_num; exact hm
  rw [Nat.testBit_or, Nat.testBit_and, h1, Nat.testBit_two_pow_sub_succ h2]
  by_cases hi : i < 32
  · simp [hi]
  · have hb : old.testBit i = false := by
      apply Nat.testBit_lt_two_pow
      calc old < 2 ^ 32 := by norm_num; exact ho
        _ ≤ 2 ^ i := Nat.pow_le_pow_right (by norm_num) (by omega)
    simp [hb]

/-- C4. `unmapFile` postcondition: on a non-overlapping map, with `S` the size
rounded up to the page size and `p + S` not wrapping, `unmapFile(p, size)`
returns; afterwards no region meets `[p, p+S)`, and every address outside
`[p, p+S)` is mapped as before (same coverage, flags, copy-on-write flag, file
and file offset). -/
theorem unmapFile_postcondition (self : VmContext) (p size : Nat)
    (hw : WellFormed self._areaTree) (hsum : p + roundUpPage size < wordMod) :
    ∃ c2, unmapFile self p size HelError.kHelErrNone = .done c2 ∧
      (∀ e ∈ c2._areaTree, ∀ x, p ≤ x → x < p + roundUpPage size → ¬ inArea e x) ∧
      (∀ x, ¬ (p ≤ x ∧ x < p + roundUpPage size) →
        lookupAddr c2._areaTree x = lookupAddr self._areaTree x) := by
  have hal := alignSize_of_sum hsum
  obtain ⟨t2, hp, heq⟩ := unmapFile_spec self p size hw (by rw [hal]; exact hsum)
  rw [hal] at hp heq
  refine ⟨_, heq, erased_misses_range hp hsum, ?_⟩
  intro x hx
  exact lookupAddr_congr hw (wellFormed_filter _ hp.wf) x (erased_covers_outside hp hsum hx)

/-- C4 at the two-page sample map, unmapping the page in its middle. -/
theorem unmapFile_postcondition_witness :
    WellFormed [(4096, sampleArea)] ∧ 6144 + roundUpPage 4000 < wordMod ∧
    ∃ c2, unmapFile ⟨some 1, [(4096, sampleArea)]⟩ 6144 4000 HelError.kHelErrNone = .done c2 ∧
      (∀ e ∈ c2._areaTree, ∀ x, 6144 ≤ x → x < 6144 + roundUpPage 4000 → ¬ inArea e x) ∧
      (∀ x, ¬ (6144 ≤ x ∧ x < 6144 + roundUpPage 4000) →
        lookupAddr c2._areaTree x = lookupAddr [(4096, sampleArea)] x) :=
  ⟨by decide, by decide,
    unmapFile_postcondition ⟨some 1, [(4096, sampleArea)]⟩ 6144 4000 (by decide) (by decide)⟩

/-- C5 as stated fails when `p + S` wraps: for the page at `2^64 - 8192` and
`protectFile(2^64 - 8192, 8192, 256)` the call returns with the map unchanged, so
the covered address `p` of the target range keeps the flags 3 instead of taking
`(3 & ~mask) | 256`, whatever the permission mask. -/
theorem protectFile_postcondition_counterexample :
    WellFormed [(18446744073709543424, { sampleArea with areaSize := 4096 })] ∧
      protectFile 1792
          ⟨some 1, [(18446744073709543424, { sampleArea with areaSize := 4096 })]⟩
          18446744073709543424 8192 256 HelError.kHelErrNone =
        .done ⟨some 1, [(18446744073709543424, { sampleArea with areaSize := 4096 })]⟩ ∧
      roundUpPage 8192 = 8192 ∧
      (lookupAddr [(18446744073709543424, { sampleArea with areaSize := 4096 })]
        18446744073709543424).map AddrInfo.nativeFlags = some 3 ∧
      ((3 &&& (4294967295 - 1792 % 4294967296)) ||| 256) = 259 := by
  decide

/-- C5, amended. On a non-overlapping map, with `S` the size rounded up to the
page size and `p + S` not wrapping, `protectFile(p, size, prot)` returns, and
every address is mapped as before except that an address of `[p, p+S)` has the
flags `(old & ~mask) | prot`, `mask` being the three permission bits: coverage,
copy-on-write flags, files and file offsets are unchanged, addresses outside
`[p, p+S)` keep their flags, and within 32 bits a bit of the new flags is set iff
it is set in `prot` or it is a bit of the old flags outside `mask`. -/
theorem protectFile_postcondition (protMask : Nat) (self : VmContext) (p size prot : Nat)
    (hw : WellFormed self._areaTree) (hsum : p + roundUpPage size < wordMod) :
    (∃ c2, protectFile protMask self p size prot HelError.kHelErrNone = .done c2 ∧
      ∀ x, lookupAddr c2._areaTree x =
        (lookupAddr self._areaTree x).map (fun i =>
          if p ≤ x ∧ x < p + roundUpPage size then
            { i with nativeFlags :=
                (i.nativeFlags &&& (4294967295 - protMask % 4294967296)) ||| prot }
          else i)) ∧
    (∀ old b, old < 4294967296 → protMask < 4294967296 →
      ((old &&& (4294967295 - protMask % 4294967296)) ||| prot).testBit b =
        ((old.testBit b && !protMask.testBit b) || prot.testBit b)) := by
  have hal := alignSize_of_sum hsum
  obtain ⟨t2, hp, heq⟩ := protectFile_spec protMask self p size prot hw
    (by rw [hal]; exact hsum)
  rw [hal] at hp heq
  refine ⟨⟨_, heq, ?_⟩, fun old b ho hm => clearedFlags_testBit old protMask prot b ho hm⟩
  intro x
  exact lookupAddr_protected hw (protected_wellFormed protMask prot p _ hp.wf)
    (protectInfo protMask prot p (roundUpPage size) x) x
    (protected_covers protMask prot hp hsum x)

/-- C5, amended, at the two-page sample map, protecting its second page. -/
theorem protectFile_postcondition_witness :
    WellFormed [(4096, sampleArea)] ∧ 8192 + roundUpPage 4096 < wordMod ∧
    ((∃ c2, protectFile 1792 ⟨some 1, [(4096, sampleArea)]⟩ 8192 4096 256
        HelError.kHelErrNone = .done c2 ∧
      ∀ x, lookupAddr c2._areaTree x =
        (lookupAddr [(4096, sampleArea)] x).map (fun i =>
          if 8192 ≤ x ∧ x < 8192 + roundUpPage 4096 then
            { i with nativeFlags :=
                (i.nativeFlags &&& (4294967295 - 1792 % 4294967296)) ||| 256 }
          else i)) ∧
    (∀ old b, old < 4294967296 → 1792 < 4294967296 →
      ((old &&& (4294967295 - 1792 % 4294967296)) ||| 256).testBit b =
        ((old.testBit b && !Nat.testBit 1792 b) || Nat.testBit 256 b))) :=
  ⟨by decide, by decide,
    protectFile_postcondition 1792 ⟨some 1, [(4096, sampleArea)]⟩ 8192 4096 256
      (by decide) (by decide)⟩

/-! ## Page alignment -/

theorem dvd_uadd {a b : Nat} (ha : 4096 ∣ a) (hb : 4096 ∣ b) : 4096 ∣ uadd a b := by
  unfold uadd wordMod; omega

theorem dvd_usub {a b : Nat} (ha : 4096 ∣ a) (hb : 4096 ∣ b) : 4096 ∣ usub a b := by
  unfold usub wordMod; omega

theorem pageAligned_emplace {t : AreaTree} {key : Nat} {area : Area} (ht : PageAligned t)
    (hk : 4096 ∣ key) (ha : 4096 ∣ area.areaSize) : PageAligned (emplace t key area) := by
  intro e he
  rcases mem_emplace he with h | h
  · exact ht e h
  · subst h; exact ⟨hk, ha⟩

theorem pageAligned_mapErase {t : AreaTree} (key : Nat) (ht : PageAligned t) :
    PageAligned (mapErase t key) := by
  intro e he
  exact ht e (mem_mapErase.mp he).1

theorem performSingleSplit_aligned {t t1 : AreaTree} {addr : Nat} {it : Iter}
    (ht : PageAligned t) (ha : 4096 ∣ addr)
    (h : performSingleSplit t addr = .done (t1, it)) : PageAligned t1 := by
  unfold performSingleSplit at h
  simp only at h
  split at h
  · cases h
  · rename_i base _
    split at h
    · cases h
    · rename_i area hfind
      have hb := ht _ (mem_of_mapFind hfind)
      simp only at hb
      split at h
      · cases h
        intro e he
        obtain ⟨e0, he0, rfl⟩ := mem_mapUpdate.mp he
        have h0 : 4096 ∣ e0.1 ∧ 4096 ∣ e0.2.areaSize := by
          rcases mem_emplace he0 with h1 | h1
          · exact ht e0 h1
          · subst h1
            exact ⟨ha, dvd_usub hb.2 (dvd_usub ha hb.1)⟩
        by_cases hk : e0.1 = base
        · simp only [hk, if_true]
          exact ⟨hb.1, dvd_usub ha hb.1⟩
        · simp only [hk, if_false]
          exact h0
      · cases h
        exact ht

theorem splitAreaOn_aligned {t t2 : AreaTree} {addr size : Nat} {startIt endIt : Iter}
    (ht : PageAligned t) (ha : 4096 ∣ addr) (hs : 4096 ∣ size)
    (h : splitAreaOn_ t addr size = .done (t2, startIt, endIt)) : PageAligned t2 := by
  unfold splitAreaOn_ at h
  split at h
  · cases h; exact ht
  · split at h
    · cases h
    · cases h
    · rename_i t1 it1 h1
      split at h
      · cases h
      · cases h
      · rename_i t2b it2 h2
        cases h
        exact performSingleSplit_aligned (performSingleSplit_aligned ht ha h1)
          (dvd_uadd ha hs) h2

theorem eraseLoop_subset (address S : Nat) (endIt : Iter) :
    ∀ (fuel : Nat) (t : AreaTree) (it : Iter) (t3 : AreaTree),
      eraseLoop address S endIt fuel t it = .done t3 → ∀ e ∈ t3, e ∈ t := by
  intro fuel
  induction fuel with
  | zero => intro t it t3 h; simp [eraseLoop] at h
  | succ n ih =>
    intro t it t3 h
    unfold eraseLoop at h
    split at h
    · cases h; exact fun e he => he
    · split at h
      · cases h
      · split at h
        · cases h
        · split at h
          · intro e he
            exact (mem_mapErase.mp (ih _ _ _ h e he)).1
          · exact ih _ _ _ h

theorem protectLoop_aligned (protMask prot address S : Nat) (endIt : Iter) :
    ∀ (fuel : Nat) (t : AreaTree) (it : Iter) (t3 : AreaTree), PageAligned t →
      protectLoop protMask prot address S endIt fuel t it = .done t3 → PageAligned t3 := by
  intro fuel
  induction fuel with
  | zero => intro t it t3 _ h; simp [protectLoop] at h
  | succ n ih =>
    intro t it t3 ht h
    unfold protectLoop at h
    split at h
    · cases h; exact ht
    · split at h
      · cases h
      · split at h
        · cases h
        · split at h
          · refine ih _ _ _ ?_ h
            intro e he
            obtain ⟨e0, he0, rfl⟩ := mem_mapUpdate.mp he
            have := ht e0 he0
            split
            · exact this
            · exact this
          · exact ih _ _ _ ht h

theorem mapFile_aligned {self c2 : VmContext} {hint : Nat} {memory : Descriptor}
    {file : Option Nat} {offset size : Nat} {copyOnWrite : Bool} {nativeFlags : Nat}
    {k : MapFileKernel} {A : Nat} (ht : PageAligned self._areaTree) (hA : 4096 ∣ A)
    (h : mapFile self hint memory file offset size copyOnWrite nativeFlags k =
      .done (.ok A, c2)) : PageAligned c2._areaTree := by
  obtain ⟨hcow, hmap⟩ := mapFile_ok_inv h
  obtain ⟨⟨ce, ch⟩, ⟨me, mp⟩⟩ := k
  cases hmap
  unfold mapFile at h
  have key : ∀ (area : Area), 4096 ∣ area.areaSize →
      (match splitAreaOn_ self._areaTree A (alignSize size) with
        | .fatal => (Outcome.fatal : Outcome (Except Error Nat × VmContext))
        | .undefined => .undefined
        | .done (t2, startIt, endIt) =>
          match eraseLoop A (alignSize size) endIt (t2.length + 1) t2 startIt with
          | .fatal => .fatal
          | .undefined => .undefined
          | .done t3 => .done (.ok A, VmContext.mk self._space (emplace t3 A area))) =
        .done (.ok A, c2) → PageAligned c2._areaTree := by
    intro area harea h
    split at h
    · cases h
    · cases h
    · rename_i t2 startIt endIt hsplit
      have h2 := splitAreaOn_aligned ht hA (alignSize_dvd size) hsplit
      split at h
      · cases h
      · cases h
      · rename_i t3 hloop
        cases h
        refine pageAligned_emplace ?_ hA harea
        intro e he
        exact h2 e (eraseLoop_subset _ _ _ _ _ _ _ hloop e he)
  cases copyOnWrite with
  | true =>
    have hc : ce = HelError.kHelErrNone := hcow rfl
    subst hc
    simp only [ne_eq, not_true_eq_false, if_false, if_true, reduceCtorEq] at h
    exact key _ (alignSize_dvd size) h
  | false =>
    simp only [Bool.false_eq_true, ne_eq, not_true_eq_false, if_false, reduceCtorEq] at h
    exact key _ (alignSize_dvd size) h

theorem unmapFile_aligned {self c2 : VmContext} {p size : Nat} {err : HelError}
    (ht : PageAligned self._areaTree) (hp : 4096 ∣ p)
    (h : unmapFile self p size err = .done c2) : PageAligned c2._areaTree := by
  have he := unmapFile_done_inv h
  subst he
  unfold unmapFile at h
  simp only [ne_eq, not_true_eq_false, if_false] at h
  split at h
  · cases h
  · cases h
  · rename_i t2 startIt endIt hsplit
    have h2 := splitAreaOn_aligned ht hp (alignSize_dvd size) hsplit
    split at h
    · cases h
    · cases h
    · rename_i t3 hloop
      cases h
      intro e he
      exact h2 e (eraseLoop_subset _ _ _ _ _ _ _ hloop e he)

theorem protectFile_aligned {self c2 : VmContext} {protMask p size prot : Nat}
    {err : HelError} (ht : PageAligned self._areaTree) (hp : 4096 ∣ p)
    (h : protectFile protMask self p size prot err = .done c2) :
    PageAligned c2._areaTree := by
  have he := protectFile_done_inv h
  subst he
  unfold protectFile at h
  simp only [ne_eq, not_true_eq_false, if_false] at h
  split at h
  · cases h
  · cases h
  · rename_i t2 startIt endIt hsplit
    have h2 := splitAreaOn_aligned ht hp (alignSize_dvd size) hsplit
    split at h
    · cases h
    · cases h
    · rename_i t3 hloop
      cases h
      exact protectLoop_aligned _ _ _ _ _ _ _ _ _ h2 hloop

theorem remapFile_aligned {self c2 : VmContext} {oldPointer oldSize newSize : Nat}
    {k : RemapKernel} {A : Nat} (ht : PageAligned self._areaTree) (hA : 4096 ∣ A)
    (h : remapFile self oldPointer oldSize newSize k = .done (A, c2)) :
    PageAligned c2._areaTree := by
  unfold remapFile at h
  simp only at h
  split at h
  · cases h
  · split at h
    · cases h
    · split at h
      · cases h
      · split at h
        · cases h
        · split at h
          · cases h
          · split at h
            · cases h
            · split at h
              · cases h
              · cases h
              · cases h
                exact pageAligned_emplace (pageAligned_mapErase _ ht) hA (alignSize_dvd newSize)

theorem cloneAreas_aligned (k : CloneKernel) :
    ∀ (rest built t : AreaTree), PageAligned rest → PageAligned built →
      cloneAreas k rest built = .done t → PageAligned t := by
  intro rest
  induction rest with
  | nil =>
    intro built t _ hb h
    simp only [cloneAreas] at h
    cases h; exact hb
  | cons hd tl ih =>
    obtain ⟨address, area⟩ := hd
    intro built t hr hb h
    have hhd := hr (address, area) (List.mem_cons_self _ _)
    have htl : PageAligned tl := fun e he => hr e (List.mem_cons_of_mem _ he)
    simp only [cloneAreas] at h
    split at h
    · cases h
    · cases h
    · exact ih _ _ htl (pageAligned_emplace hb hhd.1 (by exact hhd.2)) h

theorem clone_aligned {original c2 : VmContext} {k : CloneKernel}
    (ht : PageAligned original._areaTree) (h : VmContext.clone original k = .done c2) :
    PageAligned c2._areaTree := by
  unfold VmContext.clone at h
  split at h
  · cases h
  · split at h
    · cases h
    · cases h
    · rename_i t hc
      cases h
      exact cloneAreas_aligned k _ _ _ ht (fun e he => by simp at he) hc

/-- C6 as stated fails: mapping two pages at 4096 and then calling `unmapFile`
with the unaligned pointer 6144 (the kernel accepting both calls, all addresses it
returns being page-aligned) splits the region at 6144 and at 10240 and leaves two
regions of 2048 bytes, the second with the base 10240. -/
theorem page_alignment_counterexample :
    VmOps false ⟨some 1, [(4096, { sampleArea with areaSize := 2048 }),
        (10240, { sampleArea with areaSize := 2048, offset := 6144 })]⟩ ∧
      ¬ PageAligned [(4096, { sampleArea with areaSize := 2048 }),
        (10240, { sampleArea with areaSize := 2048, offset := 6144 })] :=
  ⟨VmOps.unmapFile 6144 4096 HelError.kHelErrNone
      (VmOps.mapFile 0 (some 7) (some 1) 0 8192 false 3 (kernelMapsAt 4096) 4096
        (VmOps.create (some 1)) (by decide)
        (show mapFile ⟨some 1, []⟩ 0 (some 7) (some 1) 0 8192 false 3 (kernelMapsAt 4096) =
          .done (.ok 4096, ⟨some 1, [(4096, sampleArea)]⟩) from by decide))
      (fun h => by cases h) (by decide),
    by decide⟩

/-- C6, amended. In every region map reached from the empty map by `mapFile`,
`unmapFile`, `protectFile`, `remapFile` and `VmContext::clone`, with a kernel that
returns page-aligned addresses only and with page-aligned pointers passed to
`unmapFile` and `protectFile`, every region's base and size are multiples of
4096, for all size arguments. -/
theorem page_alignment_invariant (c : VmContext) (h : VmOps true c) :
    PageAligned c._areaTree := by
  induction h with
  | create space => intro e he; simp at he
  | mapFile hint memory file offset size cow flags k A _ hA hres ih =>
    exact mapFile_aligned ih hA hres
  | unmapFile p size err _ hp hres ih => exact unmapFile_aligned ih (hp rfl) hres
  | protectFile protMask p size prot err _ hp hres ih =>
    exact protectFile_aligned ih (hp rfl) hres
  | remapFile oldPointer oldSize newSize k A _ hA hres ih =>
    exact remapFile_aligned ih hA hres
  | clone k _ hres ih => exact clone_aligned ih hres

/-- C6, amended, at the map reached by mapping two pages at 4096 and unmapping
the second of them with the aligned pointer 8192. -/
theorem page_alignment_invariant_witness :
    VmOps true ⟨some 1, [(4096, { sampleArea with areaSize := 4096 })]⟩ ∧
      PageAligned [(4096, { sampleArea with areaSize := 4096 })] :=
  ⟨VmOps.unmapFile 8192 100 HelError.kHelErrNone
      (VmOps.mapFile 0 (some 7) (some 1) 0 8192 false 3 (kernelMapsAt 4096) 4096
        (VmOps.create (some 1)) (by decide)
        (show mapFile ⟨some 1, []⟩ 0 (some 7) (some 1) 0 8192 false 3 (kernelMapsAt 4096) =
          .done (.ok 4096, ⟨some 1, [(4096, sampleArea)]⟩) from by decide))
      (fun _ => by decide) (by decide),
    page_alignment_invariant ⟨some 1, [(4096, { sampleArea with areaSize := 4096 })]⟩
      (VmOps.unmapFile 8192 100 HelError.kHelErrNone
        (VmOps.mapFile 0 (some 7) (some 1) 0 8192 false 3 (kernelMapsAt 4096) 4096
          (VmOps.create (some 1)) (by decide)
          (show mapFile ⟨some 1, []⟩ 0 (some 7) (some 1) 0 8192 false 3 (kernelMapsAt 4096) =
            .done (.ok 4096, ⟨some 1, [(4096, sampleArea)]⟩) from by decide))
        (fun _ => by decide) (by decide))⟩

/-! ## Lemmas on the signal queues -/

theorem and_bit_eq_zero (mask i : Nat) : mask &&& (1 <<< i) = 0 ↔ mask.testBit i = false := by
  rw [Nat.one_shiftLeft, Nat.and_two_pow]
  cases h : mask.testBit i with
  | false => simp
  | true =>
    simp only [Bool.toNat_true, Nat.one_mul]
    have : 0 < 2 ^ i := Nat.two_pow_pos i
    constructor
    · intro h0; omega
    · intro h0; cases h0

theorem testBit_setBit (a i j : Nat) :
    (a ||| (1 <<< i)).testBit j = (a.testBit j || decide (i = j)) := by
  rw [Nat.testBit_or, Nat.one_shiftLeft, Nat.testBit_two_pow]

theorem testBit_clearBit (a i j : Nat) (hi : i < 64) :
    (a &&& (wordMod - 1 - (1 <<< i))).testBit j =
      (a.testBit j && (decide (j < 64) && !decide (i = j))) := by
  have h1 : (2 : Nat) ^ i < 2 ^ 64 := Nat.pow_lt_pow_right (by norm_num) hi
  have h2 : wordMod - 1 - (1 <<< i) = 2 ^ 64 - (2 ^ i + 1) := by
    rw [Nat.one_shiftLeft]; unfold wordMod; norm_num; omega
  rw [Nat.testBit_and, h2, Nat.testBit_two_pow_sub_succ h1, Nat.testBit_two_pow]

theorem slot_set (s : SignalContext) (i j : Nat) (v : SignalSlot) (hi : i < s._slots.length) :
    (s._slots.set i v).getD j SignalSlot.idle = if i = j then v else s.slot j := by
  unfold SignalContext.slot
  simp only [List.getD_eq_getElem?_getD, List.getElem?_set]
  by_cases h : i = j
  · simp [h, hi]; subst h; simp [hi]
  · simp [h]

theorem fetchScan_spec (s : SignalContext) (mask : Nat) :
    ∀ (fuel sn : Nat), sn + fuel = 65 → 1 ≤ sn →
      (fetchScan s mask fuel sn = 65 ∧ ∀ n, sn ≤ n → ¬ Eligible s mask n) ∨
      (Eligible s mask (fetchScan s mask fuel sn) ∧ sn ≤ fetchScan s mask fuel sn ∧
        ∀ n, sn ≤ n → Eligible s mask n → fetchScan s mask fuel sn ≤ n) := by
  intro fuel
  induction fuel with
  | zero =>
    intro sn h _
    left
    refine ⟨by simp only [fetchScan]; omega, ?_⟩
    intro n hn he
    unfold Eligible at he
    omega
  | succ k ih =>
    intro sn h h1
    have hle : sn ≤ 64 := by omega
    simp only [fetchScan, hle, if_true]
    have hstep : ¬ Eligible s mask sn →
        (fetchScan s mask k (sn + 1) = 65 ∧ ∀ n, sn ≤ n → ¬ Eligible s mask n) ∨
        (Eligible s mask (fetchScan s mask k (sn + 1)) ∧ sn ≤ fetchScan s mask k (sn + 1) ∧
          ∀ n, sn ≤ n → Eligible s mask n → fetchScan s mask k (sn + 1) ≤ n) := by
      intro hno
      rcases ih (sn + 1) (by omega) (by omega) with ⟨h65, hnone⟩ | ⟨hel, hge, hmin⟩
      · left
        refine ⟨h65, ?_⟩
        intro n hn
        by_cases heq : n = sn
        · rw [heq]; exact hno
        · exact hnone n (by omega)
      · right
        refine ⟨hel, by omega, ?_⟩
        intro n hn he
        by_cases heq : n = sn
        · rw [heq] at he; exact absurd he hno
        · exact hmin n (by omega) he
    by_cases hm : mask &&& (1 <<< (sn - 1)) = 0
    · rw [if_pos hm]
      apply hstep
      intro he
      rw [and_bit_eq_zero] at hm
      unfold Eligible at he
      rw [hm] at he
      exact absurd he.2.2.1 (by simp)
    · rw [if_neg hm]
      by_cases hq : (s.slot (sn - 1)).asyncQueue.isEmpty = true
      · have : ¬ ¬ (s.slot (sn - 1)).asyncQueue.isEmpty = true := fun h => h hq
        rw [if_neg this]
        apply hstep
        intro he
        unfold Eligible at he
        rw [List.isEmpty_iff] at hq
        exact he.2.2.2 hq
      · rw [if_pos hq]
        right
        have hb : mask.testBit (sn - 1) = true := by
          rw [and_bit_eq_zero] at hm
          simpa using hm
        refine ⟨⟨h1, hle, hb, ?_⟩, Nat.le_refl _, fun n hn _ => hn⟩
        intro hcon
        apply hq
        rw [List.isEmpty_iff]; exact hcon

/-- The scan of `fetchSignal` ends at the least eligible signal, or at 65 when
there is none. -/
theorem fetchScan_result (s : SignalContext) (mask : Nat) :
    (fetchScan s mask 64 1 = 65 ∧ ∀ n, ¬ Eligible s mask n) ∨
      LeastEligible s mask (fetchScan s mask 64 1) := by
  rcases fetchScan_spec s mask 64 1 rfl (Nat.le_refl 1) with ⟨h65, hnone⟩ | ⟨hel, _, hmin⟩
  · left
    refine ⟨h65, fun n he => hnone n he.1 he⟩
  · right
    exact ⟨hel, fun m hm => hmin m hm.1 hm⟩

/-- The context after `issueSignal(sn, info)`, field by field. -/
theorem issueSignal_spec (s : SignalContext) (sn : Int) (info : SignalInfo)
    (h1 : 1 ≤ sn) (h64 : sn ≤ 64) (hlen : s._slots.length = 64) :
    ∃ s2, issueSignal s sn info = .done s2 ∧
      s2._currentSeq = uadd s._currentSeq 1 ∧ s2._handlers = s._handlers ∧
      s2._slots.length = 64 ∧
      (∀ j, s2.slot j = if (sn - 1).toNat = j then
          { raiseSeq := uadd s._currentSeq 1
            asyncQueue := (s.slot (sn - 1).toNat).asyncQueue ++
              [{ signalNumber := sn, info := info }] }
        else s.slot j) ∧
      (∀ j, s2._activeSet.testBit j =
        (s._activeSet.testBit j || decide ((sn - 1).toNat = j))) := by
  have ha : ¬ ¬ (sn > 0) := by omega
  have hb : ¬ ¬ (sn - 1 < 64) := by omega
  have hi : (sn - 1).toNat < s._slots.length := by omega
  refine ⟨{ s with
      _currentSeq := uadd s._currentSeq 1
      _slots := (s._slots.set (sn - 1).toNat
        { raiseSeq := uadd s._currentSeq 1
          asyncQueue := (s.slot (sn - 1).toNat).asyncQueue ++
            [{ signalNumber := sn, info := info }] })
      _activeSet := s._activeSet ||| (1 <<< (sn - 1).toNat) },
    by simp only [issueSignal, ha, hb, if_false], rfl, rfl, ?_, ?_, ?_⟩
  · simp [hlen]
  · intro j
    exact slot_set s _ j _ hi
  · intro j
    exact testBit_setBit _ _ _

/-- The context after a `fetchSignal` that finds the least eligible signal `n`. -/
theorem fetchSignal_found (s : SignalContext) (mask n : Nat) (nonBlock : Bool)
    (hn : LeastEligible s mask n) (hlen : s._slots.length = 64) :
    ∃ item rest s2, (s.slot (n - 1)).asyncQueue = item :: rest ∧
      fetchSignal s mask nonBlock = .done (.item item, s2) ∧
      s2._currentSeq = s._currentSeq ∧ s2._handlers = s._handlers ∧
      s2._slots.length = 64 ∧
      (∀ j, s2.slot j = if n - 1 = j then { s.slot (n - 1) with asyncQueue := rest }
        else s.slot j) ∧
      (∀ j, s2._activeSet.testBit j =
        if rest = [] then (s._activeSet.testBit j && (decide (j < 64) && !decide (n - 1 = j)))
        else s._activeSet.testBit j) := by
  have hscan : fetchScan s mask 64 1 = n := by
    rcases fetchScan_result s mask with ⟨_, hnone⟩ | hl
    · exact absurd hn.1 (hnone n)
    · exact Nat.le_antisymm (hl.2 n hn.1) (hn.2 _ hl.1)
  obtain ⟨hn1, hn64, _, hq⟩ := hn.1
  have hne : n - 1 ≠ 64 := by omega
  have hi : n - 1 < s._slots.length := by omega
  cases hqe : (s.slot (n - 1)).asyncQueue with
  | nil => exact absurd hqe hq
  | cons item rest =>
    by_cases hr : rest = []
    · subst hr
      refine ⟨item, [], { s with
          _slots := (s._slots.set (n - 1) { s.slot (n - 1) with asyncQueue := [] })
          _activeSet := s._activeSet &&& (wordMod - 1 - (1 <<< (n - 1))) },
        rfl, ?_, rfl, rfl, ?_, ?_, ?_⟩
      · simp only [fetchSignal, hscan, hne, ne_eq, not_false_eq_true, if_true, hqe,
          List.isEmpty_nil]
      · simp [hlen]
      · intro j; exact slot_set s _ j _ hi
      · intro j
        simp only [if_true]
        exact testBit_clearBit _ _ _ (by omega)
    · have hemp : rest.isEmpty = false := by
        cases rest with
        | nil => exact absurd rfl hr
        | cons a b => rfl
      refine ⟨item, rest, { s with
          _slots := (s._slots.set (n - 1) { s.slot (n - 1) with asyncQueue := rest }) },
        rfl, ?_, rfl, rfl, ?_, ?_, ?_⟩
      · simp only [fetchSignal, hscan, hne, ne_eq, not_false_eq_true, if_true, hqe, hemp,
          Bool.false_eq_true, if_false]
      · simp [hlen]
      · intro j; exact slot_set s _ j _ hi
      · intro j
        simp only [hr, if_false]

/-- A `fetchSignal` that finds no eligible signal changes nothing. -/
theorem fetchSignal_none (s : SignalContext) (mask : Nat) (nonBlock : Bool)
    (hnone : ∀ n, ¬ Eligible s mask n) :
    fetchSignal s mask nonBlock =
      .done (if nonBlock then FetchResult.null else FetchResult.suspended, s) := by
  have hscan : fetchScan s mask 64 1 = 65 := by
    rcases fetchScan_result s mask with ⟨h, _⟩ | hl
    · exact h
    · exact absurd hl.1 (hnone _)
  simp only [fetchSignal, hscan]
  cases nonBlock <;> simp

/-- A call of `fetchSignal` either finds nothing and changes nothing, or pops the
head of the queue of the least eligible signal. -/
theorem fetchSignal_cases (s : SignalContext) (mask : Nat) (nonBlock : Bool)
    (hlen : s._slots.length = 64) :
    ((∀ n, ¬ Eligible s mask n) ∧ fetchSignal s mask nonBlock =
        .done (if nonBlock then FetchResult.null else FetchResult.suspended, s)) ∨
    (∃ n item rest s2, LeastEligible s mask n ∧
      (s.slot (n - 1)).asyncQueue = item :: rest ∧
      fetchSignal s mask nonBlock = .done (.item item, s2) ∧
      s2._currentSeq = s._currentSeq ∧ s2._handlers = s._handlers ∧
      s2._slots.length = 64 ∧
      (∀ j, s2.slot j = if n - 1 = j then { s.slot (n - 1) with asyncQueue := rest }
        else s.slot j) ∧
      (∀ j, s2._activeSet.testBit j =
        if rest = [] then (s._activeSet.testBit j && (decide (j < 64) && !decide (n - 1 = j)))
        else s._activeSet.testBit j)) := by
  rcases fetchScan_result s mask with ⟨_, hnone⟩ | hl
  · exact Or.inl ⟨hnone, fetchSignal_none s mask nonBlock hnone⟩
  · obtain ⟨item, rest, s2, h⟩ := fetchSignal_found s mask _ nonBlock hl hlen
    exact Or.inr ⟨_, item, rest, s2, hl, h⟩

theorem issueSignal_done_inv {s s2 : SignalContext} {sn : Int} {info : SignalInfo}
    (h : issueSignal s sn info = .done s2) : 1 ≤ sn ∧ sn ≤ 64 := by
  unfold issueSignal at h
  by_cases ha : sn > 0
  · by_cases hb : sn - 1 < 64
    · omega
    · simp [ha, hb] at h
  · simp [ha] at h

theorem slotsInv_init (handlers : List SignalHandler) : SlotsInv (SignalContext.init handlers) := by
  have hslot : ∀ j, (SignalContext.init handlers).slot j = SignalSlot.idle := by
    intro j
    unfold SignalContext.slot SignalContext.init
    simp only [List.getD_eq_getElem?_getD, List.getElem?_replicate]
    split <;> rfl
  refine ⟨by simp [SignalContext.init], ?_, ?_⟩
  · intro j _
    rw [hslot]
    simp [SignalContext.init, SignalSlot.idle]
  · intro j _ it hit
    rw [hslot] at hit
    simp [SignalSlot.idle] at hit

theorem slotsInv_issue {s s2 : SignalContext} {sn : Int} {info : SignalInfo}
    (hs : SlotsInv s) (h : issueSignal s sn info = .done s2) : SlotsInv s2 := by
  obtain ⟨h1, h64⟩ := issueSignal_done_inv h
  obtain ⟨s3, heq, _, _, hlen, hslot, hbit⟩ := issueSignal_spec s sn info h1 h64 hs.len
  rw [heq] at h
  cases h
  refine ⟨hlen, ?_, ?_⟩
  · intro j hj
    rw [hbit, hslot]
    by_cases hij : (sn - 1).toNat = j
    · simp [hij]
    · simp only [hij, decide_False, Bool.or_false, if_false]
      exact hs.active j hj
  · intro j hj it hit
    rw [hslot] at hit
    by_cases hij : (sn - 1).toNat = j
    · simp only [hij, if_true, List.mem_append, List.mem_singleton] at hit
      rcases hit with h2 | h2
      · exact hs.numbered j hj it h2
      · rw [h2]; simp only; omega
    · simp only [hij, if_false] at hit
      exact hs.numbered j hj it hit

theorem slotsInv_fetch {s s2 : SignalContext} {mask : Nat} {nonBlock : Bool}
    {r : FetchResult} (hs : SlotsInv s) (h : fetchSignal s mask nonBlock = .done (r, s2)) :
    SlotsInv s2 := by
  rcases fetchSignal_cases s mask nonBlock hs.len with ⟨_, heq⟩ | h2
  · rw [heq] at h
    cases h
    exact hs
  · obtain ⟨n, item, rest, s3, hl, hq, heq, _, _, hlen, hslot, hbit⟩ := h2
    rw [heq] at h
    cases h
    obtain ⟨hn1, hn64, _, _⟩ := hl.1
    refine ⟨hlen, ?_, ?_⟩
    · intro j hj
      rw [hbit, hslot]
      by_cases hij : n - 1 = j
      · subst hij
        by_cases hr : rest = []
        · simp [hr]
        · simp only [hr, if_false, if_true]
          have := hs.active (n - 1) hj
          rw [hq] at this
          simp only [ne_eq, not_false_eq_true, iff_true, hr] at this ⊢
          simpa using this
      · by_cases hr : rest = []
        · simp only [hr, if_true, hij, if_false, decide_False, Bool.not_false, Bool.and_true, hj,
            decide_True]
          exact hs.active j hj
        · simp only [hr, hij, if_false]
          exact hs.active j hj
    · intro j hj it hit
      rw [hslot] at hit
      by_cases hij : n - 1 = j
      · subst hij
        simp only [if_true] at hit
        exact hs.numbered (n - 1) hj it (by rw [hq]; exact List.mem_cons_of_mem _ hit)
      · simp only [hij, if_false] at hit
        exact hs.numbered j hj it hit

theorem slotsInv_of_reachable {s : SignalContext} (h : SignalReachable s) : SlotsInv s := by
  induction h with
  | init handlers => exact slotsInv_init handlers
  | issue sn info _ hres ih => exact slotsInv_issue ih hres
  | fetch mask nonBlock r _ hres ih => exact slotsInv_fetch ih hres

/-! ## Claims on the signal queues -/

theorem sampleQueued_reachable : SignalReachable sampleQueued :=
  SignalReachable.issue 5 (SignalInfo.user 1 2) (SignalReachable.init [])
    (show issueSignal (SignalContext.init []) 5 (SignalInfo.user 1 2) = .done sampleQueued
      from by decide)

theorem sampleFetched_reachable : SignalReachable sampleFetched :=
  SignalReachable.fetch 16 true (FetchResult.item ⟨5, SignalInfo.user 1 2⟩)
    sampleQueued_reachable
    (show fetchSignal sampleQueued 16 true =
      .done (FetchResult.item ⟨5, SignalInfo.user 1 2⟩, sampleFetched) from by decide)

/-- C7. Active-set invariant: in every state reached from a freshly constructed
`SignalContext` by `issueSignal` and `fetchSignal` calls, for every `n` in 1..64
bit `n-1` of the active set is set iff the queue of signal `n` is non-empty. -/
theorem active_set_invariant (s : SignalContext) (h : SignalReachable s) :
    ∀ n, 1 ≤ n → n ≤ 64 →
      (s._activeSet.testBit (n - 1) = true ↔ (s.slot (n - 1)).asyncQueue ≠ []) := by
  intro n h1 h64
  exact (slotsInv_of_reachable h).active (n - 1) (by omega)

/-- C7 at the state after issuing signal 5 and fetching it. -/
theorem active_set_invariant_witness :
    SignalReachable sampleFetched ∧
    ∀ n, 1 ≤ n → n ≤ 64 →
      (sampleFetched._activeSet.testBit (n - 1) = true ↔
        (sampleFetched.slot (n - 1)).asyncQueue ≠ []) :=
  ⟨sampleFetched_reachable, active_set_invariant sampleFetched sampleFetched_reachable⟩

theorem init_slot (handlers : List SignalHandler) (j : Nat) :
    (SignalContext.init handlers).slot j = SignalSlot.idle := by
  unfold SignalContext.slot SignalContext.init
  simp only [List.getD_eq_getElem?_getD, List.getElem?_replicate]
  split <;> rfl

/-- Signal 5 issued and then signal 2, on a fresh context: two fetches under a
mask with both bits return signal 2 first and signal 5 second. -/
theorem fetch_two_before_five (handlers : List SignalHandler) (info5 info2 : SignalInfo)
    (mask : Nat) (hm2 : mask.testBit 1 = true) (hm5 : mask.testBit 4 = true) :
    ∃ s1 s2 s3 s4, issueSignal (SignalContext.init handlers) 5 info5 = .done s1 ∧
      issueSignal s1 2 info2 = .done s2 ∧
      fetchSignal s2 mask true = .done (.item ⟨2, info2⟩, s3) ∧
      fetchSignal s3 mask true = .done (.item ⟨5, info5⟩, s4) := by
  have hlen0 := (slotsInv_init handlers).len
  obtain ⟨s1, he1, _, _, hlen1, hslot1, _⟩ :=
    issueSignal_spec (SignalContext.init handlers) 5 info5 (by decide) (by decide) hlen0
  obtain ⟨s2, he2, _, _, hlen2, hslot2, _⟩ :=
    issueSignal_spec s1 2 info2 (by decide) (by decide) hlen1
  have h54 : ((5 : Int) - 1).toNat = 4 := by decide
  have h21 : ((2 : Int) - 1).toNat = 1 := by decide
  rw [h54] at hslot1
  rw [h21] at hslot2
  have q1 : ∀ j, (s1.slot j).asyncQueue = if 4 = j then [⟨5, info5⟩] else [] := by
    intro j
    rw [hslot1 j]
    by_cases h : 4 = j
    · simp [h, init_slot, SignalSlot.idle]
    · simp [h, init_slot, SignalSlot.idle]
  have q2 : ∀ j, (s2.slot j).asyncQueue =
      if 1 = j then [⟨2, info2⟩] else if 4 = j then [⟨5, info5⟩] else [] := by
    intro j
    rw [hslot2 j]
    by_cases h : 1 = j
    · simp only [h, if_true]
      rw [q1]
      subst h
      simp
    · simp only [h, if_false]
      exact q1 j
  have l2 : LeastEligible s2 mask 2 := by
    refine ⟨⟨by omega, by omega, hm2, by rw [q2]; simp⟩, ?_⟩
    intro m hm
    obtain ⟨h1, _, _, hq⟩ := hm
    by_contra hcon
    have : m = 1 := by omega
    subst this
    rw [q2] at hq
    simp at hq
  obtain ⟨item, rest, s3, hq3, he3, _, _, hlen3, hslot3, _⟩ :=
    fetchSignal_found s2 mask 2 true l2 hlen2
  rw [q2] at hq3
  simp only [if_true, List.cons.injEq] at hq3
  obtain ⟨hi3, hr3⟩ := hq3
  subst hi3
  subst hr3
  have q3 : ∀ j, (s3.slot j).asyncQueue = if 4 = j then [⟨5, info5⟩] else [] := by
    intro j
    rw [hslot3 j]
    by_cases h : 1 = j
    · subst h; simp
    · have h' : ¬ (2 - 1 = j) := by omega
      simp only [h', if_false]
      rw [q2]
      simp only [h, if_false]
  have l5 : LeastEligible s3 mask 5 := by
    refine ⟨⟨by omega, by omega, hm5, by rw [q3]; simp⟩, ?_⟩
    intro m hm
    obtain ⟨h1, _, _, hq⟩ := hm
    by_contra hcon
    rw [q3] at hq
    have : ¬ (4 = m - 1) := by omega
    simp [this] at hq
  obtain ⟨item, rest, s4, hq4, he4, _⟩ := fetchSignal_found s3 mask 5 true l5 hlen3
  rw [q3] at hq4
  simp only [if_true, List.cons.injEq] at hq4
  obtain ⟨hi4, _⟩ := hq4
  subst hi4
  exact ⟨s1, s2, s3, s4, he1, he2, he3, he4⟩

/-- C8. Signal priority: in every reachable state and for every mask, when some
signal of 1..64 has its mask bit set and a non-empty queue, a non-blocking
`fetchSignal(mask)` returns the head item of the queue of the smallest such `n`,
and that item carries the signal number `n`; when there is none it returns the
null pointer and leaves the state unchanged; it returns the null pointer only
then. After issuing signal 5 and then signal 2 on a fresh context, two fetches
with a mask covering both return signal 2 first and signal 5 second. -/
theorem fetchSignal_priority (s : SignalContext) (h : SignalReachable s) (mask : Nat) :
    ((∃ n, Eligible s mask n) →
      ∃ n item s2, LeastEligible s mask n ∧
        fetchSignal s mask true = .done (.item item, s2) ∧
        item.signalNumber = n ∧ (s.slot (n - 1)).asyncQueue.head? = some item) ∧
    ((¬ ∃ n, Eligible s mask n) → fetchSignal s mask true = .done (.null, s)) ∧
    ((∃ s2, fetchSignal s mask true = .done (.null, s2)) ↔ ¬ ∃ n, Eligible s mask n) ∧
    (∀ (handlers : List SignalHandler) (info5 info2 : SignalInfo) (m : Nat),
      m.testBit 1 = true → m.testBit 4 = true →
      ∃ s1 s2 s3 s4, issueSignal (SignalContext.init handlers) 5 info5 = .done s1 ∧
        issueSignal s1 2 info2 = .done s2 ∧
        fetchSignal s2 m true = .done (.item ⟨2, info2⟩, s3) ∧
        fetchSignal s3 m true = .done (.item ⟨5, info5⟩, s4)) := by
  have hinv := slotsInv_of_reachable h
  have hcases := fetchSignal_cases s mask true hinv.len
  refine ⟨?_, ?_, ?_, fetch_two_before_five⟩
  · rintro ⟨n0, hn0⟩
    rcases hcases with ⟨hnone, _⟩ | ⟨n, item, rest, s2, hl, hq, heq, _⟩
    · exact absurd hn0 (hnone n0)
    · refine ⟨n, item, s2, hl, heq, ?_, by rw [hq]; rfl⟩
      obtain ⟨h1, h64, _, _⟩ := hl.1
      have := hinv.numbered (n - 1) (by omega) item (by rw [hq]; exact List.mem_cons_self _ _)
      rw [this]; omega
  · intro hno
    rcases hcases with ⟨_, heq⟩ | ⟨n, _, _, _, hl, _⟩
    · simpa using heq
    · exact absurd ⟨n, hl.1⟩ hno
  · constructor
    · rintro ⟨s2, h2⟩ ⟨n0, hn0⟩
      rcases hcases with ⟨hnone, _⟩ | ⟨n, item, rest, s3, _, _, heq, _⟩
      · exact hnone n0 hn0
      · rw [heq] at h2
        cases h2
    · intro hno
      rcases hcases with ⟨_, heq⟩ | ⟨n, _, _, _, hl, _⟩
      · exact ⟨s, by simpa using heq⟩
      · exact absurd ⟨n, hl.1⟩ hno

/-- C8 at the state with signal 5 queued, fetched under the mask of signal 5. -/
theorem fetchSignal_priority_witness :
    SignalReachable sampleQueued ∧
    (((∃ n, Eligible sampleQueued 16 n) →
      ∃ n item s2, LeastEligible sampleQueued 16 n ∧
        fetchSignal sampleQueued 16 true = .done (.item item, s2) ∧
        item.signalNumber = n ∧ (sampleQueued.slot (n - 1)).asyncQueue.head? = some item) ∧
    ((¬ ∃ n, Eligible sampleQueued 16 n) →
      fetchSignal sampleQueued 16 true = .done (.null, sampleQueued)) ∧
    ((∃ s2, fetchSignal sampleQueued 16 true = .done (.null, s2)) ↔
      ¬ ∃ n, Eligible sampleQueued 16 n) ∧
    (∀ (handlers : List SignalHandler) (info5 info2 : SignalInfo) (m : Nat),
      m.testBit 1 = true → m.testBit 4 = true →
      ∃ s1 s2 s3 s4, issueSignal (SignalContext.init handlers) 5 info5 = .done s1 ∧
        issueSignal s1 2 info2 = .done s2 ∧
        fetchSignal s2 m true = .done (.item ⟨2, info2⟩, s3) ∧
        fetchSignal s3 m true = .done (.item ⟨5, info5⟩, s4))) :=
  ⟨sampleQueued_reachable, fetchSignal_priority sampleQueued sampleQueued_reachable 16⟩

theorem runOps_queues :
    ∀ (ops : List SignalOp) (s sf : SignalContext) (fetched : List SignalItem),
      SlotsInv s → runOps s ops = some (sf, fetched) →
      SlotsInv sf ∧ ∀ j : Nat, j < 64 →
        itemsOf ((j : Int) + 1) fetched ++ (sf.slot j).asyncQueue =
          (s.slot j).asyncQueue ++ issuedFor ((j : Int) + 1) ops := by
  intro ops
  induction ops with
  | nil =>
    intro s sf fetched hs h
    simp only [runOps, Option.some.injEq, Prod.mk.injEq] at h
    obtain ⟨h1, h2⟩ := h
    subst h1; subst h2
    exact ⟨hs, fun j _ => by simp [itemsOf, issuedFor]⟩
  | cons op rest ih =>
    intro s sf fetched hs h
    cases op with
    | issue sn info =>
      simp only [runOps] at h
      cases hi : issueSignal s sn info with
      | fatal => rw [hi] at h; cases h
      | undefined => rw [hi] at h; cases h
      | done s2 =>
        rw [hi] at h
        simp only at h
        obtain ⟨h1, h64⟩ := issueSignal_done_inv hi
        obtain ⟨s3, heq, _, _, _, hslot, _⟩ := issueSignal_spec s sn info h1 h64 hs.len
        rw [heq] at hi
        cases hi
        obtain ⟨hsf, hq⟩ := ih _ _ _ (slotsInv_issue hs heq) h
        refine ⟨hsf, ?_⟩
        intro j hj
        rw [hq j hj, hslot j]
        by_cases hij : (sn - 1).toNat = j
        · have hsn : sn = (j : Int) + 1 := by omega
          subst hsn
          simp only [hij, if_true, issuedFor, List.append_assoc, List.singleton_append]
        · have hsn : ¬ sn = (j : Int) + 1 := by omega
          simp only [hij, if_false, issuedFor, hsn]
    | fetch mask nonBlock =>
      simp only [runOps] at h
      rcases fetchSignal_cases s mask nonBlock hs.len with ⟨_, heq⟩ | h2
      · rw [heq] at h
        cases nonBlock with
        | true =>
          simp only [if_true] at h
          obtain ⟨hsf, hq⟩ := ih _ _ _ hs h
          exact ⟨hsf, fun j hj => by rw [hq j hj]; rfl⟩
        | false =>
          simp only [Bool.false_eq_true, if_false] at h
          obtain ⟨hsf, hq⟩ := ih _ _ _ hs h
          exact ⟨hsf, fun j hj => by rw [hq j hj]; rfl⟩
      · obtain ⟨n, item, tail, s2, hl, hqn, heq, _, _, _, hslot, _⟩ := h2
        rw [heq] at h
        simp only at h
        cases hr : runOps s2 rest with
        | none => rw [hr] at h; cases h
        | some res =>
          obtain ⟨sf2, items⟩ := res
          rw [hr] at h
          simp only [Option.some.injEq, Prod.mk.injEq] at h
          obtain ⟨e1, e2⟩ := h
          subst e1; subst e2
          obtain ⟨hsf, hq⟩ := ih _ _ _ (slotsInv_fetch hs heq) hr
          refine ⟨hsf, ?_⟩
          obtain ⟨hn1, hn64, _, _⟩ := hl.1
          have hnum := hs.numbered (n - 1) (by omega) item
            (by rw [hqn]; exact List.mem_cons_self _ _)
          intro j hj
          have hqj := hq j hj
          rw [hslot j] at hqj
          by_cases hij : n - 1 = j
          · subst hij
            rw [if_pos rfl] at hqj
            have hsig : item.signalNumber = ((n - 1 : Nat) : Int) + 1 := hnum
            simp only [itemsOf, List.filter_cons, hsig, decide_True, if_true, issuedFor,
              List.cons_append] at hqj ⊢
            rw [hqn, hqj]
            rfl
          · simp only [hij, if_false] at hqj
            have hsig : ¬ item.signalNumber = (j : Int) + 1 := by
              rw [hnum]; omega
            simp only [itemsOf, List.filter_cons, hsig, decide_False, Bool.false_eq_true,
              if_false, issuedFor] at hqj ⊢
            exact hqj

/-- C9. Per-signal FIFO and exactly-once consumption: for every run of
`issueSignal` and `fetchSignal` calls on a fresh context and every signal `n` of
1..64, the items that the fetches returned for `n`, followed by the items still
queued for `n`, are exactly the items issued for `n` in issue order (so the
returned ones are an initial part of the issued ones: none twice, none out of
order); and a fetch that returns an item in the state reached removes exactly the
head of one queue and leaves every other queue, the sequence counter and all
last-raised sequences unchanged. -/
theorem fetch_fifo_per_signal (handlers : List SignalHandler) (ops : List SignalOp)
    (sf : SignalContext) (fetched : List SignalItem)
    (h : runOps (SignalContext.init handlers) ops = some (sf, fetched)) :
    (∀ n : Nat, 1 ≤ n → n ≤ 64 →
      itemsOf n fetched ++ (sf.slot (n - 1)).asyncQueue = issuedFor n ops) ∧
    (∀ mask nonBlock item s2, fetchSignal sf mask nonBlock = .done (.item item, s2) →
      ∃ n, 1 ≤ n ∧ n ≤ 64 ∧
        (sf.slot (n - 1)).asyncQueue = item :: (s2.slot (n - 1)).asyncQueue ∧
        (∀ j, j ≠ n - 1 → (s2.slot j).asyncQueue = (sf.slot j).asyncQueue) ∧
        s2._currentSeq = sf._currentSeq ∧
        ∀ j, (s2.slot j).raiseSeq = (sf.slot j).raiseSeq) := by
  obtain ⟨hsf, hq⟩ := runOps_queues ops _ _ _ (slotsInv_init handlers) h
  refine ⟨?_, ?_⟩
  · intro n h1 h64
    have := hq (n - 1) (by omega)
    rw [init_slot] at this
    have hn : ((n - 1 : Nat) : Int) + 1 = (n : Int) := by omega
    rw [hn] at this
    simpa [SignalSlot.idle] using this
  · intro mask nonBlock item s2 hf
    rcases fetchSignal_cases sf mask nonBlock hsf.len with ⟨_, heq⟩ | h2
    · rw [heq] at hf
      cases nonBlock <;> simp at hf
    · obtain ⟨n, item2, rest, s3, hl, hqn, heq, hseq, _, _, hslot, _⟩ := h2
      rw [heq] at hf
      cases hf
      obtain ⟨hn1, hn64, _, _⟩ := hl.1
      refine ⟨n, hn1, hn64, ?_, ?_, hseq, ?_⟩
      · rw [hqn, hslot]; simp
      · intro j hj
        rw [hslot]
        have : ¬ (n - 1 = j) := fun h => hj h.symm
        simp [this]
      · intro j
        rw [hslot]
        by_cases hij : n - 1 = j
        · subst hij; simp
        · simp [hij]

/-- C9 at the run that issues signal 5 twice, then signal 2, and fetches twice
under the mask of signal 5. -/
theorem fetch_fifo_per_signal_witness :
    runOps (SignalContext.init []) sampleRun =
      some (sampleRunEnd, [⟨5, SignalInfo.user 1 2⟩, ⟨5, SignalInfo.timer 7⟩]) ∧
    ((∀ n : Nat, 1 ≤ n → n ≤ 64 →
      itemsOf n [⟨5, SignalInfo.user 1 2⟩, ⟨5, SignalInfo.timer 7⟩] ++
        (sampleRunEnd.slot (n - 1)).asyncQueue = issuedFor n sampleRun) ∧
    (∀ mask nonBlock item s2,
      fetchSignal sampleRunEnd mask nonBlock = .done (.item item, s2) →
      ∃ n, 1 ≤ n ∧ n ≤ 64 ∧
        (sampleRunEnd.slot (n - 1)).asyncQueue = item :: (s2.slot (n - 1)).asyncQueue ∧
        (∀ j, j ≠ n - 1 → (s2.slot j).asyncQueue = (sampleRunEnd.slot j).asyncQueue) ∧
        s2._currentSeq = sampleRunEnd._currentSeq ∧
        ∀ j, (s2.slot j).raiseSeq = (sampleRunEnd.slot j).raiseSeq)) :=
  ⟨by decide,
    fetch_fifo_per_signal [] sampleRun sampleRunEnd
      [⟨5, SignalInfo.user 1 2⟩, ⟨5, SignalInfo.timer 7⟩] (by decide)⟩

theorem changeHandler_frame {s s2 : SignalContext} {sn : Int} {handler old : SignalHandler}
    (h : changeHandler s sn handler = .done (old, s2)) :
    s2._slots = s._slots ∧ s2._currentSeq = s._currentSeq ∧ s2._activeSet = s._activeSet := by
  unfold changeHandler at h
  split at h
  · cases h
  · split at h
    · cases h
    · split at h
      · cases h
      · cases h
        exact ⟨rfl, rfl, rfl⟩

theorem determineHandling_frame {s s2 : SignalContext} {signalOnce : Nat}
    {SIGCHLD SIGURG SIGWINCH : Int} {item : SignalItem} {r : SignalHandling}
    (h : determineHandling signalOnce SIGCHLD SIGURG SIGWINCH s item = .done (r, s2)) :
    s2._slots = s._slots ∧ s2._currentSeq = s._currentSeq ∧ s2._activeSet = s._activeSet := by
  unfold determineHandling at h
  split at h
  · cases h
  · split at h
    · cases h
    · rename_i handler _
      have key : ∀ s1 : SignalContext, s1 = (if handler.flags &&& signalOnce ≠ 0 then
            { s with _handlers := (s._handlers.set (item.signalNumber - 1).toNat
                { handler with disposition := SignalDisposition.none }) }
          else s) →
          s1._slots = s._slots ∧ s1._currentSeq = s._currentSeq ∧
            s1._activeSet = s._activeSet := by
        intro s1 hs1
        split at hs1 <;> (subst hs1; exact ⟨rfl, rfl, rfl⟩)
      simp only at h
      split at h
      · split at h
        · cases h; exact key _ rfl
        · cases h; exact key _ rfl
      · cases h; exact key _ rfl
      · cases h; exact key _ rfl

/-- What a step leaves of the counter and the slots. -/
theorem signalStep_frame {s s2 : SignalContext} (hlen : s._slots.length = 64)
    (h : SignalStep s s2) :
    s2._slots.length = 64 ∧
      ((s2._currentSeq = s._currentSeq ∧ ∀ j, (s2.slot j).raiseSeq = (s.slot j).raiseSeq) ∨
        (s2._currentSeq = s._currentSeq + 1 ∧
          ∀ j, (s2.slot j).raiseSeq = s2._currentSeq ∨
            (s2.slot j).raiseSeq = (s.slot j).raiseSeq)) := by
  cases h with
  | issue sn info hov hres =>
    obtain ⟨h1, h64⟩ := issueSignal_done_inv hres
    obtain ⟨s3, heq, hseq, _, hlen3, hslot, _⟩ := issueSignal_spec s sn info h1 h64 hlen
    rw [heq] at hres
    cases hres
    rw [uadd_eq hov] at hseq hslot
    refine ⟨hlen3, Or.inr ⟨hseq, ?_⟩⟩
    intro j
    rw [hslot, hseq]
    by_cases hij : (sn - 1).toNat = j
    · left; rw [if_pos hij]
    · right; rw [if_neg hij]
  | fetch mask nonBlock r hres =>
    rcases fetchSignal_cases s mask nonBlock hlen with ⟨_, heq⟩ | h2
    · rw [heq] at hres
      cases hres
      exact ⟨hlen, Or.inl ⟨rfl, fun _ => rfl⟩⟩
    · obtain ⟨n, item, rest, s3, _, _, heq, hseq, _, hlen3, hslot, _⟩ := h2
      rw [heq] at hres
      cases hres
      refine ⟨hlen3, Or.inl ⟨hseq, ?_⟩⟩
      intro j
      rw [hslot]
      by_cases hij : n - 1 = j
      · subst hij; simp
      · simp [hij]
  | changeHandler sn handler old hres =>
    obtain ⟨h1, h2, _⟩ := changeHandler_frame hres
    refine ⟨by rw [h1]; exact hlen, Or.inl ⟨h2, ?_⟩⟩
    intro j
    unfold SignalContext.slot
    rw [h1]
  | resetHandlers =>
    exact ⟨hlen, Or.inl ⟨rfl, fun _ => rfl⟩⟩
  | determineHandling signalOnce a b c item r hres =>
    obtain ⟨h1, h2, _⟩ := determineHandling_frame hres
    refine ⟨by rw [h1]; exact hlen, Or.inl ⟨h2, ?_⟩⟩
    intro j
    unfold SignalContext.slot
    rw [h1]

theorem signalRun_inv {s : SignalContext} (h : SignalRun s) :
    s._slots.length = 64 ∧ ∀ j, (s.slot j).raiseSeq ≤ s._currentSeq := by
  induction h with
  | init handlers =>
    refine ⟨(slotsInv_init handlers).len, ?_⟩
    intro j
    rw [init_slot]
    simp [SignalSlot.idle, SignalContext.init]
  | step _ hstep ih =>
    obtain ⟨hlen, hseq⟩ := ih
    obtain ⟨hlen2, hf⟩ := signalStep_frame hlen hstep
    refine ⟨hlen2, ?_⟩
    intro j
    rcases hf with ⟨h1, h2⟩ | ⟨h1, h2⟩
    · rw [h1, h2]; exact hseq j
    · rcases h2 j with h3 | h3
      · rw [h3]
      · rw [h3, h1]; exact Nat.le_succ_of_le (hseq j)

/-- C10. Sequence counter: in a state reached from a fresh context, every
`issueSignal(sn, info)` with `1 <= sn <= 64` and the counter below its 64-bit
maximum returns, increases the counter by exactly one, records the new value as
the last-raised sequence of slot `sn`, appends exactly the new item to queue `sn`
and leaves every other slot as it was; `fetchSignal`, `changeHandler`,
`resetHandlers` and `determineHandling` leave the counter as it was (`getHandler`,
`checkSignal` and `pollSignal` write nothing); so no step decreases the counter,
and every slot's last-raised sequence is at most the counter. -/
theorem sequence_counter (s : SignalContext) (h : SignalRun s) :
    (∀ (sn : Int) (info : SignalInfo), 1 ≤ sn → sn ≤ 64 → s._currentSeq + 1 < wordMod →
      ∃ s2, issueSignal s sn info = .done s2 ∧
        s2._currentSeq = s._currentSeq + 1 ∧
        (s2.slot (sn - 1).toNat).raiseSeq = s2._currentSeq ∧
        (s2.slot (sn - 1).toNat).asyncQueue =
          (s.slot (sn - 1).toNat).asyncQueue ++ [{ signalNumber := sn, info := info }] ∧
        ∀ j, j ≠ (sn - 1).toNat → s2.slot j = s.slot j) ∧
    (∀ mask nonBlock r s2, fetchSignal s mask nonBlock = .done (r, s2) →
      s2._currentSeq = s._currentSeq) ∧
    (∀ sn handler old s2, changeHandler s sn handler = .done (old, s2) →
      s2._currentSeq = s._currentSeq) ∧
    (resetHandlers s)._currentSeq = s._currentSeq ∧
    (∀ signalOnce SIGCHLD SIGURG SIGWINCH item r s2,
      determineHandling signalOnce SIGCHLD SIGURG SIGWINCH s item = .done (r, s2) →
      s2._currentSeq = s._currentSeq) ∧
    (checkSignal s).seq = s._currentSeq ∧
    (∀ s2, SignalStep s s2 → s._currentSeq ≤ s2._currentSeq) ∧
    (∀ j, (s.slot j).raiseSeq ≤ s._currentSeq) := by
  obtain ⟨hlen, hseq⟩ := signalRun_inv h
  refine ⟨?_, ?_, ?_, rfl, ?_, rfl, ?_, hseq⟩
  · intro sn info h1 h64 hov
    obtain ⟨s2, heq, hs, _, _, hslot, _⟩ := issueSignal_spec s sn info h1 h64 hlen
    rw [uadd_eq hov] at hs hslot
    refine ⟨s2, heq, hs, ?_, ?_, ?_⟩
    · rw [hslot, hs, if_pos rfl]
    · rw [hslot, if_pos rfl]
    · intro j hj
      rw [hslot]
      have : ¬ ((sn - 1).toNat = j) := fun h => hj h.symm
      rw [if_neg this]
  · intro mask nonBlock r s2 hres
    rcases fetchSignal_cases s mask nonBlock hlen with ⟨_, heq⟩ | h2
    · rw [heq] at hres
      cases hres; rfl
    · obtain ⟨n, item, rest, s3, _, _, heq, hs, _⟩ := h2
      rw [heq] at hres
      cases hres; exact hs
  · intro sn handler old s2 hres
    exact (changeHandler_frame hres).2.1
  · intro signalOnce a b c item r s2 hres
    exact (determineHandling_frame hres).2.1
  · intro s2 hstep
    rcases (signalStep_frame hlen hstep).2 with ⟨h1, _⟩ | ⟨h1, _⟩
    · rw [h1]
    · rw [h1]; exact Nat.le_succ _

/-- C10 at the state with signal 5 queued. -/
theorem sequence_counter_witness :
    SignalRun sampleQueued ∧
    ∃ s2, issueSignal sampleQueued 2 (SignalInfo.timer 3) = .done s2 ∧
      s2._currentSeq = sampleQueued._currentSeq + 1 ∧
      (s2.slot ((2 : Int) - 1).toNat).raiseSeq = s2._currentSeq ∧
      (s2.slot ((2 : Int) - 1).toNat).asyncQueue =
        (sampleQueued.slot ((2 : Int) - 1).toNat).asyncQueue ++
          [{ signalNumber := 2, info := SignalInfo.timer 3 }] ∧
      ∀ j, j ≠ ((2 : Int) - 1).toNat → s2.slot j = sampleQueued.slot j :=
  ⟨SignalRun.step (SignalRun.init [])
      (SignalStep.issue 5 (SignalInfo.user 1 2) (by decide)
        (show issueSignal (SignalContext.init []) 5 (SignalInfo.user 1 2) = .done sampleQueued
          from by decide)),
    (sequence_counter sampleQueued
      (SignalRun.step (SignalRun.init [])
        (SignalStep.issue 5 (SignalInfo.user 1 2) (by decide)
          (show issueSignal (SignalContext.init []) 5 (SignalInfo.user 1 2) =
            .done sampleQueued from by decide)))).1 2 (SignalInfo.timer 3)
      (by decide) (by decide) (by decide)⟩
/-! ## Lemmas on polling -/

theorem pollEdges_fold (s : SignalContext) (inSeq n j : Nat) :
    ((List.range n).foldl
      (fun edges i => if (s.slot i).raiseSeq > inSeq then edges ||| (1 <<< i) else edges)
      0).testBit j = (decide (j < n) && decide (inSeq < (s.slot j).raiseSeq)) := by
  induction n with
  | zero => simp
  | succ n ih =>
    rw [List.range_succ, List.foldl_append]
    simp only [List.foldl_cons, List.foldl_nil]
    split
    · rename_i hgt
      rw [testBit_setBit, ih]
      by_cases hj : n = j
      · subst hj; simp [hgt]
      · by_cases hlt : j < n
        · have : j < n + 1 := by omega
          simp [hj, hlt, this]
        · have : ¬ j < n + 1 := by omega
          simp [hj, hlt, this]
    · rename_i hgt
      rw [ih]
      by_cases hj : n = j
      · subst hj
        have : ¬ inSeq < (s.slot n).raiseSeq := hgt
        simp [this]
      · by_cases hlt : j < n
        · have : j < n + 1 := by omega
          simp [hlt, this]
        · have : ¬ j < n + 1 := by omega
          simp [hlt, this]

theorem pollEdges_testBit (s : SignalContext) (inSeq j : Nat) :
    (pollEdges s inSeq).testBit j = (decide (j < 64) && decide (inSeq < (s.slot j).raiseSeq)) :=
  pollEdges_fold s inSeq 64 j

theorem pollActive_returned {s sf : SignalContext} {inSeq mask : Nat} {cancelled : Bool}
    {r : PollSignalResult} (h : pollActive s inSeq mask cancelled = (.returned r, sf)) :
    sf = s ∧ r = { seq := s._currentSeq, edges := pollEdges s inSeq } := by
  unfold pollActive at h
  split at h
  · cases h
  · cases h; exact ⟨rfl, rfl⟩

theorem pollSeq_returned {s sf : SignalContext} {inSeq mask : Nat} {cancelled : Bool}
    {r : PollSignalResult} (h : pollSeq s inSeq mask cancelled = (.returned r, sf)) :
    sf = s ∧ r = { seq := s._currentSeq, edges := pollEdges s inSeq } := by
  unfold pollSeq at h
  split at h
  · cases h
  · exact pollActive_returned h

theorem pollResume_returned {phase : PollPhase} {s sf : SignalContext} {inSeq mask : Nat}
    {cancelled : Bool} {r : PollSignalResult}
    (h : pollResume phase s inSeq mask cancelled = (.returned r, sf)) :
    sf = s ∧ r = { seq := s._currentSeq, edges := pollEdges s inSeq } := by
  cases phase
  · exact pollSeq_returned h
  · exact pollActive_returned h

theorem pollSignal_returned {s sf : SignalContext} {inSeq mask : Nat} {cancelled : Bool}
    {r : PollSignalResult} (h : pollSignal s inSeq mask cancelled = (.returned r, sf)) :
    sf = s ∧ r = { seq := s._currentSeq, edges := pollEdges s inSeq } := by
  unfold pollSignal at h
  split at h
  · cases h
  · exact pollSeq_returned h

theorem pollResume_state (phase : PollPhase) (s : SignalContext) (inSeq mask : Nat)
    (cancelled : Bool) : (pollResume phase s inSeq mask cancelled).2 = s := by
  cases phase <;> simp only [pollResume, pollSeq, pollActive] <;> (repeat' split) <;> rfl

theorem pollSignal_state (s : SignalContext) (inSeq mask : Nat) (cancelled : Bool) :
    (pollSignal s inSeq mask cancelled).2 = s := by
  simp only [pollSignal, pollSeq, pollActive]
  (repeat' split) <;> rfl

/-- Where a run of `pollSignal` returns: at the context of the last wake-up it
read, unchanged, with the result computed there. -/
theorem pollRun_returned (inSeq mask : Nat) (wakes : List PollWake) :
    ∀ (o : PollOutcome) (s sf : SignalContext) (r : PollSignalResult),
      (∀ r0, o = .returned r0 → r0 = { seq := s._currentSeq, edges := pollEdges s inSeq }) →
      pollRun inSeq mask (o, s) wakes = (.returned r, sf) →
      ∃ pre post, wakes = pre ++ post ∧ sf = (pollSeen s pre).getLast (by simp [pollSeen]) ∧
        r = { seq := sf._currentSeq, edges := pollEdges sf inSeq } := by
  induction wakes with
  | nil =>
    intro o s sf r ho h
    cases o with
    | fatal => simp [pollRun] at h
    | suspended ph => simp [pollRun] at h
    | returned r0 =>
      simp only [pollRun, Prod.mk.injEq, PollOutcome.returned.injEq] at h
      obtain ⟨h1, h2⟩ := h
      subst h1 h2
      exact ⟨[], [], rfl, by simp [pollSeen], ho _ rfl⟩
  | cons w rest ih =>
    intro o s sf r ho h
    obtain ⟨sw, cw⟩ := w
    cases o with
    | fatal => simp [pollRun] at h
    | returned r0 =>
      simp only [pollRun, Prod.mk.injEq, PollOutcome.returned.injEq] at h
      obtain ⟨h1, h2⟩ := h
      subst h1 h2
      exact ⟨[], (sw, cw) :: rest, rfl, by simp [pollSeen], ho _ rfl⟩
    | suspended ph =>
      simp only [pollRun] at h
      have hst := pollResume_state ph sw inSeq mask cw
      have hpair : pollResume ph sw inSeq mask cw =
          ((pollResume ph sw inSeq mask cw).1, sw) :=
        Prod.ext rfl hst
      rw [hpair] at h
      obtain ⟨pre, post, hw, hsf, hr⟩ := ih _ sw sf r (by
        intro r0 hr0
        rw [hr0] at hpair
        exact (pollResume_returned hpair).2) h
      refine ⟨(sw, cw) :: pre, post, by rw [hw]; rfl, ?_, hr⟩
      rw [hsf]
      simp [pollSeen]
theorem fetchSignal_seq {s s2 : SignalContext} {mask : Nat} {nonBlock : Bool} {r : FetchResult}
    (h : fetchSignal s mask nonBlock = .done (r, s2)) : s2._currentSeq = s._currentSeq := by
  unfold fetchSignal at h
  simp only at h
  split at h
  · split at h
    · cases h
    · split at h <;> (cases h; rfl)
  · split at h <;> (cases h; rfl)

theorem quietStep_seq {s s2 : SignalContext} (h : QuietStep s s2) :
    s2._currentSeq = s._currentSeq := by
  cases h with
  | fetch mask nonBlock r hres => exact fetchSignal_seq hres
  | changeHandler sn handler old hres => exact (changeHandler_frame hres).2.1
  | resetHandlers => rfl
  | determineHandling signalOnce a b c item r hres => exact (determineHandling_frame hres).2.1

theorem quietRun_seq {s s2 : SignalContext} (h : QuietRun s s2) :
    s2._currentSeq = s._currentSeq := by
  induction h with
  | refl => rfl
  | step _ hstep ih => rw [quietStep_seq hstep, ih]

theorem pollSeq_quiet (s : SignalContext) (mask : Nat) :
    pollSeq s s._currentSeq mask false = (.suspended .awaitSeq, s) := by
  simp [pollSeq]

theorem pollRun_quiet (inSeq mask : Nat) (wakes : List PollWake) :
    ∀ s : SignalContext, (∀ w ∈ wakes, w.1._currentSeq = inSeq ∧ w.2 = false) →
      pollRun inSeq mask (.suspended .awaitSeq, s) wakes =
        (.suspended .awaitSeq, (pollSeen s wakes).getLast (by simp [pollSeen])) := by
  induction wakes with
  | nil => intro s _; simp [pollRun, pollSeen]
  | cons w rest ih =>
    intro s hw
    obtain ⟨sw, cw⟩ := w
    obtain ⟨h1, h2⟩ := hw (sw, cw) (List.mem_cons_self _ _)
    simp only at h1 h2
    subst h1 h2
    simp only [pollRun, pollResume, pollSeq_quiet]
    rw [ih sw (fun w hmem => hw w (List.mem_cons_of_mem _ hmem))]
    simp [pollSeen]

theorem quiet_sample : QuietRun sampleQueued sampleFetched :=
  QuietRun.step (QuietRun.refl _)
    (QuietStep.fetch 16 true (.item ⟨5, SignalInfo.user 1 2⟩) (by decide))

/-! ## Claims on polling and on the handling of a signal -/

/-- C11. Result of `pollSignal`: whenever a call of `pollSignal(sinceSeq, mask,
token)` returns, at once or after any wake-ups, it returns the sequence counter of
the context it read last together with the bitmask whose bit `n - 1` is set
exactly for the slots `n` in 1..64 whose last-raised sequence is greater than
`sinceSeq` (no higher bit is set); and no pass of the call changes the context:
every queue, the active set, the counter and every last-raised sequence are as
they were read. -/
theorem pollSignal_result (s : SignalContext) (inSeq mask : Nat) (cancelled : Bool)
    (wakes : List PollWake) (r : PollSignalResult) (sf : SignalContext)
    (h : pollRun inSeq mask (pollSignal s inSeq mask cancelled) wakes = (.returned r, sf)) :
    (∃ pre post, wakes = pre ++ post ∧
      sf = (pollSeen s pre).getLast (by simp [pollSeen])) ∧
    r.seq = sf._currentSeq ∧
    (∀ n, 1 ≤ n → n ≤ 64 →
      (r.edges.testBit (n - 1) = true ↔ inSeq < (sf.slot (n - 1)).raiseSeq)) ∧
    (∀ j, 64 ≤ j → r.edges.testBit j = false) ∧
    (pollSignal s inSeq mask cancelled).2 = s ∧
    (∀ phase s1 c, (pollResume phase s1 inSeq mask c).2 = s1) := by
  have hst := pollSignal_state s inSeq mask cancelled
  have hpair : pollSignal s inSeq mask cancelled =
      ((pollSignal s inSeq mask cancelled).1, s) := Prod.ext rfl hst
  rw [hpair] at h
  obtain ⟨pre, post, hw, hsf, hr⟩ := pollRun_returned inSeq mask wakes _ s sf r (by
    intro r0 hr0
    rw [hr0] at hpair
    exact (pollSignal_returned hpair).2) h
  refine ⟨⟨pre, post, hw, hsf⟩, by rw [hr], ?_, ?_, hst, ?_⟩
  · intro n h1 h64
    rw [hr]
    simp only [pollEdges_testBit]
    have : n - 1 < 64 := by omega
    simp [this]
  · intro j hj
    rw [hr]
    simp only [pollEdges_testBit]
    have : ¬ j < 64 := by omega
    simp [this]
  · intro phase s1 c
    exact pollResume_state phase s1 inSeq mask c

theorem pollSignal_result_witness :
    pollRun 1 16 (pollSignal (SignalContext.init []) 1 16 false) [(sampleQueued, false)] =
        (.returned ⟨2, 16⟩, sampleQueued) ∧
      (2 : Nat) = sampleQueued._currentSeq ∧
      (∀ n, 1 ≤ n → n ≤ 64 →
        ((16 : Nat).testBit (n - 1) = true ↔ 1 < (sampleQueued.slot (n - 1)).raiseSeq)) :=
  have h : pollRun 1 16 (pollSignal (SignalContext.init []) 1 16 false)
      [(sampleQueued, false)] = (.returned ⟨2, 16⟩, sampleQueued) := by decide
  ⟨h, (pollSignal_result (SignalContext.init []) 1 16 false [(sampleQueued, false)]
      ⟨2, 16⟩ sampleQueued h).2.1,
    (pollSignal_result (SignalContext.init []) 1 16 false [(sampleQueued, false)]
      ⟨2, 16⟩ sampleQueued h).2.2.1⟩
/-- C12, as claimed, fails: on a reachable context whose counter (2) is already
greater than `sinceSeq` (1), with a token that is not cancelled, `pollSignal`
suspends in its second loop, since no signal of the mask is active. -/
theorem pollSignal_wakeup_counterexample :
    SignalReachable sampleFetched ∧ 1 < sampleFetched._currentSeq ∧
      pollSignal sampleFetched 1 16 false = (.suspended .awaitActive, sampleFetched) :=
  ⟨sampleFetched_reachable, by decide, by decide⟩

/-- C12, amended. Wake-up condition of `pollSignal`: a pass of `pollSignal(sinceSeq,
mask, token)`, the call or a resumption, suspends only while the token is not
cancelled and either the counter equals `sinceSeq` or no signal of the mask is
active; and a call with `sinceSeq` not above the counter (the assertion of the
method) returns without suspending if the token is already cancelled, or if the
counter is already greater than `sinceSeq` and some signal of the mask is
active. -/
theorem pollSignal_wakeup (s : SignalContext) (inSeq mask : Nat) (cancelled : Bool) :
    (∀ phase, (pollSignal s inSeq mask cancelled).1 = .suspended phase →
      cancelled = false ∧ (inSeq = s._currentSeq ∨ s._activeSet &&& mask = 0)) ∧
    (∀ phase phase2, (pollResume phase s inSeq mask cancelled).1 = .suspended phase2 →
      cancelled = false ∧ (inSeq = s._currentSeq ∨ s._activeSet &&& mask = 0)) ∧
    (inSeq ≤ s._currentSeq →
      (cancelled = true ∨ (inSeq < s._currentSeq ∧ s._activeSet &&& mask ≠ 0)) →
      pollSignal s inSeq mask cancelled =
        (.returned { seq := s._currentSeq, edges := pollEdges s inSeq }, s)) := by
  have hA : ∀ phase2, (pollActive s inSeq mask cancelled).1 = .suspended phase2 →
      cancelled = false ∧ (inSeq = s._currentSeq ∨ s._activeSet &&& mask = 0) := by
    intro phase2 h
    unfold pollActive at h
    split at h
    · rename_i hc; exact ⟨hc.2, Or.inr hc.1⟩
    · cases h
  have hS : ∀ phase2, (pollSeq s inSeq mask cancelled).1 = .suspended phase2 →
      cancelled = false ∧ (inSeq = s._currentSeq ∨ s._activeSet &&& mask = 0) := by
    intro phase2 h
    unfold pollSeq at h
    split at h
    · rename_i hc; exact ⟨hc.2, Or.inl hc.1⟩
    · exact hA phase2 h
  refine ⟨?_, ?_, ?_⟩
  · intro phase h
    unfold pollSignal at h
    split at h
    · cases h
    · exact hS phase h
  · intro phase phase2 h
    cases phase
    · exact hS phase2 h
    · exact hA phase2 h
  · intro hle hc
    unfold pollSignal pollSeq pollActive
    rw [if_neg (by simpa using hle)]
    rcases hc with hc | ⟨hlt, hact⟩
    · subst hc
      simp
    · rw [if_neg (by intro hh; omega), if_neg (fun hh => hact hh.1)]

theorem pollSignal_wakeup_witness :
    pollSignal sampleQueued 1 16 false = (.returned ⟨2, 16⟩, sampleQueued) :=
  (pollSignal_wakeup sampleQueued 1 16 false).2.2 (by decide) (Or.inr ⟨by decide, by decide⟩)

/-- C13. Sequence monotonicity of polling: if `checkSignal` returns the sequence
value `seq` and no `issueSignal` happens afterwards (every context that the poll
reads is reached by calls other than `issueSignal`), then `pollSignal(seq, mask,
token)` with a token that is not cancelled does not return, for every mask: after
the call and after each wake-up it is suspended in its first loop. -/
theorem pollSignal_sequence_monotone (s : SignalContext) (mask : Nat) (wakes : List PollWake)
    (hquiet : ∀ w ∈ wakes, QuietRun s w.1 ∧ w.2 = false) :
    pollRun (checkSignal s).seq mask (pollSignal s (checkSignal s).seq mask false) wakes =
      (.suspended .awaitSeq, (pollSeen s wakes).getLast (by simp [pollSeen])) := by
  have h0 : pollSignal s (checkSignal s).seq mask false = (.suspended .awaitSeq, s) := by
    simp [pollSignal, checkSignal, pollSeq]
  rw [h0]
  apply pollRun_quiet
  intro w hw
  obtain ⟨h1, h2⟩ := hquiet w hw
  exact ⟨quietRun_seq h1, h2⟩

theorem pollSignal_sequence_monotone_witness :
    pollRun (checkSignal sampleQueued).seq 16
        (pollSignal sampleQueued (checkSignal sampleQueued).seq 16 false)
        [(sampleFetched, false)] =
      (.suspended .awaitSeq, sampleFetched) :=
  pollSignal_sequence_monotone sampleQueued 16 [(sampleFetched, false)] (by
    intro w hw
    simp only [List.mem_singleton] at hw
    subst hw
    exact ⟨quiet_sample, rfl⟩)

/-- C14. Default signal handling: for an item whose signal number `sn` has a
handler slot, `determineHandling` returns the handler read from the slot, and it
returns `ignored` exactly when the disposition is default and `sn` is `SIGCHLD`,
`SIGURG` or `SIGWINCH`, or the disposition is explicit ignore; `killed` exactly
when the disposition is default and `sn` is any other signal; neither of the two
exactly when the disposition is user-handled; and never both. -/
theorem determineHandling_default (signalOnce : Nat) (SIGCHLD SIGURG SIGWINCH : Int)
    (s : SignalContext) (item : SignalItem) (handler : SignalHandler)
    (hsn : 1 ≤ item.signalNumber)
    (hh : s._handlers[(item.signalNumber - 1).toNat]? = some handler) :
    ∃ r s2, determineHandling signalOnce SIGCHLD SIGURG SIGWINCH s item = .done (r, s2) ∧
      r.handler = handler ∧
      (r.ignored = true ↔
        (handler.disposition = SignalDisposition.none ∧
          (item.signalNumber = SIGCHLD ∨ item.signalNumber = SIGURG ∨
            item.signalNumber = SIGWINCH)) ∨
        handler.disposition = SignalDisposition.ignore) ∧
      (r.killed = true ↔
        handler.disposition = SignalDisposition.none ∧
          ¬ (item.signalNumber = SIGCHLD ∨ item.signalNumber = SIGURG ∨
            item.signalNumber = SIGWINCH)) ∧
      ((r.ignored = false ∧ r.killed = false) ↔
        handler.disposition = SignalDisposition.handle) ∧
      ¬ (r.ignored = true ∧ r.killed = true) := by
  unfold determineHandling
  rw [if_neg (by omega)]
  simp only [hh]
  cases hd : handler.disposition with
  | none =>
    simp only
    by_cases hc : item.signalNumber = SIGCHLD ∨ item.signalNumber = SIGURG ∨
        item.signalNumber = SIGWINCH
    · rw [if_pos hc]
      exact ⟨_, _, rfl, rfl, by simp [hc], by simp [hc], by simp, by simp⟩
    · rw [if_neg hc]
      exact ⟨_, _, rfl, rfl, by simp [hc], by simp [hc], by simp, by simp⟩
  | ignore => exact ⟨_, _, rfl, rfl, by simp, by simp, by simp, by simp⟩
  | handle => exact ⟨_, _, rfl, rfl, by simp, by simp, by simp, by simp⟩

theorem determineHandling_default_witness :
    ∃ r s2, determineHandling 4 17 23 28
        (SignalContext.init (List.replicate 64 ⟨SignalDisposition.none, 0, 0, 0, 0⟩))
        ⟨17, SignalInfo.user 1 2⟩ = .done (r, s2) ∧
      r.ignored = true ∧ r.killed = false := by
  obtain ⟨r, s2, h, _, hi, hk, _, _⟩ := determineHandling_default 4 17 23 28
    (SignalContext.init (List.replicate 64 ⟨SignalDisposition.none, 0, 0, 0, 0⟩))
    ⟨17, SignalInfo.user 1 2⟩ ⟨SignalDisposition.none, 0, 0, 0, 0⟩ (by decide) (by decide)
  refine ⟨r, s2, h, hi.2 (Or.inl ⟨rfl, Or.inl rfl⟩), ?_⟩
  cases hkv : r.killed with
  | false => rfl
  | true => exact absurd (hk.1 hkv).2 (by simp)
/-! ## Signal delivery and its inverse -/

theorem usub_lt (a b : Nat) : usub a b < wordMod := by
  unfold usub
  exact Nat.mod_lt _ (by unfold wordMod; norm_num)

theorem usub_uadd_cancel (a b : Nat) (ha : a < wordMod) : usub (uadd a b) b = a := by
  unfold usub uadd wordMod at *
  omega

theorem deliveryFrame_lt (c : DeliveryConsts) (k : RaiseKernel) (item : SignalItem)
    (process : Process) (handling : SignalHandling) :
    deliveryFrame c k item process handling < wordMod := by
  unfold deliveryFrame frameAddress alignFrame
  exact usub_lt _ _

/-- What a delivery consists of: `raiseContext` delivers only an item that is
neither ignored nor killing, and then the delivery is made of `maskedProcess`,
`deliveryFrame`, `savedFrame` and `handlerRegs`. -/
theorem raiseContext_delivered {c : DeliveryConsts} {k : RaiseKernel} {item : SignalItem}
    {process : Process} {handling : SignalHandling} {d : Delivery}
    (h : raiseContext c k item process handling = .done (.delivered d)) :
    handling.ignored = false ∧ handling.killed = false ∧
    d = { process := maskedProcess c process handling item.signalNumber
          frame := deliveryFrame c k item process handling
          storedFrame := savedFrame c k item process handling
            (deliveryFrame c k item process handling)
          storedSimd := k.loadSimdRegs.2
          storedSignalRegs := handlerRegs c k.loadSignalRegs.2 item.signalNumber
            (deliveryFrame c k item process handling) handling.handler.handlerIp } := by
  unfold raiseContext at h
  split at h
  · exact absurd (Outcome.done.inj h) (fun hh => RaiseResult.noConfusion hh)
  rename_i h1
  split at h
  · exact absurd (Outcome.done.inj h) (fun hh => RaiseResult.noConfusion hh)
  split at h
  · exact Outcome.noConfusion h
  split at h
  · exact absurd (Outcome.done.inj h) (fun hh => RaiseResult.noConfusion hh)
  rename_i h4
  by_cases h5 : k.loadSignalRegs.1 ≠ HelError.kHelErrNone
  · rw [if_pos h5] at h; exact Outcome.noConfusion h
  rw [if_neg h5] at h
  by_cases h6 : k.loadSimdRegs.1 ≠ HelError.kHelErrNone
  · rw [if_pos h6] at h; exact Outcome.noConfusion h
  rw [if_neg h6] at h
  by_cases h7 : deliveryFrame c k item process handling &&& (c.alignofSignalFrame - 1) ≠ 0
  · rw [if_pos h7] at h; exact Outcome.noConfusion h
  rw [if_neg h7] at h
  by_cases h8 : k.storeFrame ≠ HelError.kHelErrNone
  · rw [if_pos h8] at h; exact Outcome.noConfusion h
  rw [if_neg h8] at h
  by_cases h9 : k.storeSimd ≠ HelError.kHelErrNone
  · rw [if_pos h9] at h; exact Outcome.noConfusion h
  rw [if_neg h9] at h
  by_cases h10 : k.storeSignalRegs ≠ HelError.kHelErrNone
  · rw [if_pos h10] at h; exact Outcome.noConfusion h
  rw [if_neg h10] at h
  exact ⟨by simpa using h1, by simpa using h4,
    (RaiseResult.delivered.inj (Outcome.done.inj h)).symm⟩

theorem sampleDelivery_delivered :
    raiseContext sampleConsts sampleRaiseKernel ⟨5, SignalInfo.user 1 0⟩ sampleProcess
      sampleHandling = .done (.delivered sampleDelivery) := by decide

theorem sigaddset_testBit (set : Nat) (sn : Int) (h1 : 1 ≤ sn) (h64 : sn ≤ 64) (j : Nat) :
    (sigaddset set sn).testBit j = (set.testBit j || decide ((sn - 1).toNat = j)) := by
  unfold sigaddset
  rw [if_pos ⟨h1, h64⟩, testBit_setBit]

/-- C15, as claimed, fails: a process whose signal mask blocks signal 1 (mask 1)
receives signal 5 through a user handler whose mask is empty and whose re-entrant
flag is clear; the mask afterwards is 17, the old mask with bit 4 added, and not
16, the mask of the handler with bit 4 added. -/
theorem delivery_mask_counterexample :
    raiseContext sampleConsts sampleRaiseKernel ⟨5, SignalInfo.user 1 0⟩ sampleProcess
        sampleHandling = .done (.delivered sampleDelivery) ∧
      sampleHandling.handler.disposition = SignalDisposition.handle ∧
      sampleHandling.handler.flags &&& sampleConsts.signalReentrant = 0 ∧
      sampleDelivery.process._signalMask = 17 ∧
      sampleHandling.handler.mask ||| (1 <<< 4) = 16 :=
  ⟨sampleDelivery_delivered, rfl, by decide, rfl, by decide⟩

/-- C15, amended. Signal mask on delivery: when `raiseContext` delivers a signal
`sn`, the process afterwards differs from the process before in its signal mask
only, and that mask is the union of the mask of the process before the delivery
and the mask of the handler, plus the bit of `sn` itself (bit `sn - 1`, for `sn` in
1..64) unless the re-entrant flag of the handler is set. -/
theorem delivery_mask (c : DeliveryConsts) (k : RaiseKernel) (item : SignalItem)
    (process : Process) (handling : SignalHandling) (d : Delivery)
    (h : raiseContext c k item process handling = .done (.delivered d)) :
    d.process = { process with _signalMask := d.process._signalMask } ∧
    (handling.handler.flags &&& c.signalReentrant ≠ 0 →
      d.process._signalMask = process._signalMask ||| handling.handler.mask) ∧
    (handling.handler.flags &&& c.signalReentrant = 0 →
      1 ≤ item.signalNumber → item.signalNumber ≤ 64 →
      d.process._signalMask =
        process._signalMask ||| handling.handler.mask |||
          (1 <<< (item.signalNumber - 1).toNat)) ∧
    (1 ≤ item.signalNumber → item.signalNumber ≤ 64 → ∀ j,
      d.process._signalMask.testBit j =
        (process._signalMask.testBit j || handling.handler.mask.testBit j ||
          (decide ((item.signalNumber - 1).toNat = j) &&
            decide (handling.handler.flags &&& c.signalReentrant = 0)))) := by
  obtain ⟨_, _, hd⟩ := raiseContext_delivered h
  subst hd
  refine ⟨rfl, ?_, ?_, ?_⟩
  · intro hre
    simp only [maskedProcess, handlerMask]
    rw [if_neg hre]
  · intro hre h1 h64
    simp only [maskedProcess, handlerMask]
    rw [if_pos hre]
    unfold sigaddset
    rw [if_pos ⟨h1, h64⟩]
  · intro h1 h64 j
    simp only [maskedProcess, handlerMask]
    by_cases hre : handling.handler.flags &&& c.signalReentrant = 0
    · rw [if_pos hre, sigaddset_testBit _ _ h1 h64, Nat.testBit_or]
      simp [hre]
    · rw [if_neg hre, Nat.testBit_or]
      simp [hre]

theorem delivery_mask_witness :
    sampleDelivery.process._signalMask = 1 ||| 0 ||| (1 <<< (5 - 1 : Int).toNat) :=
  (delivery_mask sampleConsts sampleRaiseKernel ⟨5, SignalInfo.user 1 0⟩ sampleProcess
    sampleHandling sampleDelivery sampleDelivery_delivered).2.2.1 (by decide) (by decide)
    (by decide)

/-- C16. Round trip of delivery and restore: if `raiseContext` delivers a signal
to a process with signal mask `M` and a thread whose general registers and SIMD
state are `R`, and `restoreContext` then runs once, on whatever the process has
become, with the stack pointer of the thread equal to the frame address of the
delivery plus the call misalignment and with the memory still holding the frame
and the SIMD state that the delivery wrote (the kernel calls succeeding), then
`restoreContext` returns, sets the signal mask of the process to `M` again,
changing no other field, and stores the registers `R` back to the thread. -/
theorem delivery_restore_round_trip (c : DeliveryConsts) (k : RaiseKernel)
    (k2 : RestoreKernel) (item : SignalItem) (process process2 : Process)
    (handling : SignalHandling) (d : Delivery)
    (hraise : raiseContext c k item process handling = .done (.delivered d))
    (hsp : k2.loadProgramRegs = (HelError.kHelErrNone, uadd d.frame stackCallMisalign))
    (hframe : k2.loadFrame d.frame c.sizeofSignalFrame =
      (HelError.kHelErrNone, d.storedFrame))
    (hsimd : k2.loadSimd (uadd d.frame c.sizeofSignalFrame) c.simdStateSize =
      (HelError.kHelErrNone, d.storedSimd))
    (hstore : k2.storeSignalRegs = HelError.kHelErrNone ∧
      k2.storeSimdRegs = HelError.kHelErrNone) :
    ∃ r, restoreContext c k2 process2 = .done r ∧
      r.process._signalMask = process._signalMask ∧
      r.process = { process2 with _signalMask := process._signalMask } ∧
      r.storedSignalRegs = k.loadSignalRegs.2 ∧
      r.storedSimdRegs = k.loadSimdRegs.2 := by
  obtain ⟨_, _, hd⟩ := raiseContext_delivered hraise
  have hlt : d.frame < wordMod := by
    rw [hd]; exact deliveryFrame_lt c k item process handling
  have hfr : usub (uadd d.frame stackCallMisalign) stackCallMisalign = d.frame :=
    usub_uadd_cancel _ _ hlt
  have hgregs : d.storedFrame.gregs = k.loadSignalRegs.2 := by rw [hd]; rfl
  have hmask : d.storedFrame.sigmask = process._signalMask := by rw [hd]; rfl
  have hs : d.storedSimd = k.loadSimdRegs.2 := by rw [hd]
  unfold restoreContext
  simp only [hsp, hfr, hframe, hsimd, hstore.1, hstore.2, ne_eq, not_true_eq_false,
    if_false]
  exact ⟨_, rfl, hmask, by rw [hmask], hgregs, hs⟩

theorem delivery_restore_round_trip_witness :
    ∃ r, restoreContext sampleConsts sampleRestoreKernel
        { sampleDelivery.process with _signalMask := 99 } = .done r ∧
      r.process._signalMask = sampleProcess._signalMask ∧
      r.process = { ({ sampleDelivery.process with _signalMask := 99 } : Process) with
        _signalMask := sampleProcess._signalMask } ∧
      r.storedSignalRegs = sampleRaiseKernel.loadSignalRegs.2 ∧
      r.storedSimdRegs = sampleRaiseKernel.loadSimdRegs.2 :=
  delivery_restore_round_trip sampleConsts sampleRaiseKernel sampleRestoreKernel
    ⟨5, SignalInfo.user 1 0⟩ sampleProcess { sampleDelivery.process with _signalMask := 99 }
    sampleHandling sampleDelivery sampleDelivery_delivered (by decide) (by decide) (by decide)
    ⟨rfl, rfl⟩
/-! ## Lemmas on the heap -/

@[simp] theorem setProc_procs_same (w : World) (ref : Ref) (p : Process) :
    (w.setProc ref p).procs ref = some p := by
  simp [World.setProc]

@[simp] theorem setProc_procs_ne (w : World) {ref r : Ref} (p : Process) (h : r ≠ ref) :
    (w.setProc ref p).procs r = w.procs r := by
  simp [World.setProc, Function.update_noteq h]

@[simp] theorem setProc_sigctxs (w : World) (ref : Ref) (p : Process) :
    (w.setProc ref p).sigctxs = w.sigctxs := rfl

@[simp] theorem setProc_groups (w : World) (ref : Ref) (p : Process) :
    (w.setProc ref p).groups = w.groups := rfl

@[simp] theorem setSigctx_procs (w : World) (ref : Ref) (s : SignalContext) :
    (w.setSigctx ref s).procs = w.procs := rfl

@[simp] theorem setSigctx_groups (w : World) (ref : Ref) (s : SignalContext) :
    (w.setSigctx ref s).groups = w.groups := rfl

@[simp] theorem setSigctx_sigctxs_same (w : World) (ref : Ref) (s : SignalContext) :
    (w.setSigctx ref s).sigctxs ref = some s := by
  simp [World.setSigctx]

@[simp] theorem setSigctx_sigctxs_ne (w : World) {ref r : Ref} (s : SignalContext)
    (h : r ≠ ref) : (w.setSigctx ref s).sigctxs r = w.sigctxs r := by
  simp [World.setSigctx, Function.update_noteq h]

/-- The heap after `retire` of a live process with a live parent other than
itself. -/
theorem retire_spec (w : World) (ref pref : Ref) (process parent : Process)
    (hp : w.procs ref = some process) (hpar : process._parent = some pref)
    (hne : pref ≠ ref) (hq : w.procs pref = some parent) :
    ∃ w2, retire w ref = .done w2 ∧
      w2.procs pref = some { parent with
        _childrenUsage :=
          { userTime := uadd parent._childrenUsage.userTime process._generationUsage.userTime }
        _children := parent._children.filter (fun e => decide (e ≠ ref)) } ∧
      w2.procs ref = some { process with
        _procfs_dir := process._procfs_dir.map (fun _ => false) } ∧
      (∀ r, r ≠ ref → r ≠ pref → w2.procs r = w.procs r) ∧
      w2.sigctxs = w.sigctxs ∧ w2.groups = w.groups := by
  unfold retire
  simp only [hp, hpar]
  cases hd : process._procfs_dir with
  | none =>
    simp only [hq]
    refine ⟨_, rfl, by simp, ?_, ?_, rfl, rfl⟩
    · rw [setProc_procs_ne _ _ hne.symm, hp]
      congr 1
      cases process
      simp_all
    · intro r h1 h2
      simp [h2]
  | some b =>
    simp only [setProc_procs_ne _ _ hne, hq]
    refine ⟨_, rfl, by simp, ?_, ?_, rfl, rfl⟩
    · rw [setProc_procs_ne _ _ hne.symm, setProc_procs_same]
      simp
    · intro r h1 h2
      simp [h1, h2]
/-! ## Waiting for children -/

theorem waitFind_head (bits : WaitFlagBits) (w : World) (flags : Nat) (c : Ref)
    (rest : List Ref) (pc : Process) (hc : w.procs c = some pc)
    (hflags : flags &&& bits.waitExited ≠ 0) :
    waitFind bits w (-1) flags (c :: rest) = some (some (c, pc)) := by
  simp [waitFind, hc, hflags]

theorem wait_args_ok (bits : WaitFlagBits) (w : World) (self : Ref) (flags : Nat)
    (me : Process) (hf : ReapingFlags bits flags) (hme : w.procs self = some me) :
    wait bits w self (-1) flags =
      if me._children.isEmpty then .done (.error Error.noChildProcesses, w)
      else waitPass bits w self (-1) flags := by
  obtain ⟨h1, _, h3⟩ := hf
  unfold wait
  simp [h1, h3, hme]

theorem hasChildIn_none (w : World) (pid : Int) (l : List Ref)
    (h : ∀ c ∈ l, ∃ pc, w.procs c = some pc ∧ pc.pid ≠ pid) :
    hasChildIn w pid l = some false := by
  induction l with
  | nil => rfl
  | cons c rest ih =>
    obtain ⟨pc, hpc, hne⟩ := h c (List.mem_cons_self _ _)
    simp only [hasChildIn, hpc, if_neg hne]
    exact ih (fun c2 hc2 => h c2 (List.mem_cons_of_mem _ hc2))

/-! ## Claims on waiting -/

/-- C18, as claimed, fails: asked for a child with pid 5, a process whose children
have the pids 2 and 3 gets the error `noChildProcesses`, the same error that a
process without children gets, and not an error of its own. -/
theorem wait_errors_counterexample :
    (sampleFamily.procs 1).map (fun p => p._children) = some [2, 3] ∧
      hasChildIn sampleFamily 5 [2, 3] = some false ∧
      waitAnswer (wait sampleBits sampleFamily 1 5 2) = some (.error Error.noChildProcesses) ∧
      (sampleFamily.procs 2).map (fun p => p._children) = some [] ∧
      waitAnswer (wait sampleBits sampleFamily 2 5 2) = some (.error Error.noChildProcesses) :=
  ⟨by decide, by decide, by decide, by decide, by decide⟩

/-- C18, amended. Error cases of `wait`: `wait(pid, flags)` with valid arguments
on a process with no children at all fails with `noChildProcesses`, and `wait`
with `pid > 0` on a process that has children but none with that pid fails with the
same error `noChildProcesses`; in both cases the heap is handed back as it was: the
notification queue and the children list are unchanged and nothing is reaped. -/
theorem wait_errors (bits : WaitFlagBits) (w : World) (self : Ref) (pid : Int) (flags : Nat)
    (me : Process) (hpid : pid = -1 ∨ pid > 0) (hflag : flags &&& bits.waitExited ≠ 0)
    (hextra : andNot flags
      (bits.waitNonBlocking ||| bits.waitExited ||| bits.waitLeaveZombie) = 0)
    (hme : w.procs self = some me) :
    (me._children = [] →
      wait bits w self pid flags = .done (.error Error.noChildProcesses, w)) ∧
    (pid > 0 → (∀ c ∈ me._children, ∃ pc, w.procs c = some pc ∧ pc.pid ≠ pid) →
      wait bits w self pid flags = .done (.error Error.noChildProcesses, w)) := by
  constructor
  · intro hch
    unfold wait
    simp [hpid, hflag, hextra, hme, hch]
  · intro hpos hnone
    unfold wait
    have hh := hasChildIn_none w pid me._children hnone
    simp only [hasChild, hh, hme]
    simp [hpid, hflag, hextra, hpos]

theorem wait_errors_witness :
    wait sampleBits sampleFamily 1 5 2 = .done (.error Error.noChildProcesses, sampleFamily) :=
  (wait_errors sampleBits sampleFamily 1 5 2
    { pid := 1, _children := [2, 3], _signalContext := some 10, _currentGeneration := some 20 }
    (Or.inr (by decide)) (by decide) (by decide) rfl).2 (by decide) (by
      intro c hc
      simp only [List.mem_cons, List.mem_singleton, List.not_mem_nil, or_false] at hc
      rcases hc with rfl | rfl
      · exact ⟨_, rfl, by decide⟩
      · exact ⟨_, rfl, by decide⟩)
/-! ## Termination of a process -/

theorem issueSignal_ok (s : SignalContext) (sn : Int) (info : SignalInfo)
    (h1 : 1 ≤ sn) (h64 : sn ≤ 64) : ∃ s2, issueSignal s sn info = .done s2 := by
  have ha : ¬ ¬ (sn > 0) := by omega
  have hb : ¬ ¬ (sn - 1 < 64) := by omega
  rw [issueSignal, if_neg ha, if_neg hb]
  exact ⟨_, rfl⟩

theorem pdeathSignals_congr (w1 w2 : World) (X : Ref) (cs : List Ref)
    (h : ∀ c ∈ cs, w1.procs c = w2.procs c) :
    pdeathSignals w1 X cs = pdeathSignals w2 X cs := by
  induction cs with
  | nil => rfl
  | cons c rest ih =>
    simp only [pdeathSignals, List.filterMap_cons, h c (List.mem_cons_self _ _)]
    have := ih (fun c2 hc2 => h c2 (List.mem_cons_of_mem _ hc2))
    simp only [pdeathSignals] at this
    rw [this]

theorem pdeathSignals_cons (w : World) (X : Ref) (c : Ref) (rest : List Ref) (pc : Process)
    (hpc : w.procs c = some pc) :
    pdeathSignals w X (c :: rest) =
      (match (if pc._signalContext = some X then pc.parentDeathSignal_ else none) with
        | some sn => sn :: pdeathSignals w X rest
        | none => pdeathSignals w X rest) := by
  simp only [pdeathSignals, List.filterMap_cons, hpc, Option.some_bind]
  cases (if pc._signalContext = some X then pc.parentDeathSignal_ else none) <;> rfl

/-- The loop over the children in `terminate`: every child gets the parent
`reparent_to`, which gets them appended to its children in their order; the
process is left without children; each signal context gets the parent-death
signals of the children that use it, in order; nothing else changes. -/
theorem reparentChildren_spec (uid0 : Int) (self : Ref) (selfPid : Int) (R : Ref)
    (hne : self ≠ R) (cs : List Ref) :
    ∀ (w : World) (me root : Process), cs.Nodup → self ∉ cs → R ∉ cs →
      w.procs self = some me → me._children = cs → w.procs R = some root →
      LiveChildren w cs →
      ∃ w2, reparentChildren uid0 self selfPid R w cs = .done w2 ∧
        w2.procs self = some { me with _children := [] } ∧
        w2.procs R = some { root with _children := root._children ++ cs } ∧
        (∀ c ∈ cs, ∀ pc, w.procs c = some pc →
          w2.procs c = some { pc with _parent := some R }) ∧
        (∀ r, r ∉ cs → r ≠ self → r ≠ R → w2.procs r = w.procs r) ∧
        w2.groups = w.groups ∧
        (∀ X, w2.sigctxs X = (w.sigctxs X).bind (fun ctx =>
          issueAll (SignalInfo.user selfPid uid0) ctx (pdeathSignals w X cs))) := by
  induction cs with
  | nil =>
    intro w me root _ _ _ hme hch hroot _
    refine ⟨w, rfl, ?_, ?_, ?_, fun _ _ _ _ => rfl, rfl, ?_⟩
    · rw [hme, ← hch]
    · rw [hroot]; simp
    · intro c hc; exact absurd hc (List.not_mem_nil _)
    · intro X
      cases w.sigctxs X <;> simp [pdeathSignals, issueAll]
  | cons c rest ih =>
    intro w me root hnd hself hR hme hch hroot hlive
    obtain ⟨hcnot, hnd2⟩ := List.nodup_cons.mp hnd
    have hcs : c ≠ self := fun h => hself (h ▸ List.mem_cons_self _ _)
    have hcR : c ≠ R := fun h => hR (h ▸ List.mem_cons_self _ _)
    obtain ⟨child, hchild, hreq⟩ := hlive c (List.mem_cons_self _ _)
    obtain ⟨w2, hw2⟩ : ∃ w2 : World, w2 = (w.setProc c { child with _parent := some R }).setProc R
        { root with _children := root._children ++ [c] } := ⟨_, rfl⟩
    have key : ∀ w3 : World, w3.procs = w2.procs → w3.groups = w.groups →
        (∀ X, w3.sigctxs X = (w.sigctxs X).bind (fun ctx =>
          issueAll (SignalInfo.user selfPid uid0) ctx
            (match (if child._signalContext = some X then child.parentDeathSignal_
              else none) with
            | some sn => [sn]
            | none => []))) →
        ∃ wf, reparentChildren uid0 self selfPid R
            (w3.setProc self { me with _children := rest }) rest = .done wf ∧
          wf.procs self = some { me with _children := [] } ∧
          wf.procs R = some { root with _children := root._children ++ c :: rest } ∧
          (∀ c2 ∈ c :: rest, ∀ pc, w.procs c2 = some pc →
            wf.procs c2 = some { pc with _parent := some R }) ∧
          (∀ r, r ∉ c :: rest → r ≠ self → r ≠ R → wf.procs r = w.procs r) ∧
          wf.groups = w.groups ∧
          (∀ X, wf.sigctxs X = (w.sigctxs X).bind (fun ctx =>
            issueAll (SignalInfo.user selfPid uid0) ctx (pdeathSignals w X (c :: rest)))) := by
      intro w3 hprocs hgroups hsig
      have hp4 : ∀ r, r ≠ self → r ≠ R → r ≠ c →
          (w3.setProc self { me with _children := rest }).procs r = w.procs r := by
        intro r h1 h2 h3
        rw [setProc_procs_ne _ _ h1, hprocs]
        rw [hw2]
        rw [setProc_procs_ne _ _ h2, setProc_procs_ne _ _ h3]
      have hrestproc : ∀ c2 ∈ rest,
          (w3.setProc self { me with _children := rest }).procs c2 = w.procs c2 := by
        intro c2 hc2
        exact hp4 c2 (fun h => hself (h ▸ List.mem_cons_of_mem _ hc2))
          (fun h => hR (h ▸ List.mem_cons_of_mem _ hc2)) (fun h => hcnot (h ▸ hc2))
      obtain ⟨wf, hrun, hfself, hfR, hfc, hfother, hfg, hfs⟩ :=
        ih (w3.setProc self { me with _children := rest }) { me with _children := rest }
          { root with _children := root._children ++ [c] } hnd2
          (fun h => hself (List.mem_cons_of_mem _ h)) (fun h => hR (List.mem_cons_of_mem _ h))
          (by simp) rfl
          (by rw [setProc_procs_ne _ _ hne.symm, hprocs, hw2]; simp)
          (by
            intro c2 hc2
            obtain ⟨pc2, hpc2, hreq2⟩ := hlive c2 (List.mem_cons_of_mem _ hc2)
            refine ⟨pc2, by rw [hrestproc c2 hc2]; exact hpc2, ?_⟩
            intro sn hsn
            obtain ⟨h1, h64, X, ctx, hX, hctx⟩ := hreq2 sn hsn
            refine ⟨h1, h64, X, ?_⟩
            have hs := hsig X
            rw [hctx] at hs
            simp only [Option.some_bind] at hs
            by_cases hcx : child._signalContext = some X
            · simp only [hcx, if_true] at hs
              cases hpd : child.parentDeathSignal_ with
              | none =>
                rw [hpd] at hs
                exact ⟨ctx, hX, by simpa [issueAll] using hs⟩
              | some sn0 =>
                rw [hpd] at hs
                obtain ⟨h1c, h64c, _⟩ := hreq sn0 hpd
                obtain ⟨s2, hs2⟩ := issueSignal_ok ctx sn0 (SignalInfo.user selfPid uid0) h1c h64c
                exact ⟨s2, hX, by simpa [issueAll, hs2] using hs⟩
            · simp only [hcx, if_false] at hs
              exact ⟨ctx, hX, by simpa [issueAll] using hs⟩)
      refine ⟨wf, hrun, hfself, ?_, ?_, ?_, ?_, ?_⟩
      · rw [hfR]; simp
      · intro c2 hc2 pc hpc
        rcases List.mem_cons.mp hc2 with rfl | hc2
        · rw [hfother c2 hcnot hcs hcR, setProc_procs_ne _ _ hcs, hprocs]
          rw [hw2]
          rw [setProc_procs_ne _ _ hcR, setProc_procs_same]
          rw [hchild] at hpc
          cases hpc
          rfl
        · exact hfc c2 hc2 pc (by rw [hrestproc c2 hc2]; exact hpc)
      · intro r hr h1 h2
        have h3 : r ≠ c := fun h => hr (h ▸ List.mem_cons_self _ _)
        rw [hfother r (fun h => hr (List.mem_cons_of_mem _ h)) h1 h2]
        exact hp4 r h1 h2 h3
      · rw [hfg]; exact hgroups
      · intro X
        rw [hfs X, pdeathSignals_congr _ w X rest hrestproc, pdeathSignals_cons w X c rest child hchild]
        simp only [setProc_sigctxs]
        rw [hsig X]
        cases hX : w.sigctxs X with
        | none => rfl
        | some ctx =>
          simp only [Option.some_bind]
          cases hsel : (if child._signalContext = some X then child.parentDeathSignal_
              else none) with
          | none => simp [issueAll]
          | some sn =>
            simp only [issueAll]
            cases issueSignal ctx sn (SignalInfo.user selfPid uid0) <;> simp [issueAll]
    -- the run of the first round
    have hw2R : (w.setProc c { child with _parent := some R }).procs R = some root := by
      rw [setProc_procs_ne _ _ hcR.symm]; exact hroot
    have hw2self : w2.procs self = some me := by
      rw [hw2, setProc_procs_ne _ _ hne, setProc_procs_ne _ _ hcs.symm]; exact hme
    have hw2sig : w2.sigctxs = w.sigctxs := by rw [hw2]; rfl
    have hw2g : w2.groups = w.groups := by rw [hw2]; rfl
    obtain ⟨w3, hsend, hp3, hg3, hs3⟩ : ∃ w3, sendParentDeathSignal uid0 selfPid w2 child =
        .done w3 ∧ w3.procs = w2.procs ∧ w3.groups = w.groups ∧
        (∀ X, w3.sigctxs X = (w.sigctxs X).bind (fun ctx =>
          issueAll (SignalInfo.user selfPid uid0) ctx
            (match (if child._signalContext = some X then child.parentDeathSignal_
              else none) with
            | some sn => [sn]
            | none => []))) := by
      unfold sendParentDeathSignal
      cases hpd : child.parentDeathSignal_ with
      | none =>
        refine ⟨w2, rfl, rfl, hw2g, ?_⟩
        intro X
        simp only [ite_self, hw2sig]
        cases w.sigctxs X <;> simp [issueAll]
      | some sn =>
        obtain ⟨h1, h64, X, ctx, hX, hctx⟩ := hreq sn hpd
        obtain ⟨ctx2, hctx2⟩ := issueSignal_ok ctx sn (SignalInfo.user selfPid uid0) h1 h64
        simp only [hX, hw2sig, hctx, hctx2]
        refine ⟨_, rfl, rfl, hw2g, ?_⟩
        intro Y
        simp only [Option.some.injEq]
        by_cases hY : X = Y
        · subst hY
          simp [hctx, issueAll, hctx2]
        · rw [setSigctx_sigctxs_ne _ _ (fun h => hY h.symm)]
          simp only [if_neg hY, hw2sig]
          cases w.sigctxs Y <;> simp [issueAll]
    obtain ⟨wf, hrun, rest2⟩ := key w3 hp3 hg3 hs3
    refine ⟨wf, ?_, rest2⟩
    rw [reparentChildren]
    simp only [hchild, hw2R]
    rw [← hw2]
    simp only [hsend, hp3, hw2self]
    exact hrun
theorem reparentTo_root (w : World) (R : Ref) :
    ∀ fuel r, reparentTo w fuel r = some (.done R) →
      (∃ p, w.procs r = some p) ∧ ∃ root, w.procs R = some root ∧ root._parent = none := by
  intro fuel
  induction fuel with
  | zero => intro r h; simp [reparentTo] at h
  | succ fuel ih =>
    intro r h
    rw [reparentTo] at h
    cases hp : w.procs r with
    | none => simp [hp] at h
    | some p =>
      simp only [hp] at h
      cases hq : p._parent with
      | none =>
        simp only [hq, Option.some.injEq, Outcome.done.injEq] at h
        subst h
        exact ⟨⟨p, rfl⟩, p, hp, hq⟩
      | some q =>
        simp only [hq] at h
        exact ⟨⟨p, rfl⟩, (ih q h).2⟩

theorem reparentTo_congr (w1 w : World)
    (h : ∀ r, (w1.procs r).map (fun p => p._parent) = (w.procs r).map (fun p => p._parent)) :
    ∀ fuel r, reparentTo w1 fuel r = reparentTo w fuel r := by
  intro fuel
  induction fuel with
  | zero => intro r; rfl
  | succ fuel ih =>
    intro r
    rw [reparentTo, reparentTo]
    have hr := h r
    cases h1 : w1.procs r with
    | none =>
      cases h2 : w.procs r with
      | none => rfl
      | some p => rw [h1, h2] at hr; simp at hr
    | some p1 =>
      cases h2 : w.procs r with
      | none => rw [h1, h2] at hr; simp at hr
      | some p =>
        rw [h1, h2] at hr
        simp only [Option.map_some', Option.some.injEq] at hr
        simp only [hr]
        cases p._parent with
        | none => rfl
        | some q => exact ih q

/-- The walk up the parent links does not end from a process that is its own
parent. -/
theorem reparentTo_self_loop (w : World) (R r : Ref) (p : Process) (hp : w.procs r = some p)
    (hpar : p._parent = some r) : ∀ fuel, reparentTo w fuel r ≠ some (.done R) := by
  intro fuel
  induction fuel with
  | zero => simp [reparentTo]
  | succ fuel ih =>
    rw [reparentTo]
    simp only [hp, hpar]
    exact ih

/-- The walk up the parent links does not end from two processes that are each
the parent of the other. -/
theorem reparentTo_two_loop (w : World) (R r q : Ref) (p pq : Process)
    (hp : w.procs r = some p) (hpar : p._parent = some q)
    (hq : w.procs q = some pq) (hqpar : pq._parent = some r) :
    ∀ fuel, reparentTo w fuel r ≠ some (.done R) ∧ reparentTo w fuel q ≠ some (.done R) := by
  intro fuel
  induction fuel with
  | zero => simp [reparentTo]
  | succ fuel ih =>
    constructor
    · rw [reparentTo]
      simp only [hp, hpar]
      exact ih.2
    · rw [reparentTo]
      simp only [hq, hqpar]
      exact ih.1

theorem issueAll_queue (info : SignalInfo) (sns : List Int) :
    ∀ ctx ctx2 : SignalContext, ctx._slots.length = 64 → (∀ sn ∈ sns, 1 ≤ sn ∧ sn ≤ 64) →
      issueAll info ctx sns = some ctx2 →
      ctx2._slots.length = 64 ∧ ctx2._handlers = ctx._handlers ∧
      ∀ j, (ctx2.slot j).asyncQueue = (ctx.slot j).asyncQueue ++
        (sns.filter (fun sn => decide ((sn - 1).toNat = j))).map
          (fun sn => { signalNumber := sn, info := info }) := by
  induction sns with
  | nil =>
    intro ctx ctx2 hlen _ h
    simp only [issueAll, Option.some.injEq] at h
    subst h
    exact ⟨hlen, rfl, fun j => by simp⟩
  | cons sn rest ih =>
    intro ctx ctx2 hlen hsn h
    obtain ⟨h1, h64⟩ := hsn sn (List.mem_cons_self _ _)
    obtain ⟨s2, heq, _, hh, hlen2, hslot, _⟩ := issueSignal_spec ctx sn info h1 h64 hlen
    simp only [issueAll, heq] at h
    obtain ⟨hl, hhf, hq⟩ := ih s2 ctx2 hlen2 (fun x hx => hsn x (List.mem_cons_of_mem _ hx)) h
    refine ⟨hl, by rw [hhf, hh], ?_⟩
    intro j
    rw [hq j, hslot j]
    by_cases hj : (sn - 1).toNat = j
    · rw [if_pos hj, List.filter_cons_of_pos (by simpa using hj)]
      simp [hj]
    · rw [if_neg hj, List.filter_cons_of_neg (by simpa using hj)]

theorem issueAll_ok (info : SignalInfo) (sns : List Int) :
    ∀ ctx : SignalContext, (∀ sn ∈ sns, 1 ≤ sn ∧ sn ≤ 64) →
      ∃ ctx2, issueAll info ctx sns = some ctx2 := by
  induction sns with
  | nil => intro ctx _; exact ⟨ctx, rfl⟩
  | cons sn rest ih =>
    intro ctx hsn
    obtain ⟨h1, h64⟩ := hsn sn (List.mem_cons_self _ _)
    obtain ⟨s2, heq⟩ := issueSignal_ok ctx sn info h1 h64
    obtain ⟨ctx2, h2⟩ := ih s2 (fun x hx => hsn x (List.mem_cons_of_mem _ hx))
    exact ⟨ctx2, by simp only [issueAll, heq, h2]⟩

theorem pdeathSignals_range (w : World) (X : Ref) (cs : List Ref) (h : LiveChildren w cs) :
    ∀ sn ∈ pdeathSignals w X cs, 1 ≤ sn ∧ sn ≤ 64 := by
  intro sn hsn
  simp only [pdeathSignals, List.mem_filterMap] at hsn
  obtain ⟨c, hc, hb⟩ := hsn
  obtain ⟨pc, hpc, hreq⟩ := h c hc
  rw [hpc] at hb
  simp only [Option.some_bind] at hb
  split at hb
  · obtain ⟨h1, h64, _⟩ := hreq sn hb
    exact ⟨h1, h64⟩
  · cases hb
/-- The end of `terminate`: the process is marked terminated; it is queued at its
parent, or retired; `SIGCHLD` is issued on the signal context of the parent. -/
theorem notifyParent_spec (SIGCHLD : Int) (signalNoChildWait : Nat) (uid0 : Int) (w : World)
    (self parent sc : Ref) (state : TerminationState) (me par : Process)
    (ctx : SignalContext) (h : SignalHandler)
    (hme : w.procs self = some me) (hnt : me.notifyType_ = NotifyType.null)
    (hne : parent ≠ self) (hmp : me._parent = some parent)
    (hpar : w.procs parent = some par) (hsc : par._signalContext = some sc)
    (hctx : w.sigctxs sc = some ctx) (h1 : 1 ≤ SIGCHLD) (h64 : SIGCHLD ≤ 64)
    (hh : ctx._handlers[(SIGCHLD - 1).toNat]? = some h) :
    ∃ w2 ctx2, notifyParent SIGCHLD signalNoChildWait uid0 w self parent state = .done w2 ∧
      issueSignal ctx SIGCHLD (SignalInfo.user me.pid uid0) = .done ctx2 ∧
      w2.sigctxs sc = some ctx2 ∧ (∀ X, X ≠ sc → w2.sigctxs X = w.sigctxs X) ∧
      w2.groups = w.groups ∧
      (∀ r, r ≠ self → r ≠ parent → w2.procs r = w.procs r) ∧
      w2.procs self = some { me with
        notifyType_ := NotifyType.terminated
        _state := state
        _procfs_dir :=
          if keepsZombie signalNoChildWait h then me._procfs_dir
          else me._procfs_dir.map (fun _ => false) } ∧
      w2.procs parent = some
        (if keepsZombie signalNoChildWait h then
          { par with _notifyQueue := par._notifyQueue ++ [self] }
        else
          { par with
            _childrenUsage :=
              { userTime := uadd par._childrenUsage.userTime me._generationUsage.userTime }
            _children := par._children.filter (fun e => decide (e ≠ self)) }) := by
  obtain ⟨ctx2, hctx2⟩ := issueSignal_ok ctx SIGCHLD (SignalInfo.user me.pid uid0) h1 h64
  have hget : getHandler ctx SIGCHLD = .done h := by
    unfold getHandler
    rw [if_neg (by omega)]
    simp only [hh]
  unfold notifyParent
  simp only [hme, hnt, ne_eq, not_true_eq_false, if_false, setProc_procs_ne _ _ hne, hpar,
    hsc, setProc_sigctxs, hctx, hget, hctx2]
  by_cases hk : keepsZombie signalNoChildWait h
  · have hk2 : h.disposition ≠ SignalDisposition.ignore ∧ h.flags &&& signalNoChildWait = 0 :=
      hk
    simp only [ne_eq] at hk2
    simp only [hk2, not_false_eq_true, and_self, if_true]
    refine ⟨_, ctx2, rfl, rfl, by simp, ?_, rfl, ?_, ?_, ?_⟩
    · intro X hX
      simp [setSigctx_sigctxs_ne _ _ hX]
    · intro r hr1 hr2
      simp [hr1, hr2]
    · simp only [setSigctx_procs, setProc_procs_ne _ _ hne.symm, setProc_procs_same, if_pos hk]
    · simp only [setSigctx_procs, setProc_procs_same, if_pos hk]
  · have hk2 : ¬ (h.disposition ≠ SignalDisposition.ignore ∧
        h.flags &&& signalNoChildWait = 0) := hk
    simp only [ne_eq] at hk2
    simp only [hk2, if_false]
    obtain ⟨wr, hret, hrp, hrs, hro, hrsig, hrg⟩ := retire_spec
      (w.setProc self { me with notifyType_ := NotifyType.terminated, _state := state })
      self parent { me with notifyType_ := NotifyType.terminated, _state := state } par
      (by simp) hmp hne (by rw [setProc_procs_ne _ _ hne]; exact hpar)
    simp only [hret]
    refine ⟨_, ctx2, rfl, rfl, by simp, ?_, ?_, ?_, ?_, ?_⟩
    · intro X hX
      rw [setSigctx_sigctxs_ne _ _ hX, hrsig]
      rfl
    · rw [setSigctx_groups, hrg]; rfl
    · intro r hr1 hr2
      rw [setSigctx_procs, hro r hr1 hr2, setProc_procs_ne _ _ hr1]
    · rw [setSigctx_procs, hrs, if_neg hk]
    · rw [setSigctx_procs, hrp, if_neg hk]
      simp only [hsc]
theorem issueSignal_handlers {s s2 : SignalContext} {sn : Int} {info : SignalInfo}
    (h : issueSignal s sn info = .done s2) : s2._handlers = s._handlers := by
  unfold issueSignal at h
  split at h
  · cases h
  · split at h
    · cases h
    · cases h; rfl

theorem issueAll_handlers (info : SignalInfo) (sns : List Int) :
    ∀ ctx ctx2 : SignalContext, issueAll info ctx sns = some ctx2 →
      ctx2._handlers = ctx._handlers := by
  induction sns with
  | nil =>
    intro ctx ctx2 h
    simp only [issueAll, Option.some.injEq] at h
    rw [← h]
  | cons sn rest ih =>
    intro ctx ctx2 h
    rw [issueAll] at h
    cases hi : issueSignal ctx sn info with
    | done s2 =>
      rw [hi] at h
      rw [ih s2 ctx2 h, issueSignal_handlers hi]
    | fatal => rw [hi] at h; cases h
    | undefined => rw [hi] at h; cases h

/-- The heap after `terminate` of a live process whose parent links end in the
root `R`, whose children are live and have it as their parent, and whose parent
has a signal context with a handler slot for `SIGCHLD`. -/
theorem terminate_spec (SIGCHLD : Int) (signalNoChildWait : Nat) (uid0 : Int)
    (k : TerminateKernel) (fuel : Nat) (w : World) (self : Ref) (state : TerminationState)
    (me par : Process) (parent R sc : Ref) (ctx : SignalContext) (h : SignalHandler)
    (hme : w.procs self = some me) (hmp : me._parent = some parent)
    (hkill : k.killThread = HelError.kHelErrNone)
    (hstats : k.queryThreadStats = HelError.kHelErrNone)
    (hgen : me._currentGeneration ≠ none) (hnt : me.notifyType_ = NotifyType.null)
    (hwalk : reparentTo w fuel parent = some (.done R))
    (hnd : me._children.Nodup)
    (hkids : ∀ c ∈ me._children, ∃ pc, w.procs c = some pc ∧ pc._parent = some self)
    (hlive : LiveChildren w me._children)
    (hpar : w.procs parent = some par) (hsc : par._signalContext = some sc)
    (hctx : w.sigctxs sc = some ctx) (h1 : 1 ≤ SIGCHLD) (h64 : SIGCHLD ≤ 64)
    (hh : ctx._handlers[(SIGCHLD - 1).toNat]? = some h) :
    ∃ w2 root, terminate SIGCHLD signalNoChildWait uid0 k fuel w self state = some (.done w2) ∧
      w.procs R = some root ∧ root._parent = none ∧
      self ≠ R ∧ parent ≠ self ∧ self ∉ me._children ∧ R ∉ me._children ∧
      parent ∉ me._children ∧
      w2.procs self = some { me with
        _generationUsage := { userTime := uadd me._generationUsage.userTime k.userTime }
        _posixLane := none
        _threadDescriptor := none
        _vmContext := none
        _fsContext := none
        _fileContext := none
        _currentGeneration := none
        _children := []
        notifyType_ := NotifyType.terminated
        _state := state
        _procfs_dir :=
          if keepsZombie signalNoChildWait h then me._procfs_dir
          else me._procfs_dir.map (fun _ => false) } ∧
      (∀ c ∈ me._children, ∀ pc, w.procs c = some pc →
        w2.procs c = some { pc with _parent := some R }) ∧
      (∃ par0, par0 = (if parent = R then
            { par with _children := par._children ++ me._children } else par) ∧
        w2.procs parent = some
          (if keepsZombie signalNoChildWait h then
            { par0 with _notifyQueue := par0._notifyQueue ++ [self] }
          else
            { par0 with
              _childrenUsage :=
                { userTime := uadd par0._childrenUsage.userTime
                    (uadd me._generationUsage.userTime k.userTime) }
              _children := par0._children.filter (fun e => decide (e ≠ self)) })) ∧
      (R ≠ parent →
        w2.procs R = some { root with _children := root._children ++ me._children }) ∧
      (∀ r, r ∉ me._children → r ≠ self → r ≠ R → r ≠ parent → w2.procs r = w.procs r) ∧
      w2.groups = w.groups ∧
      (∀ X, w.sigctxs X = none → w2.sigctxs X = none) ∧
      (∀ X ctxX, w.sigctxs X = some ctxX →
        ∃ c1 c2, issueAll (SignalInfo.user me.pid uid0) ctxX
            (pdeathSignals w X me._children) = some c1 ∧
          w2.sigctxs X = some c2 ∧ (X ≠ sc → c2 = c1) ∧
          (X = sc → issueSignal c1 SIGCHLD (SignalInfo.user me.pid uid0) = .done c2)) := by
  obtain ⟨_, root, hroot, hrootpar⟩ := reparentTo_root w R fuel parent hwalk
  have hselfR : self ≠ R := by
    intro hEq
    rw [← hEq, hme] at hroot
    cases hroot
    rw [hmp] at hrootpar
    cases hrootpar
  have hparself : parent ≠ self := by
    intro hEq
    exact reparentTo_self_loop w R self me hme (by rw [hmp, hEq]) fuel (hEq ▸ hwalk)
  have hselfnot : self ∉ me._children := by
    intro hmem
    obtain ⟨pc, hpc, hpp⟩ := hkids self hmem
    rw [hme] at hpc
    cases hpc
    rw [hmp] at hpp
    cases hpp
    exact hparself rfl
  have hRnot : R ∉ me._children := by
    intro hmem
    obtain ⟨pc, hpc, hpp⟩ := hkids R hmem
    rw [hroot] at hpc
    cases hpc
    rw [hrootpar] at hpp
    cases hpp
  have hparnot : parent ∉ me._children := by
    intro hmem
    obtain ⟨pc, hpc, hpp⟩ := hkids parent hmem
    exact (reparentTo_two_loop w R parent self pc me hpc hpp hme hmp fuel).1 hwalk
  obtain ⟨g, hg⟩ := Option.ne_none_iff_exists'.mp hgen
  -- the heap after the contexts are released
  obtain ⟨me1, hme1⟩ : ∃ me1 : Process, me1 = { me with
      _generationUsage := { userTime := uadd me._generationUsage.userTime k.userTime }
      _posixLane := none
      _threadDescriptor := none
      _vmContext := none
      _fsContext := none
      _fileContext := none
      _currentGeneration := none } := ⟨_, rfl⟩
  have hw1walk : reparentTo (w.setProc self me1) fuel parent = some (.done R) := by
    rw [reparentTo_congr (w.setProc self me1) w _ fuel parent]
    · exact hwalk
    · intro r
      by_cases hr : r = self
      · subst hr
        rw [setProc_procs_same, hme, hme1]
        rfl
      · rw [setProc_procs_ne _ _ hr]
  have hw1other : ∀ r, r ≠ self → (w.setProc self me1).procs r = w.procs r :=
    fun r hr => setProc_procs_ne _ _ hr
  have hme1ch : me1._children = me._children := by rw [hme1]
  obtain ⟨wr, hrun, hrself, hrR, hrc, hrother, hrg, hrs⟩ :=
    reparentChildren_spec uid0 self me.pid R hselfR me._children (w.setProc self me1) me1 root
      hnd hselfnot hRnot (by simp) hme1ch
      (by rw [hw1other R (fun hEq => hselfR hEq.symm)]; exact hroot)
      (by
        intro c hc
        obtain ⟨pc, hpc, hreq⟩ := hlive c hc
        exact ⟨pc, by rw [hw1other c (fun hEq => hselfnot (hEq ▸ hc))]; exact hpc, hreq⟩)
  have hpd : ∀ X, pdeathSignals (w.setProc self me1) X me._children =
      pdeathSignals w X me._children :=
    fun X => pdeathSignals_congr _ w X _
      (fun c hc => hw1other c (fun hEq => hselfnot (hEq ▸ hc)))
  -- the parent before the notification
  obtain ⟨par0, hpar0⟩ : ∃ par0 : Process, par0 = (if parent = R then
      { par with _children := par._children ++ me._children } else par) := ⟨_, rfl⟩
  have hrpar : wr.procs parent = some par0 := by
    by_cases hpR : parent = R
    · rw [hpar0, if_pos hpR]
      have : root = par := by
        rw [← hpR, hpar] at hroot
        exact (Option.some.inj hroot).symm
      rw [hpR, hrR, this]
    · rw [hpar0, if_neg hpR, hrother parent hparnot hparself hpR, hw1other parent hparself]
      exact hpar
  have hpar0sc : par0._signalContext = some sc := by
    rw [hpar0]
    split
    · exact hsc
    · exact hsc
  obtain ⟨c1, hc1⟩ := issueAll_ok (SignalInfo.user me.pid uid0) (pdeathSignals w sc me._children)
    ctx (pdeathSignals_range w sc me._children hlive)
  have hrsc : wr.sigctxs sc = some c1 := by
    rw [hrs sc, hpd sc]
    show (w.sigctxs sc).bind _ = _
    rw [hctx]
    exact hc1
  have hc1h : c1._handlers = ctx._handlers := issueAll_handlers _ _ ctx c1 hc1
  obtain ⟨w2, c2, hnot, hissue, hnsc, hnsig, hng, hnother, hnself, hnpar⟩ :=
    notifyParent_spec SIGCHLD signalNoChildWait uid0 wr self parent sc state
      { me1 with _children := [] } par0 c1 h hrself (by rw [hme1]; exact hnt) hparself
      (by rw [hme1]; exact hmp) hrpar hpar0sc hrsc h1 h64 (by rw [hc1h]; exact hh)
  refine ⟨w2, root, ?_, hroot, hrootpar, hselfR, hparself, hselfnot, hRnot, hparnot, ?_, ?_,
    ⟨par0, hpar0, ?_⟩, ?_, ?_, ?_, ?_, ?_⟩
  · unfold terminate
    cases me
    simp only at hmp hg
    subst hmp hg
    simp only [hme, hkill, hstats, ne_eq, not_true_eq_false, if_false]
    rw [← hme1, hw1walk]
    simp only [hrun, hnot]
  · rw [hnself, hme1]
  · intro c hc pc hpc
    have hcs : c ≠ self := fun hEq => hselfnot (hEq ▸ hc)
    have hcp : c ≠ parent := fun hEq => hparnot (hEq ▸ hc)
    rw [hnother c hcs hcp]
    exact hrc c hc pc (by rw [hw1other c hcs]; exact hpc)
  · rw [hnpar, hme1]
  · intro hRp
    rw [hnother R (fun hEq => hselfR hEq.symm) hRp, hrR]
  · intro r hr1 hr2 hr3 hr4
    rw [hnother r hr2 hr4, hrother r hr1 hr2 hr3, hw1other r hr2]
  · rw [hng, hrg]
    rfl
  · intro X hX
    have hXsc : X ≠ sc := by
      intro hEq
      rw [hEq, hctx] at hX
      cases hX
    rw [hnsig X hXsc, hrs X]
    show (w.sigctxs X).bind _ = _
    rw [hX]
    rfl
  · intro X ctxX hX
    obtain ⟨cX, hcX⟩ := issueAll_ok (SignalInfo.user me.pid uid0)
      (pdeathSignals w X me._children) ctxX (pdeathSignals_range w X me._children hlive)
    by_cases hXsc : X = sc
    · subst hXsc
      rw [hctx] at hX
      cases hX
      rw [hc1] at hcX
      cases hcX
      have hissue2 : issueSignal c1 SIGCHLD (SignalInfo.user me.pid uid0) = .done c2 := by
        rw [hme1] at hissue
        exact hissue
      exact ⟨c1, c2, hc1, hnsc, fun hne => absurd rfl hne, fun _ => hissue2⟩
    · refine ⟨cX, cX, hcX, ?_, fun _ => rfl, fun hEq => absurd hEq hXsc⟩
      rw [hnsig X hXsc, hrs X, hpd X]
      show (w.sigctxs X).bind _ = _
      rw [hX]
      exact hcX
theorem filter_signal_eq (l : List Int) (n : Int) (hl : ∀ sn ∈ l, 1 ≤ sn ∧ sn ≤ 64)
    (h1 : 1 ≤ n) (h64 : n ≤ 64) :
    l.filter (fun sn => decide ((sn - 1).toNat = (n - 1).toNat)) =
      l.filter (fun sn => decide (sn = n)) := by
  apply List.filter_congr
  intro sn hsn
  obtain ⟨ha, hb⟩ := hl sn hsn
  have : ((sn - 1).toNat = (n - 1).toNat) ↔ sn = n := by omega
  simp only [this]

theorem sampleThreads_terminating :
    Terminating 17 sampleTerminateKernel 4 sampleThreads 2
      { pid := 2, _parent := some 1, _children := [3, 4], _signalContext := some 11,
        _currentGeneration := some 21 }
      { pid := 1, _children := [2], _signalContext := some 10, _currentGeneration := some 20 }
      1 1 10 (SignalContext.init sampleHandlers) ⟨SignalDisposition.none, 0, 0, 0, 0⟩ where
  live := rfl
  hasParent := rfl
  killed := rfl
  stats := rfl
  generation := by decide
  running := rfl
  walk := by decide
  distinct := by decide
  children := by
    intro c hc
    simp only [List.mem_cons, List.mem_singleton, List.not_mem_nil, or_false] at hc
    rcases hc with rfl | rfl
    · exact ⟨_, rfl, rfl⟩
    · exact ⟨_, rfl, rfl⟩
  requests := by
    intro c hc
    simp only [List.mem_cons, List.mem_singleton, List.not_mem_nil, or_false] at hc
    rcases hc with rfl | rfl
    · refine ⟨_, rfl, ?_⟩
      intro sn hsn
      simp only [Option.some.injEq] at hsn
      subst hsn
      exact ⟨by decide, by decide, 11, _, rfl, rfl⟩
    · refine ⟨_, rfl, ?_⟩
      intro sn hsn
      simp only [Option.some.injEq] at hsn
      subst hsn
      exact ⟨by decide, by decide, 11, _, rfl, rfl⟩
  parentLive := rfl
  parentContext := rfl
  context := rfl
  sigchldPos := by decide
  sigchldMax := by decide
  handler := by decide

/-! ## Claims on the termination of a process -/

/-- C19, as claimed, fails: the children 3 and 4 of process 2 share one signal
context (they were made by `Process::clone`), and each has asked for signal 15 at
the death of its parent; when process 2 terminates, that context gets two new
items with signal number 15, not exactly one. -/
theorem terminate_reparents_counterexample :
    (sampleThreads.procs 3).map (fun p => (p._parent, p._signalContext, p.parentDeathSignal_)) =
        some (some 2, some 11, some 15) ∧
      (sampleThreads.procs 4).map (fun p => (p._parent, p._signalContext, p.parentDeathSignal_)) =
        some (some 2, some 11, some 15) ∧
      (sampleThreads.sigctxs 11).map (fun s => (s.slot 14).asyncQueue) = some [] ∧
      ((worldAfter (terminate 17 16 0 sampleTerminateKernel 4 sampleThreads 2
          (TerminationState.byExit 0))).sigctxs 11).map (fun s => (s.slot 14).asyncQueue) =
        some [⟨15, SignalInfo.user 2 0⟩, ⟨15, SignalInfo.user 2 0⟩] :=
  ⟨by decide, by decide, by decide, by decide⟩
/-- C19, amended. Reparenting on `terminate`: when a process `P` with children
`c1 .. ck` terminates, `terminate` returns, and afterwards the children list of `P`
is empty; every `ci` has as parent the root `R` of the parent chain of `P` and is
otherwise unchanged; `c1 .. ck` are appended in their order to the children list of
`R` (from which `P` itself is removed if `R` is the parent of `P` and `P` is retired
at once); and on every signal context the new items are, in the order of the
children, one item with signal number `s` for each child that uses this context and
asked for the parent-death signal `s`, followed by the `SIGCHLD` item if it is the
context of the parent of `P`: so a context shared by several children gets one item
for each of them that asked, and a context none of whose children asked gets none
from the reparenting. -/
theorem terminate_reparents (SIGCHLD : Int) (signalNoChildWait : Nat) (uid0 : Int)
    (k : TerminateKernel) (fuel : Nat) (w : World) (self : Ref) (state : TerminationState)
    (me par : Process) (parent R sc : Ref) (ctx : SignalContext) (h : SignalHandler)
    (ht : Terminating SIGCHLD k fuel w self me par parent R sc ctx h) :
    ∃ w2 root, terminate SIGCHLD signalNoChildWait uid0 k fuel w self state = some (.done w2) ∧
      w.procs R = some root ∧ root._parent = none ∧
      (∃ me2, w2.procs self = some me2 ∧ me2._children = []) ∧
      (∀ c ∈ me._children, ∀ pc, w.procs c = some pc →
        w2.procs c = some { pc with _parent := some R }) ∧
      (∃ root2, w2.procs R = some root2 ∧
        root2._children =
          (if parent = R ∧ ¬ keepsZombie signalNoChildWait h then
            root._children.filter (fun e => decide (e ≠ self))
          else root._children) ++ me._children) ∧
      (∀ X ctxX, w.sigctxs X = some ctxX → ctxX._slots.length = 64 →
        ∃ ctx2, w2.sigctxs X = some ctx2 ∧ ∀ n : Int, 1 ≤ n → n ≤ 64 →
          (ctx2.slot (n - 1).toNat).asyncQueue = (ctxX.slot (n - 1).toNat).asyncQueue ++
            ((pdeathSignals w X me._children).filter (fun sn => decide (sn = n))).map
              (fun sn => { signalNumber := sn, info := SignalInfo.user me.pid uid0 }) ++
            (if X = sc ∧ n = SIGCHLD then
              [{ signalNumber := SIGCHLD, info := SignalInfo.user me.pid uid0 }]
            else [])) := by
  obtain ⟨tlive, thasParent, tkilled, tstats, tgeneration, trunning, twalk, tdistinct,
    tchildren, trequests, tparentLive, tparentContext, tcontext, tsigchldPos, tsigchldMax,
    thandler⟩ := ht
  obtain ⟨w2, root, hterm, hroot, hrootpar, hselfR, hparself, hselfnot, hRnot, hparnot, hself2,
    hkids2, ⟨par0, hpar0, hpar2⟩, hR2, _, _, _, hsig⟩ :=
    terminate_spec SIGCHLD signalNoChildWait uid0 k fuel w self state me par parent R sc ctx h
      tlive thasParent tkilled tstats tgeneration trunning twalk tdistinct
      tchildren trequests tparentLive tparentContext tcontext tsigchldPos
      tsigchldMax thandler
  refine ⟨w2, root, hterm, hroot, hrootpar, ⟨_, hself2, rfl⟩, hkids2, ?_, ?_⟩
  · by_cases hpR : parent = R
    · have hrp : root = par := by
        have h2 := tparentLive
        rw [hpR, hroot] at h2
        exact Option.some.inj h2
      rw [if_pos hpR] at hpar0
      rw [hpR] at hpar2
      by_cases hk : keepsZombie signalNoChildWait h
      · rw [if_pos hk] at hpar2
        refine ⟨_, hpar2, ?_⟩
        rw [if_neg (fun hc => hc.2 hk), hpar0, hrp]
      · rw [if_neg hk] at hpar2
        refine ⟨_, hpar2, ?_⟩
        rw [if_pos ⟨hpR, hk⟩, hpar0, hrp]
        simp only [List.filter_append]
        congr 1
        apply List.filter_eq_self.mpr
        intro a ha
        simp only [ne_eq, decide_eq_true_eq]
        intro hEq
        exact hselfnot (hEq ▸ ha)
    · refine ⟨_, hR2 (fun hEq => hpR hEq.symm), ?_⟩
      rw [if_neg (fun hc => hpR hc.1)]
  · intro X ctxX hX hlen
    obtain ⟨c1, c2, hc1, hc2, hne, heq⟩ := hsig X ctxX hX
    have hrange := pdeathSignals_range w X me._children trequests
    obtain ⟨hlen1, _, hq1⟩ := issueAll_queue _ _ ctxX c1 hlen hrange hc1
    refine ⟨c2, hc2, ?_⟩
    intro n hn1 hn64
    by_cases hXsc : X = sc
    · obtain ⟨s2, hs2, _, _, _, hslot, _⟩ := issueSignal_spec c1 SIGCHLD
        (SignalInfo.user me.pid uid0) tsigchldPos tsigchldMax hlen1
      have := heq hXsc
      rw [hs2] at this
      cases this
      rw [hslot]
      have hs1 := tsigchldPos
      have hs64 := tsigchldMax
      by_cases hns : n = SIGCHLD
      · subst hns
        rw [if_pos rfl, if_pos ⟨hXsc, rfl⟩]
        simp only
        rw [hq1, filter_signal_eq _ n hrange hn1 hn64]
      · have hidx : ¬ ((SIGCHLD - 1).toNat = (n - 1).toNat) := by omega
        rw [if_neg hidx, if_neg (fun hc => hns hc.2), hq1,
          filter_signal_eq _ n hrange hn1 hn64]
        simp
    · rw [hne hXsc, hq1, filter_signal_eq _ n hrange hn1 hn64, if_neg (fun hc => hXsc hc.1)]
      simp

theorem terminate_reparents_witness :
    ∃ w2 root, terminate 17 16 0 sampleTerminateKernel 4 sampleThreads 2
        (TerminationState.byExit 0) = some (.done w2) ∧
      sampleThreads.procs 1 = some root ∧
      (∃ root2, w2.procs 1 = some root2 ∧ root2._children = root._children ++ [3, 4]) ∧
      (∃ me2, w2.procs 2 = some me2 ∧ me2._children = []) := by
  obtain ⟨w2, root, h1, h2, _, h4, _, ⟨root2, h6, h7⟩, _⟩ := terminate_reparents 17 16 0
    sampleTerminateKernel 4 sampleThreads 2 (TerminationState.byExit 0) _ _ 1 1 10 _ _
    sampleThreads_terminating
  refine ⟨w2, root, h1, h2, ⟨root2, h6, ?_⟩, h4⟩
  rw [h7, if_neg (by decide)]
/-! ## Further claims on processes and signals -/

/-- The mask `& ~uintptr_t(15)` clears the four low bits. -/
theorem and_mask16 (n : Nat) (h : n < 18446744073709551616) :
    n &&& (18446744073709551616 - 1 - 15) = n / 16 * 16 := by
  apply Nat.eq_of_testBit_eq
  intro i
  have hM : (18446744073709551616 - 1 - 15 : Nat) = 2 ^ 4 * (2 ^ 60 - 1) := by norm_num
  have hR : n / 16 * 16 = 2 ^ 4 * (n >>> 4) := by
    rw [Nat.shiftRight_eq_div_pow]; norm_num [Nat.mul_comm]
  rw [Nat.testBit_and, hM, hR, Nat.testBit_mul_pow_two, Nat.testBit_mul_pow_two,
    Nat.testBit_two_pow_sub_one, Nat.testBit_shiftRight]
  by_cases hi : i ≥ 4
  · have e : 4 + (i - 4) = i := by omega
    rw [e]
    by_cases h64 : i < 64
    · have : i - 4 < 60 := by omega
      simp [hi, this]
    · have hb : n.testBit i = false := by
        apply Nat.testBit_lt_two_pow
        calc n < 2 ^ 64 := by norm_num; exact h
          _ ≤ 2 ^ i := Nat.pow_le_pow_right (by norm_num) (by omega)
      simp [hb]
  · simp [hi]

theorem sampleFamily_terminating :
    Terminating 17 sampleTerminateKernel 4 sampleFamily 2
      { pid := 2, _parent := some 1, _signalContext := some 11, _currentGeneration := some 21 }
      { pid := 1, _children := [2, 3], _signalContext := some 10,
        _currentGeneration := some 20 }
      1 1 10 (SignalContext.init sampleHandlers) ⟨SignalDisposition.none, 0, 0, 0, 0⟩ where
  live := rfl
  hasParent := rfl
  killed := rfl
  stats := rfl
  generation := by decide
  running := rfl
  walk := by decide
  distinct := by decide
  children := by
    intro c hc
    exact absurd hc (List.not_mem_nil _)
  requests := by
    intro c hc
    exact absurd hc (List.not_mem_nil _)
  parentLive := rfl
  parentContext := rfl
  context := rfl
  sigchldPos := by decide
  sigchldMax := by decide
  handler := by decide

/-- C21, as claimed, fails: after child 2 of process 1 has terminated, its signal
context is still set (the context at 11), as it was before. -/
theorem terminate_releases_counterexample :
    (sampleFamily.procs 2).map (fun p => p._signalContext) = some (some 11) ∧
      ((worldAfter (terminate 17 16 0 sampleTerminateKernel 4 sampleFamily 2
          (TerminationState.byExit 3))).procs 2).map
        (fun p => (p._signalContext, p._vmContext, p._currentGeneration, p._state)) =
        some (some 11, none, none, TerminationState.byExit 3) :=
  ⟨by decide, by decide⟩

/-- C21, amended. What `terminate` releases: after `terminate` has completed on a
process, its address-space context, its filesystem context and its file-descriptor
context are unset, and so are its current Generation, its thread descriptor and
its service lane; its signal context is left as it was; and its pid is unchanged
and its termination state is the one passed to `terminate`. -/
theorem terminate_releases (SIGCHLD : Int) (signalNoChildWait : Nat) (uid0 : Int)
    (k : TerminateKernel) (fuel : Nat) (w : World) (self : Ref) (state : TerminationState)
    (me par : Process) (parent R sc : Ref) (ctx : SignalContext) (h : SignalHandler)
    (ht : Terminating SIGCHLD k fuel w self me par parent R sc ctx h) :
    ∃ w2 me2, terminate SIGCHLD signalNoChildWait uid0 k fuel w self state =
        some (.done w2) ∧
      w2.procs self = some me2 ∧
      me2._vmContext = none ∧ me2._fsContext = none ∧ me2._fileContext = none ∧
      me2._currentGeneration = none ∧ me2._threadDescriptor = none ∧
      me2._posixLane = none ∧
      me2._signalContext = me._signalContext ∧
      me2.pid = me.pid ∧ me2._state = state ∧ me2.notifyType_ = NotifyType.terminated := by
  obtain ⟨tlive, thasParent, tkilled, tstats, tgeneration, trunning, twalk, tdistinct,
    tchildren, trequests, tparentLive, tparentContext, tcontext, tsigchldPos, tsigchldMax,
    thandler⟩ := ht
  obtain ⟨w2, root, hterm, _, _, _, _, _, _, _, hself2, _⟩ :=
    terminate_spec SIGCHLD signalNoChildWait uid0 k fuel w self state me par parent R sc ctx h
      tlive thasParent tkilled tstats tgeneration trunning twalk tdistinct
      tchildren trequests tparentLive tparentContext tcontext tsigchldPos
      tsigchldMax thandler
  exact ⟨w2, _, hterm, hself2, rfl, rfl, rfl, rfl, rfl, rfl, rfl, rfl, rfl, rfl⟩

theorem terminate_releases_witness :
    ∃ w2 me2, terminate 17 16 0 sampleTerminateKernel 4 sampleFamily 2
        (TerminationState.byExit 3) = some (.done w2) ∧
      w2.procs 2 = some me2 ∧ me2._vmContext = none ∧ me2._signalContext = some 11 ∧
      me2.pid = 2 ∧ me2._state = TerminationState.byExit 3 := by
  obtain ⟨w2, me2, h1, h2, h3, _, _, _, _, _, h9, h10, h11, _⟩ := terminate_releases 17 16 0
    sampleTerminateKernel 4 sampleFamily 2 (TerminationState.byExit 3) _ _ 1 1 10 _ _
    sampleFamily_terminating
  exact ⟨w2, me2, h1, h2, h3, h9, h10, h11⟩
/-- C28. Run-once reset: for an item whose signal number `sn` has a handler slot,
`determineHandling` returns; if the stored handler has the run-once flag, the
handler table afterwards is the table before with the disposition of slot `sn`
set to default, so every other field of that handler and every other slot is as
it was; if the stored handler does not have the flag, the context is unchanged.
In both cases the slots of pending signals, the counter and the active set are as
they were. -/
theorem determineHandling_run_once (signalOnce : Nat) (SIGCHLD SIGURG SIGWINCH : Int)
    (s : SignalContext) (item : SignalItem) (handler : SignalHandler)
    (hsn : 1 ≤ item.signalNumber)
    (hh : s._handlers[(item.signalNumber - 1).toNat]? = some handler) :
    ∃ r s2, determineHandling signalOnce SIGCHLD SIGURG SIGWINCH s item = .done (r, s2) ∧
      (handler.flags &&& signalOnce ≠ 0 →
        s2._handlers = s._handlers.set (item.signalNumber - 1).toNat
          { handler with disposition := SignalDisposition.none } ∧
        s2._handlers[(item.signalNumber - 1).toNat]? =
          some { handler with disposition := SignalDisposition.none } ∧
        (∀ j, j ≠ (item.signalNumber - 1).toNat → s2._handlers[j]? = s._handlers[j]?) ∧
        s2._handlers.length = s._handlers.length) ∧
      (handler.flags &&& signalOnce = 0 → s2 = s) ∧
      s2._slots = s._slots ∧ s2._currentSeq = s._currentSeq ∧
      s2._activeSet = s._activeSet := by
  have hlt : (item.signalNumber - 1).toNat < s._handlers.length := by
    rcases List.getElem?_eq_some_iff.mp hh with ⟨h, _⟩
    exact h
  have key : ∀ r, ∃ s2, (Outcome.done (r, (if handler.flags &&& signalOnce ≠ 0 then
        { s with _handlers := (s._handlers.set (item.signalNumber - 1).toNat
            { handler with disposition := SignalDisposition.none }) }
      else s)) : Outcome (SignalHandling × SignalContext)) = .done (r, s2) ∧
      (handler.flags &&& signalOnce ≠ 0 →
        s2._handlers = s._handlers.set (item.signalNumber - 1).toNat
          { handler with disposition := SignalDisposition.none } ∧
        s2._handlers[(item.signalNumber - 1).toNat]? =
          some { handler with disposition := SignalDisposition.none } ∧
        (∀ j, j ≠ (item.signalNumber - 1).toNat → s2._handlers[j]? = s._handlers[j]?) ∧
        s2._handlers.length = s._handlers.length) ∧
      (handler.flags &&& signalOnce = 0 → s2 = s) ∧
      s2._slots = s._slots ∧ s2._currentSeq = s._currentSeq ∧
      s2._activeSet = s._activeSet := by
    intro r
    by_cases hf : handler.flags &&& signalOnce ≠ 0
    · rw [if_pos hf]
      refine ⟨_, rfl, ?_, fun h0 => absurd h0 hf, rfl, rfl, rfl⟩
      intro _
      refine ⟨rfl, ?_, ?_, ?_⟩
      · exact List.getElem?_set_self hlt
      · intro j hj
        simp only
        rw [List.getElem?_set_ne (fun h => hj h.symm)]
      · simp
    · rw [if_neg hf]
      exact ⟨s, rfl, fun h0 => absurd h0 hf, fun _ => rfl, rfl, rfl, rfl⟩
  unfold determineHandling
  rw [if_neg (by omega)]
  simp only [hh]
  cases handler.disposition with
  | none =>
    simp only
    split
    · obtain ⟨s2, h1, h2⟩ := key { handler := handler, ignored := true, killed := false }
      exact ⟨_, s2, h1, h2⟩
    · obtain ⟨s2, h1, h2⟩ := key { handler := handler, ignored := false, killed := true }
      exact ⟨_, s2, h1, h2⟩
  | ignore =>
    obtain ⟨s2, h1, h2⟩ := key { handler := handler, ignored := true, killed := false }
    exact ⟨_, s2, h1, h2⟩
  | handle =>
    obtain ⟨s2, h1, h2⟩ := key { handler := handler, ignored := false, killed := false }
    exact ⟨_, s2, h1, h2⟩

theorem determineHandling_run_once_witness :
    ∃ r s2, determineHandling 4 17 23 28
        (SignalContext.init (sampleHandlers.set 4 ⟨SignalDisposition.handle, 4, 0, 1, 2⟩))
        ⟨5, SignalInfo.user 1 2⟩ = .done (r, s2) ∧
      s2._handlers[4]? = some ⟨SignalDisposition.none, 4, 0, 1, 2⟩ := by
  obtain ⟨r, s2, h1, h2, _⟩ := determineHandling_run_once 4 17 23 28
    (SignalContext.init (sampleHandlers.set 4 ⟨SignalDisposition.handle, 4, 0, 1, 2⟩))
    ⟨5, SignalInfo.user 1 2⟩ ⟨SignalDisposition.handle, 4, 0, 1, 2⟩ (by decide) (by decide)
  exact ⟨r, s2, h1, (h2 (by decide)).2.1⟩

/-- C29. Placement of the signal frame: for a stack pointer `threadSp` (after the
choice of the alternate stack) such that none of the three subtractions wraps,
the address `frame = ((threadSp - redZoneSize - totalFrameSize) & ~15) -
stackCallMisalign` that `raiseContext` computes satisfies `(frame +
stackCallMisalign) mod 16 = 0` and `frame + totalFrameSize <= threadSp -
redZoneSize`; the top of the alternate stack, `altStackSp + altStackSize` in 64
bits, is taken as `threadSp` when the handler asks for the alternate stack, the
alternate stack is enabled and the thread is not on it, and the stack pointer of
the thread otherwise; and the frame of a delivery is placed so. -/
theorem frame_placement (c : DeliveryConsts) (threadSp : Nat) (hsp : threadSp < wordMod)
    (h1 : redZoneSize ≤ threadSp)
    (h2 : uadd c.simdStateSize c.sizeofSignalFrame ≤ threadSp - redZoneSize)
    (h3 : stackCallMisalign ≤
      (threadSp - redZoneSize - uadd c.simdStateSize c.sizeofSignalFrame) &&&
        (wordMod - 1 - 15)) :
    frameAddress c threadSp =
      ((threadSp - redZoneSize - uadd c.simdStateSize c.sizeofSignalFrame) &&&
        (wordMod - 1 - 15)) - stackCallMisalign ∧
    (frameAddress c threadSp + stackCallMisalign) % 16 = 0 ∧
    frameAddress c threadSp + uadd c.simdStateSize c.sizeofSignalFrame ≤
      threadSp - redZoneSize ∧
    (∀ (process : Process) (handling : SignalHandling) (sp0 : Nat),
      signalStack c process handling sp0 =
        if handling.handler.flags &&& c.signalOnStack ≠ 0 ∧ process.altStackEnabled = true ∧
            c.isOnAltStack process sp0 = false then
          uadd process.altStackSp process.altStackSize
        else sp0) ∧
    (∀ (k : RaiseKernel) (item : SignalItem) (process : Process) (handling : SignalHandling)
        (d : Delivery), raiseContext c k item process handling = .done (.delivered d) →
      d.process = maskedProcess c process handling item.signalNumber ∧
      d.frame = frameAddress c (signalStack c d.process handling
        (k.loadSignalRegs.2.getD c.REG_RSP 0))) := by
  have hy : threadSp - redZoneSize - uadd c.simdStateSize c.sizeofSignalFrame < wordMod := by
    omega
  have hmask := and_mask16 _ (show threadSp - redZoneSize -
    uadd c.simdStateSize c.sizeofSignalFrame < 18446744073709551616 from hy)
  have hmask2 : (threadSp - redZoneSize - uadd c.simdStateSize c.sizeofSignalFrame) &&&
      (wordMod - 1 - 15) =
      (threadSp - redZoneSize - uadd c.simdStateSize c.sizeofSignalFrame) / 16 * 16 := hmask
  rw [hmask2] at h3 ⊢
  have hfa : frameAddress c threadSp =
      (threadSp - redZoneSize - uadd c.simdStateSize c.sizeofSignalFrame) / 16 * 16 -
        stackCallMisalign := by
    unfold frameAddress alignFrame
    rw [usub_eq h1 hsp, usub_eq h2 (by omega)]
    rw [show (threadSp - redZoneSize - uadd c.simdStateSize c.sizeofSignalFrame) &&&
      (wordMod - 1 - 15) = _ from hmask2]
    rw [usub_eq h3 (by omega)]
  refine ⟨hfa, ?_, ?_, ?_, ?_⟩
  · rw [hfa]
    unfold stackCallMisalign at *
    omega
  · rw [hfa]
    unfold stackCallMisalign at *
    omega
  · intro process handling sp0
    unfold signalStack
    by_cases ha : handling.handler.flags &&& c.signalOnStack ≠ 0 ∧
        process.altStackEnabled = true
    · rw [if_pos ha]
      by_cases hb : c.isOnAltStack process sp0 = false
      · rw [if_pos hb, if_pos ⟨ha.1, ha.2, hb⟩]
      · rw [if_neg hb, if_neg (fun hc => hb hc.2.2)]
    · rw [if_neg ha, if_neg (fun hc => ha ⟨hc.1, hc.2.1⟩)]
  · intro k item process handling d hd
    obtain ⟨_, _, hdd⟩ := raiseContext_delivered hd
    rw [hdd]
    exact ⟨rfl, rfl⟩

theorem frame_placement_witness :
    frameAddress sampleConsts 2147479552 = 2147477800 ∧
      (frameAddress sampleConsts 2147479552 + stackCallMisalign) % 16 = 0 ∧
      frameAddress sampleConsts 2147479552 + 1608 ≤ 2147479552 - redZoneSize := by
  obtain ⟨h1, h2, h3, _⟩ := frame_placement sampleConsts 2147479552 (by decide) (by decide)
    (by decide) (by decide)
  exact ⟨by rw [h1]; decide, h2, h3⟩
/-- C27. A split partitions a region exactly: on a non-overlapping region map,
the single split at an address `a` strictly inside the region `(base, area)`
returns and replaces that region by the left part `[base, a)` and the right part
`[a, base + size)`; their sizes sum to the size of the region; the offset of the
right part is the offset of the region plus `a - base` (in 64 bits, and exactly so
when the sum does not wrap); both parts carry the flags, the copy-on-write flag
and the backing file of the region; every other region is untouched; and every
address is mapped afterwards as before. If `a` is not strictly inside any region,
the map is unchanged (an empty map is not touched by `splitAreaOn_`). -/
theorem split_partitions (t : AreaTree) (a : Nat) (hw : WellFormed t) (ha : a < wordMod) :
    (∀ base area, (base, area) ∈ t → straddles base area a →
      ∃ t1, performSingleSplit t a = .done (t1, some base) ∧
        (∀ e, e ∈ t1 ↔ ((e ∈ t ∧ e.1 ≠ base) ∨ e = (base, leftPart area base a) ∨
          e = (a, rightPart area base a))) ∧
        (leftPart area base a).areaSize = a - base ∧
        (rightPart area base a).areaSize = base + area.areaSize - a ∧
        (leftPart area base a).areaSize + (rightPart area base a).areaSize = area.areaSize ∧
        (rightPart area base a).offset = uadd area.offset (a - base) ∧
        (area.offset + (a - base) < wordMod →
          (rightPart area base a).offset = area.offset + (a - base)) ∧
        (leftPart area base a).offset = area.offset ∧
        (leftPart area base a).nativeFlags = area.nativeFlags ∧
        (rightPart area base a).nativeFlags = area.nativeFlags ∧
        (leftPart area base a).copyOnWrite = area.copyOnWrite ∧
        (rightPart area base a).copyOnWrite = area.copyOnWrite ∧
        (leftPart area base a).file = area.file ∧
        (rightPart area base a).file = area.file ∧
        WellFormed t1 ∧
        (∀ x i, Covers t1 x i ↔ Covers t x i) ∧
        (∀ x, lookupAddr t1 x = lookupAddr t x)) ∧
    (t ≠ [] → (∀ e ∈ t, ¬ straddles e.1 e.2 a) →
      ∃ it, performSingleSplit t a = .done (t, it)) ∧
    (t = [] → ∀ size, splitAreaOn_ t a size = .done (t, none, none)) := by
  refine ⟨?_, ?_, ?_⟩
  · intro base area hmem hst
    have hne : t ≠ [] := fun h => by rw [h] at hmem; exact absurd hmem (List.not_mem_nil _)
    obtain ⟨t1, b, a0, hrun, hres⟩ := performSingleSplit_spec hw hne ha
    obtain ⟨hs, hwrap, hord⟩ := hw
    unfold straddles at hst
    have hb : b = base := by
      rcases hres.place with ⟨hba, hmax⟩ | ⟨hlt, hmin⟩
      · have h1 := hmax (base, area) hmem (by simp only; omega)
        simp only at h1
        by_contra hcon
        have h2 := hord (base, area) hmem (b, a0) hres.node (by simp only; omega)
        simp only at h2
        omega
      · have h1 := hmin (base, area) hmem
        simp only at h1
        omega
    subst hb
    have ha0 : a0 = area := key_unique hs hres.node hmem
    subst ha0
    have hnodes : ∀ e, e ∈ t1 ↔ ((e ∈ t ∧ e.1 ≠ b) ∨ e = (b, leftPart a0 b a) ∨
        e = (a, rightPart a0 b a)) := by
      rcases hres.nodes with ⟨hno, _⟩ | ⟨_, hiff⟩
      · exact absurd hst hno
      · exact hiff
    have hw1 : WellFormed t1 := split_wellFormed ⟨hs, hwrap, hord⟩ ha hres
    have hcov : ∀ x i, Covers t1 x i ↔ Covers t x i :=
      fun x i => split_covers ⟨hs, hwrap, hord⟩ hres x i
    refine ⟨t1, hrun, hnodes, rfl, ?_, ?_, rfl, ?_, rfl, rfl, rfl, rfl, rfl, rfl, rfl, hw1,
      hcov, ?_⟩
    · simp only [rightPart]
      omega
    · simp only [rightPart, leftPart]
      omega
    · intro hsum
      simp only [rightPart]
      exact uadd_eq hsum
    · intro x
      cases h1 : lookupAddr t1 x with
      | none =>
        cases h2 : lookupAddr t x with
        | none => rfl
        | some i =>
          have := (lookupAddr_eq_some_iff hw1 x i).mpr
            ((hcov x i).mpr ((lookupAddr_eq_some_iff ⟨hs, hwrap, hord⟩ x i).mp h2))
          rw [h1] at this
          cases this
      | some i =>
        have := (lookupAddr_eq_some_iff ⟨hs, hwrap, hord⟩ x i).mpr
          ((hcov x i).mp ((lookupAddr_eq_some_iff hw1 x i).mp h1))
        rw [this]
  · intro hne hno
    obtain ⟨t1, b, a0, hrun, hres⟩ := performSingleSplit_spec hw hne ha
    rcases hres.nodes with ⟨_, heq⟩ | ⟨hst, _⟩
    · subst heq
      exact ⟨some b, hrun⟩
    · exact absurd hst (hno (b, a0) hres.node)
  · intro ht size
    subst ht
    rfl

theorem split_partitions_witness :
    ∃ t1, performSingleSplit [(4096, sampleArea)] 8192 = .done (t1, some 4096) ∧
      (∀ e, e ∈ t1 ↔ ((e ∈ [(4096, sampleArea)] ∧ e.1 ≠ 4096) ∨
        e = (4096, leftPart sampleArea 4096 8192) ∨
        e = (8192, rightPart sampleArea 4096 8192))) ∧
      (leftPart sampleArea 4096 8192).areaSize + (rightPart sampleArea 4096 8192).areaSize =
        8192 ∧
      (rightPart sampleArea 4096 8192).offset = 4096 := by
  obtain ⟨t1, h1, h2, _, _, h5, h6, _⟩ := (split_partitions [(4096, sampleArea)] 8192
    (by decide) (by decide)).1 4096 sampleArea (by decide) (by decide)
  exact ⟨t1, h1, h2, h5, by rw [h6]; decide⟩
/-! ## Lemmas on the heap, continued -/

@[simp] theorem setProc_hulls (w : World) (ref : Ref) (v : Process) :
    (w.setProc ref v).hulls = w.hulls := rfl

@[simp] theorem setProc_sessions (w : World) (ref : Ref) (v : Process) :
    (w.setProc ref v).sessions = w.sessions := rfl

@[simp] theorem setProc_terminals (w : World) (ref : Ref) (v : Process) :
    (w.setProc ref v).terminals = w.terminals := rfl

@[simp] theorem setProc_gens (w : World) (ref : Ref) (v : Process) :
    (w.setProc ref v).gens = w.gens := rfl

@[simp] theorem setProc_vmctxs (w : World) (ref : Ref) (v : Process) :
    (w.setProc ref v).vmctxs = w.vmctxs := rfl

@[simp] theorem setProc_fsctxs (w : World) (ref : Ref) (v : Process) :
    (w.setProc ref v).fsctxs = w.fsctxs := rfl

@[simp] theorem setProc_filectxs (w : World) (ref : Ref) (v : Process) :
    (w.setProc ref v).filectxs = w.filectxs := rfl

@[simp] theorem setProc_globalPidMap (w : World) (ref : Ref) (v : Process) :
    (w.setProc ref v).globalPidMap = w.globalPidMap := rfl

@[simp] theorem setProc_nextPid (w : World) (ref : Ref) (v : Process) :
    (w.setProc ref v).nextPid = w.nextPid := rfl

@[simp] theorem setProc_nextRef (w : World) (ref : Ref) (v : Process) :
    (w.setProc ref v).nextRef = w.nextRef := rfl

@[simp] theorem setSigctx_hulls (w : World) (ref : Ref) (v : SignalContext) :
    (w.setSigctx ref v).hulls = w.hulls := rfl

@[simp] theorem setSigctx_sessions (w : World) (ref : Ref) (v : SignalContext) :
    (w.setSigctx ref v).sessions = w.sessions := rfl

@[simp] theorem setSigctx_terminals (w : World) (ref : Ref) (v : SignalContext) :
    (w.setSigctx ref v).terminals = w.terminals := rfl

@[simp] theorem setSigctx_gens (w : World) (ref : Ref) (v : SignalContext) :
    (w.setSigctx ref v).gens = w.gens := rfl

@[simp] theorem setSigctx_vmctxs (w : World) (ref : Ref) (v : SignalContext) :
    (w.setSigctx ref v).vmctxs = w.vmctxs := rfl

@[simp] theorem setSigctx_fsctxs (w : World) (ref : Ref) (v : SignalContext) :
    (w.setSigctx ref v).fsctxs = w.fsctxs := rfl

@[simp] theorem setSigctx_filectxs (w : World) (ref : Ref) (v : SignalContext) :
    (w.setSigctx ref v).filectxs = w.filectxs := rfl

@[simp] theorem setSigctx_globalPidMap (w : World) (ref : Ref) (v : SignalContext) :
    (w.setSigctx ref v).globalPidMap = w.globalPidMap := rfl

@[simp] theorem setSigctx_nextPid (w : World) (ref : Ref) (v : SignalContext) :
    (w.setSigctx ref v).nextPid = w.nextPid := rfl

@[simp] theorem setSigctx_nextRef (w : World) (ref : Ref) (v : SignalContext) :
    (w.setSigctx ref v).nextRef = w.nextRef := rfl

@[simp] theorem setGroup_procs (w : World) (ref : Ref) (v : ProcessGroup) :
    (w.setGroup ref v).procs = w.procs := rfl

@[simp] theorem setGroup_sigctxs (w : World) (ref : Ref) (v : ProcessGroup) :
    (w.setGroup ref v).sigctxs = w.sigctxs := rfl

@[simp] theorem setGroup_groups_same (w : World) (ref : Ref) (v : ProcessGroup) :
    (w.setGroup ref v).groups ref = some v := by
  simp [World.setGroup]

@[simp] theorem setGroup_groups_ne (w : World) {ref r : Ref} (v : ProcessGroup) (h : r ≠ ref) :
    (w.setGroup ref v).groups r = w.groups r := by
  simp [World.setGroup, Function.update_noteq h]

@[simp] theorem setGroup_hulls (w : World) (ref : Ref) (v : ProcessGroup) :
    (w.setGroup ref v).hulls = w.hulls := rfl

@[simp] theorem setGroup_sessions (w : World) (ref : Ref) (v : ProcessGroup) :
    (w.setGroup ref v).sessions = w.sessions := rfl

@[simp] theorem setGroup_terminals (w : World) (ref : Ref) (v : ProcessGroup) :
    (w.setGroup ref v).terminals = w.terminals := rfl

@[simp] theorem setGroup_gens (w : World) (ref : Ref) (v : ProcessGroup) :
    (w.setGroup ref v).gens = w.gens := rfl

@[simp] theorem setGroup_vmctxs (w : World) (ref : Ref) (v : ProcessGroup) :
    (w.setGroup ref v).vmctxs = w.vmctxs := rfl

@[simp] theorem setGroup_fsctxs (w : World) (ref : Ref) (v : ProcessGroup) :
    (w.setGroup ref v).fsctxs = w.fsctxs := rfl

@[simp] theorem setGroup_filectxs (w : World) (ref : Ref) (v : ProcessGroup) :
    (w.setGroup ref v).filectxs = w.filectxs := rfl

@[simp] theorem setGroup_globalPidMap (w : World) (ref : Ref) (v : ProcessGroup) :
    (w.setGroup ref v).globalPidMap = w.globalPidMap := rfl

@[simp] theorem setGroup_nextPid (w : World) (ref : Ref) (v : ProcessGroup) :
    (w.setGroup ref v).nextPid = w.nextPid := rfl

@[simp] theorem setGroup_nextRef (w : World) (ref : Ref) (v : ProcessGroup) :
    (w.setGroup ref v).nextRef = w.nextRef := rfl

@[simp] theorem setHull_procs (w : World) (ref : Ref) (v : PidHull) :
    (w.setHull ref v).procs = w.procs := rfl

@[simp] theorem setHull_sigctxs (w : World) (ref : Ref) (v : PidHull) :
    (w.setHull ref v).sigctxs = w.sigctxs := rfl

@[simp] theorem setHull_groups (w : World) (ref : Ref) (v : PidHull) :
    (w.setHull ref v).groups = w.groups := rfl

@[simp] theorem setHull_hulls_same (w : World) (ref : Ref) (v : PidHull) :
    (w.setHull ref v).hulls ref = some v := by
  simp [World.setHull]

@[simp] theorem setHull_hulls_ne (w : World) {ref r : Ref} (v : PidHull) (h : r ≠ ref) :
    (w.setHull ref v).hulls r = w.hulls r := by
  simp [World.setHull, Function.update_noteq h]

@[simp] theorem setHull_sessions (w : World) (ref : Ref) (v : PidHull) :
    (w.setHull ref v).sessions = w.sessions := rfl

@[simp] theorem setHull_terminals (w : World) (ref : Ref) (v : PidHull) :
    (w.setHull ref v).terminals = w.terminals := rfl

@[simp] theorem setHull_gens (w : World) (ref : Ref) (v : PidHull) :
    (w.setHull ref v).gens = w.gens := rfl

@[simp] theorem setHull_vmctxs (w : World) (ref : Ref) (v : PidHull) :
    (w.setHull ref v).vmctxs = w.vmctxs := rfl

@[simp] theorem setHull_fsctxs (w : World) (ref : Ref) (v : PidHull) :
    (w.setHull ref v).fsctxs = w.fsctxs := rfl

@[simp] theorem setHull_filectxs (w : World) (ref : Ref) (v : PidHull) :
    (w.setHull ref v).filectxs = w.filectxs := rfl

@[simp] theorem setHull_globalPidMap (w : World) (ref : Ref) (v : PidHull) :
    (w.setHull ref v).globalPidMap = w.globalPidMap := rfl

@[simp] theorem setHull_nextPid (w : World) (ref : Ref) (v : PidHull) :
    (w.setHull ref v).nextPid = w.nextPid := rfl

@[simp] theorem setHull_nextRef (w : World) (ref : Ref) (v : PidHull) :
    (w.setHull ref v).nextRef = w.nextRef := rfl

@[simp] theorem setSession_procs (w : World) (ref : Ref) (v : TerminalSession) :
    (w.setSession ref v).procs = w.procs := rfl

@[simp] theorem setSession_sigctxs (w : World) (ref : Ref) (v : TerminalSession) :
    (w.setSession ref v).sigctxs = w.sigctxs := rfl

@[simp] theorem setSession_groups (w : World) (ref : Ref) (v : TerminalSession) :
    (w.setSession ref v).groups = w.groups := rfl

@[simp] theorem setSession_hulls (w : World) (ref : Ref) (v : TerminalSession) :
    (w.setSession ref v).hulls = w.hulls := rfl

@[simp] theorem setSession_sessions_same (w : World) (ref : Ref) (v : TerminalSession) :
    (w.setSession ref v).sessions ref = some v := by
  simp [World.setSession]

@[simp] theorem setSession_sessions_ne (w : World) {ref r : Ref} (v : TerminalSession) (h : r ≠ ref) :
    (w.setSession ref v).sessions r = w.sessions r := by
  simp [World.setSession, Function.update_noteq h]

@[simp] theorem setSession_terminals (w : World) (ref : Ref) (v : TerminalSession) :
    (w.setSession ref v).terminals = w.terminals := rfl

@[simp] theorem setSession_gens (w : World) (ref : Ref) (v : TerminalSession) :
    (w.setSession ref v).gens = w.gens := rfl

@[simp] theorem setSession_vmctxs (w : World) (ref : Ref) (v : TerminalSession) :
    (w.setSession ref v).vmctxs = w.vmctxs := rfl

@[simp] theorem setSession_fsctxs (w : World) (ref : Ref) (v : TerminalSession) :
    (w.setSession ref v).fsctxs = w.fsctxs := rfl

@[simp] theorem setSession_filectxs (w : World) (ref : Ref) (v : TerminalSession) :
    (w.setSession ref v).filectxs = w.filectxs := rfl

@[simp] theorem setSession_globalPidMap (w : World) (ref : Ref) (v : TerminalSession) :
    (w.setSession ref v).globalPidMap = w.globalPidMap := rfl

@[simp] theorem setSession_nextPid (w : World) (ref : Ref) (v : TerminalSession) :
    (w.setSession ref v).nextPid = w.nextPid := rfl

@[simp] theorem setSession_nextRef (w : World) (ref : Ref) (v : TerminalSession) :
    (w.setSession ref v).nextRef = w.nextRef := rfl

@[simp] theorem setTerminal_procs (w : World) (ref : Ref) (v : ControllingTerminalState) :
    (w.setTerminal ref v).procs = w.procs := rfl

@[simp] theorem setTerminal_sigctxs (w : World) (ref : Ref) (v : ControllingTerminalState) :
    (w.setTerminal ref v).sigctxs = w.sigctxs := rfl

@[simp] theorem setTerminal_groups (w : World) (ref : Ref) (v : ControllingTerminalState) :
    (w.setTerminal ref v).groups = w.groups := rfl

@[simp] theorem setTerminal_hulls (w : World) (ref : Ref) (v : ControllingTerminalState) :
    (w.setTerminal ref v).hulls = w.hulls := rfl

@[simp] theorem setTerminal_sessions (w : World) (ref : Ref) (v : ControllingTerminalState) :
    (w.setTerminal ref v).sessions = w.sessions := rfl

@[simp] theorem setTerminal_terminals_same (w : World) (ref : Ref) (v : ControllingTerminalState) :
    (w.setTerminal ref v).terminals ref = some v := by
  simp [World.setTerminal]

@[simp] theorem setTerminal_terminals_ne (w : World) {ref r : Ref} (v : ControllingTerminalState) (h : r ≠ ref) :
    (w.setTerminal ref v).terminals r = w.terminals r := by
  simp [World.setTerminal, Function.update_noteq h]

@[simp] theorem setTerminal_gens (w : World) (ref : Ref) (v : ControllingTerminalState) :
    (w.setTerminal ref v).gens = w.gens := rfl

@[simp] theorem setTerminal_vmctxs (w : World) (ref : Ref) (v : ControllingTerminalState) :
    (w.setTerminal ref v).vmctxs = w.vmctxs := rfl

@[simp] theorem setTerminal_fsctxs (w : World) (ref : Ref) (v : ControllingTerminalState) :
    (w.setTerminal ref v).fsctxs = w.fsctxs := rfl

@[simp] theorem setTerminal_filectxs (w : World) (ref : Ref) (v : ControllingTerminalState) :
    (w.setTerminal ref v).filectxs = w.filectxs := rfl

@[simp] theorem setTerminal_globalPidMap (w : World) (ref : Ref) (v : ControllingTerminalState) :
    (w.setTerminal ref v).globalPidMap = w.globalPidMap := rfl

@[simp] theorem setTerminal_nextPid (w : World) (ref : Ref) (v : ControllingTerminalState) :
    (w.setTerminal ref v).nextPid = w.nextPid := rfl

@[simp] theorem setTerminal_nextRef (w : World) (ref : Ref) (v : ControllingTerminalState) :
    (w.setTerminal ref v).nextRef = w.nextRef := rfl

@[simp] theorem setGen_procs (w : World) (ref : Ref) (v : Generation) :
    (w.setGen ref v).procs = w.procs := rfl

@[simp] theorem setGen_sigctxs (w : World) (ref : Ref) (v : Generation) :
    (w.setGen ref v).sigctxs = w.sigctxs := rfl

@[simp] theorem setGen_groups (w : World) (ref : Ref) (v : Generation) :
    (w.setGen ref v).groups = w.groups := rfl

@[simp] theorem setGen_hulls (w : World) (ref : Ref) (v : Generation) :
    (w.setGen ref v).hulls = w.hulls := rfl

@[simp] theorem setGen_sessions (w : World) (ref : Ref) (v : Generation) :
    (w.setGen ref v).sessions = w.sessions := rfl

@[simp] theorem setGen_terminals (w : World) (ref : Ref) (v : Generation) :
    (w.setGen ref v).terminals = w.terminals := rfl

@[simp] theorem setGen_gens_same (w : World) (ref : Ref) (v : Generation) :
    (w.setGen ref v).gens ref = some v := by
  simp [World.setGen]

@[simp] theorem setGen_gens_ne (w : World) {ref r : Ref} (v : Generation) (h : r ≠ ref) :
    (w.setGen ref v).gens r = w.gens r := by
  simp [World.setGen, Function.update_noteq h]

@[simp] theorem setGen_vmctxs (w : World) (ref : Ref) (v : Generation) :
    (w.setGen ref v).vmctxs = w.vmctxs := rfl

@[simp] theorem setGen_fsctxs (w : World) (ref : Ref) (v : Generation) :
    (w.setGen ref v).fsctxs = w.fsctxs := rfl

@[simp] theorem setGen_filectxs (w : World) (ref : Ref) (v : Generation) :
    (w.setGen ref v).filectxs = w.filectxs := rfl

@[simp] theorem setGen_globalPidMap (w : World) (ref : Ref) (v : Generation) :
    (w.setGen ref v).globalPidMap = w.globalPidMap := rfl

@[simp] theorem setGen_nextPid (w : World) (ref : Ref) (v : Generation) :
    (w.setGen ref v).nextPid = w.nextPid := rfl

@[simp] theorem setGen_nextRef (w : World) (ref : Ref) (v : Generation) :
    (w.setGen ref v).nextRef = w.nextRef := rfl

@[simp] theorem setVmctx_procs (w : World) (ref : Ref) (v : VmContext) :
    (w.setVmctx ref v).procs = w.procs := rfl

@[simp] theorem setVmctx_sigctxs (w : World) (ref : Ref) (v : VmContext) :
    (w.setVmctx ref v).sigctxs = w.sigctxs := rfl

@[simp] theorem setVmctx_groups (w : World) (ref : Ref) (v : VmContext) :
    (w.setVmctx ref v).groups = w.groups := rfl

@[simp] theorem setVmctx_hulls (w : World) (ref : Ref) (v : VmContext) :
    (w.setVmctx ref v).hulls = w.hulls := rfl

@[simp] theorem setVmctx_sessions (w : World) (ref : Ref) (v : VmContext) :
    (w.setVmctx ref v).sessions = w.sessions := rfl

@[simp] theorem setVmctx_terminals (w : World) (ref : Ref) (v : VmContext) :
    (w.setVmctx ref v).terminals = w.terminals := rfl

@[simp] theorem setVmctx_gens (w : World) (ref : Ref) (v : VmContext) :
    (w.setVmctx ref v).gens = w.gens := rfl

@[simp] theorem setVmctx_vmctxs_same (w : World) (ref : Ref) (v : VmContext) :
    (w.setVmctx ref v).vmctxs ref = some v := by
  simp [World.setVmctx]

@[simp] theorem setVmctx_vmctxs_ne (w : World) {ref r : Ref} (v : VmContext) (h : r ≠ ref) :
    (w.setVmctx ref v).vmctxs r = w.vmctxs r := by
  simp [World.setVmctx, Function.update_noteq h]

@[simp] theorem setVmctx_fsctxs (w : World) (ref : Ref) (v : VmContext) :
    (w.setVmctx ref v).fsctxs = w.fsctxs := rfl

@[simp] theorem setVmctx_filectxs (w : World) (ref : Ref) (v : VmContext) :
    (w.setVmctx ref v).filectxs = w.filectxs := rfl

@[simp] theorem setVmctx_globalPidMap (w : World) (ref : Ref) (v : VmContext) :
    (w.setVmctx ref v).globalPidMap = w.globalPidMap := rfl

@[simp] theorem setVmctx_nextPid (w : World) (ref : Ref) (v : VmContext) :
    (w.setVmctx ref v).nextPid = w.nextPid := rfl

@[simp] theorem setVmctx_nextRef (w : World) (ref : Ref) (v : VmContext) :
    (w.setVmctx ref v).nextRef = w.nextRef := rfl

@[simp] theorem setFsctx_procs (w : World) (ref : Ref) (v : FsContext) :
    (w.setFsctx ref v).procs = w.procs := rfl

@[simp] theorem setFsctx_sigctxs (w : World) (ref : Ref) (v : FsContext) :
    (w.setFsctx ref v).sigctxs = w.sigctxs := rfl

@[simp] theorem setFsctx_groups (w : World) (ref : Ref) (v : FsContext) :
    (w.setFsctx ref v).groups = w.groups := rfl

@[simp] theorem setFsctx_hulls (w : World) (ref : Ref) (v : FsContext) :
    (w.setFsctx ref v).hulls = w.hulls := rfl

@[simp] theorem setFsctx_sessions (w : World) (ref : Ref) (v : FsContext) :
    (w.setFsctx ref v).sessions = w.sessions := rfl

@[simp] theorem setFsctx_terminals (w : World) (ref : Ref) (v : FsContext) :
    (w.setFsctx ref v).terminals = w.terminals := rfl

@[simp] theorem setFsctx_gens (w : World) (ref : Ref) (v : FsContext) :
    (w.setFsctx ref v).gens = w.gens := rfl

@[simp] theorem setFsctx_vmctxs (w : World) (ref : Ref) (v : FsContext) :
    (w.setFsctx ref v).vmctxs = w.vmctxs := rfl

@[simp] theorem setFsctx_fsctxs_same (w : World) (ref : Ref) (v : FsContext) :
    (w.setFsctx ref v).fsctxs ref = some v := by
  simp [World.setFsctx]

@[simp] theorem setFsctx_fsctxs_ne (w : World) {ref r : Ref} (v : FsContext) (h : r ≠ ref) :
    (w.setFsctx ref v).fsctxs r = w.fsctxs r := by
  simp [World.setFsctx, Function.update_noteq h]

@[simp] theorem setFsctx_filectxs (w : World) (ref : Ref) (v : FsContext) :
    (w.setFsctx ref v).filectxs = w.filectxs := rfl

@[simp] theorem setFsctx_globalPidMap (w : World) (ref : Ref) (v : FsContext) :
    (w.setFsctx ref v).globalPidMap = w.globalPidMap := rfl

@[simp] theorem setFsctx_nextPid (w : World) (ref : Ref) (v : FsContext) :
    (w.setFsctx ref v).nextPid = w.nextPid := rfl

@[simp] theorem setFsctx_nextRef (w : World) (ref : Ref) (v : FsContext) :
    (w.setFsctx ref v).nextRef = w.nextRef := rfl

@[simp] theorem setFilectx_procs (w : World) (ref : Ref) (v : FileContext) :
    (w.setFilectx ref v).procs = w.procs := rfl

@[simp] theorem setFilectx_sigctxs (w : World) (ref : Ref) (v : FileContext) :
    (w.setFilectx ref v).sigctxs = w.sigctxs := rfl

@[simp] theorem setFilectx_groups (w : World) (ref : Ref) (v : FileContext) :
    (w.setFilectx ref v).groups = w.groups := rfl

@[simp] theorem setFilectx_hulls (w : World) (ref : Ref) (v : FileContext) :
    (w.setFilectx ref v).hulls = w.hulls := rfl

@[simp] theorem setFilectx_sessions (w : World) (ref : Ref) (v : FileContext) :
    (w.setFilectx ref v).sessions = w.sessions := rfl

@[simp] theorem setFilectx_terminals (w : World) (ref : Ref) (v : FileContext) :
    (w.setFilectx ref v).terminals = w.terminals := rfl

@[simp] theorem setFilectx_gens (w : World) (ref : Ref) (v : FileContext) :
    (w.setFilectx ref v).gens = w.gens := rfl

@[simp] theorem setFilectx_vmctxs (w : World) (ref : Ref) (v : FileContext) :
    (w.setFilectx ref v).vmctxs = w.vmctxs := rfl

@[simp] theorem setFilectx_fsctxs (w : World) (ref : Ref) (v : FileContext) :
    (w.setFilectx ref v).fsctxs = w.fsctxs := rfl

@[simp] theorem setFilectx_filectxs_same (w : World) (ref : Ref) (v : FileContext) :
    (w.setFilectx ref v).filectxs ref = some v := by
  simp [World.setFilectx]

@[simp] theorem setFilectx_filectxs_ne (w : World) {ref r : Ref} (v : FileContext) (h : r ≠ ref) :
    (w.setFilectx ref v).filectxs r = w.filectxs r := by
  simp [World.setFilectx, Function.update_noteq h]

@[simp] theorem setFilectx_globalPidMap (w : World) (ref : Ref) (v : FileContext) :
    (w.setFilectx ref v).globalPidMap = w.globalPidMap := rfl

@[simp] theorem setFilectx_nextPid (w : World) (ref : Ref) (v : FileContext) :
    (w.setFilectx ref v).nextPid = w.nextPid := rfl

@[simp] theorem setFilectx_nextRef (w : World) (ref : Ref) (v : FileContext) :
    (w.setFilectx ref v).nextRef = w.nextRef := rfl
/-! ## Process groups -/

theorem setGroup_setGroup (w : World) (G : Ref) (a b : ProcessGroup) :
    (w.setGroup G a).setGroup G b = w.setGroup G b := by
  simp [World.setGroup]

theorem setGroup_self (w : World) (G : Ref) (a : ProcessGroup) (h : w.groups G = some a) :
    w.setGroup G a = w := by
  cases w
  simp only [World.setGroup] at h ⊢
  congr
  rw [← h]
  exact Function.update_eq_self _ _

theorem setProc_self (w : World) (p : Ref) (a : Process) (h : w.procs p = some a) :
    w.setProc p a = w := by
  cases w
  simp only [World.setProc] at h ⊢
  congr
  rw [← h]
  exact Function.update_eq_self _ _

theorem setProc_setGroup_comm (w : World) (p G : Ref) (a : Process) (b : ProcessGroup) :
    (w.setGroup G b).setProc p a = (w.setProc p a).setGroup G b := rfl

/-- The heap after `reassociateProcess` on a consistent heap, in terms of the old
group pointer. -/
theorem reassociateProcess_spec (w : World) (G p : Ref) (process : Process)
    (group : ProcessGroup) (hc : GroupsConsistent w) (hp : w.procs p = some process)
    (hG : w.groups G = some group) :
    ∃ w2, reassociateProcess w G p = .done w2 ∧
      w2.procs p = some { process with _pgPointer := some G } ∧
      (∀ q, q ≠ p → w2.procs q = w.procs q) ∧
      w2.groups G = some { group with members_ := group.members_.erase p ++ [p] } ∧
      (∀ g, g ≠ G → w2.groups g =
        (w.groups g).map (fun grp => { grp with members_ := grp.members_.erase p })) ∧
      w2.sigctxs = w.sigctxs ∧ w2.hulls = w.hulls ∧ w2.sessions = w.sessions ∧
      w2.terminals = w.terminals ∧ w2.gens = w.gens ∧ w2.vmctxs = w.vmctxs ∧
      w2.fsctxs = w.fsctxs ∧ w2.filectxs = w.filectxs ∧
      w2.globalPidMap = w.globalPidMap ∧ w2.nextPid = w.nextPid ∧
      w2.nextRef = w.nextRef := by
  have hnot : ∀ g grp, w.groups g = some grp → process._pgPointer ≠ some g →
      p ∉ grp.members_ := by
    intro g grp hg hne hmem
    obtain ⟨pq, hpq, hptr⟩ := hc.member g grp p hg hmem
    rw [hp] at hpq
    cases hpq
    exact hne hptr
  have herase : ∀ g grp, w.groups g = some grp → process._pgPointer ≠ some g →
      grp.members_.erase p = grp.members_ :=
    fun g grp hg hne => List.erase_of_not_mem (hnot g grp hg hne)
  unfold reassociateProcess
  simp only [hp]
  cases hold : process._pgPointer with
  | none =>
    have hne : ∀ g, process._pgPointer ≠ some g := by
      intro g; rw [hold]; exact fun h => Option.noConfusion h
    simp only [leaveOldGroup, hold, setProc_groups, hG]
    refine ⟨_, rfl, by simp, ?_, ?_, ?_, rfl, rfl, rfl, rfl, rfl, rfl, rfl, rfl, rfl, rfl, rfl⟩
    · intro q hq
      simp [hq]
    · simp [herase G group hG (hne G)]
    · intro g hg
      simp only [setGroup_groups_ne _ _ hg, setProc_groups]
      cases hgg : w.groups g with
      | none => rfl
      | some grp =>
        simp only [Option.map_some', Option.some.injEq]
        rw [herase g grp hgg (hne g)]
  | some old =>
    obtain ⟨oldGroup, hog, hmem⟩ := hc.pointer p process old hp hold
    simp only [leaveOldGroup, hold, hog, hmem, if_true, setProc_groups]
    by_cases hoG : old = G
    · subst hoG
      rw [hG] at hog
      cases hog
      simp only [setGroup_groups_same, setProc_setGroup_comm, setGroup_setGroup]
      refine ⟨_, rfl, by simp, ?_, by simp, ?_, rfl, rfl, rfl, rfl, rfl, rfl, rfl, rfl, rfl,
        rfl, rfl⟩
      · intro q hq
        simp [hq]
      · intro g hg
        simp only [setGroup_groups_ne _ _ hg, setProc_groups]
        cases hgg : w.groups g with
        | none => rfl
        | some grp =>
          simp only [Option.map_some', Option.some.injEq]
          rw [herase g grp hgg (by rw [hold]; exact fun h => hg (Option.some.inj h).symm)]
    · have hGo : G ≠ old := fun h => hoG h.symm
      simp only [setGroup_groups_ne _ _ hGo, hG]
      refine ⟨_, rfl, by simp, ?_, ?_, ?_, rfl, rfl, rfl, rfl, rfl, rfl, rfl, rfl, rfl, rfl,
        rfl⟩
      · intro q hq
        simp [hq]
      · simp [herase G group hG (by rw [hold]; exact fun h => hoG (Option.some.inj h))]
      · intro g hg
        simp only [setGroup_groups_ne _ _ hg, setProc_groups]
        by_cases hgo : g = old
        · subst hgo
          simp [hog]
        · rw [setGroup_groups_ne _ _ hgo]
          cases hgg : w.groups g with
          | none => rfl
          | some grp =>
            simp only [Option.map_some', Option.some.injEq]
            rw [herase g grp hgg (by rw [hold]; exact fun h => hgo (Option.some.inj h).symm)]
theorem world_eq_of_fields (a b : World) (h1 : a.procs = b.procs) (h2 : a.sigctxs = b.sigctxs)
    (h3 : a.groups = b.groups) (h4 : a.hulls = b.hulls) (h5 : a.sessions = b.sessions)
    (h6 : a.terminals = b.terminals) (h7 : a.gens = b.gens) (h8 : a.vmctxs = b.vmctxs)
    (h9 : a.fsctxs = b.fsctxs) (h10 : a.filectxs = b.filectxs)
    (h11 : a.globalPidMap = b.globalPidMap) (h12 : a.nextPid = b.nextPid)
    (h13 : a.nextRef = b.nextRef) : a = b := by
  cases a
  cases b
  simp only at h1 h2 h3 h4 h5 h6 h7 h8 h9 h10 h11 h12 h13
  simp only [World.mk.injEq]
  exact ⟨h1, h2, h3, h4, h5, h6, h7, h8, h9, h10, h11, h12, h13⟩

theorem mem_erase_append_self {l : List Ref} {p q : Ref} (hnd : l.Nodup) :
    q ∈ l.erase p ++ [p] ↔ q ∈ l ∨ q = p := by
  simp only [List.mem_append, List.mem_singleton]
  constructor
  · rintro (h | h)
    · exact Or.inl (List.mem_of_mem_erase h)
    · exact Or.inr h
  · rintro (h | h)
    · by_cases hq : q = p
      · exact Or.inr hq
      · exact Or.inl ((List.mem_erase_of_ne hq).mpr h)
    · exact Or.inr h

theorem erase_append_self_erase {l : List Ref} {p : Ref} (hnd : l.Nodup) :
    (l.erase p ++ [p]).erase p = l.erase p := by
  have hnot : p ∉ l.erase p := fun h => (List.Nodup.mem_erase_iff hnd).mp h |>.1 rfl
  rw [List.erase_append_right _ hnot]
  simp

/-- A consistent heap stays consistent under `reassociateProcess`. -/
theorem reassociateProcess_consistent (w w2 : World) (G p : Ref) (process : Process)
    (group : ProcessGroup) (hc : GroupsConsistent w) (hp : w.procs p = some process)
    (hG : w.groups G = some group)
    (h2p : w2.procs p = some { process with _pgPointer := some G })
    (h2q : ∀ q, q ≠ p → w2.procs q = w.procs q)
    (h2G : w2.groups G = some { group with members_ := group.members_.erase p ++ [p] })
    (h2g : ∀ g, g ≠ G → w2.groups g =
      (w.groups g).map (fun grp => { grp with members_ := grp.members_.erase p })) :
    GroupsConsistent w2 := by
  have hndG := hc.nodup G group hG
  have hnotG : p ∉ group.members_.erase p :=
    fun h => (List.Nodup.mem_erase_iff hndG).mp h |>.1 rfl
  refine ⟨?_, ?_, ?_⟩
  · intro g grp hg
    by_cases hgG : g = G
    · subst hgG
      rw [h2G] at hg
      cases hg
      simp only
      rw [List.nodup_append]
      refine ⟨hndG.erase p, List.nodup_singleton p, ?_⟩
      intro a ha hb
      simp only [List.mem_singleton] at hb
      subst hb
      exact hnotG ha
    · rw [h2g g hgG] at hg
      cases hgg : w.groups g with
      | none => rw [hgg] at hg; cases hg
      | some grp0 =>
        rw [hgg] at hg
        simp only [Option.map_some', Option.some.injEq] at hg
        subst hg
        exact (hc.nodup g grp0 hgg).erase p
  · intro g grp q hg hq
    by_cases hgG : g = G
    · subst hgG
      rw [h2G] at hg
      cases hg
      simp only at hq
      rcases (mem_erase_append_self hndG).mp hq with hq | hq
      · by_cases hqp : q = p
        · subst hqp; exact ⟨_, h2p, rfl⟩
        · rw [h2q q hqp]
          exact hc.member g group q hG hq
      · subst hq; exact ⟨_, h2p, rfl⟩
    · rw [h2g g hgG] at hg
      cases hgg : w.groups g with
      | none => rw [hgg] at hg; cases hg
      | some grp0 =>
        rw [hgg] at hg
        simp only [Option.map_some', Option.some.injEq] at hg
        subst hg
        simp only at hq
        have hnd0 := hc.nodup g grp0 hgg
        have hqp : q ≠ p := ((List.Nodup.mem_erase_iff hnd0).mp hq).1
        rw [h2q q hqp]
        exact hc.member g grp0 q hgg (List.mem_of_mem_erase hq)
  · intro q pq g hq hptr
    by_cases hqp : q = p
    · subst hqp
      rw [h2p] at hq
      cases hq
      simp only [Option.some.injEq] at hptr
      subst hptr
      exact ⟨_, h2G, by simp⟩
    · rw [h2q q hqp] at hq
      obtain ⟨grp0, hgg, hmem⟩ := hc.pointer q pq g hq hptr
      by_cases hgG : g = G
      · subst hgG
        rw [hG] at hgg
        cases hgg
        exact ⟨_, h2G, (mem_erase_append_self hndG).mpr (Or.inl hmem)⟩
      · refine ⟨_, by rw [h2g g hgG, hgg]; rfl, ?_⟩
        exact (List.mem_erase_of_ne hqp).mpr hmem

/-! ## Claims on process groups and terminals -/

/-- C25. Membership after `reassociateProcess`, and idempotence: on a heap whose
member lists and group pointers agree, `G.reassociateProcess(p)` returns, whatever
group `p` belonged to before (`G` itself, another group or none); afterwards `p` is
exactly once in the member list of `G` (as its last member), in no member list of
another group, and the group pointer of `p` is `G`; the other members of every
group stay, the heap is consistent again, and a second call
`G.reassociateProcess(p)` returns and leaves the heap exactly as the first call
left it. -/
theorem reassociateProcess_membership (w : World) (G p : Ref) (process : Process)
    (group : ProcessGroup) (hc : GroupsConsistent w) (hp : w.procs p = some process)
    (hG : w.groups G = some group) :
    ∃ w2 grp2 proc2, reassociateProcess w G p = .done w2 ∧
      w2.groups G = some grp2 ∧ grp2.members_ = group.members_.erase p ++ [p] ∧
      grp2.members_.count p = 1 ∧
      (∀ g grp, g ≠ G → w2.groups g = some grp → p ∉ grp.members_) ∧
      (∀ g grp0 q, q ≠ p → w.groups g = some grp0 →
        ∃ grp, w2.groups g = some grp ∧ (q ∈ grp.members_ ↔ q ∈ grp0.members_)) ∧
      w2.procs p = some proc2 ∧ proc2._pgPointer = some G ∧
      proc2 = { process with _pgPointer := some G } ∧
      (∀ q, q ≠ p → w2.procs q = w.procs q) ∧
      GroupsConsistent w2 ∧
      reassociateProcess w2 G p = .done w2 := by
  obtain ⟨w2, hrun, h2p, h2q, h2G, h2g, e1, e2, e3, e4, e5, e6, e7, e8, e9, e10, e11⟩ :=
    reassociateProcess_spec w G p process group hc hp hG
  have hc2 := reassociateProcess_consistent w w2 G p process group hc hp hG h2p h2q h2G h2g
  have hndG := hc.nodup G group hG
  have hnotG : p ∉ group.members_.erase p :=
    fun h => (List.Nodup.mem_erase_iff hndG).mp h |>.1 rfl
  refine ⟨w2, _, _, hrun, h2G, rfl, ?_, ?_, ?_, h2p, rfl, rfl, h2q, hc2, ?_⟩
  · simp only
    rw [List.count_append, List.count_eq_zero_of_not_mem hnotG]
    simp
  · intro g grp hg hgg hmem
    rw [h2g g hg] at hgg
    cases hw : w.groups g with
    | none => rw [hw] at hgg; cases hgg
    | some grp0 =>
      rw [hw] at hgg
      simp only [Option.map_some', Option.some.injEq] at hgg
      subst hgg
      exact ((List.Nodup.mem_erase_iff (hc.nodup g grp0 hw)).mp hmem).1 rfl
  · intro g grp0 q hq hw
    by_cases hgG : g = G
    · subst hgG
      rw [hG] at hw
      cases hw
      refine ⟨_, h2G, ?_⟩
      simp only
      rw [mem_erase_append_self hndG]
      constructor
      · rintro (h | h)
        · exact h
        · exact absurd h hq
      · exact fun h => Or.inl h
    · refine ⟨_, by rw [h2g g hgG, hw]; rfl, ?_⟩
      simp only
      exact List.mem_erase_of_ne hq
  · obtain ⟨w3, hrun3, h3p, h3q, h3G, h3g, f1, f2, f3, f4, f5, f6, f7, f8, f9, f10, f11⟩ :=
      reassociateProcess_spec w2 G p _ _ hc2 h2p h2G
    rw [hrun3]
    congr 1
    apply world_eq_of_fields
    · funext q
      by_cases hq : q = p
      · subst hq
        rw [h3p, h2p]
      · exact h3q q hq
    · exact f1
    · funext g
      by_cases hg : g = G
      · subst hg
        rw [h3G, h2G]
        simp only
        rw [erase_append_self_erase hndG]
      · rw [h3g g hg, h2g g hg]
        cases hw : w.groups g with
        | none => rfl
        | some grp0 =>
          simp only [Option.map_some', Option.some.injEq]
          have hnd0 := hc.nodup g grp0 hw
          have : p ∉ grp0.members_.erase p :=
            fun h => (List.Nodup.mem_erase_iff hnd0).mp h |>.1 rfl
          rw [List.erase_of_not_mem this]
    · exact f2
    · exact f3
    · exact f4
    · exact f5
    · exact f6
    · exact f7
    · exact f8
    · exact f9
    · exact f10
    · exact f11

theorem sampleGroups_consistent : GroupsConsistent sampleGroups := by
  refine ⟨?_, ?_, ?_⟩
  · intro g grp hg
    by_cases h30 : g = 30
    · subst h30
      have : grp = { members_ := [1, 2] } := (Option.some.inj hg).symm
      subst this
      decide
    · by_cases h31 : g = 31
      · subst h31
        have : grp = { members_ := [3] } := (Option.some.inj hg).symm
        subst this
        decide
      · simp [sampleGroups, h30, h31] at hg
  · intro g grp q hg hq
    by_cases h30 : g = 30
    · subst h30
      have : grp = { members_ := [1, 2] } := (Option.some.inj hg).symm
      subst this
      simp only [List.mem_cons, List.mem_singleton, List.not_mem_nil, or_false] at hq
      rcases hq with rfl | rfl
      · exact ⟨_, rfl, rfl⟩
      · exact ⟨_, rfl, rfl⟩
    · by_cases h31 : g = 31
      · subst h31
        have : grp = { members_ := [3] } := (Option.some.inj hg).symm
        subst this
        simp only [List.mem_singleton] at hq
        subst hq
        exact ⟨_, rfl, rfl⟩
      · simp [sampleGroups, h30, h31] at hg
  · intro q pq g hq hptr
    by_cases h1 : q = 1
    · subst h1
      have : pq = { pid := 1, _pgPointer := some 30 } := (Option.some.inj hq).symm
      subst this
      simp only [Option.some.injEq] at hptr
      subst hptr
      exact ⟨_, rfl, by decide⟩
    · by_cases h2 : q = 2
      · subst h2
        have : pq = { pid := 2, _pgPointer := some 30 } := (Option.some.inj hq).symm
        subst this
        simp only [Option.some.injEq] at hptr
        subst hptr
        exact ⟨_, rfl, by decide⟩
      · by_cases h3 : q = 3
        · subst h3
          have : pq = { pid := 3, _pgPointer := some 31 } := (Option.some.inj hq).symm
          subst this
          simp only [Option.some.injEq] at hptr
          subst hptr
          exact ⟨_, rfl, by decide⟩
        · simp [sampleGroups, h1, h2, h3] at hq

theorem reassociateProcess_membership_witness :
    ∃ w2 grp2, reassociateProcess sampleGroups 31 1 = .done w2 ∧
      w2.groups 31 = some grp2 ∧ grp2.members_ = [3, 1] ∧
      (∀ g grp, g ≠ 31 → w2.groups g = some grp → 1 ∉ grp.members_) ∧
      reassociateProcess w2 31 1 = .done w2 := by
  obtain ⟨w2, grp2, proc2, h1, h2, h3, _, h5, _, _, _, _, _, _, h12⟩ :=
    reassociateProcess_membership sampleGroups 31 1 { pid := 1, _pgPointer := some 30 }
      { members_ := [3] } sampleGroups_consistent rfl rfl
  exact ⟨w2, grp2, h1, h2, by rw [h3]; decide, h5, h12⟩
/-- What a call of `assignSessionOf` that returns has read and done. -/
theorem assignSessionOf_inv {w w2 : World} {T p : Ref} {e : Error}
    (h : assignSessionOf w T p = .done (e, w2)) :
    ∃ cts process g group S session, w.terminals T = some cts ∧ w.procs p = some process ∧
      process._pgPointer = some g ∧ w.groups g = some group ∧
      group.sessionPointer_ = some S ∧ w.sessions S = some session ∧
      ((process._hull ≠ session.hull_ ∧ e = Error.illegalArguments ∧ w2 = w) ∨
       (process._hull = session.hull_ ∧
          (cts.associatedSession_ ≠ none ∨ session.ctsPointer_ ≠ none) ∧
          e = Error.insufficientPermissions ∧ w2 = w) ∨
       (process._hull = session.hull_ ∧ cts.associatedSession_ = none ∧
          session.ctsPointer_ = none ∧ e = Error.success ∧
          w2 = (w.setTerminal T { cts with associatedSession_ := some S }).setSession S
            { session with ctsPointer_ := some T })) := by
  unfold assignSessionOf at h
  cases hT : w.terminals T with
  | none => simp [hT] at h
  | some cts =>
    cases hp : w.procs p with
    | none => simp [hT, hp] at h
    | some process =>
      simp only [hT, hp] at h
      cases hg : process._pgPointer with
      | none => simp [hg] at h
      | some g =>
        simp only [hg] at h
        cases hgr : w.groups g with
        | none => simp [hgr] at h
        | some group =>
          simp only [hgr] at h
          cases hS : group.sessionPointer_ with
          | none => simp [hS] at h
          | some S =>
            simp only [hS] at h
            cases hses : w.sessions S with
            | none => simp [hses] at h
            | some session =>
              simp only [hses] at h
              refine ⟨cts, process, g, group, S, session, rfl, rfl, hg, hgr, hS, hses, ?_⟩
              by_cases h1 : process._hull ≠ session.hull_
              · rw [if_pos h1] at h
                simp only [Outcome.done.injEq, Prod.mk.injEq] at h
                exact Or.inl ⟨h1, h.1.symm, h.2.symm⟩
              · rw [if_neg h1] at h
                have h1e : process._hull = session.hull_ := by
                  by_contra hc; exact h1 hc
                by_cases h2 : cts.associatedSession_ ≠ none
                · rw [if_pos h2] at h
                  simp only [Outcome.done.injEq, Prod.mk.injEq] at h
                  exact Or.inr (Or.inl ⟨h1e, Or.inl h2, h.1.symm, h.2.symm⟩)
                · rw [if_neg h2] at h
                  by_cases h3 : session.ctsPointer_ ≠ none
                  · rw [if_pos h3] at h
                    simp only [Outcome.done.injEq, Prod.mk.injEq] at h
                    exact Or.inr (Or.inl ⟨h1e, Or.inr h3, h.1.symm, h.2.symm⟩)
                  · rw [if_neg h3] at h
                    simp only [Outcome.done.injEq, Prod.mk.injEq] at h
                    exact Or.inr (Or.inr ⟨h1e, by simpa using h2, by simpa using h3,
                      h.1.symm, h.2.symm⟩)

/-- What a call of `dropSession` that returns has read and done. -/
theorem dropSession_inv {w w2 : World} {T : Ref} {session : Option Ref}
    (h : dropSession w T session = .done w2) :
    ∃ cts S ses, w.terminals T = some cts ∧ session = some S ∧
      cts.associatedSession_ = some S ∧ w.sessions S = some ses ∧
      w2 = (w.setTerminal T { cts with associatedSession_ := none }).setSession S
        { ses with ctsPointer_ := none } := by
  unfold dropSession at h
  cases hT : w.terminals T with
  | none => simp [hT] at h
  | some cts =>
    simp only [hT] at h
    by_cases h1 : cts.associatedSession_ ≠ session
    · rw [if_pos h1] at h; cases h
    · rw [if_neg h1] at h
      have h1e : cts.associatedSession_ = session := by
        by_contra hc; exact h1 hc
      cases hs : session with
      | none => simp [hs] at h
      | some S =>
        simp only [hs, setTerminal_sessions] at h
        cases hses : w.sessions S with
        | none => simp [hses] at h
        | some ses =>
          simp only [hses, Outcome.done.injEq] at h
          exact ⟨cts, S, ses, rfl, rfl, by rw [h1e, hs], hses, h.symm⟩

theorem boundOneToOne_of_reachable {w : World} (h : TerminalReachable w) :
    BoundOneToOne w := by
  induction h with
  | start w hu =>
    intro T S cts ses hT hS
    rw [hu.1 T cts hT, hu.2 S ses hS]
    simp
  | @assign w w2 T p e _ hrun ih =>
    obtain ⟨cts, process, g, group, S, session, hT, _, _, _, _, hS, hcase⟩ :=
      assignSessionOf_inv hrun
    rcases hcase with ⟨_, _, hw⟩ | ⟨_, _, _, hw⟩ | ⟨_, ha, hc, _, hw⟩
    · rw [hw]; exact ih
    · rw [hw]; exact ih
    · subst hw
      intro T2 S2 cts2 ses2 hT2 hS2
      by_cases hTT : T2 = T
      · subst hTT
        simp only [setSession_terminals, setTerminal_terminals_same, Option.some.injEq] at hT2
        subst hT2
        by_cases hSS : S2 = S
        · subst hSS
          simp only [setSession_sessions_same, Option.some.injEq] at hS2
          subst hS2
          simp
        · rw [setSession_sessions_ne _ _ hSS, setTerminal_sessions] at hS2
          have := ih T2 S2 cts ses2 hT hS2
          rw [ha] at this
          simp only [Option.some.injEq]
          constructor
          · intro hEq; exact absurd hEq.symm hSS
          · intro hEq; exact absurd (this.mpr hEq) (by simp)
      · rw [setSession_terminals, setTerminal_terminals_ne _ _ hTT] at hT2
        by_cases hSS : S2 = S
        · subst hSS
          simp only [setSession_sessions_same, Option.some.injEq] at hS2
          subst hS2
          have := ih T2 S2 cts2 session hT2 hS
          rw [hc] at this
          simp only [Option.some.injEq]
          constructor
          · intro hEq; exact absurd (this.mp hEq) (by simp)
          · intro hEq; exact absurd hEq.symm hTT
        · rw [setSession_sessions_ne _ _ hSS, setTerminal_sessions] at hS2
          exact ih T2 S2 cts2 ses2 hT2 hS2
  | @drop w w2 T session _ hrun ih =>
    obtain ⟨cts, S, ses, hT, _, ha, hS, hw⟩ := dropSession_inv hrun
    subst hw
    have hc : ses.ctsPointer_ = some T := (ih T S cts ses hT hS).mp ha
    intro T2 S2 cts2 ses2 hT2 hS2
    by_cases hTT : T2 = T
    · subst hTT
      simp only [setSession_terminals, setTerminal_terminals_same, Option.some.injEq] at hT2
      subst hT2
      by_cases hSS : S2 = S
      · subst hSS
        simp only [setSession_sessions_same, Option.some.injEq] at hS2
        subst hS2
        simp
      · rw [setSession_sessions_ne _ _ hSS, setTerminal_sessions] at hS2
        have := ih T2 S2 cts ses2 hT hS2
        rw [ha] at this
        simp only [Option.some.injEq] at this
        constructor
        · intro hEq; cases hEq
        · intro hEq; exact absurd (this.mpr hEq).symm hSS
    · rw [setSession_terminals, setTerminal_terminals_ne _ _ hTT] at hT2
      by_cases hSS : S2 = S
      · subst hSS
        simp only [setSession_sessions_same, Option.some.injEq] at hS2
        subst hS2
        have := ih T2 S2 cts2 ses hT2 hS
        rw [hc] at this
        simp only [Option.some.injEq] at this
        constructor
        · intro hEq; exact absurd (this.mp hEq).symm hTT
        · intro hEq; cases hEq
      · rw [setSession_sessions_ne _ _ hSS, setTerminal_sessions] at hS2
        exact ih T2 S2 cts2 ses2 hT2 hS2
theorem sampleSession_unbound : Unbound sampleSession := by
  constructor
  · intro T cts hT
    by_cases h : T = 50
    · subst h
      have : cts = {} := by
        have h2 : sampleSession.terminals 50 = some {} := rfl
        rw [h2] at hT
        exact (Option.some.inj hT).symm
      rw [this]
    · simp [sampleSession, h] at hT
  · intro S ses hS
    by_cases h : S = 40
    · subst h
      have h2 : sampleSession.sessions 40 =
          some { hull_ := some 60, groups_ := [30], foregroundGroup_ := some 30 } := rfl
      rw [h2] at hS
      rw [← Option.some.inj hS]
    · simp [sampleSession, h] at hS

theorem sampleBound_reachable : TerminalReachable sampleBound :=
  TerminalReachable.assign 50 1 Error.success
    (TerminalReachable.start _ sampleSession_unbound) rfl

/-- C26: in every heap reached from an unbound one by `assignSessionOf` and
`dropSession`, the terminal `T` has the session `S` if and only if the controlling
terminal of `S` is `T`; and `assignSessionOf` of a process whose group and session
are live returns: success exactly when the process is the leader of its session
(it has the hull of the session) and neither the terminal nor the session is bound,
and then both links are set and the binding stays one-to-one; the illegal-arguments
error exactly when the process is not the leader; the permission error exactly when
it is the leader and one side is bound; on every error the heap, so both links, is
unchanged. -/
theorem terminal_binding_one_to_one (w : World) (h : TerminalReachable w) :
    BoundOneToOne w ∧
    (∀ T p cts process g group S session,
      w.terminals T = some cts → w.procs p = some process →
      process._pgPointer = some g → w.groups g = some group →
      group.sessionPointer_ = some S → w.sessions S = some session →
      ∃ e w2, assignSessionOf w T p = .done (e, w2) ∧
        (e = Error.success ↔
          process._hull = session.hull_ ∧ cts.associatedSession_ = none ∧
            session.ctsPointer_ = none) ∧
        (e = Error.illegalArguments ↔ process._hull ≠ session.hull_) ∧
        (e = Error.insufficientPermissions ↔
          process._hull = session.hull_ ∧
            (cts.associatedSession_ ≠ none ∨ session.ctsPointer_ ≠ none)) ∧
        (e ≠ Error.success → w2 = w) ∧
        (e = Error.success →
          w2.terminals T = some { cts with associatedSession_ := some S } ∧
          w2.sessions S = some { session with ctsPointer_ := some T }) ∧
        BoundOneToOne w2) := by
  refine ⟨boundOneToOne_of_reachable h, ?_⟩
  intro T p cts process g group S session hT hp hg hgr hS hses
  have hrun : ∃ e w2, assignSessionOf w T p = .done (e, w2) := by
    unfold assignSessionOf
    simp only [hT, hp, hg, hgr, hS, hses]
    by_cases h1 : process._hull ≠ session.hull_
    · rw [if_pos h1]; exact ⟨_, _, rfl⟩
    · rw [if_neg h1]
      by_cases h2 : cts.associatedSession_ ≠ none
      · rw [if_pos h2]; exact ⟨_, _, rfl⟩
      · rw [if_neg h2]
        by_cases h3 : session.ctsPointer_ ≠ none
        · rw [if_pos h3]; exact ⟨_, _, rfl⟩
        · rw [if_neg h3]; exact ⟨_, _, rfl⟩
  obtain ⟨e, w2, hrun⟩ := hrun
  have hreach2 : BoundOneToOne w2 :=
    boundOneToOne_of_reachable (TerminalReachable.assign T p e h hrun)
  refine ⟨e, w2, hrun, ?_⟩
  obtain ⟨cts1, process1, g1, group1, S1, session1, hT1, hp1, hg1, hgr1, hS1, hses1, hcase⟩ :=
    assignSessionOf_inv hrun
  rw [hT] at hT1
  rw [hp] at hp1
  cases Option.some.inj hT1
  cases Option.some.inj hp1
  rw [hg] at hg1
  cases Option.some.inj hg1
  rw [hgr] at hgr1
  cases Option.some.inj hgr1
  rw [hS] at hS1
  cases Option.some.inj hS1
  rw [hses] at hses1
  cases Option.some.inj hses1
  rcases hcase with ⟨hne, he, hw⟩ | ⟨heq, hb, he, hw⟩ | ⟨heq, ha, hc, he, hw⟩
  · subst he
    refine ⟨?_, ?_, ?_, ?_, ?_, hreach2⟩
    · constructor
      · intro hh; cases hh
      · intro hh; exact absurd hh.1 hne
    · exact ⟨fun _ => hne, fun _ => rfl⟩
    · constructor
      · intro hh; cases hh
      · intro hh; exact absurd hh.1 hne
    · intro _; exact hw
    · intro hh; cases hh
  · subst he
    refine ⟨?_, ?_, ?_, ?_, ?_, hreach2⟩
    · constructor
      · intro hh; cases hh
      · intro hh
        rcases hb with hb | hb
        · exact absurd hh.2.1 hb
        · exact absurd hh.2.2 hb
    · constructor
      · intro hh; cases hh
      · intro hh; exact absurd heq hh
    · exact ⟨fun _ => ⟨heq, hb⟩, fun _ => rfl⟩
    · intro _; exact hw
    · intro hh; cases hh
  · subst he
    refine ⟨?_, ?_, ?_, ?_, ?_, hreach2⟩
    · exact ⟨fun _ => ⟨heq, ha, hc⟩, fun _ => rfl⟩
    · constructor
      · intro hh; cases hh
      · intro hh; exact absurd heq hh
    · constructor
      · intro hh; cases hh
      · intro hh
        rcases hh.2 with hb | hb
        · exact absurd ha hb
        · exact absurd hc hb
    · intro hh; exact absurd rfl hh
    · intro _
      subst hw
      constructor
      · rw [setSession_terminals, setTerminal_terminals_same]
      · rw [setSession_sessions_same]

/-- Witness of C26 on the heap in which process 1 has taken the terminal at 50. -/
theorem terminal_binding_one_to_one_witness :
    TerminalReachable sampleBound ∧ BoundOneToOne sampleBound ∧
      (∃ cts ses, sampleBound.terminals 50 = some cts ∧ sampleBound.sessions 40 = some ses ∧
        cts.associatedSession_ = some 40 ∧ ses.ctsPointer_ = some 50) :=
  ⟨sampleBound_reachable,
    (terminal_binding_one_to_one sampleBound sampleBound_reachable).1,
    ⟨_, _, rfl, rfl, rfl, rfl⟩⟩
/-! ## Creation of processes and the invariant of the heap -/

/-- After `fork` or `clone`, a process of the heap is the child, the original
with its longer list of children, or a process that was there unchanged. -/
theorem Spawned.cases {w w2 : World} {original P : Ref} {orig child : Process} {G : Ref}
    {grp : ProcessGroup} (hs : Spawned w w2 original P orig child G grp) (r : Ref)
    (p2 : Process) (h : w2.procs r = some p2) :
    (r = P ∧ p2 = child) ∨
    (r ≠ P ∧ r = original ∧ p2 = { orig with _children := orig._children ++ [P] }) ∨
    (r ≠ P ∧ r ≠ original ∧ w.procs r = some p2) := by
  by_cases hP : r = P
  · subst hP
    rw [hs.made] at h
    exact Or.inl ⟨rfl, (Option.some.inj h).symm⟩
  · by_cases ho : r = original
    · subst ho
      rw [hs.originalAfter] at h
      exact Or.inr (Or.inl ⟨hP, rfl, (Option.some.inj h).symm⟩)
    · rw [hs.others r hP ho] at h
      exact Or.inr (Or.inr ⟨hP, ho, h⟩)

/-- A process that was there before `fork` or `clone` is there afterwards, with
the same fields but for the children of the original. -/
theorem Spawned.lookup {w w2 : World} {original P : Ref} {orig child : Process} {G : Ref}
    {grp : ProcessGroup} (hs : Spawned w w2 original P orig child G grp)
    (hi : ProcInv w) (r : Ref) (p : Process) (h : w.procs r = some p) :
    r ≠ P ∧ ((r ≠ original ∧ w2.procs r = some p) ∨
      (r = original ∧ p = orig ∧
        w2.procs r = some { orig with _children := orig._children ++ [P] })) := by
  have hP : r ≠ P := by
    intro hEq
    subst hEq
    rw [(hi.fresh r hs.isNew).1] at h
    cases h
  refine ⟨hP, ?_⟩
  by_cases ho : r = original
  · subst ho
    rw [hs.live] at h
    exact Or.inr ⟨rfl, (Option.some.inj h).symm, hs.originalAfter⟩
  · exact Or.inl ⟨ho, by rw [hs.others r hP ho]; exact h⟩

theorem lt_nextRef_of_live {α : Type} {w : World} (heap : Ref → Option α) {r : Ref} {a : α}
    (hfresh : ∀ r, w.nextRef ≤ r → heap r = none) (h : heap r = some a) : r < w.nextRef := by
  by_contra hc
  rw [hfresh r (Nat.le_of_not_lt hc)] at h
  cases h

/-- The invariant of the heap holds after `fork` and after `clone`. -/
theorem Spawned.inv {w w2 : World} {original P : Ref} {orig child : Process} {G : Ref}
    {grp : ProcessGroup} (hs : Spawned w w2 original P orig child G grp)
    (hi : ProcInv w) : ProcInv w2 := by
  have horigP : original ≠ P := (hs.lookup hi original orig hs.live).1
  have hlive : ∀ r p, w.procs r = some p → ∃ p2, w2.procs r = some p2 ∧
      p2._parent = p._parent := by
    intro r p h
    rcases (hs.lookup hi r p h).2 with ⟨_, h2⟩ | ⟨_, hp, h2⟩
    · exact ⟨p, h2, rfl⟩
    · exact ⟨_, h2, by rw [hp]⟩
  constructor
  · intro pid r h
    rw [hs.counter]
    rcases hs.registry pid r h with h1 | h1
    · rw [h1]; omega
    · have := hi.registered pid r h1
      omega
  · intro r p h
    rw [hs.counter]
    rcases hs.cases r p h with ⟨_, hp⟩ | ⟨_, hr, hp⟩ | ⟨_, _, hp⟩
    · rw [hp, hs.pid]; omega
    · have := hi.pids original orig hs.live
      rw [hp]
      show orig.pid < _
      omega
    · have := hi.pids r p hp
      omega
  · exact hs.fresh
  · obtain ⟨rank, hrank⟩ := hi.rank
    refine ⟨Function.update rank P (rank original + 1), ?_⟩
    intro x p q hx hq
    have hold : ∀ p0, w.procs x = some p0 → p0._parent = some q → x ≠ P →
        (∃ pq, w2.procs q = some pq) ∧
          Function.update rank P (rank original + 1) q <
            Function.update rank P (rank original + 1) x := by
      intro p0 hx0 hq0 hxP
      obtain ⟨⟨pq, hpq⟩, hlt⟩ := hrank x p0 q hx0 hq0
      have hqP : q ≠ P := (hs.lookup hi q pq hpq).1
      obtain ⟨pq2, hpq2, _⟩ := hlive q pq hpq
      refine ⟨⟨pq2, hpq2⟩, ?_⟩
      rw [Function.update_noteq hqP, Function.update_noteq hxP]
      exact hlt
    rcases hs.cases x p hx with ⟨hxP, hp⟩ | ⟨hxP, hr, hp⟩ | ⟨hxP, _, hp⟩
    · subst hxP
      rw [hp, hs.parent] at hq
      cases hq
      refine ⟨⟨_, hs.originalAfter⟩, ?_⟩
      rw [Function.update_same, Function.update_noteq horigP]
      omega
    · subst hr
      rw [hp] at hq
      exact hold orig hs.live hq hxP
    · exact hold p hp hq hxP
  · intro q pq c hq hc
    have hold : ∀ pq0, w.procs q = some pq0 → c ∈ pq0._children →
        ∃ pc, w2.procs c = some pc ∧ pc._parent = some q := by
      intro pq0 hq0 hc0
      obtain ⟨pc, hpc, hpar⟩ := hi.children q pq0 c hq0 hc0
      obtain ⟨pc2, hpc2, hpar2⟩ := hlive c pc hpc
      exact ⟨pc2, hpc2, by rw [hpar2, hpar]⟩
    rcases hs.cases q pq hq with ⟨hqP, hp⟩ | ⟨hqP, hr, hp⟩ | ⟨hqP, _, hp⟩
    · rw [hp, hs.noChildren] at hc
      cases hc
    · subst hr
      rw [hp] at hc
      rcases List.mem_append.mp hc with hc1 | hc1
      · exact hold orig hs.live hc1
      · rw [List.mem_singleton] at hc1
        subst hc1
        exact ⟨child, hs.made, hs.parent⟩
    · exact hold pq hp hc
  · intro q pq hq
    rcases hs.cases q pq hq with ⟨hqP, hp⟩ | ⟨hqP, hr, hp⟩ | ⟨hqP, _, hp⟩
    · rw [hp, hs.noChildren]
      exact List.nodup_nil
    · rw [hp]
      show (orig._children ++ [P]).Nodup
      rw [List.nodup_append]
      refine ⟨hi.nodup original orig hs.live, List.nodup_singleton P, ?_⟩
      intro a ha hb
      rw [List.mem_singleton] at hb
      subst hb
      obtain ⟨pc, hpc, _⟩ := hi.children original orig a hs.live ha
      exact (hs.lookup hi a pc hpc).1 rfl
    · exact hi.nodup q pq hp
  · intro r p h
    rcases hs.cases r p h with ⟨_, hp⟩ | ⟨_, hr, hp⟩ | ⟨_, _, hp⟩
    · rw [hp]; exact hs.noPdeath
    · rw [hp]; exact hi.noPdeath original orig hs.live
    · exact hi.noPdeath r p hp
  · intro r p h
    have hold : ∀ p0, w.procs r = some p0 → p0._signalContext = p._signalContext →
        ∃ sc ctx, p._signalContext = some sc ∧ w2.sigctxs sc = some ctx ∧
          ctx._handlers.length = 64 := by
      intro p0 h0 heq
      obtain ⟨sc, ctx, h1, h2, h3⟩ := hi.signal r p0 h0
      have hlt : sc < w.nextRef :=
        lt_nextRef_of_live w.sigctxs (fun r hr => (hi.fresh r hr).2.1) h2
      exact ⟨sc, ctx, by rw [← heq, h1], by rw [(hs.kept sc hlt).1, h2], h3⟩
    rcases hs.cases r p h with ⟨_, hp⟩ | ⟨_, hr, hp⟩ | ⟨_, _, hp⟩
    · rw [hp]; exact hs.signal
    · subst hr
      exact hold orig hs.live (by rw [hp])
    · exact hold p hp rfl
  · intro r p h
    have hold : ∀ p0, w.procs r = some p0 → p0._pgPointer = p._pgPointer →
        ∃ G g, p._pgPointer = some G ∧ w2.groups G = some g := by
      intro p0 h0 heq
      obtain ⟨G0, g, h1, h2⟩ := hi.group r p0 h0
      by_cases hG : G0 = G
      · subst hG
        exact ⟨G0, _, by rw [← heq, h1], hs.groupAfter⟩
      · have hlt : G0 < w.nextRef :=
          lt_nextRef_of_live w.groups (fun r hr => (hi.fresh r hr).2.2.1) h2
        exact ⟨G0, g, by rw [← heq, h1], by rw [hs.otherGroups G0 hG hlt, h2]⟩
    rcases hs.cases r p h with ⟨_, hp⟩ | ⟨_, hr, hp⟩ | ⟨_, _, hp⟩
    · rw [hp]; exact ⟨G, _, hs.pgPointer, hs.groupAfter⟩
    · subst hr
      exact hold orig hs.live (by rw [hp])
    · exact hold p hp rfl
  · intro r p h hnt
    have hold : ∀ p0, w.procs r = some p0 → p0.notifyType_ = p.notifyType_ →
        p0._vmContext = p._vmContext → p0._fsContext = p._fsContext →
        p0._fileContext = p._fileContext →
        (∃ v c, p._vmContext = some v ∧ w2.vmctxs v = some c) ∧
        (∃ v c, p._fsContext = some v ∧ w2.fsctxs v = some c) ∧
        (∃ v c, p._fileContext = some v ∧ w2.filectxs v = some c) := by
      intro p0 h0 e0 e1 e2 e3
      obtain ⟨⟨v1, c1, a1, b1⟩, ⟨v2, c2, a2, b2⟩, ⟨v3, c3, a3, b3⟩⟩ :=
        hi.running r p0 h0 (by rw [e0]; exact hnt)
      have l1 : v1 < w.nextRef :=
        lt_nextRef_of_live w.vmctxs (fun r hr => (hi.fresh r hr).2.2.2.2.2.1) b1
      have l2 : v2 < w.nextRef :=
        lt_nextRef_of_live w.fsctxs (fun r hr => (hi.fresh r hr).2.2.2.2.2.2.1) b2
      have l3 : v3 < w.nextRef :=
        lt_nextRef_of_live w.filectxs (fun r hr => (hi.fresh r hr).2.2.2.2.2.2.2) b3
      exact ⟨⟨v1, c1, by rw [← e1, a1], by rw [(hs.kept v1 l1).2.2.2.1, b1]⟩,
        ⟨v2, c2, by rw [← e2, a2], by rw [(hs.kept v2 l2).2.2.2.2.1, b2]⟩,
        ⟨v3, c3, by rw [← e3, a3], by rw [(hs.kept v3 l3).2.2.2.2.2, b3]⟩⟩
    rcases hs.cases r p h with ⟨_, hp⟩ | ⟨_, hr, hp⟩ | ⟨_, _, hp⟩
    · rw [hp]; exact hs.contexts
    · subst hr
      exact hold orig hs.live (by rw [hp]) (by rw [hp]) (by rw [hp]) (by rw [hp])
    · exact hold p hp rfl rfl rfl rfl
  · intro r p h hg
    rcases hs.cases r p h with ⟨_, hp⟩ | ⟨_, hr, hp⟩ | ⟨_, _, hp⟩
    · rw [hp]; exact hs.notTerminated
    · rw [hp]
      rw [hp] at hg
      exact hi.generation original orig hs.live hg
    · exact hi.generation r p hp hg
  · intro r p h hg
    rcases hs.cases r p h with ⟨_, hp⟩ | ⟨_, hr, hp⟩ | ⟨_, _, hp⟩
    · rw [hp]; exact hs.notTerminated
    · rw [hp]
      rw [hp] at hg
      exact hi.terminated original orig hs.live hg
    · exact hi.terminated r p hp hg
theorem construct_fresh (w : World) (pid : Int) (h : w.globalPidMap pid = none) :
    PidHull.construct w pid = .done (w.nextRef,
      { w.setHull w.nextRef { pid_ := pid } with
        globalPidMap := Function.update w.globalPidMap pid (some w.nextRef)
        nextRef := w.nextRef + 1 }) := by
  unfold PidHull.construct
  rw [h]

theorem reassociateProcess_fresh (w : World) (G p : Ref) (process : Process)
    (group : ProcessGroup) (hp : w.procs p = some process) (hpg : process._pgPointer = none)
    (hG : w.groups G = some group) :
    reassociateProcess w G p = .done
      ((w.setProc p { process with _pgPointer := some G }).setGroup G
        { group with members_ := group.members_ ++ [p] }) := by
  unfold reassociateProcess leaveOldGroup
  simp only [hp, hpg, setProc_groups, hG]

theorem cloneAreas_ok (k : CloneKernel) (hk : k.Ok) :
    ∀ t built, ∃ t2, cloneAreas k t built = .done t2 := by
  intro t
  induction t with
  | nil => intro built; exact ⟨built, rfl⟩
  | cons e rest ih =>
    intro built
    obtain ⟨address, area⟩ := e
    unfold cloneAreas
    by_cases hc : area.copyOnWrite = true
    · simp only [hc, if_true, hk.2.1 address, hk.2.2 address, ne_eq, not_true_eq_false,
        if_false, false_and]
      exact ih _
    · simp only [hc, hk.2.2 address, ne_eq, not_true_eq_false, if_false]
      exact ih _

theorem VmContext.clone_vm_ok (k : CloneKernel) (hk : k.Ok) (c : VmContext) :
    ∃ c2, VmContext.clone c k = .done c2 := by
  unfold VmContext.clone
  obtain ⟨t, ht⟩ := cloneAreas_ok k hk c._areaTree []
  simp only [hk.1, ne_eq, not_true_eq_false, if_false, ht]
  exact ⟨_, rfl⟩

theorem attachAll_ok (k : FileKernel) (hk : k.Ok) :
    ∀ l c, ∃ c2, attachAll k l c = .done c2 := by
  intro l
  induction l with
  | nil => intro c; exact ⟨c, rfl⟩
  | cons e rest ih =>
    intro c
    obtain ⟨fd, d⟩ := e
    unfold attachAll FileContext.attachFile
    simp only [hk.2.2.2.1 fd, ne_eq, not_true_eq_false, if_false]
    exact ih _

theorem FileContext.clone_file_ok (k : FileKernel) (hk : k.Ok) (c : FileContext) :
    ∃ c2, FileContext.clone c k = .done c2 := by
  unfold FileContext.clone
  obtain ⟨t, ht⟩ := attachAll_ok k hk c._fileTable
    { _universe := some k.createUniverse.2, _fileTableMemory := some k.allocateMemory.2 }
  simp only [hk.1, hk.2.1, hk.2.2.1, hk.2.2.2.2, ne_eq, not_true_eq_false, if_false, ht]
  exact ⟨_, rfl⟩

theorem cloneContexts_spec (k : ForkKernel) (w : World) (orig : Process)
    (v1 v2 v3 v4 : Ref) (c1 : VmContext) (c2 : FsContext) (c3 : FileContext)
    (c4 : SignalContext) (vc : VmContext) (flc : FileContext)
    (h1 : orig._vmContext = some v1) (g1 : w.vmctxs v1 = some c1)
    (h2 : orig._fsContext = some v2) (g2 : w.fsctxs v2 = some c2)
    (h3 : orig._fileContext = some v3) (g3 : w.filectxs v3 = some c3)
    (h4 : orig._signalContext = some v4) (g4 : w.sigctxs v4 = some c4)
    (hvc : VmContext.clone c1 k.vm = .done vc) (hflc : FileContext.clone c3 k.file = .done flc) :
    cloneContexts k w orig =
      .done (⟨w.nextRef, w.nextRef + 1, w.nextRef + 2, w.nextRef + 3⟩,
        { (((w.setVmctx w.nextRef vc).setFsctx (w.nextRef + 1)
            (FsContext.clone c2)).setFilectx (w.nextRef + 2) flc).setSigctx
            (w.nextRef + 3) (SignalContext.clone c4) with
          nextRef := w.nextRef + 4 }) := by
  unfold cloneContexts
  simp only [h1, h2, h3, h4, Option.some_bind, g1, g2, g3, g4, hvc, hflc]

theorem ProcessKernel.Ok.launches {k : ProcessKernel} (hk : k.Ok) (own : Bool) :
    k.Launches own :=
  ⟨hk.1, hk.2.1, hk.2.2.1, hk.2.2.2.1, hk.2.2.2.2.1,
    fun _ => ⟨hk.2.2.2.2.2.1, hk.2.2.2.2.2.2.1⟩, hk.2.2.2.2.2.2.2⟩
theorem launchChild_spec (k : ProcessKernel) (own : Bool) (w : World) (original P hull : Ref)
    (orig child : Process) (G : Ref) (grp : ProcessGroup) (h : PidHull)
    (hk : k.Launches own) (ho : w.procs original = some orig) (hP : w.procs P = some child)
    (hne : original ≠ P) (hpg : orig._pgPointer = some G) (hG : w.groups G = some grp)
    (hcpg : child._pgPointer = none)
    (hfile : ∃ v c, child._fileContext = some v ∧ w.filectxs v = some c)
    (hvm : ∃ v c, child._vmContext = some v ∧ w.vmctxs v = some c)
    (hh : w.hulls hull = some h) :
    ∃ w2 child2, launchChild k own w original P hull = .done (P, w2) ∧
      w2.procs P = some child2 ∧
      child2.pid = child.pid ∧ child2._parent = child._parent ∧
      child2._children = child._children ∧ child2._notifyQueue = child._notifyQueue ∧
      child2.notifyType_ = child.notifyType_ ∧
      child2.parentDeathSignal_ = child.parentDeathSignal_ ∧
      child2._signalMask = orig._signalMask ∧ child2._pgPointer = some G ∧
      child2._currentGeneration = some w.nextRef ∧
      child2._vmContext = child._vmContext ∧ child2._fsContext = child._fsContext ∧
      child2._fileContext = child._fileContext ∧
      child2._signalContext = child._signalContext ∧ child2._hull = child._hull ∧
      w2.procs original = some { orig with _children := orig._children ++ [P] } ∧
      (∀ r, r ≠ P → r ≠ original → w2.procs r = w.procs r) ∧
      w2.groups G = some { grp with members_ := grp.members_ ++ [P] } ∧
      (∀ g, g ≠ G → w2.groups g = w.groups g) ∧
      w2.hulls hull = some { h with process_ := some P } ∧
      (∀ r, r ≠ hull → w2.hulls r = w.hulls r) ∧
      w2.gens w.nextRef = some {} ∧ (∀ r, r ≠ w.nextRef → w2.gens r = w.gens r) ∧
      w2.sigctxs = w.sigctxs ∧ w2.vmctxs = w.vmctxs ∧ w2.fsctxs = w.fsctxs ∧
      w2.filectxs = w.filectxs ∧ w2.sessions = w.sessions ∧ w2.terminals = w.terminals ∧
      w2.globalPidMap = w.globalPidMap ∧ w2.nextPid = w.nextPid ∧
      w2.nextRef = w.nextRef + 1 := by
  obtain ⟨fv, fc, hf1, hf2⟩ := hfile
  obtain ⟨vv, vc, hv1, hv2⟩ := hvm
  obtain ⟨k1, k2, k3, k4, k5, k67, k8⟩ := hk
  have hcond : ¬ (k.transferLane.1 ≠ HelError.kHelErrNone ∨
      k.mapThreadPage.1 ≠ HelError.kHelErrNone ∨
      k.mapCancelEvent.1 ≠ HelError.kHelErrNone ∨
      (own = true ∧ (k.mapFileTable.1 ≠ HelError.kHelErrNone ∨
        k.mapClkTracker.1 ≠ HelError.kHelErrNone))) := by
    intro hc
    rcases hc with hc | hc | hc | ⟨ho1, hc | hc⟩
    · exact hc k3
    · exact hc k4
    · exact hc k5
    · exact hc (k67 ho1).1
    · exact hc (k67 ho1).2
  obtain ⟨c2, hc2⟩ : ∃ c2 : Process, c2 =
          { child with
            _pgPointer := some G
            _threadPageMemory := some k.allocateThreadPage.2
            _cancelEventMemory := some k.allocateCancelEvent.2
            _signalMask := orig._signalMask
            _clientPosixLane := k.transferLane.2
            _clientThreadPage := k.mapThreadPage.2
            _clientCancelEvent := k.mapCancelEvent.2
            _clientFileTable :=
              if own = true then k.mapFileTable.2 else orig._clientFileTable
            _clientClkTrackerPage :=
              if own = true then k.mapClkTracker.2 else orig._clientClkTrackerPage
            _clientAuxBegin := orig._clientAuxBegin
            _clientAuxEnd := orig._clientAuxEnd
            _uid := orig._uid
            _euid := orig._euid
            _gid := orig._gid
            _egid := orig._egid
            _didExecute := false
            _procfs_dir := some true
            _threadDescriptor := some k.createThread.2
            _posixLane := some k.serverLane
            _currentGeneration := some w.nextRef } := ⟨_, rfl⟩
  have hrun : ∃ w2, w2 = ({ ((((((w.setProc P { child with _pgPointer := some G }).setGroup G
          { grp with members_ := grp.members_ ++ [P] }).setProc P
          { child with
            _pgPointer := some G
            _threadPageMemory := some k.allocateThreadPage.2
            _cancelEventMemory := some k.allocateCancelEvent.2
            _signalMask := orig._signalMask
            _clientPosixLane := k.transferLane.2
            _clientThreadPage := k.mapThreadPage.2
            _clientCancelEvent := k.mapCancelEvent.2
            _clientFileTable :=
              if own = true then k.mapFileTable.2 else orig._clientFileTable
            _clientClkTrackerPage :=
              if own = true then k.mapClkTracker.2 else orig._clientClkTrackerPage
            _clientAuxBegin := orig._clientAuxBegin
            _clientAuxEnd := orig._clientAuxEnd
            _uid := orig._uid
            _euid := orig._euid
            _gid := orig._gid
            _egid := orig._egid }).setProc original
          { orig with _children := orig._children ++ [P] }).setHull hull
          { h with process_ := some P }).setProc P
          c2).setGen w.nextRef {} with
        nextRef := w.nextRef + 1 } : World) ∧
      launchChild k own w original P hull = .done (P, w2) := by
    refine ⟨_, rfl, ?_⟩
    subst hc2
    cases orig
    simp only at hpg
    subst hpg
    have hfb : child._fileContext.bind w.filectxs = some fc := by
      rw [hf1, Option.some_bind, hf2]
    have hvb : child._vmContext.bind w.vmctxs = some vc := by
      rw [hv1, Option.some_bind, hv2]
    unfold launchChild
    simp only [ho, reassociateProcess_fresh w G P child grp hP hcpg hG, k1, k2, ne_eq,
      not_true_eq_false, or_self, if_false, setGroup_procs, setProc_procs_same,
      setProc_procs_ne _ _ hne, setGroup_filectxs,
      setProc_filectxs, hfb, setGroup_vmctxs, setProc_vmctxs, hvb, if_neg hcond]
    unfold finishChild initializeProcess
    simp only [setProc_procs_ne _ _ hne, setGroup_procs, ho, setProc_hulls, setGroup_hulls, hh,
      setHull_procs, setProc_procs_ne _ _ (Ne.symm hne), setProc_procs_same, k8, ne_eq,
      not_true_eq_false, if_false, setHull_nextRef, setProc_nextRef, setGroup_nextRef]
  obtain ⟨w2, hdef, hw2⟩ := hrun
  refine ⟨w2, c2, hw2, ?_, ?_⟩
  · rw [hdef]
    simp only [World.setGen, World.setProc, Function.update_same]
  subst hc2
  refine ⟨rfl, rfl, rfl, rfl, rfl, rfl, rfl, rfl, rfl, rfl, rfl, rfl, rfl, rfl, ?_⟩
  subst hdef
  refine ⟨?_, ?_, ?_, ?_, ?_, ?_, ?_, ?_, rfl, rfl, rfl, rfl, rfl, rfl, rfl, rfl, rfl⟩
  · simp only [World.setGen, World.setProc, World.setHull, World.setGroup,
      Function.update_noteq hne, Function.update_same]
  · intro r h1 h2
    simp only [World.setGen, World.setProc, World.setHull, World.setGroup,
      Function.update_noteq h1, Function.update_noteq h2]
  · simp only [World.setGen, World.setProc, World.setHull, World.setGroup,
      Function.update_same]
  · intro g hg
    simp only [World.setGen, World.setProc, World.setHull, World.setGroup,
      Function.update_noteq hg]
  · simp only [World.setGen, World.setProc, World.setHull, World.setGroup,
      Function.update_same]
  · intro r hr
    simp only [World.setGen, World.setProc, World.setHull, World.setGroup,
      Function.update_noteq hr]
  · simp only [World.setGen, World.setProc, World.setHull, World.setGroup,
      Function.update_same]
  · intro r hr
    simp only [World.setGen, World.setProc, World.setHull, World.setGroup,
      Function.update_noteq hr]
theorem cloneContexts_inv (k : ForkKernel) (w : World) (orig : Process)
    (x : Contexts × World) (h : cloneContexts k w orig = .done x) :
    ∃ v1 c1 v2 c2 v3 c3 v4 c4 vc flc,
      orig._vmContext = some v1 ∧ w.vmctxs v1 = some c1 ∧
      orig._fsContext = some v2 ∧ w.fsctxs v2 = some c2 ∧
      orig._fileContext = some v3 ∧ w.filectxs v3 = some c3 ∧
      orig._signalContext = some v4 ∧ w.sigctxs v4 = some c4 ∧
      VmContext.clone c1 k.vm = .done vc ∧ FileContext.clone c3 k.file = .done flc := by
  unfold cloneContexts at h
  cases e1 : orig._vmContext.bind w.vmctxs with
  | none => rw [e1] at h; exact Outcome.noConfusion h
  | some c1 =>
    rw [e1] at h
    simp only at h
    cases e2 : VmContext.clone c1 k.vm with
    | fatal => rw [e2] at h; exact Outcome.noConfusion h
    | undefined => rw [e2] at h; exact Outcome.noConfusion h
    | done vc =>
      rw [e2] at h
      simp only at h
      cases e3 : orig._fsContext.bind w.fsctxs with
      | none => rw [e3] at h; exact Outcome.noConfusion h
      | some c2 =>
        rw [e3] at h
        simp only at h
        cases e4 : orig._fileContext.bind w.filectxs with
        | none => rw [e4] at h; exact Outcome.noConfusion h
        | some c3 =>
          rw [e4] at h
          simp only at h
          cases e5 : FileContext.clone c3 k.file with
          | fatal => rw [e5] at h; exact Outcome.noConfusion h
          | undefined => rw [e5] at h; exact Outcome.noConfusion h
          | done flc =>
            rw [e5] at h
            simp only at h
            cases e6 : orig._signalContext.bind w.sigctxs with
            | none => rw [e6] at h; exact Outcome.noConfusion h
            | some c4 =>
              obtain ⟨v1, a1, b1⟩ := Option.bind_eq_some.mp e1
              obtain ⟨v2, a2, b2⟩ := Option.bind_eq_some.mp e3
              obtain ⟨v3, a3, b3⟩ := Option.bind_eq_some.mp e4
              obtain ⟨v4, a4, b4⟩ := Option.bind_eq_some.mp e6
              exact ⟨v1, c1, v2, c2, v3, c3, v4, c4, vc, flc, a1, b1, a2, b2, a3, b3, a4, b4,
                e2, e5⟩

theorem launchChild_inv (k : ProcessKernel) (own : Bool) (w : World) (original P hull : Ref)
    (orig child : Process) (G : Ref) (grp : ProcessGroup) (hu : PidHull)
    (x : Ref × World)
    (ho : w.procs original = some orig) (hP : w.procs P = some child)
    (hne : original ≠ P) (hpg : orig._pgPointer = some G) (hG : w.groups G = some grp)
    (hcpg : child._pgPointer = none) (hh : w.hulls hull = some hu)
    (h : launchChild k own w original P hull = .done x) :
    (∃ v c, child._fileContext = some v ∧ w.filectxs v = some c) ∧
    (∃ v c, child._vmContext = some v ∧ w.vmctxs v = some c) ∧ k.Launches own := by
  unfold launchChild at h
  rw [ho] at h
  simp only at h
  cases orig
  simp only at hpg
  subst hpg
  simp only [reassociateProcess_fresh w G P child grp hP hcpg hG, setGroup_procs,
    setProc_procs_same, setProc_procs_ne _ _ hne, ho, setGroup_filectxs, setProc_filectxs,
    setGroup_vmctxs, setProc_vmctxs] at h
  by_cases hc1 : k.allocateThreadPage.1 ≠ HelError.kHelErrNone ∨
      k.allocateCancelEvent.1 ≠ HelError.kHelErrNone
  · rw [if_pos hc1] at h
    exact Outcome.noConfusion h
  rw [if_neg hc1] at h
  cases e1 : child._fileContext.bind w.filectxs with
  | none =>
    rw [e1] at h
    simp only at h
    exact Outcome.noConfusion h
  | some fc =>
    cases e2 : child._vmContext.bind w.vmctxs with
    | none =>
      rw [e1, e2] at h
      simp only at h
      exact Outcome.noConfusion h
    | some vc =>
      rw [e1, e2] at h
      simp only at h
      by_cases hc2 : k.transferLane.1 ≠ HelError.kHelErrNone ∨
          k.mapThreadPage.1 ≠ HelError.kHelErrNone ∨
          k.mapCancelEvent.1 ≠ HelError.kHelErrNone ∨
          (own = true ∧ (k.mapFileTable.1 ≠ HelError.kHelErrNone ∨
            k.mapClkTracker.1 ≠ HelError.kHelErrNone))
      · rw [if_pos hc2] at h
        exact Outcome.noConfusion h
      rw [if_neg hc2] at h
      unfold finishChild initializeProcess at h
      simp only [setProc_procs_ne _ _ hne, setGroup_procs, ho, setProc_hulls, setGroup_hulls,
        hh, setHull_procs, setProc_procs_ne _ _ (Ne.symm hne), setProc_procs_same] at h
      by_cases hc3 : k.createThread.1 ≠ HelError.kHelErrNone
      · rw [if_pos hc3] at h
        exact Outcome.noConfusion h
      obtain ⟨v3, a3, b3⟩ := Option.bind_eq_some.mp e1
      obtain ⟨v1, a1, b1⟩ := Option.bind_eq_some.mp e2
      refine ⟨⟨v3, fc, a3, b3⟩, ⟨v1, vc, a1, b1⟩, ?_⟩
      simp only [not_or, not_and, ne_eq, not_not] at hc1 hc2 hc3
      exact ⟨hc1.1, hc1.2, hc2.1, hc2.2.1, hc2.2.2.1, fun ht => hc2.2.2.2 ht, hc3⟩
theorem clone_handlers_length (ctx : SignalContext) (h : ctx._handlers.length = 64) :
    (SignalContext.clone ctx)._handlers = ctx._handlers ∧
      (SignalContext.clone ctx)._handlers.length = 64 := by
  have h1 : (SignalContext.clone ctx)._handlers = ctx._handlers := by
    show ctx._handlers.take 64 = ctx._handlers
    exact List.take_of_length_le (le_of_eq h)
  exact ⟨h1, by rw [h1, h]⟩

/-- In a heap with the invariant, no hull is registered for the pid `nextPid`. -/
theorem ProcInv.unregistered {w : World} (hi : ProcInv w) :
    w.globalPidMap w.nextPid = none := by
  cases h : w.globalPidMap w.nextPid with
  | none => rfl
  | some r =>
    have := hi.registered _ r h
    omega

theorem fork_forward (pidMax : Int) (k : ForkKernel) (w : World) (hi : ProcInv w)
    (original : Ref) (orig : Process) (ho : w.procs original = some orig)
    (hlt : w.nextPid < pidMax)
    (v1 v2 v3 sc : Ref) (c1 : VmContext) (c2 : FsContext) (c3 : FileContext)
    (ctx : SignalContext) (vc : VmContext) (flc : FileContext)
    (a1 : orig._vmContext = some v1) (b1 : w.vmctxs v1 = some c1)
    (a2 : orig._fsContext = some v2) (b2 : w.fsctxs v2 = some c2)
    (a3 : orig._fileContext = some v3) (b3 : w.filectxs v3 = some c3)
    (a4 : orig._signalContext = some sc) (b4 : w.sigctxs sc = some ctx)
    (hlen : ctx._handlers.length = 64)
    (hvc : VmContext.clone c1 k.vm = .done vc)
    (hflc : FileContext.clone c3 k.file = .done flc) :
    (∀ x, fork pidMax k w original = .done x → k.process.Launches true) ∧
    (k.process.Launches true →
      ∃ P w2 child G grp sc2, fork pidMax k w original = .done (P, w2) ∧
        Spawned w w2 original P orig child G grp ∧
        child._signalContext = some sc2 ∧ w.sigctxs sc2 = none ∧
        w2.sigctxs sc2 = some (SignalContext.clone ctx)) := by
  obtain ⟨G, grp, hpg, hG⟩ := hi.group original orig ho
  have hreg := hi.unregistered
  have holt : original < w.nextRef :=
    lt_nextRef_of_live w.procs (fun r hr => (hi.fresh r hr).1) ho
  have hGlt : G < w.nextRef :=
    lt_nextRef_of_live w.groups (fun r hr => (hi.fresh r hr).2.2.1) hG
  obtain ⟨W1, hW1⟩ : ∃ W1 : World, W1 =
      { ({ w with nextPid := w.nextPid + 1 } : World).setHull w.nextRef
          { pid_ := w.nextPid } with
        globalPidMap := Function.update w.globalPidMap w.nextPid (some w.nextRef)
        nextRef := w.nextRef + 1 } := ⟨_, rfl⟩
  have hcons : PidHull.construct { w with nextPid := w.nextPid + 1 } w.nextPid =
      .done (w.nextRef, W1) := by
    rw [hW1]
    exact construct_fresh { w with nextPid := w.nextPid + 1 } w.nextPid hreg
  have f1 : W1.procs = w.procs := by rw [hW1]; rfl
  have f2 : W1.vmctxs = w.vmctxs := by rw [hW1]; rfl
  have f3 : W1.fsctxs = w.fsctxs := by rw [hW1]; rfl
  have f4 : W1.filectxs = w.filectxs := by rw [hW1]; rfl
  have f5 : W1.sigctxs = w.sigctxs := by rw [hW1]; rfl
  have f6 : W1.nextRef = w.nextRef + 1 := by rw [hW1]
  have f7 : W1.groups = w.groups := by rw [hW1]; rfl
  have f8 : W1.hulls = Function.update w.hulls w.nextRef (some { pid_ := w.nextPid }) := by
    rw [hW1]; rfl
  have f9 : W1.gens = w.gens := by rw [hW1]; rfl
  have f10 : W1.globalPidMap =
      Function.update w.globalPidMap w.nextPid (some w.nextRef) := by rw [hW1]
  have f11 : W1.nextPid = w.nextPid + 1 := by rw [hW1]; rfl
  have hctx := cloneContexts_spec k W1 orig v1 v2 v3 sc c1 c2 c3 ctx vc flc
    a1 (by rw [f2]; exact b1) a2 (by rw [f3]; exact b2) a3 (by rw [f4]; exact b3)
    a4 (by rw [f5]; exact b4) hvc hflc
  obtain ⟨child0, hchild0⟩ : ∃ child0 : Process, child0 =
      { pid := w.nextPid
        _parent := some original
        _hull := some w.nextRef
        _path := orig._path
        _name := orig._name
        _vmContext := some W1.nextRef
        _fsContext := some (W1.nextRef + 1)
        _fileContext := some (W1.nextRef + 2)
        _signalContext := some (W1.nextRef + 3) } := ⟨_, rfl⟩
  obtain ⟨W3, hW3⟩ : ∃ W3 : World, W3 =
      { ({ (((W1.setVmctx W1.nextRef vc).setFsctx (W1.nextRef + 1)
            (FsContext.clone c2)).setFilectx (W1.nextRef + 2) flc).setSigctx
            (W1.nextRef + 3) (SignalContext.clone ctx) with
          nextRef := W1.nextRef + 4 } : World).setProc (W1.nextRef + 4) child0 with
        nextRef := W1.nextRef + 4 + 1 } := ⟨_, rfl⟩
  have hfork : fork pidMax k w original =
      launchChild k.process true W3 original (W1.nextRef + 4) w.nextRef := by
    unfold fork
    rw [if_neg (not_le.mpr hlt), hcons]
    simp only [f1, ho, hctx]
    rw [hW3, hchild0]
  have g1 : W3.procs = Function.update w.procs (W1.nextRef + 4) (some child0) := by
    rw [hW3, ← f1]; rfl
  have g2 : W3.vmctxs = Function.update w.vmctxs W1.nextRef (some vc) := by
    rw [hW3, ← f2]; rfl
  have g3 : W3.fsctxs = Function.update w.fsctxs (W1.nextRef + 1) (some (FsContext.clone c2)) := by
    rw [hW3, ← f3]; rfl
  have g4 : W3.filectxs = Function.update w.filectxs (W1.nextRef + 2) (some flc) := by
    rw [hW3, ← f4]; rfl
  have g5 : W3.sigctxs =
      Function.update w.sigctxs (W1.nextRef + 3) (some (SignalContext.clone ctx)) := by
    rw [hW3, ← f5]; rfl
  have g6 : W3.nextRef = W1.nextRef + 4 + 1 := by rw [hW3]
  have g7 : W3.groups = w.groups := by rw [hW3, ← f7]; rfl
  have g8 : W3.hulls = Function.update w.hulls w.nextRef (some { pid_ := w.nextPid }) := by
    rw [hW3, ← f8]; rfl
  have g9 : W3.gens = w.gens := by rw [hW3, ← f9]; rfl
  have g10 : W3.globalPidMap =
      Function.update w.globalPidMap w.nextPid (some w.nextRef) := by
    rw [hW3, ← f10]; rfl
  have g11 : W3.nextPid = w.nextPid + 1 := by rw [hW3, ← f11]; rfl
  have hne : original ≠ W1.nextRef + 4 := by (try unfold Ref at *); omega
  refine ⟨?_, ?_⟩
  · intro x hx
    rw [hfork] at hx
    exact (launchChild_inv k.process true W3 original (W1.nextRef + 4) w.nextRef orig child0
      G grp { pid_ := w.nextPid } x
      (by rw [g1, Function.update_noteq hne]; exact ho)
      (by rw [g1, Function.update_same]) hne hpg (by rw [g7]; exact hG)
      (by rw [hchild0]) (by rw [g8, Function.update_same]) hx).2.2
  intro hk
  obtain ⟨w2, child2, hrun, hmade, e1, e2, e3, e4, e5, e6, e7, e8, e9, e10, e11, e12, e13, _,
      hoa, hoth, hga, hgo, _, hho, hgen, hgeno, s1, s2, s3, s4, _, _, s7, s8, s9⟩ :=
    launchChild_spec k.process true W3 original (W1.nextRef + 4) w.nextRef orig child0 G grp
      { pid_ := w.nextPid } hk
      (by rw [g1, Function.update_noteq hne]; exact ho)
      (by rw [g1, Function.update_same]) hne hpg (by rw [g7]; exact hG)
      (by rw [hchild0])
      ⟨W1.nextRef + 2, flc, by rw [hchild0], by rw [g4, Function.update_same]⟩
      ⟨W1.nextRef, vc, by rw [hchild0], by rw [g2, Function.update_same]⟩
      (by rw [g8, Function.update_same])
  refine ⟨W1.nextRef + 4, w2, child2, G, grp, W1.nextRef + 3, by rw [hfork, hrun],
    ?_, by rw [e13, hchild0], (hi.fresh _ (by (try unfold Ref at *); omega)).2.1,
    by rw [s1, g5, Function.update_same]⟩
  have hfr := hi.fresh
  constructor
  · exact ho
  · (try unfold Ref at *); omega
  · exact hpg
  · exact hG
  · exact hmade
  · rw [e1, hchild0]
  · rw [e2, hchild0]
  · rw [e3, hchild0]
  · rw [e4, hchild0]
  · rw [e5, hchild0]
  · rw [e6, hchild0]
  · exact e7
  · exact e8
  · rw [e9]; simp
  · refine ⟨⟨W1.nextRef, vc, by rw [e10, hchild0], by rw [s2, g2, Function.update_same]⟩,
      ⟨W1.nextRef + 1, _, by rw [e11, hchild0], by rw [s3, g3, Function.update_same]⟩,
      ⟨W1.nextRef + 2, flc, by rw [e12, hchild0], by rw [s4, g4, Function.update_same]⟩⟩
  · exact hoa
  · intro r h1 h2
    rw [hoth r h1 h2, g1, Function.update_noteq h1]
  · exact hga
  · intro g h1 _
    rw [hgo g h1, g7]
  · intro r hr
    refine ⟨?_, ?_, ?_, ?_, ?_, ?_⟩
    · rw [s1, g5, Function.update_noteq (by (try unfold Ref at *); omega)]
    · rw [hho r (by (try unfold Ref at *); omega), g8, Function.update_noteq (by (try unfold Ref at *); omega)]
    · rw [hgeno r (by (try unfold Ref at *); omega), g9]
    · rw [s2, g2, Function.update_noteq (by (try unfold Ref at *); omega)]
    · rw [s3, g3, Function.update_noteq (by (try unfold Ref at *); omega)]
    · rw [s4, g4, Function.update_noteq (by (try unfold Ref at *); omega)]
  · intro r hr
    rw [s9, g6, f6] at hr
    refine ⟨?_, ?_, ?_, ?_, ?_, ?_, ?_, ?_⟩
    · rw [hoth r (by (try unfold Ref at *); omega) (by (try unfold Ref at *); omega), g1, Function.update_noteq (by (try unfold Ref at *); omega)]
      exact (hfr r (by (try unfold Ref at *); omega)).1
    · rw [s1, g5, Function.update_noteq (by (try unfold Ref at *); omega)]
      exact (hfr r (by (try unfold Ref at *); omega)).2.1
    · rw [hgo r (by (try unfold Ref at *); omega), g7]
      exact (hfr r (by (try unfold Ref at *); omega)).2.2.1
    · rw [hho r (by (try unfold Ref at *); omega), g8, Function.update_noteq (by (try unfold Ref at *); omega)]
      exact (hfr r (by (try unfold Ref at *); omega)).2.2.2.1
    · rw [hgeno r (by (try unfold Ref at *); omega), g9]
      exact (hfr r (by (try unfold Ref at *); omega)).2.2.2.2.1
    · rw [s2, g2, Function.update_noteq (by (try unfold Ref at *); omega)]
      exact (hfr r (by (try unfold Ref at *); omega)).2.2.2.2.2.1
    · rw [s3, g3, Function.update_noteq (by (try unfold Ref at *); omega)]
      exact (hfr r (by (try unfold Ref at *); omega)).2.2.2.2.2.2.1
    · rw [s4, g4, Function.update_noteq (by (try unfold Ref at *); omega)]
      exact (hfr r (by (try unfold Ref at *); omega)).2.2.2.2.2.2.2
  · rw [s9, g6, f6]; (try unfold Ref at *); omega
  · intro pid r h
    rw [s7, g10] at h
    by_cases hp : pid = w.nextPid
    · exact Or.inl hp
    · rw [Function.update_noteq hp] at h
      exact Or.inr h
  · rw [s7, g10, Function.update_same]
    simp
  · rw [s8, g11]
  · exact ⟨W1.nextRef + 3, _, by rw [e13, hchild0],
      by rw [s1, g5, Function.update_same], (clone_handlers_length ctx hlen).2⟩

theorem fork_spawned (pidMax : Int) (k : ForkKernel) (hk : k.Ok) (w : World) (hi : ProcInv w)
    (original : Ref) (orig : Process) (ho : w.procs original = some orig)
    (hnt : orig.notifyType_ = NotifyType.null) (hlt : w.nextPid < pidMax) :
    ∃ P w2 child G grp sc ctx sc2, fork pidMax k w original = .done (P, w2) ∧
      Spawned w w2 original P orig child G grp ∧
      orig._signalContext = some sc ∧ w.sigctxs sc = some ctx ∧
      ctx._handlers.length = 64 ∧
      child._signalContext = some sc2 ∧ w.sigctxs sc2 = none ∧
      w2.sigctxs sc2 = some (SignalContext.clone ctx) := by
  obtain ⟨⟨v1, c1, a1, b1⟩, ⟨v2, c2, a2, b2⟩, ⟨v3, c3, a3, b3⟩⟩ :=
    hi.running original orig ho hnt
  obtain ⟨sc, ctx, a4, b4, hlen⟩ := hi.signal original orig ho
  obtain ⟨vc, hvc⟩ := VmContext.clone_vm_ok k.vm hk.1 c1
  obtain ⟨flc, hflc⟩ := FileContext.clone_file_ok k.file hk.2.1 c3
  obtain ⟨P, w2, child, G, grp, sc2, h1, h2, h3, h4, h5⟩ :=
    (fork_forward pidMax k w hi original orig ho hlt v1 v2 v3 sc c1 c2 c3 ctx vc flc
      a1 b1 a2 b2 a3 b3 a4 b4 hlen hvc hflc).2 (hk.2.2.launches true)
  exact ⟨P, w2, child, G, grp, sc, ctx, sc2, h1, h2, a4, b4, hlen, h3, h4, h5⟩

/-- A call of `fork` that returns leaves what `Spawned` says. -/
theorem fork_done (pidMax : Int) (k : ForkKernel) (w : World) (hi : ProcInv w)
    (original P : Ref) (w2 : World) (h : fork pidMax k w original = .done (P, w2)) :
    ∃ orig child G grp, Spawned w w2 original P orig child G grp ∧
      ∃ sc ctx sc2, orig._signalContext = some sc ∧ w.sigctxs sc = some ctx ∧
        ctx._handlers.length = 64 ∧ child._signalContext = some sc2 ∧
        w.sigctxs sc2 = none ∧ w2.sigctxs sc2 = some (SignalContext.clone ctx) := by
  have hlt : w.nextPid < pidMax := by
    by_contra hge
    unfold fork at h
    rw [if_pos (not_lt.mp hge)] at h
    exact Outcome.noConfusion h
  obtain ⟨W1, hW1⟩ : ∃ W1 : World, W1 =
      { ({ w with nextPid := w.nextPid + 1 } : World).setHull w.nextRef
          { pid_ := w.nextPid } with
        globalPidMap := Function.update w.globalPidMap w.nextPid (some w.nextRef)
        nextRef := w.nextRef + 1 } := ⟨_, rfl⟩
  have hcons : PidHull.construct { w with nextPid := w.nextPid + 1 } w.nextPid =
      .done (w.nextRef, W1) := by
    rw [hW1]
    exact construct_fresh { w with nextPid := w.nextPid + 1 } w.nextPid hi.unregistered
  have f1 : W1.procs = w.procs := by rw [hW1]; rfl
  have f2 : W1.vmctxs = w.vmctxs := by rw [hW1]; rfl
  have f3 : W1.fsctxs = w.fsctxs := by rw [hW1]; rfl
  have f4 : W1.filectxs = w.filectxs := by rw [hW1]; rfl
  have f5 : W1.sigctxs = w.sigctxs := by rw [hW1]; rfl
  have h0 := h
  unfold fork at h
  rw [if_neg (not_le.mpr hlt), hcons] at h
  simp only [f1] at h
  cases hpo : w.procs original with
  | none =>
    rw [hpo] at h
    exact Outcome.noConfusion h
  | some orig =>
    rw [hpo] at h
    simp only at h
    cases hcc : cloneContexts k W1 orig with
    | fatal =>
      rw [hcc] at h
      exact Outcome.noConfusion h
    | undefined =>
      rw [hcc] at h
      exact Outcome.noConfusion h
    | done x =>
      obtain ⟨v1, c1, v2, c2, v3, c3, v4, c4, vc, flc, a1, b1, a2, b2, a3, b3, a4, b4,
        hvc, hflc⟩ := cloneContexts_inv k _ orig x hcc
      rw [f2] at b1
      rw [f3] at b2
      rw [f4] at b3
      rw [f5] at b4
      obtain ⟨sc, ctx, a5, b5, hlen⟩ := hi.signal original orig hpo
      rw [a4] at a5
      cases a5
      rw [b5] at b4
      cases b4
      obtain ⟨hinv, hfwd⟩ := fork_forward pidMax k w hi original orig hpo hlt v1 v2 v3 v4
        c1 c2 c3 c4 vc flc a1 b1 a2 b2 a3 b3 a4 b5 hlen hvc hflc
      obtain ⟨P2, w3, child, G, grp, sc2, hrun, hs, t1, t2, t3⟩ := hfwd (hinv _ h0)
      rw [hrun] at h0
      have hpair := Outcome.done.inj h0
      rw [Prod.mk.injEq] at hpair
      rw [← hpair.1, ← hpair.2]
      exact ⟨orig, child, G, grp, hs, v4, c4, sc2, a4, b5, hlen, t1, t2, t3⟩
theorem clone_forward (pidMax : Int) (k : ProcessKernel) (w : World)
    (hi : ProcInv w) (original : Ref) (orig : Process) (ho : w.procs original = some orig)
    (hlt : w.nextPid < pidMax) :
    (∀ x, clone pidMax k w original = .done x →
      orig.notifyType_ = NotifyType.null ∧ k.Launches false) ∧
    (orig.notifyType_ = NotifyType.null → k.Launches false →
      ∃ P w2 child G grp, clone pidMax k w original = .done (P, w2) ∧
        Spawned w w2 original P orig child G grp ∧
        child._signalContext = orig._signalContext ∧ w2.sigctxs = w.sigctxs) := by
  obtain ⟨sc, ctx, a4, b4, hlen⟩ := hi.signal original orig ho
  obtain ⟨G, grp, hpg, hG⟩ := hi.group original orig ho
  have hreg := hi.unregistered
  have holt : original < w.nextRef :=
    lt_nextRef_of_live w.procs (fun r hr => (hi.fresh r hr).1) ho
  have hGlt : G < w.nextRef :=
    lt_nextRef_of_live w.groups (fun r hr => (hi.fresh r hr).2.2.1) hG
  obtain ⟨W1, hW1⟩ : ∃ W1 : World, W1 =
      { ({ w with nextPid := w.nextPid + 1 } : World).setHull w.nextRef
          { pid_ := w.nextPid } with
        globalPidMap := Function.update w.globalPidMap w.nextPid (some w.nextRef)
        nextRef := w.nextRef + 1 } := ⟨_, rfl⟩
  have hcons : PidHull.construct { w with nextPid := w.nextPid + 1 } w.nextPid =
      .done (w.nextRef, W1) := by
    rw [hW1]
    exact construct_fresh { w with nextPid := w.nextPid + 1 } w.nextPid hreg
  have f1 : W1.procs = w.procs := by rw [hW1]; rfl
  have f6 : W1.nextRef = w.nextRef + 1 := by rw [hW1]
  obtain ⟨child0, hchild0⟩ : ∃ child0 : Process, child0 =
      { pid := w.nextPid
        _parent := some original
        _hull := some w.nextRef
        _path := orig._path
        _name := orig._name
        _vmContext := orig._vmContext
        _fsContext := orig._fsContext
        _fileContext := orig._fileContext
        _signalContext := orig._signalContext } := ⟨_, rfl⟩
  obtain ⟨W3, hW3⟩ : ∃ W3 : World, W3 =
      { W1.setProc W1.nextRef child0 with nextRef := W1.nextRef + 1 } := ⟨_, rfl⟩
  have hclone : clone pidMax k w original =
      launchChild k false W3 original W1.nextRef w.nextRef := by
    unfold clone
    rw [if_neg (not_le.mpr hlt), hcons]
    simp only [f1, ho]
    rw [hW3, hchild0]
  have g1 : W3.procs = Function.update w.procs W1.nextRef (some child0) := by
    rw [hW3, ← f1]; rfl
  have g2 : W3.vmctxs = w.vmctxs := by rw [hW3, hW1]; rfl
  have g3 : W3.fsctxs = w.fsctxs := by rw [hW3, hW1]; rfl
  have g4 : W3.filectxs = w.filectxs := by rw [hW3, hW1]; rfl
  have g5 : W3.sigctxs = w.sigctxs := by rw [hW3, hW1]; rfl
  have g6 : W3.nextRef = W1.nextRef + 1 := by rw [hW3]
  have g7 : W3.groups = w.groups := by rw [hW3, hW1]; rfl
  have g8 : W3.hulls = Function.update w.hulls w.nextRef (some { pid_ := w.nextPid }) := by
    rw [hW3, hW1]; rfl
  have g9 : W3.gens = w.gens := by rw [hW3, hW1]; rfl
  have g10 : W3.globalPidMap =
      Function.update w.globalPidMap w.nextPid (some w.nextRef) := by
    rw [hW3, hW1]; rfl
  have g11 : W3.nextPid = w.nextPid + 1 := by rw [hW3, hW1]; rfl
  have hne : original ≠ W1.nextRef := by (try unfold Ref at *); omega
  refine ⟨?_, ?_⟩
  · intro x hx
    rw [hclone] at hx
    obtain ⟨_, ⟨v, c, hv1, hv2⟩, hL⟩ := launchChild_inv k false W3 original W1.nextRef
      w.nextRef orig child0 G grp { pid_ := w.nextPid } x
      (by rw [g1, Function.update_noteq hne]; exact ho)
      (by rw [g1, Function.update_same]) hne hpg (by rw [g7]; exact hG)
      (by rw [hchild0]) (by rw [g8, Function.update_same]) hx
    refine ⟨hi.terminated original orig ho ?_, hL⟩
    rw [hchild0] at hv1
    simp only at hv1
    rw [hv1]
    simp
  intro hnt hk
  obtain ⟨⟨v1, c1, a1, b1⟩, ⟨v2, c2, a2, b2⟩, ⟨v3, c3, a3, b3⟩⟩ :=
    hi.running original orig ho hnt
  obtain ⟨w2, child2, hrun, hmade, e1, e2, e3, e4, e5, e6, e7, e8, e9, e10, e11, e12, e13, _,
      hoa, hoth, hga, hgo, _, hho, hgen, hgeno, s1, s2, s3, s4, _, _, s7, s8, s9⟩ :=
    launchChild_spec k false W3 original W1.nextRef w.nextRef orig child0 G grp
      { pid_ := w.nextPid } hk
      (by rw [g1, Function.update_noteq hne]; exact ho)
      (by rw [g1, Function.update_same]) hne hpg (by rw [g7]; exact hG)
      (by rw [hchild0])
      ⟨v3, c3, by rw [hchild0]; exact a3, by rw [g4]; exact b3⟩
      ⟨v1, c1, by rw [hchild0]; exact a1, by rw [g2]; exact b1⟩
      (by rw [g8, Function.update_same])
  refine ⟨W1.nextRef, w2, child2, G, grp, by rw [hclone, hrun], ?_, by rw [e13, hchild0],
    by rw [s1, g5]⟩
  have hfr := hi.fresh
  constructor
  · exact ho
  · (try unfold Ref at *); omega
  · exact hpg
  · exact hG
  · exact hmade
  · rw [e1, hchild0]
  · rw [e2, hchild0]
  · rw [e3, hchild0]
  · rw [e4, hchild0]
  · rw [e5, hchild0]
  · rw [e6, hchild0]
  · exact e7
  · exact e8
  · rw [e9]; simp
  · refine ⟨⟨v1, c1, by rw [e10, hchild0]; exact a1, by rw [s2, g2]; exact b1⟩,
      ⟨v2, c2, by rw [e11, hchild0]; exact a2, by rw [s3, g3]; exact b2⟩,
      ⟨v3, c3, by rw [e12, hchild0]; exact a3, by rw [s4, g4]; exact b3⟩⟩
  · exact hoa
  · intro r h1 h2
    rw [hoth r h1 h2, g1, Function.update_noteq h1]
  · exact hga
  · intro g h1 _
    rw [hgo g h1, g7]
  · intro r hr
    refine ⟨?_, ?_, ?_, ?_, ?_, ?_⟩
    · rw [s1, g5]
    · rw [hho r (by (try unfold Ref at *); omega), g8,
        Function.update_noteq (by (try unfold Ref at *); omega)]
    · rw [hgeno r (by (try unfold Ref at *); omega), g9]
    · rw [s2, g2]
    · rw [s3, g3]
    · rw [s4, g4]
  · intro r hr
    rw [s9, g6, f6] at hr
    refine ⟨?_, ?_, ?_, ?_, ?_, ?_, ?_, ?_⟩
    · rw [hoth r (by (try unfold Ref at *); omega) (by (try unfold Ref at *); omega), g1,
        Function.update_noteq (by (try unfold Ref at *); omega)]
      exact (hfr r (by (try unfold Ref at *); omega)).1
    · rw [s1, g5]
      exact (hfr r (by (try unfold Ref at *); omega)).2.1
    · rw [hgo r (by (try unfold Ref at *); omega), g7]
      exact (hfr r (by (try unfold Ref at *); omega)).2.2.1
    · rw [hho r (by (try unfold Ref at *); omega), g8,
        Function.update_noteq (by (try unfold Ref at *); omega)]
      exact (hfr r (by (try unfold Ref at *); omega)).2.2.2.1
    · rw [hgeno r (by (try unfold Ref at *); omega), g9]
      exact (hfr r (by (try unfold Ref at *); omega)).2.2.2.2.1
    · rw [s2, g2]
      exact (hfr r (by (try unfold Ref at *); omega)).2.2.2.2.2.1
    · rw [s3, g3]
      exact (hfr r (by (try unfold Ref at *); omega)).2.2.2.2.2.2.1
    · rw [s4, g4]
      exact (hfr r (by (try unfold Ref at *); omega)).2.2.2.2.2.2.2
  · rw [s9, g6, f6]; (try unfold Ref at *); omega
  · intro pid r h
    rw [s7, g10] at h
    by_cases hp : pid = w.nextPid
    · exact Or.inl hp
    · rw [Function.update_noteq hp] at h
      exact Or.inr h
  · rw [s7, g10, Function.update_same]
    simp
  · rw [s8, g11]
  · exact ⟨sc, ctx, by rw [e13, hchild0]; exact a4, by rw [s1, g5]; exact b4, hlen⟩

theorem clone_spawned (pidMax : Int) (k : ProcessKernel) (hk : k.Ok) (w : World)
    (hi : ProcInv w) (original : Ref) (orig : Process) (ho : w.procs original = some orig)
    (hnt : orig.notifyType_ = NotifyType.null) (hlt : w.nextPid < pidMax) :
    ∃ P w2 child G grp, clone pidMax k w original = .done (P, w2) ∧
      Spawned w w2 original P orig child G grp ∧
      child._signalContext = orig._signalContext ∧ w2.sigctxs = w.sigctxs :=
  (clone_forward pidMax k w hi original orig ho hlt).2 hnt (hk.launches false)

/-- A call of `clone` that returns leaves what `Spawned` says. -/
theorem clone_done (pidMax : Int) (k : ProcessKernel) (w : World) (hi : ProcInv w)
    (original P : Ref) (w2 : World) (h : clone pidMax k w original = .done (P, w2)) :
    ∃ orig child G grp, Spawned w w2 original P orig child G grp := by
  have hlt : w.nextPid < pidMax := by
    by_contra hge
    unfold clone at h
    rw [if_pos (not_lt.mp hge)] at h
    exact Outcome.noConfusion h
  obtain ⟨W1, hW1⟩ : ∃ W1 : World, W1 =
      { ({ w with nextPid := w.nextPid + 1 } : World).setHull w.nextRef
          { pid_ := w.nextPid } with
        globalPidMap := Function.update w.globalPidMap w.nextPid (some w.nextRef)
        nextRef := w.nextRef + 1 } := ⟨_, rfl⟩
  have hcons : PidHull.construct { w with nextPid := w.nextPid + 1 } w.nextPid =
      .done (w.nextRef, W1) := by
    rw [hW1]
    exact construct_fresh { w with nextPid := w.nextPid + 1 } w.nextPid hi.unregistered
  have f1 : W1.procs = w.procs := by rw [hW1]; rfl
  have h0 := h
  unfold clone at h
  rw [if_neg (not_le.mpr hlt), hcons] at h
  simp only [f1] at h
  cases hpo : w.procs original with
  | none =>
    rw [hpo] at h
    exact Outcome.noConfusion h
  | some orig =>
    obtain ⟨hinv, hfwd⟩ := clone_forward pidMax k w hi original orig hpo hlt
    obtain ⟨hnt, hL⟩ := hinv _ h0
    obtain ⟨P2, w3, child, G, grp, hrun, hs, _⟩ := hfwd hnt hL
    rw [hrun] at h0
    have hpair := Outcome.done.inj h0
    rw [Prod.mk.injEq] at hpair
    rw [← hpair.1, ← hpair.2]
    exact ⟨orig, child, G, grp, hs⟩
theorem FrameKept.refl (w : World) : FrameKept w w :=
  ⟨rfl, rfl, rfl, rfl, rfl, rfl, rfl, rfl, rfl, rfl⟩

theorem FrameKept.trans {a b c : World} (h1 : FrameKept a b) (h2 : FrameKept b c) :
    FrameKept a c := by
  obtain ⟨a1, a2, a3, a4, a5, a6, a7, a8, a9, a10⟩ := h1
  obtain ⟨b1, b2, b3, b4, b5, b6, b7, b8, b9, b10⟩ := h2
  exact ⟨b1.trans a1, b2.trans a2, b3.trans a3, b4.trans a4, b5.trans a5, b6.trans a6,
    b7.trans a7, b8.trans a8, b9.trans a9, b10.trans a10⟩

theorem FrameKept.setProc (w : World) (r : Ref) (p : Process) : FrameKept w (w.setProc r p) :=
  ⟨rfl, rfl, rfl, rfl, rfl, rfl, rfl, rfl, rfl, rfl⟩

theorem FrameKept.setSigctx (w : World) (r : Ref) (s : SignalContext) :
    FrameKept w (w.setSigctx r s) :=
  ⟨rfl, rfl, rfl, rfl, rfl, rfl, rfl, rfl, rfl, rfl⟩

theorem retire_frame {w w2 : World} {ref : Ref} (h : retire w ref = .done w2) :
    FrameKept w w2 := by
  unfold retire at h
  split at h
  · exact Outcome.noConfusion h
  · simp only at h
    split at h
    · exact Outcome.noConfusion h
    · split at h
      · exact Outcome.noConfusion h
      · rw [← Outcome.done.inj h]
        refine FrameKept.trans ?_ (FrameKept.setProc _ _ _)
        split
        · exact FrameKept.setProc _ _ _
        · exact FrameKept.refl _

theorem sendParentDeathSignal_frame {uid0 selfPid : Int} {w w2 : World} {child : Process}
    (h : sendParentDeathSignal uid0 selfPid w child = .done w2) : FrameKept w w2 := by
  unfold sendParentDeathSignal at h
  cases hpd : child.parentDeathSignal_ with
  | none =>
    rw [hpd] at h
    rw [← Outcome.done.inj h]
    exact FrameKept.refl w
  | some sn =>
    rw [hpd] at h
    simp only at h
    cases hsc : child._signalContext with
    | none => rw [hsc] at h; exact Outcome.noConfusion h
    | some sc =>
      rw [hsc] at h
      simp only at h
      cases hctx : w.sigctxs sc with
      | none => rw [hctx] at h; exact Outcome.noConfusion h
      | some ctx =>
        rw [hctx] at h
        simp only at h
        cases hiss : issueSignal ctx sn (SignalInfo.user selfPid uid0) with
        | fatal => rw [hiss] at h; exact Outcome.noConfusion h
        | undefined => rw [hiss] at h; exact Outcome.noConfusion h
        | done ctx2 =>
          rw [hiss] at h
          rw [← Outcome.done.inj h]
          exact FrameKept.setSigctx w sc ctx2

theorem reparentChildren_frame (uid0 : Int) (self : Ref) (selfPid : Int) (R : Ref)
    (cs : List Ref) : ∀ (w w2 : World),
      reparentChildren uid0 self selfPid R w cs = .done w2 → FrameKept w w2 := by
  induction cs with
  | nil =>
    intro w w2 h
    rw [reparentChildren] at h
    rw [← Outcome.done.inj h]
    exact FrameKept.refl w
  | cons c rest ih =>
    intro w w2 h
    rw [reparentChildren] at h
    cases hc : w.procs c with
    | none => rw [hc] at h; exact Outcome.noConfusion h
    | some child =>
      rw [hc] at h
      simp only at h
      cases hr : (w.setProc c { child with _parent := some R }).procs R with
      | none => rw [hr] at h; exact Outcome.noConfusion h
      | some root =>
        rw [hr] at h
        simp only at h
        cases hs : sendParentDeathSignal uid0 selfPid
            ((w.setProc c { child with _parent := some R }).setProc R
              { root with _children := root._children ++ [c] }) child with
        | fatal => rw [hs] at h; exact Outcome.noConfusion h
        | undefined => rw [hs] at h; exact Outcome.noConfusion h
        | done w3 =>
          rw [hs] at h
          simp only at h
          cases hme : w3.procs self with
          | none => rw [hme] at h; exact Outcome.noConfusion h
          | some me =>
            rw [hme] at h
            simp only at h
            exact ((((FrameKept.setProc w c _).trans (FrameKept.setProc _ R _)).trans
              (sendParentDeathSignal_frame hs)).trans (FrameKept.setProc w3 self _)).trans
              (ih _ _ h)

theorem notifyParent_frame {SIGCHLD : Int} {signalNoChildWait : Nat} {uid0 : Int}
    {w w2 : World} {self parent : Ref} {state : TerminationState}
    (h : notifyParent SIGCHLD signalNoChildWait uid0 w self parent state = .done w2) :
    FrameKept w w2 := by
  unfold notifyParent at h
  cases hme : w.procs self with
  | none => rw [hme] at h; exact Outcome.noConfusion h
  | some me =>
    rw [hme] at h
    simp only at h
    by_cases hnt : me.notifyType_ ≠ NotifyType.null
    · rw [if_pos hnt] at h; exact Outcome.noConfusion h
    rw [if_neg hnt] at h
    have hw1 := FrameKept.setProc w self
      { me with notifyType_ := NotifyType.terminated, _state := state }
    revert h
    generalize w.setProc self
      { me with notifyType_ := NotifyType.terminated, _state := state } = w1 at hw1 ⊢
    intro h
    cases hpar : w1.procs parent with
    | none => rw [hpar] at h; exact Outcome.noConfusion h
    | some par =>
      rw [hpar] at h
      simp only at h
      cases hsc : par._signalContext with
      | none => rw [hsc] at h; exact Outcome.noConfusion h
      | some sc =>
        rw [hsc] at h
        simp only at h
        cases hctx : w1.sigctxs sc with
        | none => rw [hctx] at h; exact Outcome.noConfusion h
        | some ctx =>
          rw [hctx] at h
          simp only at h
          cases hgh : getHandler ctx SIGCHLD with
          | fatal => rw [hgh] at h; exact Outcome.noConfusion h
          | undefined => rw [hgh] at h; exact Outcome.noConfusion h
          | done handling =>
            rw [hgh] at h
            simp only at h
            by_cases hk : handling.disposition ≠ SignalDisposition.ignore ∧
                handling.flags &&& signalNoChildWait = 0
            · rw [if_pos hk] at h
              simp only at h
              cases hiss : issueSignal ctx SIGCHLD (SignalInfo.user me.pid uid0) with
              | fatal => rw [hiss] at h; exact Outcome.noConfusion h
              | undefined => rw [hiss] at h; exact Outcome.noConfusion h
              | done ctx2 =>
                rw [hiss] at h
                rw [← Outcome.done.inj h]
                exact (hw1.trans (FrameKept.setProc w1 parent _)).trans
                  (FrameKept.setSigctx _ sc ctx2)
            · rw [if_neg hk] at h
              cases hret : retire w1 self with
              | fatal => rw [hret] at h; exact Outcome.noConfusion h
              | undefined => rw [hret] at h; exact Outcome.noConfusion h
              | done w3 =>
                rw [hret] at h
                simp only at h
                cases hiss : issueSignal ctx SIGCHLD (SignalInfo.user me.pid uid0) with
                | fatal => rw [hiss] at h; exact Outcome.noConfusion h
                | undefined => rw [hiss] at h; exact Outcome.noConfusion h
                | done ctx2 =>
                  rw [hiss] at h
                  rw [← Outcome.done.inj h]
                  exact (hw1.trans (retire_frame hret)).trans (FrameKept.setSigctx _ sc ctx2)
theorem terminate_inv {SIGCHLD : Int} {signalNoChildWait : Nat} {uid0 : Int}
    {k : TerminateKernel} {fuel : Nat} {w w2 : World} {self : Ref} {state : TerminationState}
    (h : terminate SIGCHLD signalNoChildWait uid0 k fuel w self state = some (.done w2)) :
    ∃ me parent R, w.procs self = some me ∧ me._parent = some parent ∧
      k.killThread = HelError.kHelErrNone ∧ me._currentGeneration ≠ none ∧
      k.queryThreadStats = HelError.kHelErrNone ∧
      reparentTo w fuel parent = some (.done R) ∧ FrameKept w w2 := by
  unfold terminate at h
  split at h
  · cases h
  · rename_i me hme
    split at h
    · cases h
    · rename_i parent hpar
      split at h
      · cases h
      · rename_i hkill
        split at h
        · cases h
        · rename_i g hg
          split at h
          · cases h
          · rename_i hstats
            simp only at h
            split at h
            · cases h
            · rename_i R hwalk
              split at h
              · rename_i w3 hrc
                have h2 := Option.some.inj h
                refine ⟨me, parent, R, hme, hpar, by simpa using hkill, by rw [hg]; simp,
                  by simpa using hstats, ?_, ?_⟩
                · rw [← hwalk]
                  symm
                  apply reparentTo_congr
                  intro r
                  by_cases hr : r = self
                  · subst hr
                    rw [setProc_procs_same, hme]
                    rfl
                  · rw [setProc_procs_ne _ _ hr]
                · exact ((FrameKept.setProc w self _).trans
                    (reparentChildren_frame _ _ _ _ _ _ _ hrc)).trans (notifyParent_frame h2)
              · cases h
              · cases h
            · cases h
            · cases h
theorem rank_walk (w : World) (rank : Ref → Nat)
    (hrank : ∀ x p q, w.procs x = some p → p._parent = some q →
      (∃ pq, w.procs q = some pq) ∧ rank q < rank x) (R : Ref) :
    ∀ fuel r, reparentTo w fuel r = some (.done R) → rank R ≤ rank r := by
  intro fuel
  induction fuel with
  | zero => intro r h; simp [reparentTo] at h
  | succ fuel ih =>
    intro r h
    rw [reparentTo] at h
    cases hp : w.procs r with
    | none => simp [hp] at h
    | some p =>
      simp only [hp] at h
      cases hq : p._parent with
      | none =>
        simp only [hq, Option.some.injEq, Outcome.done.injEq] at h
        rw [h]
      | some q =>
        simp only [hq] at h
        have := (hrank r p q hp hq).2
        have := ih q h
        omega

/-- The shape of a process after `terminate` of the process `me` at `self`, in
the terms of the heap before: the process itself, a child of it (whose parent is
now `R`), or a process of which only the list of children, the notify queue and
the usage of the children may differ. -/
theorem terminate_shape (SIGCHLD : Int) (signalNoChildWait : Nat) (uid0 : Int)
    (k : TerminateKernel) (fuel : Nat) (w w2 : World) (self : Ref) (state : TerminationState)
    (hi : ProcInv w) (hS : 1 ≤ SIGCHLD ∧ SIGCHLD ≤ 64)
    (h : terminate SIGCHLD signalNoChildWait uid0 k fuel w self state = some (.done w2)) :
    ∃ me parent R, w.procs self = some me ∧ me._parent = some parent ∧
      reparentTo w fuel parent = some (.done R) ∧ self ∉ me._children ∧
      (∃ root, w.procs R = some root ∧ root._parent = none) ∧
      me._currentGeneration ≠ none ∧
      FrameKept w w2 ∧ w2.groups = w.groups ∧
      (∀ X, w.sigctxs X = none → w2.sigctxs X = none) ∧
      (∀ X ctx, w.sigctxs X = some ctx →
        ∃ ctx2, w2.sigctxs X = some ctx2 ∧ ctx2._handlers = ctx._handlers) ∧
      (∀ r p, w.procs r = some p → ∃ p2, w2.procs r = some p2) ∧
      (∀ r p2, w2.procs r = some p2 → ∃ p, w.procs r = some p ∧
        ((r = self ∧ p2 = { me with
            _generationUsage := { userTime := uadd me._generationUsage.userTime k.userTime }
            _posixLane := none
            _threadDescriptor := none
            _vmContext := none
            _fsContext := none
            _fileContext := none
            _currentGeneration := none
            _children := []
            notifyType_ := NotifyType.terminated
            _state := state
            _procfs_dir := p2._procfs_dir }) ∨
         (r ≠ self ∧ r ∈ me._children ∧ p2 = { p with _parent := some R }) ∨
         (r ≠ self ∧ r ∉ me._children ∧
            p2 = { p with
              _children := p2._children
              _notifyQueue := p2._notifyQueue
              _childrenUsage := p2._childrenUsage } ∧
            (∀ c ∈ p2._children, c ∈ p._children ∨ (r = R ∧ c ∈ me._children)) ∧
            p2._children.Nodup))) := by
  obtain ⟨me, parent, R, hme, hmp, hkill, hgen, hstats, hwalk, hframe⟩ := terminate_inv h
  have hnt := hi.generation self me hme hgen
  have hnd := hi.nodup self me hme
  have hkids : ∀ c ∈ me._children, ∃ pc, w.procs c = some pc ∧ pc._parent = some self :=
    fun c hc => hi.children self me c hme hc
  have hlive : LiveChildren w me._children := by
    intro c hc
    obtain ⟨pc, hpc, _⟩ := hkids c hc
    refine ⟨pc, hpc, ?_⟩
    intro sn hsn
    rw [hi.noPdeath c pc hpc] at hsn
    cases hsn
  obtain ⟨rank, hrank⟩ := hi.rank
  obtain ⟨⟨par, hpar⟩, _⟩ := hrank self me parent hme hmp
  obtain ⟨sc, ctx, hsc, hctx, hlen⟩ := hi.signal parent par hpar
  have hidx : (SIGCHLD - 1).toNat < ctx._handlers.length := by
    rw [hlen]; omega
  obtain ⟨hd, hhd⟩ : ∃ hd, ctx._handlers[(SIGCHLD - 1).toNat]? = some hd :=
    ⟨_, List.getElem?_eq_getElem hidx⟩
  obtain ⟨w2', root, hrun, hroot, hrootpar, hselfR, hparself, hselfkids, hRkids, hparkids,
    hself2, hkids2, ⟨par0, hpar0, hparent2⟩, hR2, hother2, hgroups2, hsignone, hsigsome⟩ :=
    terminate_spec SIGCHLD signalNoChildWait uid0 k fuel w self state me par parent R sc ctx
      hd hme hmp hkill hstats hgen hnt hwalk hnd hkids hlive hpar hsc hctx hS.1 hS.2 hhd
  rw [hrun] at h
  have hw : w2' = w2 := Outcome.done.inj (Option.some.inj h)
  subst hw
  have hpdeath : ∀ X, pdeathSignals w X me._children = [] := by
    intro X
    unfold pdeathSignals
    rw [List.filterMap_eq_nil_iff]
    intro c hc
    obtain ⟨pc, hpc, _⟩ := hkids c hc
    rw [hpc]
    simp only [Option.some_bind]
    rw [hi.noPdeath c pc hpc]
    simp
  refine ⟨me, parent, R, hme, hmp, hwalk, hselfkids, ⟨root, hroot, hrootpar⟩, hgen, hframe,
    hgroups2, hsignone, ?_, ?_, ?_⟩
  · intro X ctxX hX
    obtain ⟨c1, c2, h1, h2, h3, h4⟩ := hsigsome X ctxX hX
    rw [hpdeath X] at h1
    have hc1 : c1 = ctxX := by
      simp only [issueAll, Option.some.injEq] at h1
      exact h1.symm
    subst hc1
    refine ⟨c2, h2, ?_⟩
    by_cases hXsc : X = sc
    · exact issueSignal_handlers (h4 hXsc)
    · rw [h3 hXsc]
  · intro r p hp
    by_cases h1 : r = self
    · subst h1; exact ⟨_, hself2⟩
    by_cases h2 : r ∈ me._children
    · exact ⟨_, hkids2 r h2 p hp⟩
    by_cases h3 : r = parent
    · subst h3; exact ⟨_, hparent2⟩
    by_cases h4 : r = R
    · subst h4; exact ⟨_, hR2 h3⟩
    · exact ⟨p, by rw [hother2 r h2 h1 h4 h3]; exact hp⟩
  · have hdisj : ∀ q pq, w.procs q = some pq → q ≠ self → ∀ c, c ∈ pq._children →
        c ∉ me._children := by
      intro q pq hq hqs c hc hc2
      obtain ⟨pc, hpc, hpp⟩ := hi.children q pq c hq hc
      obtain ⟨pc2, hpc2, hpp2⟩ := hkids c hc2
      rw [hpc] at hpc2
      cases hpc2
      rw [hpp] at hpp2
      exact hqs (Option.some.inj hpp2)
    have hndR : ∀ q pq, w.procs q = some pq → q ≠ self →
        (pq._children ++ me._children).Nodup := by
      intro q pq hq hqs
      rw [List.nodup_append]
      exact ⟨hi.nodup q pq hq, hnd, fun c hc hc2 => hdisj q pq hq hqs c hc hc2⟩
    intro r p2 hp2
    by_cases h1 : r = self
    · subst h1
      rw [hself2] at hp2
      refine ⟨me, hme, Or.inl ⟨rfl, ?_⟩⟩
      rw [← Option.some.inj hp2]
    by_cases h2 : r ∈ me._children
    · obtain ⟨pc, hpc, _⟩ := hkids r h2
      rw [hkids2 r h2 pc hpc] at hp2
      exact ⟨pc, hpc, Or.inr (Or.inl ⟨h1, h2, (Option.some.inj hp2).symm⟩)⟩
    by_cases h3 : r = parent
    · subst h3
      rw [hparent2] at hp2
      refine ⟨par, hpar, Or.inr (Or.inr ⟨h1, h2, ?_⟩)⟩
      have hp2' := Option.some.inj hp2
      by_cases hk : keepsZombie signalNoChildWait hd
      · rw [if_pos hk] at hp2'
        by_cases hR : r = R
        · rw [if_pos hR] at hpar0
          subst hpar0
          subst hp2'
          refine ⟨rfl, ?_, hndR r par hpar h1⟩
          intro c hc
          rcases List.mem_append.mp hc with hc | hc
          · exact Or.inl hc
          · exact Or.inr ⟨hR, hc⟩
        · rw [if_neg hR] at hpar0
          rw [hpar0] at hp2'
          subst hp2'
          exact ⟨rfl, fun c hc => Or.inl hc, hi.nodup r par hpar⟩
      · rw [if_neg hk] at hp2'
        by_cases hR : r = R
        · rw [if_pos hR] at hpar0
          subst hpar0
          subst hp2'
          refine ⟨rfl, ?_, (hndR r par hpar h1).filter _⟩
          intro c hc
          rcases List.mem_append.mp (List.mem_filter.mp hc).1 with hc | hc
          · exact Or.inl hc
          · exact Or.inr ⟨hR, hc⟩
        · rw [if_neg hR] at hpar0
          rw [hpar0] at hp2'
          subst hp2'
          exact ⟨rfl, fun c hc => Or.inl (List.mem_filter.mp hc).1,
            (hi.nodup r par hpar).filter _⟩
    by_cases h4 : r = R
    · subst h4
      rw [hR2 h3] at hp2
      have hp2' := Option.some.inj hp2
      subst hp2'
      refine ⟨root, hroot, Or.inr (Or.inr ⟨h1, h2, rfl, ?_, hndR r root hroot h1⟩)⟩
      intro c hc
      rcases List.mem_append.mp hc with hc | hc
      · exact Or.inl hc
      · exact Or.inr ⟨rfl, hc⟩
    · rw [hother2 r h2 h1 h4 h3] at hp2
      exact ⟨p2, hp2, Or.inr (Or.inr ⟨h1, h2, rfl, fun c hc => Or.inl hc,
        hi.nodup r p2 hp2⟩)⟩
/-- The invariant of the heap holds after `terminate`. -/
theorem terminate_preserves (SIGCHLD : Int) (signalNoChildWait : Nat) (uid0 : Int)
    (k : TerminateKernel) (fuel : Nat) (w w2 : World) (self : Ref) (state : TerminationState)
    (hi : ProcInv w) (hS : 1 ≤ SIGCHLD ∧ SIGCHLD ≤ 64)
    (h : terminate SIGCHLD signalNoChildWait uid0 k fuel w self state = some (.done w2)) :
    ProcInv w2 := by
  obtain ⟨me, parent, R, hme, hmp, hwalk, hselfkids, ⟨root, hroot, hrootpar⟩, hgen, hframe,
    hgroups, hsignone, hsigsome, hlive, hshape⟩ :=
    terminate_shape SIGCHLD signalNoChildWait uid0 k fuel w w2 self state hi hS h
  obtain ⟨e1, e2, e3, e4, e5, e6, e7, e8, e9, e10⟩ := hframe
  have hkids : ∀ c ∈ me._children, ∃ pc, w.procs c = some pc ∧ pc._parent = some self :=
    fun c hc => hi.children self me c hme hc
  have hfields : ∀ r p2, w2.procs r = some p2 → ∃ p, w.procs r = some p ∧
      p2.pid = p.pid ∧ p2.parentDeathSignal_ = p.parentDeathSignal_ ∧
      p2._signalContext = p._signalContext ∧ p2._pgPointer = p._pgPointer ∧
      (r ≠ self → p2.notifyType_ = p.notifyType_ ∧ p2._vmContext = p._vmContext ∧
        p2._fsContext = p._fsContext ∧ p2._fileContext = p._fileContext ∧
        p2._currentGeneration = p._currentGeneration) ∧
      (r = self → p2.notifyType_ = NotifyType.terminated ∧ p2._vmContext = none ∧
        p2._currentGeneration = none) ∧
      (r ∉ me._children → p2._parent = p._parent) ∧
      (r ∈ me._children → p2._parent = some R) := by
    intro r p2 hp2
    obtain ⟨p, hp, hcase⟩ := hshape r p2 hp2
    refine ⟨p, hp, ?_⟩
    rcases hcase with ⟨hr, heq⟩ | ⟨hr, hc, heq⟩ | ⟨hr, hc, heq, _⟩
    · subst hr
      rw [hme] at hp
      cases hp
      rw [heq]
      exact ⟨rfl, rfl, rfl, rfl, fun hne => absurd rfl hne, fun _ => ⟨rfl, rfl, rfl⟩,
        fun _ => rfl, fun hc => absurd hc hselfkids⟩
    · rw [heq]
      exact ⟨rfl, rfl, rfl, rfl, fun _ => ⟨rfl, rfl, rfl, rfl, rfl⟩, fun hs => absurd hs hr,
        fun hn => absurd hc hn, fun _ => rfl⟩
    · rw [heq]
      exact ⟨rfl, rfl, rfl, rfl, fun _ => ⟨rfl, rfl, rfl, rfl, rfl⟩, fun hs => absurd hs hr,
        fun _ => rfl, fun hc2 => absurd hc2 hc⟩
  obtain ⟨rank, hrank⟩ := hi.rank
  have hparentOf : ∀ c pc q, w.procs c = some pc → pc._parent = some q → q ≠ self →
      ∃ pc2, w2.procs c = some pc2 ∧ pc2._parent = some q := by
    intro c pc q hpc hq hqs
    obtain ⟨pc2, hpc2⟩ := hlive c pc hpc
    obtain ⟨p, hp, _, _, _, _, _, _, hpar1, _⟩ := hfields c pc2 hpc2
    rw [hpc] at hp
    cases hp
    refine ⟨pc2, hpc2, ?_⟩
    rw [hpar1 ?_, hq]
    intro hc
    obtain ⟨pc3, hpc3, hpar3⟩ := hkids c hc
    rw [hpc] at hpc3
    cases hpc3
    rw [hq] at hpar3
    exact hqs (Option.some.inj hpar3)
  constructor
  · intro pid r hr
    rw [e8] at hr
    rw [e9]
    exact hi.registered pid r hr
  · intro r p2 hp2
    obtain ⟨p, hp, hpid, _⟩ := hfields r p2 hp2
    rw [e9, hpid]
    exact hi.pids r p hp
  · intro r hr
    rw [e10] at hr
    obtain ⟨f1, f2, f3, f4, f5, f6, f7, f8⟩ := hi.fresh r hr
    refine ⟨?_, hsignone r f2, by rw [hgroups]; exact f3, by rw [e1]; exact f4,
      by rw [e4]; exact f5, by rw [e5]; exact f6, by rw [e6]; exact f7,
      by rw [e7]; exact f8⟩
    cases hp2 : w2.procs r with
    | none => rfl
    | some p2 =>
      obtain ⟨p, hp, _⟩ := hfields r p2 hp2
      rw [f1] at hp
      cases hp
  · refine ⟨rank, ?_⟩
    intro x p2 q hx hq
    obtain ⟨p, hp, _, _, _, _, _, _, hpar1, hpar2⟩ := hfields x p2 hx
    by_cases hc : x ∈ me._children
    · rw [hpar2 hc] at hq
      rw [← Option.some.inj hq]
      obtain ⟨pc, hpc, hpcpar⟩ := hkids x hc
      have r1 := rank_walk w rank hrank R fuel parent hwalk
      have r2 := (hrank self me parent hme hmp).2
      have r3 := (hrank x pc self hpc hpcpar).2
      exact ⟨hlive R root hroot, by omega⟩
    · rw [hpar1 hc] at hq
      obtain ⟨⟨pq, hpq⟩, hlt⟩ := hrank x p q hp hq
      exact ⟨hlive q pq hpq, hlt⟩
  · intro q pq2 c hq hc
    obtain ⟨p, hp, hcase⟩ := hshape q pq2 hq
    rcases hcase with ⟨hr, heq⟩ | ⟨hr, hcq, heq⟩ | ⟨hr, hcq, heq, hch, _⟩
    · rw [heq] at hc
      cases hc
    · rw [heq] at hc
      obtain ⟨pc, hpc, hpcpar⟩ := hi.children q p c hp hc
      exact hparentOf c pc q hpc hpcpar hr
    · rcases hch c hc with h1 | ⟨h1, h2⟩
      · obtain ⟨pc, hpc, hpcpar⟩ := hi.children q p c hp h1
        exact hparentOf c pc q hpc hpcpar hr
      · obtain ⟨pc, hpc, _⟩ := hkids c h2
        obtain ⟨pc2, hpc2⟩ := hlive c pc hpc
        obtain ⟨_, _, _, _, _, _, _, _, _, hpar2⟩ := hfields c pc2 hpc2
        exact ⟨pc2, hpc2, by rw [hpar2 h2, h1]⟩
  · intro q pq2 hq
    obtain ⟨p, hp, hcase⟩ := hshape q pq2 hq
    rcases hcase with ⟨hr, heq⟩ | ⟨hr, hcq, heq⟩ | ⟨hr, hcq, heq, _, hnd⟩
    · rw [heq]; exact List.nodup_nil
    · rw [heq]; exact hi.nodup q p hp
    · exact hnd
  · intro r p2 hp2
    obtain ⟨p, hp, _, hpd, _⟩ := hfields r p2 hp2
    rw [hpd]
    exact hi.noPdeath r p hp
  · intro r p2 hp2
    obtain ⟨p, hp, _, _, hsc, _⟩ := hfields r p2 hp2
    obtain ⟨sc, ctx, a1, a2, a3⟩ := hi.signal r p hp
    obtain ⟨ctx2, b1, b2⟩ := hsigsome sc ctx a2
    exact ⟨sc, ctx2, by rw [hsc, a1], b1, by rw [b2, a3]⟩
  · intro r p2 hp2
    obtain ⟨p, hp, _, _, _, hpg, _⟩ := hfields r p2 hp2
    obtain ⟨G, g, a1, a2⟩ := hi.group r p hp
    exact ⟨G, g, by rw [hpg, a1], by rw [hgroups]; exact a2⟩
  · intro r p2 hp2 hnt
    obtain ⟨p, hp, _, _, _, _, hne, heq, _⟩ := hfields r p2 hp2
    by_cases hr : r = self
    · rw [(heq hr).1] at hnt
      cases hnt
    · obtain ⟨a1, a2, a3, a4, _⟩ := hne hr
      rw [a1] at hnt
      rw [a2, a3, a4, e5, e6, e7]
      exact hi.running r p hp hnt
  · intro r p2 hp2 hg
    obtain ⟨p, hp, _, _, _, _, hne, heq, _⟩ := hfields r p2 hp2
    by_cases hr : r = self
    · exact absurd (heq hr).2.2 hg
    · obtain ⟨a1, _, _, _, a5⟩ := hne hr
      rw [a5] at hg
      rw [a1]
      exact hi.generation r p hp hg
  · intro r p2 hp2 hv
    obtain ⟨p, hp, _, _, _, _, hne, heq, _⟩ := hfields r p2 hp2
    by_cases hr : r = self
    · exact absurd (heq hr).2.1 hv
    · obtain ⟨a1, a2, _⟩ := hne hr
      rw [a2] at hv
      rw [a1]
      exact hi.terminated r p hp hv
theorem initializeNewSession_spec (w : World) (leader : Ref) (p : Process) (hu : Ref)
    (h : PidHull) (hp : w.procs leader = some p) (hpg : p._pgPointer = none)
    (hhull : p._hull = some hu) (hh : w.hulls hu = some h) :
    ∃ w2, initializeNewSession w leader = .done (w.nextRef, w2) ∧
      w2.procs = Function.update w.procs leader
        (some { p with _pgPointer := some (w.nextRef + 1) }) ∧
      w2.groups = Function.update w.groups (w.nextRef + 1)
        (some { members_ := [leader], hull_ := some hu, sessionPointer_ := some w.nextRef }) ∧
      w2.hulls = Function.update w.hulls hu
        (some { h with
          processGroup_ := some (w.nextRef + 1), terminalSession_ := some w.nextRef }) ∧
      w2.nextRef = w.nextRef + 2 ∧ w2.sigctxs = w.sigctxs ∧ w2.vmctxs = w.vmctxs ∧
      w2.fsctxs = w.fsctxs ∧ w2.filectxs = w.filectxs ∧ w2.gens = w.gens ∧
      w2.globalPidMap = w.globalPidMap ∧ w2.nextPid = w.nextPid := by
  cases p
  simp only at hpg hhull
  subst hpg
  subst hhull
  unfold initializeNewSession spawnProcessGroup reassociateProcess leaveOldGroup
    initializeProcessGroup initializeTerminalSession
  simp only [hp, hh, setSession_procs, setGroup_procs, setProc_procs_same, setProc_groups,
    setGroup_groups_same, setGroup_sessions, setProc_sessions, setSession_sessions_same,
    setSession_hulls, setGroup_hulls, setProc_hulls, setHull_sessions, setHull_hulls_same,
    List.nil_append]
  refine ⟨_, rfl, ?_, ?_, ?_, rfl, rfl, rfl, rfl, rfl, rfl, rfl, rfl⟩
  · rfl
  · funext r
    simp only [World.setHull, World.setSession, World.setGroup, World.setProc]
    by_cases hr : r = w.nextRef + 1
    · subst hr
      simp only [Function.update_same]
    · simp only [Function.update_noteq hr]
  · funext r
    simp only [World.setHull, World.setSession, World.setGroup, World.setProc]
    by_cases hr : r = hu
    · subst hr
      simp only [Function.update_same]
    · simp only [Function.update_noteq hr]
theorem initializeNewSession_done {w w2 : World} {leader S : Ref} (p : Process) (hu : Ref)
    (h : PidHull) (hrun : initializeNewSession w leader = .done (S, w2))
    (hp : w.procs leader = some p) (hpg : p._pgPointer = none)
    (hhull : p._hull = some hu) (hh : w.hulls hu = some h) :
    w2.procs = Function.update w.procs leader
        (some { p with _pgPointer := some (w.nextRef + 1) }) ∧
      w2.groups = Function.update w.groups (w.nextRef + 1)
        (some { members_ := [leader], hull_ := some hu, sessionPointer_ := some w.nextRef }) ∧
      w2.hulls = Function.update w.hulls hu
        (some { h with
          processGroup_ := some (w.nextRef + 1), terminalSession_ := some w.nextRef }) ∧
      w2.nextRef = w.nextRef + 2 ∧ w2.sigctxs = w.sigctxs ∧ w2.vmctxs = w.vmctxs ∧
      w2.fsctxs = w.fsctxs ∧ w2.filectxs = w.filectxs ∧ w2.gens = w.gens ∧
      w2.globalPidMap = w.globalPidMap ∧ w2.nextPid = w.nextPid := by
  obtain ⟨w3, h3, hfacts⟩ := initializeNewSession_spec w leader p hu h hp hpg hhull hh
  rw [h3] at hrun
  have := (Prod.mk.injEq _ _ _ _ ▸ Outcome.done.inj hrun : _ ∧ _).2
  rw [← this]
  exact hfacts

theorem initializeProcess_done {w w3 : World} {hull P : Ref}
    (h : initializeProcess w hull P = .done w3) :
    ∃ hu, w.hulls hull = some hu ∧ w3 = w.setHull hull { hu with process_ := some P } := by
  unfold initializeProcess at h
  split at h
  · exact Outcome.noConfusion h
  · rename_i hu hhu
    exact ⟨hu, hhu, (Outcome.done.inj h).symm⟩

theorem initLoad_done {k : InitKernel} {w3 w : World} {P vm r : Ref}
    (h : initLoad k w3 P vm = .done (r, w)) :
    r = P ∧ ∃ c res p3, w3.vmctxs vm = some c ∧ k.loader.result = Except.ok res ∧
      (w3.setVmctx vm { c with _areaTree := k.loader.areaTree }).procs P = some p3 ∧
      w = { ((w3.setVmctx vm { c with _areaTree := k.loader.areaTree }).setProc P
            { p3 with
              _threadDescriptor := some res.thread
              _clientAuxBegin := res.auxBegin
              _clientAuxEnd := res.auxEnd
              _posixLane := some k.process.serverLane
              _didExecute := true
              _procfs_dir := some true
              _currentGeneration := some w3.nextRef }).setGen w3.nextRef {} with
          nextRef := w3.nextRef + 1 } := by
  unfold initLoad execute at h
  cases hc : w3.vmctxs vm with
  | none =>
    rw [hc] at h
    exact Outcome.noConfusion h
  | some c =>
    rw [hc] at h
    simp only at h
    cases hres : k.loader.result with
    | error e =>
      rw [hres] at h
      exact Outcome.noConfusion h
    | ok res =>
      rw [hres] at h
      simp only at h
      split at h
      · exact Outcome.noConfusion h
      · rename_i p3 hp3
        have hpair := Outcome.done.inj h
        rw [Prod.mk.injEq] at hpair
        exact ⟨hpair.1.symm, c, res, p3, rfl, rfl, hp3, hpair.2.symm⟩
/-- The invariant of the heap holds after `init`, and the process made has not
terminated. -/
theorem init_inv (k : InitKernel) (path : List Char) (r : Ref) (w : World)
    (h : init k World.start path = .done (r, w)) :
    ProcInv w ∧ w.nextPid = 2 ∧
      ∃ p, w.procs r = some p ∧ p.notifyType_ = NotifyType.null ∧ p.pid = 1 ∧
        p._parent = none := by
  unfold init at h
  split at h
  · exact Outcome.noConfusion h
  · exact Outcome.noConfusion h
  rename_i hull w1 hcons
  split at h
  · exact Outcome.noConfusion h
  rename_i hslash
  split at h
  · exact Outcome.noConfusion h
  · exact Outcome.noConfusion h
  rename_i vc hvc
  split at h
  · exact Outcome.noConfusion h
  · exact Outcome.noConfusion h
  rename_i flc hflc
  split at h
  · exact Outcome.noConfusion h
  · exact Outcome.noConfusion h
  rename_i S w2 hsess
  split at h
  · exact Outcome.noConfusion h
  rename_i hchecks
  split at h
  · exact Outcome.noConfusion h
  rename_i p hp
  split at h
  · exact Outcome.noConfusion h
  · exact Outcome.noConfusion h
  rename_i w3 hip
  -- the hull
  rw [construct_fresh World.start 1 rfl] at hcons
  have hc := Outcome.done.inj hcons
  rw [Prod.mk.injEq] at hc
  obtain ⟨hhull, hw1⟩ := hc
  have a1 : w1.procs = fun _ => none := by rw [← hw1]; rfl
  have a2 : w1.hulls = Function.update (fun _ => none) 0 (some { pid_ := 1 }) := by
    rw [← hw1]; rfl
  have a3 : w1.nextRef = 1 := by rw [← hw1]; rfl
  have a4 : w1.nextPid = 2 := by rw [← hw1]; rfl
  have a5 : w1.globalPidMap = Function.update (fun _ => none) 1 (some 0) := by
    rw [← hw1]; rfl
  have a6 : w1.sigctxs = fun _ => none := by rw [← hw1]; rfl
  have a7 : w1.groups = fun _ => none := by rw [← hw1]; rfl
  have a8 : w1.gens = fun _ => none := by rw [← hw1]; rfl
  have a9 : w1.vmctxs = fun _ => none := by rw [← hw1]; rfl
  have a10 : w1.fsctxs = fun _ => none := by rw [← hw1]; rfl
  have a11 : w1.filectxs = fun _ => none := by rw [← hw1]; rfl
  have hh0 : hull = 0 := hhull.symm
  clear hw1 hcons hhull
  -- the session
  obtain ⟨b1, b2, b3, b4, b5, b6, b7, b8, b9, b10, b11⟩ :=
    initializeNewSession_done
      { pid := 1
        _hull := some hull
        _path := path
        _name := afterLastSlash path
        _vmContext := some (w1.nextRef + 1)
        _fsContext := some (w1.nextRef + 2)
        _fileContext := some (w1.nextRef + 3)
        _signalContext := some (w1.nextRef + 4) } hull { pid_ := 1 } hsess
      (by simp only [setSigctx_procs, setFilectx_procs, setFsctx_procs, setVmctx_procs,
            setProc_procs_same])
      rfl rfl
      (by simp only [setSigctx_hulls, setFilectx_hulls, setFsctx_hulls, setVmctx_hulls,
            setProc_hulls]
          rw [a2, hh0, Function.update_same])
  simp only [setSigctx_procs, setFilectx_procs, setFsctx_procs, setVmctx_procs,
    setSigctx_groups, setFilectx_groups, setFsctx_groups, setVmctx_groups, setProc_groups,
    setSigctx_hulls, setFilectx_hulls, setFsctx_hulls, setVmctx_hulls, setProc_hulls,
    setFilectx_gens, setFsctx_gens, setVmctx_gens, setProc_gens, setSigctx_gens,
    setSigctx_globalPidMap, setFilectx_globalPidMap, setFsctx_globalPidMap,
    setVmctx_globalPidMap, setProc_globalPidMap,
    setSigctx_nextPid, setFilectx_nextPid, setFsctx_nextPid, setVmctx_nextPid,
    setProc_nextPid] at b1 b2 b3 b4 b9 b10 b11
  have b5' : w2.sigctxs = Function.update w1.sigctxs (w1.nextRef + 4)
      (some (SignalContext.create k.blank)) := by rw [b5]; rfl
  have b6' : w2.vmctxs = Function.update w1.vmctxs (w1.nextRef + 1) (some vc) := by
    rw [b6]; rfl
  have b7' : w2.fsctxs = Function.update w1.fsctxs (w1.nextRef + 2)
      (some (FsContext.create k.rootPath k.umask)) := by rw [b7]; rfl
  have b8' : w2.filectxs = Function.update w1.filectxs (w1.nextRef + 3) (some flc) := by
    rw [b8]; rfl
  clear b5 b6 b7 b8 hsess
  -- the process record
  have hp' := hp
  rw [b1] at hp'
  simp only [World.setProc, Function.update_same, Option.some.injEq] at hp'
  -- the entry into the hull
  obtain ⟨hu, hhu, hw3⟩ := initializeProcess_done hip
  clear hip
  -- the loader
  obtain ⟨hr, c, res, p3, hc3, hres, hp3, hw⟩ := initLoad_done h
  clear h
  subst hw3
  simp only [setVmctx_procs, setHull_procs, setProc_procs_same, Option.some.injEq] at hp3
  have n3 : (World.setHull (w2.setProc w1.nextRef
      { p with
        _threadPageMemory := some k.process.allocateThreadPage.2
        _cancelEventMemory := some k.process.allocateCancelEvent.2
        _signalMask := 0
        _clientPosixLane := k.process.transferLane.2
        _clientThreadPage := k.process.mapThreadPage.2
        _clientCancelEvent := k.process.mapCancelEvent.2
        _clientFileTable := k.process.mapFileTable.2
        _clientClkTrackerPage := k.process.mapClkTracker.2
        _uid := 0
        _euid := 0
        _gid := 0
        _egid := 0 }) hull { hu with process_ := some w1.nextRef }).nextRef = w2.nextRef := rfl
  rw [n3] at hw
  obtain ⟨pf, hpf⟩ : ∃ pf : Process, pf = { p3 with
      _threadDescriptor := some res.thread
      _clientAuxBegin := res.auxBegin
      _clientAuxEnd := res.auxEnd
      _posixLane := some k.process.serverLane
      _didExecute := true
      _procfs_dir := some true
      _currentGeneration := some w2.nextRef } := ⟨_, rfl⟩
  rw [← hpf] at hw
  have f1 : w.procs = Function.update (fun _ => none) 1 (some pf) := by
    rw [hw]
    funext x
    simp only [World.setGen, World.setProc, World.setVmctx, World.setHull, b1, a1, a3]
    by_cases hx : x = 1
    · subst hx; simp only [Function.update_same]
    · simp only [Function.update_noteq hx]
  have f2 : w.sigctxs = Function.update (fun _ => none) 5
      (some (SignalContext.create k.blank)) := by
    rw [hw]
    show w2.sigctxs = _
    rw [b5', a6, a3]
  have f3 : w.groups = Function.update (fun _ => none) 7
      (some { members_ := [1], hull_ := some hull, sessionPointer_ := some 6 }) := by
    rw [hw]
    show w2.groups = _
    rw [b2, a7, a3]
  have f4 : ∀ x, x ≠ 0 → w.hulls x = none := by
    intro x hx
    rw [hw]
    show (Function.update w2.hulls hull _) x = none
    rw [hh0, Function.update_noteq hx, b3, hh0, Function.update_noteq hx, a2,
      Function.update_noteq hx]
  have f5 : ∀ x, x ≠ 8 → w.gens x = none := by
    intro x hx
    rw [hw]
    show (Function.update w2.gens w2.nextRef _) x = none
    rw [b4, a3, Function.update_noteq hx, b9, a8]
  have f6 : ∃ c6, w.vmctxs = Function.update (fun _ => none) 2 (some c6) := by
    refine ⟨{ c with _areaTree := k.loader.areaTree }, ?_⟩
    rw [hw]
    show Function.update w2.vmctxs (w1.nextRef + 1) _ = _
    rw [b6', a9, a3]
    funext x
    by_cases hx : x = 2
    · subst hx; simp only [Function.update_same]
    · simp only [Function.update_noteq hx]
  have f7 : w.fsctxs = Function.update (fun _ => none) 3
      (some (FsContext.create k.rootPath k.umask)) := by
    rw [hw]
    show w2.fsctxs = _
    rw [b7', a10, a3]
  have f8 : w.filectxs = Function.update (fun _ => none) 4 (some flc) := by
    rw [hw]
    show w2.filectxs = _
    rw [b8', a11, a3]
  have f9 : w.globalPidMap = Function.update (fun _ => none) 1 (some 0) := by
    rw [hw]
    show w2.globalPidMap = _
    rw [b10, a5]
  have f10 : w.nextPid = 2 := by
    rw [hw]
    show w2.nextPid = _
    rw [b11, a4]
  have f11 : w.nextRef = 9 := by
    rw [hw]
    show w2.nextRef + 1 = _
    rw [b4, a3]
  have hpfields : pf.pid = 1 ∧ pf._parent = none ∧ pf._children = [] ∧
      pf.parentDeathSignal_ = none ∧ pf.notifyType_ = NotifyType.null ∧
      pf._signalContext = some 5 ∧ pf._pgPointer = some 7 ∧ pf._vmContext = some 2 ∧
      pf._fsContext = some 3 ∧ pf._fileContext = some 4 := by
    rw [hpf, ← hp3, ← hp', a3]
    exact ⟨rfl, rfl, rfl, rfl, rfl, rfl, rfl, rfl, rfl, rfl⟩
  obtain ⟨g1, g2, g3, g4, g5, g6, g7, g8, g9, g10⟩ := hpfields
  obtain ⟨c6, f6⟩ := f6
  have hproc : ∀ x q, w.procs x = some q → x = 1 ∧ q = pf := by
    intro x q hq
    rw [f1] at hq
    by_cases hx : x = 1
    · subst hx
      rw [Function.update_same] at hq
      exact ⟨rfl, (Option.some.inj hq).symm⟩
    · rw [Function.update_noteq hx] at hq
      cases hq
  refine ⟨?_, f10, pf, by rw [hr, a3, f1, Function.update_same], g5, g1, g2⟩
  constructor
  · intro pid x hx
    rw [f9] at hx
    by_cases hpid : pid = 1
    · rw [hpid, f10]; decide
    · rw [Function.update_noteq hpid] at hx
      cases hx
  · intro x q hq
    obtain ⟨_, hq2⟩ := hproc x q hq
    rw [hq2, g1, f10]
    decide
  · intro x hx
    rw [f11] at hx
    have h1 : x ≠ 1 := by (try unfold Ref at *); omega
    have h5 : x ≠ 5 := by (try unfold Ref at *); omega
    have h7 : x ≠ 7 := by (try unfold Ref at *); omega
    have h0 : x ≠ 0 := by (try unfold Ref at *); omega
    have h8 : x ≠ 8 := by (try unfold Ref at *); omega
    have h2 : x ≠ 2 := by (try unfold Ref at *); omega
    have h3 : x ≠ 3 := by (try unfold Ref at *); omega
    have h4 : x ≠ 4 := by (try unfold Ref at *); omega
    exact ⟨by rw [f1, Function.update_noteq h1], by rw [f2, Function.update_noteq h5],
      by rw [f3, Function.update_noteq h7], f4 x h0, f5 x h8,
      by rw [f6, Function.update_noteq h2], by rw [f7, Function.update_noteq h3],
      by rw [f8, Function.update_noteq h4]⟩
  · refine ⟨fun _ => 0, ?_⟩
    intro x q y hq hpar
    obtain ⟨_, hq2⟩ := hproc x q hq
    rw [hq2, g2] at hpar
    cases hpar
  · intro x q y hq hy
    obtain ⟨_, hq2⟩ := hproc x q hq
    rw [hq2, g3] at hy
    cases hy
  · intro x q hq
    obtain ⟨_, hq2⟩ := hproc x q hq
    rw [hq2, g3]
    exact List.nodup_nil
  · intro x q hq
    obtain ⟨_, hq2⟩ := hproc x q hq
    rw [hq2, g4]
  · intro x q hq
    obtain ⟨_, hq2⟩ := hproc x q hq
    rw [hq2]
    refine ⟨5, _, g6, by rw [f2, Function.update_same], ?_⟩
    simp [SignalContext.create, SignalContext.init]
  · intro x q hq
    obtain ⟨_, hq2⟩ := hproc x q hq
    rw [hq2]
    exact ⟨7, _, g7, by rw [f3, Function.update_same]⟩
  · intro x q hq _
    obtain ⟨_, hq2⟩ := hproc x q hq
    rw [hq2]
    exact ⟨⟨2, _, g8, by rw [f6, Function.update_same]⟩,
      ⟨3, _, g9, by rw [f7, Function.update_same]⟩,
      ⟨4, _, g10, by rw [f8, Function.update_same]⟩⟩
  · intro x q hq _
    obtain ⟨_, hq2⟩ := hproc x q hq
    rw [hq2]
    exact g5
  · intro x q hq _
    obtain ⟨_, hq2⟩ := hproc x q hq
    rw [hq2]
    exact g5
/-- The invariant holds in every heap reached from the start of the server. -/
theorem reachable_inv {pidMax SIGCHLD : Int} {signalNoChildWait : Nat} {uid0 : Int}
    (hS : 1 ≤ SIGCHLD ∧ SIGCHLD ≤ 64) {w : World}
    (h : ProcReachable pidMax SIGCHLD signalNoChildWait uid0 w) : ProcInv w := by
  induction h with
  | init k path r w hrun => exact (init_inv k path r w hrun).1
  | fork k original child _ hrun ih =>
    obtain ⟨orig, c, G, grp, hs, _⟩ := fork_done pidMax k _ ih original child _ hrun
    exact hs.inv ih
  | clone k original child _ hrun ih =>
    obtain ⟨orig, c, G, grp, hs⟩ := clone_done pidMax k _ ih original child _ hrun
    exact hs.inv ih
  | terminate k fuel self state _ hrun ih =>
    exact terminate_preserves SIGCHLD signalNoChildWait uid0 k fuel _ _ self state ih hS hrun

/-- With ranked parent links, the walk up the parent links from a process ends
in a process without a parent. -/
theorem walk_ends (w : World) (rank : Ref → Nat)
    (hrank : ∀ x p q, w.procs x = some p → p._parent = some q →
      (∃ pq, w.procs q = some pq) ∧ rank q < rank x) :
    ∀ n r p, rank r ≤ n → w.procs r = some p →
      ∃ root rp, reparentTo w (n + 1) r = some (.done root) ∧ w.procs root = some rp ∧
        rp._parent = none := by
  intro n
  induction n with
  | zero =>
    intro r p hn hp
    cases hpar : p._parent with
    | none =>
      refine ⟨r, p, ?_, hp, hpar⟩
      rw [reparentTo, hp]
      simp only [hpar]
    | some q =>
      have := (hrank r p q hp hpar).2
      omega
  | succ n ih =>
    intro r p hn hp
    cases hpar : p._parent with
    | none =>
      refine ⟨r, p, ?_, hp, hpar⟩
      rw [reparentTo, hp]
      simp only [hpar]
    | some q =>
      obtain ⟨⟨pq, hpq⟩, hlt⟩ := hrank r p q hp hpar
      obtain ⟨root, rp, h1, h2, h3⟩ := ih q pq (by omega) hpq
      refine ⟨root, rp, ?_, h2, h3⟩
      rw [reparentTo, hp]
      simp only [hpar]
      exact h1

/-- The call of `terminate` comes to an end when the walk up the parent links
does. -/
theorem terminate_returns (SIGCHLD : Int) (signalNoChildWait : Nat) (uid0 : Int)
    (k : TerminateKernel) (fuel : Nat) (w : World) (self : Ref) (state : TerminationState)
    (me : Process) (parent R : Ref) (hme : w.procs self = some me)
    (hmp : me._parent = some parent) (hwalk : reparentTo w fuel parent = some (.done R)) :
    terminate SIGCHLD signalNoChildWait uid0 k fuel w self state ≠ none := by
  intro h
  unfold terminate at h
  split at h
  · cases h
  · rename_i me2 hme2
    rw [hme] at hme2
    cases hme2
    split at h
    · cases h
    · rename_i parent2 hpar2
      rw [hmp] at hpar2
      cases hpar2
      split at h
      · cases h
      · split at h
        · cases h
        · split at h
          · cases h
          · simp only at h
            split at h
            · rename_i hnone
              have hcongr := reparentTo_congr
                (w.setProc self { me with
                  _generationUsage :=
                    { userTime := uadd me._generationUsage.userTime k.userTime }
                  _posixLane := none
                  _threadDescriptor := none
                  _vmContext := none
                  _fsContext := none
                  _fileContext := none
                  _currentGeneration := none }) w
                (by
                  intro r
                  by_cases hr : r = self
                  · subst hr
                    rw [setProc_procs_same, hme]
                    rfl
                  · rw [setProc_procs_ne _ _ hr]) fuel parent
              rw [hcongr, hwalk] at hnone
              cases hnone
            · split at h <;> cases h
            · cases h
            · cases h
/-! ## Claims on the creation of processes -/

theorem clone_slot_idle (ctx : SignalContext) (i : Nat) :
    ((SignalContext.clone ctx).slot i).asyncQueue = [] := by
  unfold SignalContext.clone SignalContext.init SignalContext.slot
  simp only [List.getD_eq_getElem?_getD, List.getElem?_replicate]
  split <;> rfl

theorem okForkKernel_ok : okForkKernel.Ok :=
  ⟨⟨rfl, fun _ => rfl, fun _ => rfl⟩, ⟨rfl, rfl, rfl, fun _ => rfl, rfl⟩,
    ⟨rfl, rfl, rfl, rfl, rfl, rfl, rfl, rfl⟩⟩

theorem sampleInit_run : init okInitKernel World.start samplePath = .done (1, sampleInit) := rfl

theorem sampleInit_reachable (pidMax SIGCHLD : Int) (signalNoChildWait : Nat) (uid0 : Int) :
    ProcReachable pidMax SIGCHLD signalNoChildWait uid0 sampleInit :=
  ProcReachable.init okInitKernel samplePath 1 sampleInit sampleInit_run

theorem sampleForked_run :
    fork 2147483647 okForkKernel sampleInit 1 = .done (14, sampleForked) := rfl

/-- After `fork` has left what `Spawned` says, with the signal context of the
child a clone of the original's, the postcondition of `fork` holds. -/
theorem forkPost_of_spawned {w w2 : World} {original P : Ref} {orig child : Process}
    {G : Ref} {grp : ProcessGroup} (hi : ProcInv w)
    (hs : Spawned w w2 original P orig child G grp) (sc : Ref) (ctx : SignalContext)
    (sc2 : Ref) (h1 : orig._signalContext = some sc) (h2 : w.sigctxs sc = some ctx)
    (h3 : ctx._handlers.length = 64) (h4 : child._signalContext = some sc2)
    (h5 : w2.sigctxs sc2 = some (SignalContext.clone ctx)) : ForkPost w w2 original P := by
  refine ⟨orig, child, G, grp, sc, ctx, sc2, SignalContext.clone ctx, hs.live,
    (hi.fresh P hs.isNew).1, hs.made, ?_, ?_, hs.parent, hs.originalAfter, hs.inGroup,
    hs.pgPointer, hs.groupLive, hs.groupAfter, hs.mask, h1, h2, h4, h5,
    (clone_handlers_length ctx h3).1, (clone_handlers_length ctx h3).2,
    clone_slot_idle ctx, rfl⟩
  · rw [hs.pid]
    exact hi.unregistered
  · intro r p hp
    have := hi.pids r p hp
    rw [hs.pid]
    omega

/-- A heap reached by forks of the process of pid 1 alone, for every value of
`nextPid` up to the largest pid. -/
theorem forks_reach (pidMax SIGCHLD : Int) (signalNoChildWait : Nat) (uid0 : Int)
    (hS : 1 ≤ SIGCHLD ∧ SIGCHLD ≤ 64) :
    ∀ n : Nat, (2 : Int) + n ≤ pidMax →
      ∃ w p, ProcReachable pidMax SIGCHLD signalNoChildWait uid0 w ∧
        w.nextPid = 2 + n ∧ w.procs 1 = some p ∧ p.notifyType_ = NotifyType.null := by
  intro n
  induction n with
  | zero =>
    intro _
    obtain ⟨_, hn, p, hp, hnt, _⟩ := init_inv okInitKernel samplePath 1 sampleInit sampleInit_run
    exact ⟨sampleInit, p, sampleInit_reachable pidMax SIGCHLD signalNoChildWait uid0,
      by rw [hn]; rfl, hp, hnt⟩
  | succ n ih =>
    intro hle
    obtain ⟨w, p, hreach, hn, hp, hnt⟩ := ih (by push_cast at hle ⊢; omega)
    have hi := reachable_inv hS hreach
    obtain ⟨P, w2, child, G, grp, sc, ctx, sc2, hrun, hs, _⟩ :=
      fork_spawned pidMax okForkKernel okForkKernel_ok w hi 1 p hp hnt
        (by rw [hn]; push_cast at hle ⊢; omega)
    refine ⟨w2, _, ProcReachable.fork okForkKernel 1 P hreach hrun, ?_, hs.originalAfter, hnt⟩
    rw [hs.counter, hn]
    push_cast
    omega

/-- The original of C24 fails when the counter of pids is at its largest value
(here that of a 32-bit `int`): after 2147483645 forks of the process of pid 1,
a state reached from `init` by `fork` alone, `nextPid++` overflows and no call of
`fork` returns a child, whatever the kernel answers. -/
theorem fork_pid_overflow_counterexample :
    ∃ w original orig, ProcReachable 2147483647 17 0 0 w ∧
      w.procs original = some orig ∧ orig.notifyType_ = NotifyType.null ∧
      ∀ k, fork 2147483647 k w original = .undefined := by
  obtain ⟨w, p, hreach, hn, hp, hnt⟩ :=
    forks_reach 2147483647 17 0 0 (by decide) 2147483645 (by norm_num)
  refine ⟨w, 1, p, hreach, hp, hnt, ?_⟩
  intro k
  unfold fork
  rw [if_pos]
  rw [hn]
  norm_num

/-- C24, amended: in a state reached from `init` by `fork`, `clone` and
`terminate` (with `SIGCHLD` one of the signals 1..64), the pid `nextPid` is not
registered, so that the constructor of the hull in `fork` does not fail its
assertion; every call of `fork(original)` that returns leaves the postcondition
`ForkPost`: the child has a pid that was not registered and that no process had,
its parent is the original, it is appended last to the children of the
original, it is a member of the process group of the original, its signal mask
and its 64 handlers are those of the original and its signal queues are empty;
and when `nextPid` is below the largest pid, the original has not terminated and
the kernel answers without an error, `fork` returns. -/
theorem fork_postcondition (pidMax SIGCHLD : Int) (signalNoChildWait : Nat) (uid0 : Int)
    (hS : 1 ≤ SIGCHLD ∧ SIGCHLD ≤ 64) (w : World)
    (hreach : ProcReachable pidMax SIGCHLD signalNoChildWait uid0 w) :
    (w.globalPidMap w.nextPid = none ∧
      ∃ hull w1, PidHull.construct { w with nextPid := w.nextPid + 1 } w.nextPid =
        .done (hull, w1)) ∧
    (∀ k original P w2, fork pidMax k w original = .done (P, w2) →
      ForkPost w w2 original P) ∧
    (∀ k original orig, ForkKernel.Ok k → w.procs original = some orig →
      orig.notifyType_ = NotifyType.null → w.nextPid < pidMax →
      ∃ P w2, fork pidMax k w original = .done (P, w2)) := by
  have hi := reachable_inv hS hreach
  refine ⟨⟨hi.unregistered, _, _,
    construct_fresh { w with nextPid := w.nextPid + 1 } w.nextPid hi.unregistered⟩, ?_, ?_⟩
  · intro k original P w2 hrun
    obtain ⟨orig, child, G, grp, hs, sc, ctx, sc2, h1, h2, h3, h4, _, h5⟩ :=
      fork_done pidMax k w hi original P w2 hrun
    exact forkPost_of_spawned hi hs sc ctx sc2 h1 h2 h3 h4 h5
  · intro k original orig hk ho hnt hlt
    obtain ⟨P, w2, child, G, grp, sc, ctx, sc2, hrun, _⟩ :=
      fork_spawned pidMax k hk w hi original orig ho hnt hlt
    exact ⟨P, w2, hrun⟩

/-- Witness of C24: in the heap after `init`, the process of pid 1 forks; the
child is at 14 and the postcondition holds. -/
theorem fork_postcondition_witness :
    ProcReachable 2147483647 17 0 0 sampleInit ∧
      fork 2147483647 okForkKernel sampleInit 1 = .done (14, sampleForked) ∧
      ForkPost sampleInit sampleForked 1 14 :=
  ⟨sampleInit_reachable 2147483647 17 0 0, sampleForked_run,
    (fork_postcondition 2147483647 17 0 0 (by decide) sampleInit
      (sampleInit_reachable 2147483647 17 0 0)).2.1 okForkKernel 1 14 sampleForked
      sampleForked_run⟩

theorem reparentTo_mono (w : World) (x : Outcome Ref) :
    ∀ fuel r, reparentTo w fuel r = some x → reparentTo w (fuel + 1) r = some x := by
  intro fuel
  induction fuel with
  | zero => intro r h; simp [reparentTo] at h
  | succ fuel ih =>
    intro r h
    rw [reparentTo] at h
    rw [reparentTo]
    cases hp : w.procs r with
    | none => rw [hp] at h; exact h
    | some p =>
      rw [hp] at h
      simp only at h ⊢
      cases hq : p._parent with
      | none => rw [hq] at h; exact h
      | some q =>
        rw [hq] at h
        simp only at h ⊢
        exact ih q h

theorem reparentTo_mono_le (w : World) (x : Outcome Ref) (r : Ref) (n : Nat)
    (h : reparentTo w n r = some x) : ∀ fuel, n ≤ fuel → reparentTo w fuel r = some x := by
  intro fuel hle
  induction fuel with
  | zero =>
    have : n = 0 := by omega
    subst this
    exact h
  | succ fuel ih =>
    by_cases hn : n = fuel + 1
    · subst hn; exact h
    · exact reparentTo_mono w x fuel r (ih (by omega))

/-- C30: in a state reached from `init` by `fork`, `clone` and `terminate` (with
`SIGCHLD` one of the signals 1..64), the walk up the parent links from any
process ends, with enough rounds, in a process without a parent; so for a
process with a parent the loop of `terminate` ends and `terminate` comes to an
end, whatever the kernel answers; and a process in the children list of `q` has
the parent `q`. -/
theorem parent_links_forest (pidMax SIGCHLD : Int) (signalNoChildWait : Nat) (uid0 : Int)
    (hS : 1 ≤ SIGCHLD ∧ SIGCHLD ≤ 64) (w : World)
    (hreach : ProcReachable pidMax SIGCHLD signalNoChildWait uid0 w) :
    (∀ r p, w.procs r = some p →
      ∃ n root rp, w.procs root = some rp ∧ rp._parent = none ∧
        ∀ fuel, n ≤ fuel → reparentTo w fuel r = some (.done root)) ∧
    (∀ self me parent, w.procs self = some me → me._parent = some parent →
      ∃ n R, ∀ fuel, n ≤ fuel → reparentTo w fuel parent = some (.done R) ∧
        ∀ k state, terminate SIGCHLD signalNoChildWait uid0 k fuel w self state ≠ none) ∧
    (∀ q pq c, w.procs q = some pq → c ∈ pq._children →
      ∃ pc, w.procs c = some pc ∧ pc._parent = some q) := by
  have hi := reachable_inv hS hreach
  obtain ⟨rank, hrank⟩ := hi.rank
  have hwalk : ∀ r p, w.procs r = some p →
      ∃ n root rp, w.procs root = some rp ∧ rp._parent = none ∧
        ∀ fuel, n ≤ fuel → reparentTo w fuel r = some (.done root) := by
    intro r p hp
    obtain ⟨root, rp, h1, h2, h3⟩ := walk_ends w rank hrank (rank r) r p (le_refl _) hp
    exact ⟨rank r + 1, root, rp, h2, h3, reparentTo_mono_le w _ r _ h1⟩
  refine ⟨hwalk, ?_, hi.children⟩
  intro self me parent hme hmp
  obtain ⟨⟨par, hpar⟩, _⟩ := hrank self me parent hme hmp
  obtain ⟨n, R, rp, _, _, hn⟩ := hwalk parent par hpar
  refine ⟨n, R, fun fuel hle => ⟨hn fuel hle, fun k state => ?_⟩⟩
  exact terminate_returns SIGCHLD signalNoChildWait uid0 k fuel w self state me parent R hme
    hmp (hn fuel hle)

theorem sampleForked_reachable (SIGCHLD : Int) (signalNoChildWait : Nat) (uid0 : Int) :
    ProcReachable 2147483647 SIGCHLD signalNoChildWait uid0 sampleForked :=
  ProcReachable.fork okForkKernel 1 14
    (sampleInit_reachable 2147483647 SIGCHLD signalNoChildWait uid0) sampleForked_run

/-- Witness of C30: in the heap after `init` and a fork of the process of pid 1,
the walk from the child at 14 ends in the process at 1 after two rounds, and
every process in a list of children has the owner of the list as its parent. -/
theorem parent_links_forest_witness :
    ProcReachable 2147483647 17 0 0 sampleForked ∧
      reparentTo sampleForked 2 14 = some (.done 1) ∧
      (∀ q pq c, sampleForked.procs q = some pq → c ∈ pq._children →
        ∃ pc, sampleForked.procs c = some pc ∧ pc._parent = some q) :=
  ⟨sampleForked_reachable 17 0 0, rfl,
    (parent_links_forest 2147483647 17 0 0 (by decide) sampleForked
      (sampleForked_reachable 17 0 0)).2.2⟩
/-! ## Replacing the image of a process: the two parts of `exec` -/

/-- What `execBegin` has done when it returns the error of the loader. -/
theorem execBegin_failed_inv {k : ExecKernel} {w w2 : World} {process : Ref} {e : Error}
    (h : execBegin k w process = .done (ExecStart.failed e, w2)) :
    k.loader.result = Except.error e ∧
      w2.procs = w.procs ∧ w2.sigctxs = w.sigctxs ∧ w2.groups = w.groups ∧
      w2.hulls = w.hulls ∧ w2.sessions = w.sessions ∧ w2.terminals = w.terminals ∧
      w2.gens = w.gens ∧ w2.fsctxs = w.fsctxs ∧ w2.filectxs = w.filectxs ∧
      w2.globalPidMap = w.globalPidMap ∧ w2.nextPid = w.nextPid ∧
      w2.nextRef = w.nextRef + 1 ∧
      (∀ r, r ≠ w.nextRef → w2.vmctxs r = w.vmctxs r) ∧ w2.vmctxs w.nextRef = none := by
  unfold execBegin at h
  split at h
  · exact Outcome.noConfusion h
  · exact Outcome.noConfusion h
  split at h
  · exact Outcome.noConfusion h
  split at h
  swap
  · exact Outcome.noConfusion h
  unfold execute at h
  simp only [setVmctx_vmctxs_same] at h
  cases hres : k.loader.result with
  | ok res =>
    rw [hres] at h
    simp only at h
    split at h
    · exact Outcome.noConfusion h
    · split at h
      · exact Outcome.noConfusion h
      · split at h
        · exact Outcome.noConfusion h
        · have hh := Outcome.done.inj h
          rw [Prod.mk.injEq] at hh
          exact ExecStart.noConfusion hh.1
  | error e2 =>
    rw [hres] at h
    simp only at h
    have hh := Outcome.done.inj h
    rw [Prod.mk.injEq] at hh
    obtain ⟨h1, h2⟩ := hh
    have he : e2 = e := ExecStart.failed.inj h1
    subst he
    subst h2
    refine ⟨rfl, rfl, rfl, rfl, rfl, rfl, rfl, rfl, rfl, rfl, rfl, rfl, rfl, ?_, ?_⟩
    · intro r hr
      show Function.update (Function.update (Function.update w.vmctxs _ _) _ _) _ _ r = _
      rw [Function.update_noteq hr, Function.update_noteq hr, Function.update_noteq hr]
    · show Function.update (Function.update (Function.update w.vmctxs _ _) _ _) _ _ _ = _
      rw [Function.update_same]

/-- What `execBegin` has done when it stands at its first wait. -/
theorem execBegin_waiting_inv {k : ExecKernel} {w w2 : World} {process : Ref}
    {f : ExecFrame} (h : execBegin k w process = .done (ExecStart.waiting f, w2)) :
    (∃ res, k.loader.result = Except.ok res) ∧
    ∃ p gen, w.procs process = some p ∧
      p._currentGeneration = some f.previousGeneration ∧
      f.exec_vm_context = w.nextRef ∧
      w.gens f.previousGeneration = some gen ∧
      w2.gens = Function.update w.gens f.previousGeneration
        (some { gen with inTermination := true, cancelServe := true }) ∧
      w2.procs = w.procs ∧ w2.sigctxs = w.sigctxs ∧ w2.filectxs = w.filectxs ∧
      w2.fsctxs = w.fsctxs ∧ w2.groups = w.groups ∧ w2.nextRef = w.nextRef + 1 ∧
      (∀ r, r ≠ w.nextRef → w2.vmctxs r = w.vmctxs r) := by
  unfold execBegin at h
  split at h
  · exact Outcome.noConfusion h
  · exact Outcome.noConfusion h
  split at h
  · exact Outcome.noConfusion h
  rename_i p hp
  split at h
  swap
  · exact Outcome.noConfusion h
  unfold execute at h
  simp only [setVmctx_vmctxs_same] at h
  cases hres : k.loader.result with
  | error e2 =>
    rw [hres] at h
    simp only at h
    have hh := Outcome.done.inj h
    rw [Prod.mk.injEq] at hh
    exact ExecStart.noConfusion hh.1
  | ok res =>
    rw [hres] at h
    simp only at h
    split at h
    · exact Outcome.noConfusion h
    · split at h
      · exact Outcome.noConfusion h
      · rename_i g hg
        split at h
        · exact Outcome.noConfusion h
        · rename_i gen hgen
          have hh := Outcome.done.inj h
          rw [Prod.mk.injEq] at hh
          obtain ⟨h1, h2⟩ := hh
          have hf := ExecStart.waiting.inj h1
          subst hf
          subst h2
          refine ⟨⟨res, rfl⟩, p, gen, hp, hg, rfl, hgen, rfl, rfl, rfl, rfl, rfl, rfl, rfl, ?_⟩
          intro r hr
          show Function.update (Function.update w.vmctxs _ _) _ _ r = _
          rw [Function.update_noteq hr, Function.update_noteq hr]

/-- What `execFinish` has done when it returns. -/
theorem execFinish_inv {k : ExecKernel} {f : ExecFrame} {w w2 : World} {process : Ref}
    {path : List Char} {e : Error} (h : execFinish k f w process path = .done (e, w2)) :
    e = Error.success ∧ w2.gens = Function.update w.gens w.nextRef (some {}) ∧
      w2.nextRef = w.nextRef + 1 := by
  unfold execFinish at h
  split at h
  · exact Outcome.noConfusion h
  split at h
  · exact Outcome.noConfusion h
  split at h
  · exact Outcome.noConfusion h
  split at h
  · exact Outcome.noConfusion h
  · exact Outcome.noConfusion h
  split at h
  · exact Outcome.noConfusion h
  split at h
  · exact Outcome.noConfusion h
  split at h
  · exact Outcome.noConfusion h
  have hh := Outcome.done.inj h
  rw [Prod.mk.injEq] at hh
  obtain ⟨h1, h2⟩ := hh
  subst h2
  exact ⟨h1.symm, rfl, rfl⟩

/-- What `terminateBegin` has done when it stands at its first wait. -/
theorem terminateBegin_inv {k : TerminateKernel} {w w2 : World} {self parent g : Ref}
    (h : terminateBegin k w self = .done ((parent, g), w2)) :
    ∃ me gen, w.procs self = some me ∧ me._parent = some parent ∧
      me._currentGeneration = some g ∧ w.gens g = some gen ∧
      w2 = w.setGen g { gen with inTermination := true, cancelServe := true } := by
  unfold terminateBegin at h
  split at h
  · exact Outcome.noConfusion h
  rename_i me hme
  split at h
  · exact Outcome.noConfusion h
  rename_i parent2 hpar
  split at h
  · exact Outcome.noConfusion h
  split at h
  · exact Outcome.noConfusion h
  rename_i g2 hg
  split at h
  · exact Outcome.noConfusion h
  rename_i gen hgen
  have hh := Outcome.done.inj h
  rw [Prod.mk.injEq, Prod.mk.injEq] at hh
  obtain ⟨⟨h1, h2⟩, h3⟩ := hh
  subst h1
  subst h2
  exact ⟨me, gen, hme, hpar, hg, hgen, h3.symm⟩

/-- The second part of `terminate` has the frame of the heap. -/
theorem terminateFinish_frame {SIGCHLD : Int} {signalNoChildWait : Nat} {uid0 : Int}
    {k : TerminateKernel} {fuel : Nat} {w w2 : World} {self parent : Ref}
    {state : TerminationState}
    (h : terminateFinish SIGCHLD signalNoChildWait uid0 k fuel w self parent state =
      some (.done w2)) : FrameKept w w2 := by
  unfold terminateFinish at h
  split at h
  · cases h
  · split at h
    · cases h
    · split at h
      · cases h
      · split at h
        · rename_i w3 hrc
          exact ((FrameKept.setProc w self _).trans
            (reparentChildren_frame _ _ _ _ _ _ _ hrc)).trans
            (notifyParent_frame (Option.some.inj h))
        · cases h
        · cases h
      · cases h
      · cases h

/-- The atomic `terminate` is `terminateFinish` with the parent of the process,
when the first part of `terminate` passes: the process has a parent and a
generation and `helKillThread` succeeds. -/
theorem terminate_eq_finish (SIGCHLD : Int) (signalNoChildWait : Nat) (uid0 : Int)
    (k : TerminateKernel) (fuel : Nat) (w : World) (self parent g : Ref) (me : Process)
    (state : TerminationState) (hme : w.procs self = some me)
    (hpar : me._parent = some parent) (hkill : k.killThread = HelError.kHelErrNone)
    (hg : me._currentGeneration = some g) :
    terminate SIGCHLD signalNoChildWait uid0 k fuel w self state =
      terminateFinish SIGCHLD signalNoChildWait uid0 k fuel w self parent state := by
  unfold terminate terminateFinish
  cases me
  simp only at hpar hg
  subst hpar
  subst hg
  simp only [hme, hkill, ne_eq, not_true_eq_false, if_false]

/-- A step of the serve loops changes the generations only, at an address in
use, and clears no flag. -/
theorem ServeStep.facts {w w2 : World} (h : ServeStep w w2) :
    w2.procs = w.procs ∧ w2.filectxs = w.filectxs ∧ w2.sigctxs = w.sigctxs ∧
    w2.vmctxs = w.vmctxs ∧ w2.nextRef = w.nextRef ∧
    (∀ r, w.gens r = none → w2.gens r = none) ∧
    (∀ r gen, w.gens r = some gen → ∃ gen2, w2.gens r = some gen2 ∧
      (gen.inTermination = true → gen2.inTermination = true) ∧
      (gen.cancelServe = true → gen2.cancelServe = true) ∧
      (gen.signalsDone = true → gen2.signalsDone = true) ∧
      (gen.requestsDone = true → gen2.requestsDone = true)) := by
  cases h with
  | signalsDone g gen0 hg =>
    refine ⟨rfl, rfl, rfl, rfl, rfl, ?_, ?_⟩
    · intro r hr
      have hne : r ≠ g := by
        intro hEq; rw [hEq, hg] at hr; cases hr
      rw [setGen_gens_ne _ _ hne]
      exact hr
    · intro r gen hr
      by_cases hrg : r = g
      · subst hrg
        rw [hg] at hr
        cases hr
        exact ⟨_, setGen_gens_same _ _ _, fun a => a, fun a => a, fun _ => rfl, fun a => a⟩
      · exact ⟨gen, by rw [setGen_gens_ne _ _ hrg]; exact hr, fun a => a, fun a => a,
          fun a => a, fun a => a⟩
  | requestsDone g gen0 hg =>
    refine ⟨rfl, rfl, rfl, rfl, rfl, ?_, ?_⟩
    · intro r hr
      have hne : r ≠ g := by
        intro hEq; rw [hEq, hg] at hr; cases hr
      rw [setGen_gens_ne _ _ hne]
      exact hr
    · intro r gen hr
      by_cases hrg : r = g
      · subst hrg
        rw [hg] at hr
        cases hr
        exact ⟨_, setGen_gens_same _ _ _, fun a => a, fun a => a, fun a => a, fun _ => rfl⟩
      · exact ⟨gen, by rw [setGen_gens_ne _ _ hrg]; exact hr, fun a => a, fun a => a,
          fun a => a, fun a => a⟩

theorem ServeStep.marked {w w2 : World} (h : ServeStep w w2) {g : Ref} (hm : Marked w g) :
    Marked w2 g := by
  obtain ⟨gen, h1, h2, h3⟩ := hm
  obtain ⟨gen2, a1, a2, a3, _, _⟩ := h.facts.2.2.2.2.2.2 g gen h1
  exact ⟨gen2, a1, a2 h2, a3 h3⟩

theorem ServeStep.drained {w w2 : World} (h : ServeStep w w2) {g : Ref} (hm : Drained w g) :
    Drained w2 g := by
  obtain ⟨gen, h1, h2, h3⟩ := hm
  obtain ⟨gen2, a1, _, _, a4, a5⟩ := h.facts.2.2.2.2.2.2 g gen h1
  exact ⟨gen2, a1, a4 h2, a5 h3⟩

/-- The invariant of the states of a call of `exec`. -/
theorem execRun_inv (k : ExecKernel) (process : Ref) (path : List Char) (w0 : World)
    (p0 : Process) (g0 : Ref) (hp0 : w0.procs process = some p0)
    (hg0 : p0._currentGeneration = some g0)
    (hfresh : ∀ r, w0.nextRef ≤ r → w0.gens r = none) :
    ∀ c, ExecRun k process path w0 c →
      (∀ r, c.1.nextRef ≤ r → c.1.gens r = none) ∧ w0.nextRef ≤ c.1.nextRef ∧
      ((∀ e, c.2 ≠ ExecPc.returned e) →
        c.1.procs = w0.procs ∧ c.1.filectxs = w0.filectxs ∧ c.1.sigctxs = w0.sigctxs ∧
        ∀ r, r < w0.nextRef → c.1.vmctxs r = w0.vmctxs r) ∧
      (∀ f, c.2 = ExecPc.awaitSignals f ∨ c.2 = ExecPc.awaitRequests f →
        f.previousGeneration = g0 ∧ Marked c.1 g0) ∧
      (∀ f, c.2 = ExecPc.awaitRequests f →
        ∃ gen, c.1.gens g0 = some gen ∧ gen.signalsDone = true) ∧
      (∀ e, c.2 = ExecPc.returned e →
        (c.1.procs = w0.procs ∧ c.1.filectxs = w0.filectxs ∧ c.1.sigctxs = w0.sigctxs ∧
          ∀ r, r < w0.nextRef → c.1.vmctxs r = w0.vmctxs r) ∨
        (Drained c.1 g0 ∧ Marked c.1 g0)) := by
  intro c hc
  induction hc with
  | start =>
    refine ⟨hfresh, le_refl _, fun _ => ⟨rfl, rfl, rfl, fun _ _ => rfl⟩, ?_, ?_, ?_⟩
    · intro f hf
      rcases hf with hf | hf <;> cases hf
    · intro f hf; cases hf
    · intro e he; cases he
  | step hrun hstep ih =>
    obtain ⟨j1, j0, j2, j3, j4, j5⟩ := ih
    cases hstep with
    | begin hb =>
      rename_i w w2 f
      obtain ⟨_, p, gen, hp, hpg, _, hgen, hgens, b1, b2, b3, _, _, b6, b7⟩ :=
        execBegin_waiting_inv hb
      simp only at j1 j0
      obtain ⟨s1, s2, s3, s4⟩ := j2 (fun e he => ExecPc.noConfusion he)
      have hlive : f.previousGeneration < w.nextRef := by
        by_contra hc
        rw [j1 _ (Nat.le_of_not_lt hc)] at hgen
        cases hgen
      have hfg : f.previousGeneration = g0 := by
        simp only at s1
        rw [s1, hp0] at hp
        cases hp
        rw [hg0] at hpg
        exact (Option.some.inj hpg).symm
      refine ⟨?_, ?_, fun _ => ⟨b1.trans s1, b3.trans s2, b2.trans s3, ?_⟩, ?_, ?_, ?_⟩
      · intro r hr
        simp only at hr ⊢
        rw [b6] at hr
        rw [hgens, Function.update_noteq (by (try unfold Ref at *); omega)]
        exact j1 r (by (try unfold Ref at *); omega)
      · simp only at j0 ⊢
        rw [b6]
        (try unfold Ref at *); omega
      · intro r hr
        simp only at j0 ⊢
        rw [b7 r (by (try unfold Ref at *); omega)]
        exact s4 r hr
      · intro f2 hf2
        rcases hf2 with hf2 | hf2
        · cases hf2
          refine ⟨hfg, { gen with inTermination := true, cancelServe := true }, ?_, rfl, rfl⟩
          simp only
          rw [hgens, ← hfg, Function.update_same]
        · cases hf2
      · intro f2 hf2; cases hf2
      · intro e he; cases he
    | fail hb =>
      rename_i w w2 e
      obtain ⟨_, a1, a2, _, _, _, _, a7, _, a9, _, _, a12, a13, _⟩ := execBegin_failed_inv hb
      simp only at j1 j0
      obtain ⟨s1, s2, s3, s4⟩ := j2 (fun e he => ExecPc.noConfusion he)
      refine ⟨?_, ?_, fun hne => absurd rfl (hne e), ?_, ?_, ?_⟩
      · intro r hr
        simp only at hr ⊢
        rw [a12] at hr
        rw [a7]
        exact j1 r (by (try unfold Ref at *); omega)
      · simp only at j0 ⊢
        rw [a12]
        (try unfold Ref at *); omega
      · intro f2 hf2
        rcases hf2 with hf2 | hf2 <;> cases hf2
      · intro f2 hf2; cases hf2
      · intro e2 _
        refine Or.inl ⟨a1.trans s1, a9.trans s2, a2.trans s3, ?_⟩
        intro r hr
        simp only at j0 ⊢
        rw [a13 r (by (try unfold Ref at *); omega)]
        exact s4 r hr
    | signals hgen hsig =>
      rename_i w f gen
      obtain ⟨hfg, hm⟩ := j3 f (Or.inl rfl)
      refine ⟨j1, j0, fun _ => j2 (fun e he => ExecPc.noConfusion he), ?_, ?_, ?_⟩
      · intro f2 hf2
        rcases hf2 with hf2 | hf2
        · cases hf2
        · cases hf2
          exact ⟨hfg, hm⟩
      · intro f2 hf2
        cases hf2
        rw [hfg] at hgen
        exact ⟨gen, hgen, hsig⟩
      · intro e he; cases he
    | requests hgen hreq hfin =>
      rename_i w w2 f gen e
      obtain ⟨hfg, gm, hm1, hm2, hm3⟩ := j3 f (Or.inr rfl)
      obtain ⟨gs, hs1, hs2⟩ := j4 f rfl
      obtain ⟨_, hgens, hnext⟩ := execFinish_inv hfin
      simp only at hgen hm1 hs1 j1 j0
      rw [hfg] at hgen
      rw [hgen] at hm1 hs1
      cases hm1
      cases hs1
      have hlive : g0 ≠ w.nextRef := by
        intro hEq
        rw [j1 g0 (by rw [hEq])] at hgen
        cases hgen
      have hg2 : w2.gens g0 = some gen := by
        rw [hgens, Function.update_noteq hlive, hgen]
      refine ⟨?_, ?_, fun hne => absurd rfl (hne e), ?_, ?_, ?_⟩
      · intro r hr
        simp only at hr ⊢
        rw [hnext] at hr
        rw [hgens, Function.update_noteq (by (try unfold Ref at *); omega)]
        exact j1 r (by (try unfold Ref at *); omega)
      · simp only
        rw [hnext]
        (try unfold Ref at *); omega
      · intro f2 hf2
        rcases hf2 with hf2 | hf2 <;> cases hf2
      · intro f2 hf2; cases hf2
      · intro e2 _
        exact Or.inr ⟨⟨gen, hg2, hs2, hreq⟩, ⟨gen, hg2, hm2, hm3⟩⟩
    | serve hs =>
      rename_i w w2 pc
      obtain ⟨a1, a2, a3, a4, a5, a6, a7⟩ := hs.facts
      simp only at j1 j0
      refine ⟨?_, ?_, ?_, ?_, ?_, ?_⟩
      · intro r hr
        simp only at hr ⊢
        rw [a5] at hr
        exact a6 r (j1 r hr)
      · simp only at j0 ⊢
        rw [a5]
        exact j0
      · intro hne
        obtain ⟨s1, s2, s3, s4⟩ := j2 hne
        exact ⟨a1.trans s1, a2.trans s2, a3.trans s3, fun r hr => by
          simp only
          rw [a4]
          exact s4 r hr⟩
      · intro f hf
        obtain ⟨hfg, hm⟩ := j3 f hf
        exact ⟨hfg, hs.marked hm⟩
      · intro f hf
        obtain ⟨gen, h1, h2⟩ := j4 f hf
        obtain ⟨gen2, b1, _, _, b4, _⟩ := a7 g0 gen h1
        exact ⟨gen2, b1, b4 h2⟩
      · intro e he
        rcases j5 e he with ⟨s1, s2, s3, s4⟩ | ⟨hd, hm⟩
        · exact Or.inl ⟨a1.trans s1, a2.trans s2, a3.trans s3, fun r hr => by
            simp only
            rw [a4]
            exact s4 r hr⟩
        · exact Or.inr ⟨hs.drained hd, hs.marked hm⟩

/-- The invariant of the states of a call of `terminate`. -/
theorem terminateRun_inv (SIGCHLD : Int) (signalNoChildWait : Nat) (uid0 : Int)
    (k : TerminateKernel) (fuel : Nat) (self : Ref) (state : TerminationState) (w0 : World)
    (p0 : Process) (g0 : Ref) (hp0 : w0.procs self = some p0)
    (hg0 : p0._currentGeneration = some g0) :
    ∀ c, TerminateRun SIGCHLD signalNoChildWait uid0 k fuel self state w0 c →
      (c.2 ≠ TerminatePc.finished →
        c.1.procs = w0.procs ∧ c.1.filectxs = w0.filectxs ∧ c.1.sigctxs = w0.sigctxs ∧
        c.1.vmctxs = w0.vmctxs) ∧
      (∀ parent g, c.2 = TerminatePc.awaitSignals parent g ∨
          c.2 = TerminatePc.awaitRequests parent g →
        g = g0 ∧ p0._parent = some parent ∧ Marked c.1 g0) ∧
      (∀ parent g, c.2 = TerminatePc.awaitRequests parent g →
        ∃ gen, c.1.gens g0 = some gen ∧ gen.signalsDone = true) ∧
      (c.2 = TerminatePc.finished → Drained c.1 g0 ∧ Marked c.1 g0) := by
  intro c hc
  induction hc with
  | start =>
    refine ⟨fun _ => ⟨rfl, rfl, rfl, rfl⟩, ?_, ?_, ?_⟩
    · intro parent g hf
      rcases hf with hf | hf <;> cases hf
    · intro parent g hf; cases hf
    · intro hf; cases hf
  | step hrun hstep ih =>
    obtain ⟨j2, j3, j4, j5⟩ := ih
    cases hstep with
    | begin hb =>
      rename_i w w2 parent g
      obtain ⟨me, gen, hme, hpar, hg, hgen, hw2⟩ := terminateBegin_inv hb
      obtain ⟨s1, s2, s3, s4⟩ := j2 (fun he => TerminatePc.noConfusion he)
      simp only at s1 s2 s3 s4
      rw [s1, hp0] at hme
      cases hme
      rw [hg0] at hg
      have hgg : g0 = g := Option.some.inj hg
      subst hgg
      subst hw2
      refine ⟨fun _ => ⟨s1, s2, s3, s4⟩, ?_, ?_, ?_⟩
      · intro parent2 g2 hf
        rcases hf with hf | hf
        · cases hf
          exact ⟨rfl, hpar,
            { gen with inTermination := true, cancelServe := true },
            setGen_gens_same _ _ _, rfl, rfl⟩
        · cases hf
      · intro parent2 g2 hf; cases hf
      · intro hf; cases hf
    | signals hgen hsig =>
      rename_i w parent g gen
      obtain ⟨hgg, hpar, hm⟩ := j3 parent g (Or.inl rfl)
      refine ⟨fun _ => j2 (fun he => TerminatePc.noConfusion he), ?_, ?_, ?_⟩
      · intro parent2 g2 hf
        rcases hf with hf | hf
        · cases hf
        · cases hf
          exact ⟨hgg, hpar, hm⟩
      · intro parent2 g2 hf
        cases hf
        rw [hgg] at hgen
        exact ⟨gen, hgen, hsig⟩
      · intro hf; cases hf
    | requests hgen hreq hfin =>
      rename_i w w2 parent g gen
      obtain ⟨hgg, _, gm, hm1, hm2, hm3⟩ := j3 parent g (Or.inr rfl)
      obtain ⟨gs, hs1, hs2⟩ := j4 parent g rfl
      obtain ⟨_, _, _, e4, _⟩ := terminateFinish_frame hfin
      simp only at hgen hm1 hs1
      rw [hgg] at hgen
      rw [hgen] at hm1 hs1
      cases hm1
      cases hs1
      have hg2 : w2.gens g0 = some gen := by rw [e4, hgen]
      refine ⟨fun hne => absurd rfl hne, ?_, ?_, ?_⟩
      · intro parent2 g2 hf
        rcases hf with hf | hf <;> cases hf
      · intro parent2 g2 hf; cases hf
      · intro _
        exact ⟨⟨gen, hg2, hs2, hreq⟩, ⟨gen, hg2, hm2, hm3⟩⟩
    | serve hs =>
      rename_i w w2 pc
      obtain ⟨a1, a2, a3, a4, a5, a6, a7⟩ := hs.facts
      refine ⟨?_, ?_, ?_, ?_⟩
      · intro hne
        obtain ⟨s1, s2, s3, s4⟩ := j2 hne
        exact ⟨a1.trans s1, a2.trans s2, a3.trans s3, a4.trans s4⟩
      · intro parent g hf
        obtain ⟨hgg, hpar, hm⟩ := j3 parent g hf
        exact ⟨hgg, hpar, hs.marked hm⟩
      · intro parent g hf
        obtain ⟨gen, h1, h2⟩ := j4 parent g hf
        obtain ⟨gen2, b1, _, _, b4, _⟩ := a7 g0 gen h1
        exact ⟨gen2, b1, b4 h2⟩
      · intro hf
        obtain ⟨hd, hm⟩ := j5 hf
        exact ⟨hs.drained hd, hs.marked hm⟩

/-! ## Claims on `exec` and on the waits of `exec` and `terminate` -/

/-- C22: when the loader reports the error `e` (and no context is at the
address of the one made for the loader), every call of `exec` that returns
returns `e`, and every object of the heap is as before the call: the processes,
so the contexts, the generation, the thread descriptor, the name and the path of
the caller; the address-space contexts with their region maps; the signal
contexts with their handlers and queues; the file-descriptor contexts with their
tables; and the generations, none newly marked or cancelled. And `exec` does
return when `helCreateSpace` succeeds and the process has its filesystem and
file-descriptor contexts. -/
theorem exec_failure_atomic (k : ExecKernel) (w : World) (process : Ref) (path : List Char)
    (e : Error) (hload : k.loader.result = Except.error e)
    (hfresh : w.vmctxs w.nextRef = none) :
    (∀ e2 w2, exec k w process path = .done (e2, w2) →
      e2 = e ∧ w2.procs = w.procs ∧ w2.vmctxs = w.vmctxs ∧ w2.sigctxs = w.sigctxs ∧
      w2.filectxs = w.filectxs ∧ w2.gens = w.gens ∧ w2.fsctxs = w.fsctxs ∧
      w2.groups = w.groups ∧ w2.hulls = w.hulls ∧ w2.sessions = w.sessions ∧
      w2.terminals = w.terminals ∧ w2.globalPidMap = w.globalPidMap ∧
      w2.nextPid = w.nextPid) ∧
    (∀ p vfs cfs vfile cfile, k.createSpace.1 = HelError.kHelErrNone →
      w.procs process = some p → p._fsContext = some vfs → w.fsctxs vfs = some cfs →
      p._fileContext = some vfile → w.filectxs vfile = some cfile →
      ∃ w2, exec k w process path = .done (e, w2)) := by
  constructor
  · intro e2 w2 h
    unfold exec at h
    split at h
    · exact Outcome.noConfusion h
    · exact Outcome.noConfusion h
    · rename_i e3 w3 hb
      have hh := Outcome.done.inj h
      rw [Prod.mk.injEq] at hh
      obtain ⟨h1, h2⟩ := hh
      subst h1
      subst h2
      obtain ⟨hres, a1, a2, a3, a4, a5, a6, a7, a8, a9, a10, a11, _, a13, a14⟩ :=
        execBegin_failed_inv hb
      rw [hload] at hres
      refine ⟨(Except.error.inj hres).symm, a1, ?_, a2, a9, a7, a8, a3, a4, a5, a6, a10, a11⟩
      funext r
      by_cases hr : r = w.nextRef
      · rw [hr, a14, hfresh]
      · exact a13 r hr
    · rename_i f w3 hb
      obtain ⟨⟨res, hres⟩, _⟩ := execBegin_waiting_inv hb
      rw [hload] at hres
      cases hres
  · intro p vfs cfs vfile cfile hspace hp hfs1 hfs2 hfl1 hfl2
    have hb : ∃ w2, execBegin k w process = .done (ExecStart.failed e, w2) := by
      unfold execBegin VmContext.create execute
      simp only [hspace, ne_eq, not_true_eq_false, if_false, hp, hfs1, hfl1, Option.some_bind,
        hfs2, hfl2, setVmctx_vmctxs_same, hload]
      exact ⟨_, rfl⟩
    obtain ⟨w2, hw2⟩ := hb
    refine ⟨w2, ?_⟩
    unfold exec
    rw [hw2]

/-- Witness of C22: the loader fails with `noMemory` for the process of pid 1 of
`sampleInit`; `exec` returns that error and the process is as before. -/
theorem exec_failure_atomic_witness :
    ∃ w2, exec failingExecKernel sampleInit 1 samplePath = .done (Error.noMemory, w2) ∧
      w2.procs = sampleInit.procs ∧ w2.vmctxs = sampleInit.vmctxs ∧
      w2.sigctxs = sampleInit.sigctxs ∧ w2.filectxs = sampleInit.filectxs ∧
      w2.gens = sampleInit.gens := by
  obtain ⟨hall, hex⟩ := exec_failure_atomic failingExecKernel sampleInit 1 samplePath
    Error.noMemory rfl rfl
  obtain ⟨w2, hw2⟩ := hex sampleInitProcess 3 (FsContext.create 1 18) 4
    (match sampleInit.filectxs 4 with
      | some c => c
      | none => {}) rfl rfl rfl rfl rfl rfl
  obtain ⟨_, h1, h2, h3, h4, h5, _⟩ := hall Error.noMemory w2 hw2
  exact ⟨w2, hw2, h1, h2, h3, h4, h5⟩

/-- C23: `exec` and `terminate` of the process `p0` at `process`, with the
generation at `g0`, run as sequences of steps between which the serve loops
raise the events of the generations. In every state of a call of `exec`: at
either wait the generation held is `g0` and it is marked in termination with
its token cancelled, at the second wait `signalsDone` has been raised, and as
long as `signalsDone` or `requestsDone` of `g0` has not been raised the process
is as at the start (its address-space context and its generation are not
replaced), no file-descriptor context is changed (no descriptor is closed), and
no signal context and no address-space context that was there is changed. In
every state of a call of `terminate`: at either wait the generation held is `g0`
and it is marked and cancelled, and as long as one of the two events has not
been raised every process is as at the start (no context is unset). -/
theorem drain_barrier (process : Ref) (w0 : World) (p0 : Process) (g0 : Ref)
    (hp0 : w0.procs process = some p0) (hg0 : p0._currentGeneration = some g0)
    (hfresh : ∀ r, w0.nextRef ≤ r → w0.gens r = none) :
    (∀ (k : ExecKernel) (path : List Char) (w : World) (pc : ExecPc),
      ExecRun k process path w0 (w, pc) →
      (∀ f, pc = ExecPc.awaitSignals f ∨ pc = ExecPc.awaitRequests f →
        f.previousGeneration = g0 ∧ Marked w g0) ∧
      (∀ f, pc = ExecPc.awaitRequests f →
        ∃ gen, w.gens g0 = some gen ∧ gen.signalsDone = true) ∧
      (¬ Drained w g0 →
        w.procs process = some p0 ∧ w.filectxs = w0.filectxs ∧ w.sigctxs = w0.sigctxs ∧
        ∀ r, r < w0.nextRef → w.vmctxs r = w0.vmctxs r)) ∧
    (∀ (SIGCHLD : Int) (signalNoChildWait : Nat) (uid0 : Int) (k : TerminateKernel)
      (fuel : Nat) (state : TerminationState) (w : World) (pc : TerminatePc),
      TerminateRun SIGCHLD signalNoChildWait uid0 k fuel process state w0 (w, pc) →
      (∀ parent g, pc = TerminatePc.awaitSignals parent g ∨
          pc = TerminatePc.awaitRequests parent g → g = g0 ∧ Marked w g0) ∧
      (∀ parent g, pc = TerminatePc.awaitRequests parent g →
        ∃ gen, w.gens g0 = some gen ∧ gen.signalsDone = true) ∧
      (¬ Drained w g0 → w.procs = w0.procs ∧ w.procs process = some p0)) := by
  constructor
  · intro k path w pc hrun
    obtain ⟨_, _, j2, j3, j4, j5⟩ :=
      execRun_inv k process path w0 p0 g0 hp0 hg0 hfresh (w, pc) hrun
    refine ⟨j3, j4, ?_⟩
    intro hnd
    have hsame : w.procs = w0.procs ∧ w.filectxs = w0.filectxs ∧ w.sigctxs = w0.sigctxs ∧
        ∀ r, r < w0.nextRef → w.vmctxs r = w0.vmctxs r := by
      by_cases hret : ∃ e, pc = ExecPc.returned e
      · obtain ⟨e, he⟩ := hret
        rcases j5 e he with hs | ⟨hd, _⟩
        · exact hs
        · exact absurd hd hnd
      · exact j2 (fun e he => hret ⟨e, he⟩)
    exact ⟨by rw [hsame.1]; exact hp0, hsame.2.1, hsame.2.2.1, hsame.2.2.2⟩
  · intro SIGCHLD signalNoChildWait uid0 k fuel state w pc hrun
    obtain ⟨j2, j3, j4, j5⟩ :=
      terminateRun_inv SIGCHLD signalNoChildWait uid0 k fuel process state w0 p0 g0 hp0 hg0
        (w, pc) hrun
    refine ⟨fun parent g hf => ⟨(j3 parent g hf).1, (j3 parent g hf).2.2⟩, j4, ?_⟩
    intro hnd
    have hne : pc ≠ TerminatePc.finished := fun hf => hnd (j5 hf).1
    have hsame := (j2 hne).1
    exact ⟨hsame, by rw [hsame]; exact hp0⟩

theorem sampleInit_gens_fresh : ∀ r, sampleInit.nextRef ≤ r → sampleInit.gens r = none :=
  fun r hr =>
    ((init_inv okInitKernel samplePath 1 sampleInit sampleInit_run).1.fresh r hr).2.2.2.2.1

theorem sampleExecWaiting_run :
    ExecRun okExecKernel 1 samplePath sampleInit
      (sampleExecWaiting.1,
        ExecPc.awaitSignals ⟨9, ⟨21, 300, 400⟩, 22, 23, 20480, 24576, 28672, 32768, 8⟩) :=
  ExecRun.step ExecRun.start (ExecStep.begin rfl)

/-- Witness of C23: `exec` of the process of pid 1 of `sampleInit` stands at its
first wait; the generation at 8 is marked and cancelled, its events are not
raised, and the process is as at the start. -/
theorem drain_barrier_witness :
    ExecRun okExecKernel 1 samplePath sampleInit
      (sampleExecWaiting.1,
        ExecPc.awaitSignals ⟨9, ⟨21, 300, 400⟩, 22, 23, 20480, 24576, 28672, 32768, 8⟩) ∧
      Marked sampleExecWaiting.1 8 ∧ ¬ Drained sampleExecWaiting.1 8 ∧
      sampleExecWaiting.1.procs 1 = some sampleInitProcess ∧
      sampleExecWaiting.1.filectxs = sampleInit.filectxs := by
  have hnd : ¬ Drained sampleExecWaiting.1 8 := by
    intro hd
    obtain ⟨gen, h1, h2, _⟩ := hd
    have h3 : sampleExecWaiting.1.gens 8 =
        some { inTermination := true, cancelServe := true } := rfl
    rw [h3] at h1
    rw [← Option.some.inj h1] at h2
    cases h2
  obtain ⟨h1, _, h3⟩ := (drain_barrier 1 sampleInit sampleInitProcess 8 rfl rfl
    sampleInit_gens_fresh).1 okExecKernel samplePath _ _ sampleExecWaiting_run
  exact ⟨sampleExecWaiting_run, (h1 _ (Or.inl rfl)).2, hnd, (h3 hnd).1, (h3 hnd).2.1⟩

/-! ## The family of a process that waits -/

theorem waitEvent_step (bits : WaitFlagBits) (flags : Nat) (SIGCHLD : Int)
    (signalNoChildWait : Nat) (uid0 : Int) (self : Ref) (s s2 : WaitState) (e : WaitEvent)
    (h : waitEvent bits flags SIGCHLD signalNoChildWait uid0 self s e = some s2) :
    WaitStep bits flags SIGCHLD signalNoChildWait uid0 self s s2 := by
  cases e with
  | begin k c =>
    simp only [waitEvent] at h
    split at h
    · cases h
    rename_i me hme
    split at h
    · rename_i hc
      split at h
      · rename_i parent g w2 hb
        rw [← Option.some.inj h]
        exact WaitStep.begin k c parent g me w2 hme hc hb
      · cases h
    · cases h
  | signalsDone g =>
    simp only [waitEvent] at h
    split at h
    · rename_i gen hg
      rw [← Option.some.inj h]
      exact WaitStep.serve _ (ServeStep.signalsDone g gen hg)
    · cases h
  | requestsDone g =>
    simp only [waitEvent] at h
    split at h
    · rename_i gen hg
      rw [← Option.some.inj h]
      exact WaitStep.serve _ (ServeStep.requestsDone g gen hg)
    · cases h
  | finish k fuel c parent g state =>
    simp only [waitEvent] at h
    split at h
    · rename_i hmem
      split at h
      · rename_i gen hg
        split at h
        · rename_i hd
          split at h
          · rename_i w2 hf
            rw [← Option.some.inj h]
            exact WaitStep.finish k fuel c parent g state w2 hmem ⟨gen, hg, hd.1, hd.2⟩ hf
          · cases h
        · cases h
      · cases h
    · cases h
  | call =>
    simp only [waitEvent] at h
    split at h
    · rename_i hs
      split at h
      · rename_i o w2 hw
        rw [← Option.some.inj h]
        exact WaitStep.call o w2 hs hw
      · cases h
    · cases h
  | resume =>
    simp only [waitEvent] at h
    split at h
    · rename_i hs
      split at h
      · rename_i o w2 hw
        rw [← Option.some.inj h]
        exact WaitStep.resume o w2 hs hw
      · cases h
    · cases h

theorem waitScript_run (bits : WaitFlagBits) (flags : Nat) (SIGCHLD : Int)
    (signalNoChildWait : Nat) (uid0 : Int) (self : Ref) (w0 : World) (es : List WaitEvent) :
    ∀ s s2, WaitRun bits flags SIGCHLD signalNoChildWait uid0 self w0 s →
      waitScript bits flags SIGCHLD signalNoChildWait uid0 self s es = some s2 →
      WaitRun bits flags SIGCHLD signalNoChildWait uid0 self w0 s2 := by
  induction es with
  | nil =>
    intro s s2 hr h
    simp only [waitScript, Option.some.injEq] at h
    rw [← h]
    exact hr
  | cons e rest ih =>
    intro s s2 hr h
    rw [waitScript] at h
    split at h
    · rename_i s1 h1
      exact ih s1 s2 (hr.step (waitEvent_step bits flags SIGCHLD signalNoChildWait uid0 self
        s s1 e h1)) h
    · cases h

/-- The invariant of the heap holds on when a generation that is there changes. -/
theorem ProcInv.setGen {w : World} (hi : ProcInv w) (g : Ref) (gen gen2 : Generation)
    (hg : w.gens g = some gen) : ProcInv (w.setGen g gen2) where
  registered := hi.registered
  pids := hi.pids
  fresh := by
    intro r hr
    obtain ⟨h1, h2, h3, h4, h5, h6, h7, h8⟩ := hi.fresh r hr
    have hne : r ≠ g := by
      intro hEq
      rw [hEq, hg] at h5
      cases h5
    exact ⟨h1, h2, h3, h4, by rw [setGen_gens_ne _ _ hne]; exact h5, h6, h7, h8⟩
  rank := hi.rank
  children := hi.children
  nodup := hi.nodup
  noPdeath := hi.noPdeath
  signal := hi.signal
  group := hi.group
  running := hi.running
  generation := hi.generation
  terminated := hi.terminated

/-- The invariant of the heap holds on when, of the processes, only the lists of
children shrink and the notify queues, the usage of the children and the links
in `procfs` change. -/
theorem ProcInv.trimmed {w w2 : World} (hi : ProcInv w) (hf : FrameKept w w2)
    (hs : w2.sigctxs = w.sigctxs) (hg : w2.groups = w.groups)
    (hnone : ∀ r, w.procs r = none → w2.procs r = none)
    (hsome : ∀ r p, w.procs r = some p → ∃ p2, w2.procs r = some p2 ∧
      p2 = { p with
        _children := p2._children
        _notifyQueue := p2._notifyQueue
        _childrenUsage := p2._childrenUsage
        _procfs_dir := p2._procfs_dir } ∧
      (∀ c ∈ p2._children, c ∈ p._children) ∧ p2._children.Nodup) : ProcInv w2 := by
  obtain ⟨e1, e2, e3, e4, e5, e6, e7, e8, e9, e10⟩ := hf
  have hback : ∀ r p2, w2.procs r = some p2 → ∃ p, w.procs r = some p ∧
      p2 = { p with
        _children := p2._children
        _notifyQueue := p2._notifyQueue
        _childrenUsage := p2._childrenUsage
        _procfs_dir := p2._procfs_dir } ∧
      (∀ c ∈ p2._children, c ∈ p._children) := by
    intro r p2 hp2
    cases hp : w.procs r with
    | none => rw [hnone r hp] at hp2; cases hp2
    | some p =>
      obtain ⟨p3, h3, h4, h5, _⟩ := hsome r p hp
      rw [hp2] at h3
      cases h3
      exact ⟨p, rfl, h4, h5⟩
  refine ⟨?_, ?_, ?_, ?_, ?_, ?_, ?_, ?_, ?_, ?_, ?_, ?_⟩
  · intro pid r hr
    rw [e8] at hr
    rw [e9]
    exact hi.registered pid r hr
  · intro r p2 hp2
    obtain ⟨p, hp, heq, _⟩ := hback r p2 hp2
    rw [e9, heq]
    exact hi.pids r p hp
  · intro r hr
    rw [e10] at hr
    obtain ⟨h1, h2, h3, h4, h5, h6, h7, h8⟩ := hi.fresh r hr
    exact ⟨hnone r h1, by rw [hs]; exact h2, by rw [hg]; exact h3, by rw [e1]; exact h4,
      by rw [e4]; exact h5, by rw [e5]; exact h6, by rw [e6]; exact h7, by rw [e7]; exact h8⟩
  · obtain ⟨rank, hrank⟩ := hi.rank
    refine ⟨rank, ?_⟩
    intro x p2 q hp2 hq
    obtain ⟨p, hp, heq, _⟩ := hback x p2 hp2
    rw [heq] at hq
    obtain ⟨⟨pq, hpq⟩, hlt⟩ := hrank x p q hp hq
    obtain ⟨pq2, hpq2, _⟩ := hsome q pq hpq
    exact ⟨⟨pq2, hpq2⟩, hlt⟩
  · intro q pq2 c hq hc
    obtain ⟨pq, hpq, _, hsub⟩ := hback q pq2 hq
    obtain ⟨pc, hpc, hpar⟩ := hi.children q pq c hpq (hsub c hc)
    obtain ⟨pc2, hpc2, heq, _⟩ := hsome c pc hpc
    refine ⟨pc2, hpc2, ?_⟩
    rw [heq]
    exact hpar
  · intro q pq2 hq
    cases hp : w.procs q with
    | none => rw [hnone q hp] at hq; cases hq
    | some p =>
      obtain ⟨p3, h3, _, _, h5⟩ := hsome q p hp
      rw [hq] at h3
      cases h3
      exact h5
  · intro r p2 hp2
    obtain ⟨p, hp, heq, _⟩ := hback r p2 hp2
    rw [heq]
    exact hi.noPdeath r p hp
  · intro r p2 hp2
    obtain ⟨p, hp, heq, _⟩ := hback r p2 hp2
    obtain ⟨sc, ctx, h1, h2, h3⟩ := hi.signal r p hp
    refine ⟨sc, ctx, ?_, by rw [hs]; exact h2, h3⟩
    rw [heq]
    exact h1
  · intro r p2 hp2
    obtain ⟨p, hp, heq, _⟩ := hback r p2 hp2
    obtain ⟨G, grp, h1, h2⟩ := hi.group r p hp
    refine ⟨G, grp, ?_, by rw [hg]; exact h2⟩
    rw [heq]
    exact h1
  · intro r p2 hp2 hnull
    obtain ⟨p, hp, heq, _⟩ := hback r p2 hp2
    rw [heq] at hnull
    obtain ⟨⟨v1, c1, a1, b1⟩, ⟨v2, c2, a2, b2⟩, ⟨v3, c3, a3, b3⟩⟩ := hi.running r p hp hnull
    refine ⟨⟨v1, c1, ?_, by rw [e5]; exact b1⟩, ⟨v2, c2, ?_, by rw [e6]; exact b2⟩,
      ⟨v3, c3, ?_, by rw [e7]; exact b3⟩⟩
    · rw [heq]; exact a1
    · rw [heq]; exact a2
    · rw [heq]; exact a3
  · intro r p2 hp2 hgen
    obtain ⟨p, hp, heq, _⟩ := hback r p2 hp2
    rw [heq] at hgen ⊢
    exact hi.generation r p hp hgen
  · intro r p2 hp2 hvm
    obtain ⟨p, hp, heq, _⟩ := hback r p2 hp2
    rw [heq] at hvm ⊢
    exact hi.terminated r p hp hvm

/-- A reaping call of `wait(-1)` and the resumption of one do the same: they fail
on an empty children list and run a pass over the queue otherwise. -/
theorem nextWait_eq (bits : WaitFlagBits) (flags : Nat) (self : Ref) (s : WaitState)
    (me : Process) (hf : ReapingFlags bits flags) (hme : s.world.procs self = some me) :
    nextWait bits flags self s =
      if me._children.isEmpty then .done (.error Error.noChildProcesses, s.world)
      else waitPass bits s.world self (-1) flags := by
  unfold nextWait
  split
  · unfold waitResume
    simp [hme]
  · exact wait_args_ok bits s.world self flags me hf hme

/-- A pass of a blocking `wait` over an empty queue suspends. -/
theorem waitPass_blocks (bits : WaitFlagBits) (w : World) (self : Ref) (flags : Nat)
    (me : Process) (hme : w.procs self = some me) (hq : me._notifyQueue = [])
    (hblock : flags &&& bits.waitNonBlocking = 0) :
    waitPass bits w self (-1) flags = .done (.suspended, w) := by
  unfold waitPass
  simp [hme, hq, waitFind, hblock]

/-- A pass of a reaping `wait(-1)` over a queue with the child `c` at its head:
it returns the result of `c`, takes `c` from the queue and retires it. -/
theorem waitPass_reaps (bits : WaitFlagBits) (w : World) (self : Ref) (flags : Nat)
    (me pc : Process) (c : Ref) (rest : List Ref) (hf : ReapingFlags bits flags)
    (hme : w.procs self = some me) (hq : me._notifyQueue = c :: rest)
    (hpc : w.procs c = some pc) (hpar : pc._parent = some self) (hne : c ≠ self) :
    ∃ w2, waitPass bits w self (-1) flags = .done (.result (resultOf w c), w2) ∧
      w2.procs self = some { me with
        _notifyQueue := rest
        _childrenUsage :=
          { userTime := uadd me._childrenUsage.userTime pc._generationUsage.userTime }
        _children := me._children.filter (fun e => decide (e ≠ c)) } ∧
      w2.procs c = some { pc with _procfs_dir := pc._procfs_dir.map (fun _ => false) } ∧
      (∀ r, r ≠ self → r ≠ c → w2.procs r = w.procs r) ∧
      w2.sigctxs = w.sigctxs ∧ w2.groups = w.groups ∧ FrameKept w w2 := by
  unfold waitPass
  simp only [hme, hq, waitFind_head bits w flags c rest pc hpc hf.1, hf.2.1, if_true]
  have herase : (c :: rest).erase c = rest := by simp
  rw [herase]
  obtain ⟨w2, hret, hpar2, hself2, hother, hsig, hgrp⟩ := retire_spec
    (w.setProc self { me with _notifyQueue := rest }) c self pc
    { me with _notifyQueue := rest }
    (by rw [setProc_procs_ne _ _ hne]; exact hpc) hpar hne.symm (by simp)
  rw [hret]
  have hres : resultOf w c =
      (⟨pc.pid, pc._uid, pc._state, pc._generationUsage⟩ : WaitResult) := by
    simp [resultOf, hpc]
  refine ⟨w2, by rw [hres], hpar2, hself2, ?_, hsig, hgrp, ?_⟩
  · intro r h1 h2
    rw [hother r h2 h1, setProc_procs_ne _ _ h1]
  · exact (FrameKept.setProc w self _).trans (retire_frame hret)

/-- The second part of `terminate` does not depend on the answer to
`helKillThread`. -/
theorem terminateFinish_kernel (SIGCHLD : Int) (signalNoChildWait : Nat) (uid0 : Int)
    (k : TerminateKernel) (fuel : Nat) (w : World) (self parent : Ref)
    (state : TerminationState) :
    terminateFinish SIGCHLD signalNoChildWait uid0 k fuel w self parent state =
      terminateFinish SIGCHLD signalNoChildWait uid0
        { k with killThread := HelError.kHelErrNone } fuel w self parent state := rfl

/-- The walk up the parent links from a process ends in that process exactly when
it has no parent. -/
theorem reparentTo_self (w : World) (self R : Ref) (me : Process) (fuel : Nat)
    (hme : w.procs self = some me) (hwalk : reparentTo w fuel self = some (.done R)) :
    (me._parent = none → R = self) ∧ (me._parent ≠ none → R ≠ self) := by
  obtain ⟨_, root, hroot, hrootpar⟩ := reparentTo_root w R fuel self hwalk
  constructor
  · intro hp
    cases fuel with
    | zero => simp [reparentTo] at hwalk
    | succ n =>
      rw [reparentTo] at hwalk
      simp only [hme, hp, Option.some.injEq, Outcome.done.injEq] at hwalk
      exact hwalk.symm
  · intro hp hEq
    rw [hEq, hme] at hroot
    cases hroot
    exact hp hrootpar

/-- The second part of `terminate` of a child `c` of the process at `self`, which
keeps zombies: the invariant of the heap holds on; the child is marked
terminated and its parent link is kept; it is appended to the notification queue
of the process, whose children list is extended by the children handed over; the
other processes whose parent is the process are as before; and the handlers of
the process are as before. -/
theorem terminateFinish_child {SIGCHLD : Int} {signalNoChildWait : Nat} {uid0 : Int}
    {k : TerminateKernel} {fuel : Nat} {w w2 : World} {c self sc : Ref}
    {state : TerminationState} {pc me : Process} {ctx : SignalContext} {hd : SignalHandler}
    (hi : ProcInv w) (hS : 1 ≤ SIGCHLD ∧ SIGCHLD ≤ 64)
    (h : terminateFinish SIGCHLD signalNoChildWait uid0 k fuel w c self state =
      some (.done w2))
    (hpc : w.procs c = some pc) (hpar : pc._parent = some self)
    (hnull : pc.notifyType_ = NotifyType.null) (hgen : pc._currentGeneration ≠ none)
    (hme : w.procs self = some me) (hsc : me._signalContext = some sc)
    (hctx : w.sigctxs sc = some ctx)
    (hh : ctx._handlers[(SIGCHLD - 1).toNat]? = some hd)
    (hk : keepsZombie signalNoChildWait hd) :
    ProcInv w2 ∧ c ≠ self ∧
    (∃ pc2, w2.procs c = some pc2 ∧ pc2._parent = some self ∧
      pc2.notifyType_ = NotifyType.terminated) ∧
    w2.procs self = some { me with
      _children := me._children ++ handedOver w self c
      _notifyQueue := me._notifyQueue ++ [c] } ∧
    (∀ r p, w.procs r = some p → r ≠ c → r ≠ self → p._parent = some self →
      w2.procs r = some p) ∧
    (∃ ctx2, w2.sigctxs sc = some ctx2 ∧ ctx2._handlers = ctx._handlers) := by
  obtain ⟨g, hg⟩ := Option.ne_none_iff_exists'.mp hgen
  rw [terminateFinish_kernel, ← terminate_eq_finish SIGCHLD signalNoChildWait uid0
    { k with killThread := HelError.kHelErrNone } fuel w c self g pc state hpc hpar rfl
    hg] at h
  obtain ⟨pc', parent', R, hpc', hpar', hkill, _, hstats, hwalk, _⟩ := terminate_inv h
  rw [hpc] at hpc'
  cases hpc'
  rw [hpar] at hpar'
  cases hpar'
  have hnd := hi.nodup c pc hpc
  have hkids : ∀ d ∈ pc._children, ∃ pd, w.procs d = some pd ∧ pd._parent = some c :=
    fun d hd => hi.children c pc d hpc hd
  have hlive : LiveChildren w pc._children := by
    intro d hd
    obtain ⟨pd, hpd, _⟩ := hkids d hd
    refine ⟨pd, hpd, ?_⟩
    intro sn hsn
    rw [hi.noPdeath d pd hpd] at hsn
    cases hsn
  obtain ⟨w2', root, hrun, hroot, hrootpar, hselfR, hparself, _, hRkids, _,
    hself2, _, ⟨par0, hpar0, hparent2⟩, _, hother2, _, _, hsigsome⟩ :=
    terminate_spec SIGCHLD signalNoChildWait uid0 { k with killThread := HelError.kHelErrNone }
      fuel w c state pc me self R sc ctx hd hpc hpar hkill hstats hgen hnull hwalk hnd hkids
      hlive hme hsc hctx hS.1 hS.2 hh
  have hw : w2' = w2 := by
    rw [hrun] at h
    exact Outcome.done.inj (Option.some.inj h)
  subst hw
  have hwself := reparentTo_self w self R me fuel hme hwalk
  refine ⟨terminate_preserves SIGCHLD signalNoChildWait uid0 _ fuel w w2' c state hi hS hrun,
    hparself.symm, ⟨_, hself2, hpar, rfl⟩, ?_, ?_, ?_⟩
  · rw [hparent2, if_pos hk, hpar0]
    unfold handedOver
    simp only [hme, hpc]
    by_cases hp : me._parent = none
    · rw [if_pos ((hwself.1 hp).symm), if_pos hp]
    · rw [if_neg (fun hEq => hwself.2 hp hEq.symm), if_neg hp, List.append_nil]
  · intro r p hp hrc hrs hrpar
    rw [hother2 r ?_ hrc ?_ hrs]
    · exact hp
    · intro hmem
      obtain ⟨pd, hpd, hpdpar⟩ := hkids r hmem
      rw [hp] at hpd
      cases hpd
      rw [hrpar] at hpdpar
      exact hparself (Option.some.inj hpdpar)
    · intro hEq
      rw [hEq, hroot] at hp
      cases hp
      rw [hrootpar] at hrpar
      cases hrpar
  · obtain ⟨c1, c2, h1, h2, _, h4⟩ := hsigsome sc ctx hctx
    refine ⟨c2, h2, ?_⟩
    rw [issueSignal_handlers (h4 rfl), issueAll_handlers _ _ ctx c1 h1]

theorem take_succ_of_drop {α : Type} (l : List α) :
    ∀ (n : Nat) (e : α) (rest : List α), l.drop n = e :: rest →
      l.take (n + 1) = l.take n ++ [e] ∧ l.drop (n + 1) = rest ∧ n < l.length := by
  induction l with
  | nil => intro n e rest h; simp at h
  | cons a l ih =>
    intro n e rest h
    cases n with
    | zero =>
      simp only [List.drop_zero, List.cons.injEq] at h
      obtain ⟨h1, h2⟩ := h
      subst h1
      subst h2
      simp
    | succ n =>
      simp only [List.drop_succ_cons] at h
      obtain ⟨h1, h2, h3⟩ := ih n e rest h
      refine ⟨?_, ?_, ?_⟩
      · simp only [List.take_succ_cons, List.cons_append, h1]
      · simp only [List.drop_succ_cons, h2]
      · simp only [List.length_cons]; omega

/-- The invariant of a family holds on when only the generations change, at an
address that is there, and calls of `terminate` of children that have their
generation come to stand at their waits. -/
theorem WaitInv.of_gens {SIGCHLD : Int} {self : Ref} {me0 : Process} {sc : Ref}
    {h : SignalHandler} {s : WaitState} {me : Process}
    (hv : WaitInv SIGCHLD self me0 sc h s me) (g : Ref) (gen gen2 : Generation)
    (hg : s.world.gens g = some gen) (B : List (Ref × Ref × Ref))
    (hB : ∀ b ∈ B, b ∈ s.begun ∨ (b.2.1 = self ∧ ∃ pc, s.world.procs b.1 = some pc ∧
      pc._parent = some self ∧ pc.notifyType_ = NotifyType.null ∧
      pc._currentGeneration ≠ none ∧ b.1 ∈ me._children)) :
    WaitInv SIGCHLD self me0 sc h
      { s with world := s.world.setGen g gen2, begun := B } me := by
  obtain ⟨a1, a2, a3, a4, a5, a6, a7, a8, a9, a10, a11, a12, a13⟩ := hv
  refine ⟨a1.setGen g gen gen2 hg, a2, a3, a4, a5, a6, a7, a8, a9, a10, a11, a12, ?_⟩
  intro b hb
  rcases hB b hb with h1 | h1
  · exact a13 b h1
  · exact h1
theorem ProcInv.ne_parent {w : World} (hi : ProcInv w) {x q : Ref} {p : Process}
    (hp : w.procs x = some p) (hq : p._parent = some q) : x ≠ q := by
  obtain ⟨rank, hrank⟩ := hi.rank
  intro hEq
  have := (hrank x p q hp hq).2
  rw [hEq] at this
  exact Nat.lt_irrefl _ this

theorem WaitInv.begin {SIGCHLD : Int} {self : Ref} {me0 : Process} {sc : Ref}
    {h : SignalHandler} {s : WaitState} {me me1 : Process} {k : TerminateKernel}
    {c parent g : Ref} {w2 : World}
    (hv : WaitInv SIGCHLD self me0 sc h s me) (hme : s.world.procs self = some me1)
    (hc : c ∈ me1._children)
    (hb : terminateBegin k s.world c = .done ((parent, g), w2)) :
    WaitInv SIGCHLD self me0 sc h
      { s with world := w2, begun := (c, parent, g) :: s.begun } me := by
  obtain ⟨pc, gen, hpc, hpar, hgen, hg, hw2⟩ := terminateBegin_inv hb
  rw [hw2]
  have hv2 := hv
  obtain ⟨a1, a2, _⟩ := hv2
  rw [a2] at hme
  cases hme
  obtain ⟨pc', hpc', hpar'⟩ := a1.children self me c a2 hc
  rw [hpc] at hpc'
  cases hpc'
  rw [hpar] at hpar'
  have hps : parent = self := Option.some.inj hpar'
  subst hps
  refine hv.of_gens g gen _ hg _ ?_
  intro b hb
  rcases List.mem_cons.mp hb with h1 | h1
  · right
    rw [h1]
    exact ⟨rfl, pc, hpc, hpar, a1.generation c pc hpc (by rw [hgen]; simp),
      by rw [hgen]; simp, hc⟩
  · exact Or.inl h1

theorem WaitInv.serve {SIGCHLD : Int} {self : Ref} {me0 : Process} {sc : Ref}
    {h : SignalHandler} {s : WaitState} {me : Process} {w2 : World}
    (hv : WaitInv SIGCHLD self me0 sc h s me) (hs : ServeStep s.world w2) :
    WaitInv SIGCHLD self me0 sc h { s with world := w2 } me := by
  cases hs with
  | signalsDone g gen hg => exact hv.of_gens g gen _ hg s.begun (fun b hb => Or.inl hb)
  | requestsDone g gen hg => exact hv.of_gens g gen _ hg s.begun (fun b hb => Or.inl hb)

theorem WaitInv.finish {SIGCHLD : Int} {signalNoChildWait : Nat} {uid0 : Int} {self : Ref}
    {me0 : Process} {sc : Ref} {h : SignalHandler} {s : WaitState} {me : Process}
    {k : TerminateKernel} {fuel : Nat} {c parent g : Ref} {state : TerminationState}
    {w2 : World}
    (hv : WaitInv SIGCHLD self me0 sc h s me) (hS : 1 ≤ SIGCHLD ∧ SIGCHLD ≤ 64)
    (hk : keepsZombie signalNoChildWait h) (hb : (c, parent, g) ∈ s.begun)
    (hfin : terminateFinish SIGCHLD signalNoChildWait uid0 k fuel s.world c parent state =
      some (.done w2)) :
    WaitInv SIGCHLD self me0 sc h
      { s with
        world := w2
        begun := s.begun.filter (fun b => decide (b.1 ≠ c))
        exited := s.exited ++ [(c, resultOf w2 c)]
        adopted := s.adopted ++ handedOver s.world self c }
      { me with
        _children := me._children ++ handedOver s.world self c
        _notifyQueue := me._notifyQueue ++ [c] } := by
  obtain ⟨a1, a2, a3, a4, a5, a6, a7, a8, ⟨ctx, hctx, hh⟩, a10, a11, a12, a13⟩ := hv
  obtain ⟨hps, pc, hpc, hpar, hnull, hgen, hcmem⟩ := a13 _ hb
  simp only at hps hpc hcmem
  subst hps
  obtain ⟨hinv2, hcs, ⟨pc2, hpc2, hpar2, hnt2⟩, hself2, hsib, ⟨ctx2, hctx2, hh2⟩⟩ :=
    terminateFinish_child a1 hS hfin hpc hpar hnull hgen a2 a8 hctx hh hk
  obtain ⟨w, susp, begun, exited, adopted, returned⟩ := s
  simp only [pendingOf, reapedOf] at *
  have hnotin : c ∉ exited.map Prod.fst := by
    intro hmem
    obtain ⟨e, he, hec⟩ := List.mem_map.mp hmem
    obtain ⟨pe, hpe, _, hnte⟩ := a10 e he
    rw [hec, hpc] at hpe
    cases hpe
    rw [hnull] at hnte
    cases hnte
  have hsame : ∀ r p, w.procs r = some p → p._parent = some parent → r ≠ c →
      w2.procs r = some p := by
    intro r p hp hpp hrc
    exact hsib r p hp hrc (a1.ne_parent hp hpp) hpp
  have hkids : ∀ d ∈ handedOver w parent c, d ∉ (exited.take returned.length).map Prod.fst := by
    intro d hd hmem
    have hd2 : d ∈ pc._children := by
      unfold handedOver at hd
      simp only [a2, hpc] at hd
      split at hd
      · exact hd
      · cases hd
    obtain ⟨pd, hpd, hpdpar⟩ := a1.children c pc d hpc hd2
    obtain ⟨e, he, hed⟩ := List.mem_map.mp hmem
    obtain ⟨pe, hpe, hpepar, _⟩ := a10 e (List.mem_of_mem_take he)
    rw [hed, hpd] at hpe
    cases hpe
    rw [hpdpar] at hpepar
    exact hcs (Option.some.inj hpepar)
  refine ⟨hinv2, hself2, ?_, ?_, ?_, ?_, a7, a8, ⟨ctx2, hctx2, by rw [hh2]; exact hh⟩,
    ?_, ?_, ?_, ?_⟩
  · simp only [List.length_append, List.length_singleton]
    omega
  · simp only [pendingOf, reapedOf]
    rw [List.take_append_of_le_length a3]
    exact a4
  · simp only [pendingOf, reapedOf]
    rw [List.drop_append_of_le_length a3, List.map_append, a5]
    rfl
  · simp only [pendingOf, reapedOf, List.take_append_of_le_length a3]
    rw [a6, ← List.append_assoc, List.filter_append (me0._children ++ adopted)]
    congr 1
    symm
    apply List.filter_eq_self.mpr
    intro d hd
    simp only [decide_eq_true_eq]
    exact hkids d hd
  · intro e he
    simp only at he
    rcases List.mem_append.mp he with he | he
    · obtain ⟨pe, hpe, hpepar, hnte⟩ := a10 e he
      have hec : e.1 ≠ c := fun hEq => hnotin (hEq ▸ List.mem_map_of_mem Prod.fst he)
      exact ⟨pe, hsame e.1 pe hpe hpepar hec, hpepar, hnte⟩
    · rw [List.mem_singleton.mp he]
      exact ⟨pc2, hpc2, hpar2, hnt2⟩
  · intro e he
    simp only [pendingOf] at he
    rw [List.drop_append_of_le_length a3] at he
    rcases List.mem_append.mp he with he | he
    · obtain ⟨hres, hmem⟩ := a11 e he
      obtain ⟨pe, hpe, hpepar, _⟩ := a10 e (List.mem_of_mem_drop he)
      have hec : e.1 ≠ c :=
        fun hEq => hnotin (hEq ▸ List.mem_map_of_mem Prod.fst (List.mem_of_mem_drop he))
      refine ⟨?_, List.mem_append_left _ hmem⟩
      rw [← hres]
      simp only [resultOf, hsame e.1 pe hpe hpepar hec, hpe]
    · rw [List.mem_singleton.mp he]
      exact ⟨rfl, List.mem_append_left _ hcmem⟩
  · simp only [List.map_append, List.map_cons, List.map_nil]
    rw [List.nodup_append]
    refine ⟨a12, List.nodup_singleton _, ?_⟩
    intro x hx hx2
    rw [List.mem_singleton.mp hx2] at hx
    exact hnotin hx
  · intro b hb2
    simp only at hb2
    obtain ⟨hb3, hbc⟩ := List.mem_filter.mp hb2
    simp only [ne_eq, decide_eq_true_eq] at hbc
    obtain ⟨h1, pb, hpb, hpbpar, h2, h3, h4⟩ := a13 b hb3
    exact ⟨h1, pb, hsame b.1 pb hpb hpbpar hbc, hpbpar, h2, h3,
      List.mem_append_left _ h4⟩

/-- What a call of `wait(-1)` that reaps and blocks, or the resumption of one,
does in a family: it fails on an empty children list; it returns the result of
the child that terminated first among those not reaped, takes it from the queue
and retires it; and it suspends when no child is queued. -/
theorem WaitInv.next {bits : WaitFlagBits} {flags : Nat} {SIGCHLD : Int} {self : Ref}
    {me0 : Process} {sc : Ref} {h : SignalHandler} {s : WaitState} {me : Process}
    (hv : WaitInv SIGCHLD self me0 sc h s me) (hf : ReapingFlags bits flags)
    (hblock : flags &&& bits.waitNonBlocking = 0) :
    (me._children = [] →
      nextWait bits flags self s = .done (.error Error.noChildProcesses, s.world)) ∧
    (∀ c r rest, pendingOf s = (c, r) :: rest →
      ∃ w2 pc, s.world.procs c = some pc ∧ pc._parent = some self ∧ c ≠ self ∧
        c ∈ me._children ∧ r = resultOf s.world c ∧
        nextWait bits flags self s = .done (.result r, w2) ∧
        w2.procs self = some { me with
          _notifyQueue := rest.map Prod.fst
          _childrenUsage :=
            { userTime := uadd me._childrenUsage.userTime pc._generationUsage.userTime }
          _children := me._children.filter (fun e => decide (e ≠ c)) } ∧
        w2.procs c = some { pc with _procfs_dir := pc._procfs_dir.map (fun _ => false) } ∧
        (∀ x, x ≠ self → x ≠ c → w2.procs x = s.world.procs x) ∧
        w2.sigctxs = s.world.sigctxs ∧ w2.groups = s.world.groups ∧
        FrameKept s.world w2) ∧
    (pendingOf s = [] → me._children ≠ [] →
      nextWait bits flags self s = .done (.suspended, s.world)) := by
  obtain ⟨a1, a2, a3, a4, a5, a6, a7, a8, a9, a10, a11, a12, a13⟩ := hv
  have hnext := nextWait_eq bits flags self s me hf a2
  refine ⟨?_, ?_, ?_⟩
  · intro hch
    rw [hnext, hch]
    rfl
  · intro c r rest hp
    obtain ⟨hres, hmem⟩ := a11 (c, r) (by rw [hp]; exact List.mem_cons_self _ _)
    have hin : (c, r) ∈ s.exited := by
      have : (c, r) ∈ pendingOf s := by rw [hp]; exact List.mem_cons_self _ _
      exact List.mem_of_mem_drop this
    obtain ⟨pc, hpc, hpar, _⟩ := a10 (c, r) hin
    simp only at hres hmem hpc
    have hne : c ≠ self := a1.ne_parent hpc hpar
    have hq : me._notifyQueue = c :: rest.map Prod.fst := by
      rw [a5, hp]
      rfl
    obtain ⟨w2, hw, h1, h2, h3, h4, h5, h6⟩ :=
      waitPass_reaps bits s.world self flags me pc c (rest.map Prod.fst) hf a2 hq hpc hpar hne
    have hne2 : me._children.isEmpty = false := by
      cases hch : me._children with
      | nil => rw [hch] at hmem; cases hmem
      | cons a l => rfl
    refine ⟨w2, pc, hpc, hpar, hne, hmem, hres.symm, ?_, h1, h2, h3, h4, h5, h6⟩
    rw [hnext, hne2, ← hres]
    simp only [Bool.false_eq_true, if_false]
    exact hw
  · intro hp hch
    have hne2 : me._children.isEmpty = false := by
      cases hch2 : me._children with
      | nil => exact absurd hch2 hch
      | cons a l => rfl
    rw [hnext, hne2]
    simp only [Bool.false_eq_true, if_false]
    exact waitPass_blocks bits s.world self flags me a2 (by rw [a5, hp]; rfl) hblock

/-- The invariant of a family holds on after a call of `wait(-1)` that reaps and
blocks, or the resumption of one. -/
theorem WaitInv.answered {bits : WaitFlagBits} {flags : Nat} {SIGCHLD : Int} {self : Ref}
    {me0 : Process} {sc : Ref} {h : SignalHandler} {s : WaitState} {me : Process}
    {o : WaitOutcome} {w2 : World}
    (hv : WaitInv SIGCHLD self me0 sc h s me) (hf : ReapingFlags bits flags)
    (hblock : flags &&& bits.waitNonBlocking = 0)
    (hrun : nextWait bits flags self s = .done (o, w2)) :
    ∃ me2, WaitInv SIGCHLD self me0 sc h (s.answered o w2) me2 := by
  obtain ⟨hn1, hn2, hn3⟩ := hv.next hf hblock
  obtain ⟨a1, a2, a3, a4, a5, a6, a7, a8, ⟨ctx, hctx, hh⟩, a10, a11, a12, a13⟩ := hv
  by_cases hch : me._children = []
  · rw [hn1 hch] at hrun
    have hh2 := Outcome.done.inj hrun
    rw [Prod.mk.injEq] at hh2
    obtain ⟨ho, hw⟩ := hh2
    subst ho
    subst hw
    exact ⟨me, a1, a2, a3, a4, a5, a6, a7, a8, ⟨ctx, hctx, hh⟩, a10, a11, a12, a13⟩
  cases hp : pendingOf s with
  | nil =>
    rw [hn3 hp hch] at hrun
    have hh2 := Outcome.done.inj hrun
    rw [Prod.mk.injEq] at hh2
    obtain ⟨ho, hw⟩ := hh2
    subst ho
    subst hw
    exact ⟨me, a1, a2, a3, a4, a5, a6, a7, a8, ⟨ctx, hctx, hh⟩, a10, a11, a12, a13⟩
  | cons e rest =>
    obtain ⟨c, r⟩ := e
    obtain ⟨w3, pc, hpc, hpar, hne, hmem, hres, hw, h1, h2, h3, h4, h5, h6⟩ := hn2 c r rest hp
    rw [hw] at hrun
    have hh2 := Outcome.done.inj hrun
    rw [Prod.mk.injEq] at hh2
    obtain ⟨ho, hw3⟩ := hh2
    subst ho
    subst hw3
    obtain ⟨w, susp, begun, exited, adopted, returned⟩ := s
    simp only [pendingOf, reapedOf, WaitState.answered] at *
    obtain ⟨ht1, ht2, ht3⟩ := take_succ_of_drop exited returned.length (c, r) rest hp
    have hlen : (returned ++ [r]).length = returned.length + 1 := by simp
    have hcrest : c ∉ rest.map Prod.fst := by
      have hnd : (List.map Prod.fst (List.drop returned.length exited)).Nodup := by
        rw [List.map_drop]
        exact a12.sublist (List.drop_sublist _ _)
      rw [hp] at hnd
      exact (List.nodup_cons.mp hnd).1
    have hnull : ∀ b ∈ begun, b.1 ≠ c := by
      intro b hb hEq
      obtain ⟨_, pb, hpb, _, hnb, _⟩ := a13 b hb
      obtain ⟨pe, hpe, _, hnte⟩ := a10 (c, r) (List.mem_of_mem_drop (by rw [hp]; simp))
      simp only at hpe
      rw [hEq, hpe] at hpb
      cases hpb
      rw [hnb] at hnte
      cases hnte
    refine ⟨_, ?_, h1, ?_, ?_, ?_, ?_, a7, a8, ⟨ctx, by rw [h4]; exact hctx, hh⟩,
      ?_, ?_, a12, ?_⟩
    · apply a1.trimmed h6 h4 h5
      · intro x hx
        have hx1 : x ≠ self := by
          intro hEq; rw [hEq, a2] at hx; cases hx
        have hx2 : x ≠ c := by
          intro hEq; rw [hEq, hpc] at hx; cases hx
        rw [h3 x hx1 hx2]
        exact hx
      · intro x p hx
        by_cases hx1 : x = self
        · subst hx1
          rw [a2] at hx
          cases hx
          refine ⟨_, h1, rfl, ?_, (a1.nodup _ me a2).filter _⟩
          intro d hd
          exact (List.mem_filter.mp hd).1
        by_cases hx2 : x = c
        · subst hx2
          rw [hpc] at hx
          cases hx
          exact ⟨_, h2, rfl, fun d hd => hd, a1.nodup _ pc hpc⟩
        · exact ⟨p, by rw [h3 x hx1 hx2]; exact hx, rfl, fun d hd => hd, a1.nodup x p hx⟩
    · rw [hlen]
      exact ht3
    · rw [hlen, ht1, List.map_append, ← a4]
      rfl
    · simp only [pendingOf]
      rw [hlen, ht2]
    · simp only [reapedOf, hlen, ht1]
      rw [a6, List.filter_filter]
      apply List.filter_congr
      intro d _
      simp only [List.map_append, List.map_cons, List.map_nil, List.mem_append,
        List.mem_singleton, not_or, ne_eq, Bool.decide_and, decide_not, Bool.and_comm]
    · intro e he
      obtain ⟨pe, hpe, hpepar, hnte⟩ := a10 e he
      by_cases hec : e.1 = c
      · rw [hec]
        rw [hec, hpc] at hpe
        cases hpe
        exact ⟨_, h2, hpepar, hnte⟩
      · exact ⟨pe, by rw [h3 e.1 (a1.ne_parent hpe hpepar) hec]; exact hpe, hpepar, hnte⟩
    · intro e he
      simp only [pendingOf] at he
      rw [hlen, ht2] at he
      have he2 : e ∈ List.drop returned.length exited := by
        rw [hp]; exact List.mem_cons_of_mem _ he
      obtain ⟨hres2, hmem2⟩ := a11 e he2
      obtain ⟨pe, hpe, hpepar, _⟩ := a10 e (List.mem_of_mem_drop he2)
      have hec : e.1 ≠ c := fun hEq => hcrest (hEq ▸ List.mem_map_of_mem Prod.fst he)
      refine ⟨?_, ?_⟩
      · rw [← hres2]
        simp only [resultOf, h3 e.1 (a1.ne_parent hpe hpepar) hec]
      · simp only [List.mem_filter, ne_eq, decide_eq_true_eq]
        exact ⟨hmem2, hec⟩
    · intro b hb
      obtain ⟨hb1, pb, hpb, hpbpar, hb2, hb3, hb4⟩ := a13 b hb
      have hbc := hnull b hb
      refine ⟨hb1, pb, by rw [h3 b.1 (a1.ne_parent hpb hpbpar) hbc]; exact hpb, hpbpar, hb2,
        hb3, ?_⟩
      simp only [List.mem_filter, ne_eq, decide_eq_true_eq]
      exact ⟨hb4, hbc⟩

theorem sampleTwins_run :
    fork 2147483647 okForkKernel sampleForked 1 = .done (21, sampleTwins) := rfl

theorem sampleTwins_reachable (SIGCHLD : Int) (signalNoChildWait : Nat) (uid0 : Int) :
    ProcReachable 2147483647 SIGCHLD signalNoChildWait uid0 sampleTwins :=
  ProcReachable.fork okForkKernel 1 21
    (sampleForked_reachable SIGCHLD signalNoChildWait uid0) sampleTwins_run

theorem sampleReaped_run :
    WaitRun sampleBits 2 17 16 0 1 sampleTwins sampleReaped :=
  waitScript_run sampleBits 2 17 16 0 1 sampleTwins sampleWaitScript { world := sampleTwins }
    sampleReaped WaitRun.start rfl

/-- The invariant of a family holds in every family reached from a heap with the
invariant of the heap in which the process has an empty notification queue and
a handler for `SIGCHLD` that keeps zombies. -/
theorem waitRun_inv (bits : WaitFlagBits) (flags : Nat) (SIGCHLD : Int)
    (signalNoChildWait : Nat) (uid0 : Int) (self sc : Ref) (w0 : World) (me0 : Process)
    (ctx0 : SignalContext) (h : SignalHandler) (hS : 1 ≤ SIGCHLD ∧ SIGCHLD ≤ 64)
    (hi : ProcInv w0) (hf : ReapingFlags bits flags)
    (hblock : flags &&& bits.waitNonBlocking = 0)
    (hme : w0.procs self = some me0) (hq : me0._notifyQueue = [])
    (hsc : me0._signalContext = some sc) (hctx : w0.sigctxs sc = some ctx0)
    (hh : ctx0._handlers[(SIGCHLD - 1).toNat]? = some h)
    (hk : keepsZombie signalNoChildWait h) (s : WaitState)
    (hrun : WaitRun bits flags SIGCHLD signalNoChildWait uid0 self w0 s) :
    ∃ me, WaitInv SIGCHLD self me0 sc h s me := by
  induction hrun with
  | start =>
    refine ⟨me0, hi, hme, Nat.le_refl _, rfl, hq, ?_, rfl, hsc, ⟨ctx0, hctx, hh⟩, ?_, ?_,
      List.nodup_nil, ?_⟩
    · simp [reapedOf]
    · intro e he; cases he
    · intro e he; simp [pendingOf] at he
    · intro b hb; cases hb
  | step _ hstep ih =>
    obtain ⟨me, hv⟩ := ih
    cases hstep with
    | begin k c parent g me1 w2 hme1 hc hb => exact ⟨me, hv.begin hme1 hc hb⟩
    | serve w2 hs => exact ⟨me, hv.serve hs⟩
    | finish k fuel c parent g state w2 hb _ hfin => exact ⟨_, hv.finish hS hk hb hfin⟩
    | call o w2 hs hw =>
      refine hv.answered hf hblock ?_
      unfold nextWait
      rw [if_neg (by rw [hs]; simp)]
      exact hw
    | resume o w2 hs hw =>
      refine hv.answered hf hblock ?_
      unfold nextWait
      rw [if_pos hs]
      exact hw

/-! ## Claims on the notification of the parent and on `wait` -/

/-- C17, as claimed, fails. In the chain of the processes 1, 2 and 3, all with the
default handling of `SIGCHLD`, process 3 exits with code 3 and then its parent,
process 2, with code 7. Both are then children of process 1 and have terminated,
process 3 first. The first call `wait(-1)` of process 1 returns the result of
process 2, not of process 3; the second call does not return the result of
process 3 and does not fail with `noChildProcesses`: it suspends, and when it is
resumed it suspends again, for process 3 stands on the notification queue of
process 2. -/
theorem wait_order_counterexample :
    (sampleChain.sigctxs 10).map (fun s => s._handlers[16]?) =
        some (some ⟨SignalDisposition.none, 0, 0, 0, 0⟩) ∧
      (sampleOrphaned.procs 1).map (fun p => (p._children, p._notifyQueue)) =
        some ([2, 3], [2]) ∧
      (sampleOrphaned.procs 3).map (fun p => (p._parent, p.notifyType_, p._state)) =
        some (some 1, NotifyType.terminated, TerminationState.byExit 3) ∧
      (sampleOrphaned.procs 2).map
          (fun p => (p._parent, p.notifyType_, p._state, p._notifyQueue)) =
        some (some 1, NotifyType.terminated, TerminationState.byExit 7, [3]) ∧
      waitAnswer (wait sampleBits sampleOrphaned 1 (-1) 2) =
        some (.result { pid := 2, state := TerminationState.byExit 7, stats := ⟨5⟩ }) ∧
      ((waitWorld (wait sampleBits sampleOrphaned 1 (-1) 2)).procs 1).map
          (fun p => (p._children, p._notifyQueue)) = some ([3], []) ∧
      waitAnswer (wait sampleBits (waitWorld (wait sampleBits sampleOrphaned 1 (-1) 2)) 1 (-1) 2) =
        some .suspended ∧
      waitAnswer (waitResume sampleBits (waitWorld (wait sampleBits sampleOrphaned 1 (-1) 2))
        1 (-1) 2 true) = some .suspended :=
  ⟨by decide, by decide, by decide, by decide, by decide, by decide, by decide, by decide⟩

/-- C17, amended. Order of `wait` and exhaustion, for a process with the default
handling of `SIGCHLD` (its handler is not set to ignore and has not the
no-child-wait flag) in a heap reached from `init` by `fork`, `clone` and
`terminate`, with nothing on its notification queue. Its children terminate
while they are its children: each is in its children list when it calls
`terminate`, stands at the two waits of `terminate` and finishes in its turn; the
process calls `wait(-1)` with `waitExited`, without `waitLeaveZombie` and without
`waitNonBlocking`, any number of times, and a call that suspends is resumed at
the notify bell. In every family so reached, with the children `c1 .. ck` whose
`terminate` has finished in this order (`exited`): the results returned so far
are those of `c1 .. cn` in this order; the notification queue holds the others
in this order; the children list holds the children of the start and the
children handed over by terminating children that are not among `c1 .. cn`, so
that it is empty once all of these have been reaped. And the next call (or the
resumption of the suspended call) fails with `noChildProcesses` when the children
list is empty; returns the result of the child that terminated first among those
not reaped, and takes it from the notification queue and from the children
list; and suspends when no child is queued and the children list is not empty. -/
theorem wait_order (bits : WaitFlagBits) (flags : Nat) (pidMax SIGCHLD : Int)
    (signalNoChildWait : Nat) (uid0 : Int) (self sc : Ref) (w0 : World) (me0 : Process)
    (ctx0 : SignalContext) (h : SignalHandler) (hS : 1 ≤ SIGCHLD ∧ SIGCHLD ≤ 64)
    (hreach : ProcReachable pidMax SIGCHLD signalNoChildWait uid0 w0)
    (hf : ReapingFlags bits flags) (hblock : flags &&& bits.waitNonBlocking = 0)
    (hme : w0.procs self = some me0) (hq : me0._notifyQueue = [])
    (hsc : me0._signalContext = some sc) (hctx : w0.sigctxs sc = some ctx0)
    (hh : ctx0._handlers[(SIGCHLD - 1).toNat]? = some h)
    (hk : h.disposition ≠ SignalDisposition.ignore ∧ h.flags &&& signalNoChildWait = 0)
    (s : WaitState) (hrun : WaitRun bits flags SIGCHLD signalNoChildWait uid0 self w0 s) :
    ∃ me, s.world.procs self = some me ∧
      s.returned.length ≤ s.exited.length ∧
      s.returned = (s.exited.take s.returned.length).map Prod.snd ∧
      me._notifyQueue = (pendingOf s).map Prod.fst ∧
      me._children =
        (me0._children ++ s.adopted).filter (fun c => decide (c ∉ reapedOf s)) ∧
      ((∀ c ∈ me0._children ++ s.adopted, c ∈ reapedOf s) → me._children = []) ∧
      (me._children = [] →
        nextWait bits flags self s = .done (.error Error.noChildProcesses, s.world)) ∧
      (∀ c r rest, pendingOf s = (c, r) :: rest →
        ∃ w2 me2, nextWait bits flags self s = .done (.result r, w2) ∧
          r = resultOf s.world c ∧ c ∈ me._children ∧
          w2.procs self = some me2 ∧ me2._notifyQueue = rest.map Prod.fst ∧
          me2._children = me._children.filter (fun e => decide (e ≠ c)) ∧
          c ∉ me2._children) ∧
      (pendingOf s = [] → me._children ≠ [] →
        nextWait bits flags self s = .done (.suspended, s.world)) := by
  obtain ⟨me, hv⟩ := waitRun_inv bits flags SIGCHLD signalNoChildWait uid0 self sc w0 me0 ctx0 h
    hS (reachable_inv hS hreach) hf hblock hme hq hsc hctx hh hk s hrun
  obtain ⟨hn1, hn2, hn3⟩ := hv.next hf hblock
  obtain ⟨a1, a2, a3, a4, a5, a6, a7, a8, a9, a10, a11, a12, a13⟩ := hv
  refine ⟨me, a2, a3, a4, a5, a6, ?_, hn1, ?_, hn3⟩
  · intro hall
    rw [a6, List.filter_eq_nil_iff]
    intro c hc
    simp only [decide_eq_true_eq, not_not]
    exact hall c hc
  · intro c r rest hp
    obtain ⟨w2, pc, _, _, _, hmem, hres, hw, h1, _⟩ := hn2 c r rest hp
    refine ⟨w2, _, hw, hres, hmem, h1, rfl, rfl, ?_⟩
    simp [List.mem_filter]

/-- Witness of C17: the process of pid 1 after `init` and two forks has the
children of pid 2 and 3. The first calls `terminate`; the process calls `wait`,
which suspends; the child exits with code 3 and the call, resumed, returns that
result; the other child exits with code 7 and the next call returns that
result; and the call after that fails with `noChildProcesses`. -/
theorem wait_order_witness :
    WaitRun sampleBits 2 17 16 0 1 sampleTwins sampleReaped ∧
      sampleReaped.returned =
        [{ pid := 2, state := TerminationState.byExit 3, stats := ⟨5⟩ },
         { pid := 3, state := TerminationState.byExit 7, stats := ⟨5⟩ }] ∧
      wait sampleBits sampleReaped.world 1 (-1) 2 =
        .done (.error Error.noChildProcesses, sampleReaped.world) := by
  obtain ⟨me, h1, _, _, _, h5, _, h7, _⟩ := wait_order sampleBits 2 2147483647 17 16 0 1 5
    sampleTwins _ _ ⟨SignalDisposition.none, 0, 0, 0, 0⟩ (by decide)
    (sampleTwins_reachable 17 16 0) ⟨by decide, by decide, by decide⟩ (by decide)
    rfl (by decide) rfl rfl (by decide) (by decide) sampleReaped sampleReaped_run
  refine ⟨sampleReaped_run, by decide, ?_⟩
  have hch : me._children = [] := by
    have h0 : (sampleReaped.world.procs 1).map (fun p => p._children) = some [] := by decide
    rw [h1] at h0
    exact Option.some.inj h0
  have hs : sampleReaped.suspended = false := by decide
  have := h7 hch
  unfold nextWait at this
  rw [if_neg (by rw [hs]; simp)] at this
  exact this

theorem sampleChain_begun :
    terminateBegin sampleTerminateKernel sampleChain 3 =
      .done ((2, 22), beginWorld (terminateBegin sampleTerminateKernel sampleChain 3)) := rfl

theorem sampleChain_terminating :
    Terminating 17 sampleTerminateKernel 4
      (beginWorld (terminateBegin sampleTerminateKernel sampleChain 3)) 3
      { pid := 3, _parent := some 2, _signalContext := some 12,
        _currentGeneration := some 22, _pgPointer := some 30 }
      { pid := 2, _parent := some 1, _children := [3], _signalContext := some 11,
        _currentGeneration := some 21, _pgPointer := some 30 }
      2 1 11 (SignalContext.init sampleHandlers) ⟨SignalDisposition.none, 0, 0, 0, 0⟩ where
  live := rfl
  hasParent := rfl
  killed := rfl
  stats := rfl
  generation := by decide
  running := rfl
  walk := by decide
  distinct := by decide
  children := by
    intro c hc
    exact absurd hc (List.not_mem_nil _)
  requests := by
    intro c hc
    exact absurd hc (List.not_mem_nil _)
  parentLive := rfl
  parentContext := rfl
  context := rfl
  sigchldPos := by decide
  sigchldMax := by decide
  handler := by decide

/-- C20, as claimed, fails, in three ways. The `SIGCHLD` handler of process 1 in
`sampleIgnoring` is set to ignore, without the no-child-wait flag (flag 16), so it
is not "set to ignore with the no-child-wait flag"; yet when its child 2
terminates, the child is retired and not queued: the notification queue of
process 1 stays empty and its children list holds process 3 only, which process 2
has handed over. The retired process is not detached from its process group: its
group pointer is still the group at 30, whose member list still holds it. And in
`sampleChain`, where every handler is at its default, process 3 reads process 2 as
its parent,
process 2 terminates during the waits of process 3 (which makes process 3 a child
of process 1), and process 3 then finishes: it is queued at process 2, the parent
that it read, whose children list no longer holds it, and not at process 1, its
parent now, whose children list holds it. -/
theorem terminate_notifies_counterexample :
    ((sampleIgnoring.sigctxs 10).map (fun s => s._handlers[16]?) =
        some (some ⟨SignalDisposition.ignore, 0, 0, 0, 0⟩) ∧
      (0 : Nat) &&& 16 = 0 ∧
      (sampleIgnoring.procs 1).map (fun p => (p._signalContext, p._children, p._notifyQueue)) =
        some (some 10, [2], []) ∧
      (sampleRetired.procs 1).map (fun p => (p._children, p._notifyQueue)) =
        some ([3], [])) ∧
    ((sampleIgnoring.procs 2).map (fun p => p._pgPointer) = some (some 30) ∧
      (sampleRetired.procs 2).map (fun p => (p.notifyType_, p._pgPointer)) =
        some (NotifyType.terminated, some 30) ∧
      (sampleRetired.groups 30).map (fun g => g.members_) = some [1, 2, 3]) ∧
    (beginAnswer (terminateBegin sampleTerminateKernel sampleChain 3) = some (2, 22) ∧
      (sampleOvertaken.procs 3).map (fun p => (p._parent, p.notifyType_)) =
        some (some 1, NotifyType.null) ∧
      (sampleStale.procs 3).map (fun p => (p._parent, p.notifyType_)) =
        some (some 1, NotifyType.terminated) ∧
      (sampleStale.procs 2).map (fun p => (p._children, p._notifyQueue)) =
        some ([], [3]) ∧
      (sampleStale.procs 1).map (fun p => (p._children, p._notifyQueue)) =
        some ([2, 3], [2])) :=
  ⟨⟨by decide, by decide, by decide, by decide⟩, ⟨by decide, by decide, by decide⟩,
    ⟨by decide, by decide, by decide, by decide, by decide⟩⟩

/-- C20, amended. Notification of the parent on `terminate`: when a process
terminates and its parent when its two waits are over is still the parent that
`terminate` read at its start, `terminate` finishes, and the process is appended
to the notification queue of its parent, staying in the children list of the
parent as a zombie, if and only if the `SIGCHLD` handler of the parent is neither
set to ignore nor has the no-child-wait flag; otherwise it is retired at once: it
is removed from the children list of the parent (which is charged its user time)
and is not placed on the notification queue. In both cases the process is marked
terminated with its termination state, and its process group pointer and every
process group are left as they were (the process leaves its group in its
destructor). Here `w0` is the heap in which `terminate` is called, and `w` the
heap in which it passes its second wait; before its waits `terminate` has changed
its generation only. -/
theorem terminate_notifies (SIGCHLD : Int) (signalNoChildWait : Nat) (uid0 : Int)
    (k : TerminateKernel) (fuel : Nat) (w0 w1 w : World) (self : Ref)
    (state : TerminationState) (me par : Process) (parent g R sc : Ref)
    (ctx : SignalContext) (h : SignalHandler)
    (hbegin : terminateBegin k w0 self = .done ((parent, g), w1))
    (ht : Terminating SIGCHLD k fuel w self me par parent R sc ctx h) :
    (w1.procs = w0.procs ∧ w1.sigctxs = w0.sigctxs ∧ w1.groups = w0.groups ∧
      ∃ me0, w0.procs self = some me0 ∧ me0._parent = some parent) ∧
    ∃ w2 me2 par2, terminateFinish SIGCHLD signalNoChildWait uid0 k fuel w self parent state =
        some (.done w2) ∧
      w2.procs self = some me2 ∧ w2.procs parent = some par2 ∧
      (par2._notifyQueue = par._notifyQueue ++ [self] ↔
        (h.disposition ≠ SignalDisposition.ignore ∧ h.flags &&& signalNoChildWait = 0)) ∧
      ((h.disposition ≠ SignalDisposition.ignore ∧ h.flags &&& signalNoChildWait = 0) →
        (∀ e ∈ par._children, e ∈ par2._children) ∧
        par2._childrenUsage = par._childrenUsage) ∧
      (¬ (h.disposition ≠ SignalDisposition.ignore ∧ h.flags &&& signalNoChildWait = 0) →
        par2._notifyQueue = par._notifyQueue ∧ self ∉ par2._children ∧
        (∀ e ∈ par._children, e ≠ self → e ∈ par2._children) ∧
        par2._childrenUsage.userTime = uadd par._childrenUsage.userTime
          (uadd me._generationUsage.userTime k.userTime)) ∧
      me2.notifyType_ = NotifyType.terminated ∧ me2._state = state ∧
      me2._pgPointer = me._pgPointer ∧ w2.groups = w.groups := by
  obtain ⟨tlive, thasParent, tkilled, tstats, tgeneration, trunning, twalk, tdistinct,
    tchildren, trequests, tparentLive, tparentContext, tcontext, tsigchldPos, tsigchldMax,
    thandler⟩ := ht
  constructor
  · obtain ⟨me0, gen, h1, h2, _, _, h5⟩ := terminateBegin_inv hbegin
    rw [h5]
    exact ⟨rfl, rfl, rfl, me0, h1, h2⟩
  obtain ⟨g2, hg2⟩ := Option.ne_none_iff_exists'.mp tgeneration
  rw [← terminate_eq_finish SIGCHLD signalNoChildWait uid0 k fuel w self parent g2 me state
    tlive thasParent tkilled hg2]
  obtain ⟨w2, root, hterm, _, _, _, _, _, _, _, hself2, _, ⟨par0, hpar0, hpar2⟩, _, _, hg, _, _⟩ :=
    terminate_spec SIGCHLD signalNoChildWait uid0 k fuel w self state me par parent R sc ctx h
      tlive thasParent tkilled tstats tgeneration trunning twalk tdistinct
      tchildren trequests tparentLive tparentContext tcontext tsigchldPos
      tsigchldMax thandler
  have hq0 : par0._notifyQueue = par._notifyQueue := by
    rw [hpar0]; split <;> rfl
  have hu0 : par0._childrenUsage = par._childrenUsage := by
    rw [hpar0]; split <;> rfl
  have hc0 : ∀ e ∈ par._children, e ∈ par0._children := by
    intro e he
    rw [hpar0]
    split
    · exact List.mem_append_left _ he
    · exact he
  by_cases hk : keepsZombie signalNoChildWait h
  · have hk2 : h.disposition ≠ SignalDisposition.ignore ∧ h.flags &&& signalNoChildWait = 0 :=
      hk
    rw [if_pos hk] at hpar2
    refine ⟨w2, _, _, hterm, hself2, hpar2, ?_, ?_, ?_, rfl, rfl, rfl, hg⟩
    · simp only [hq0]
      exact ⟨fun _ => hk2, fun _ => trivial⟩
    · intro _
      exact ⟨hc0, hu0⟩
    · intro hn
      exact absurd hk2 hn
  · have hk2 : ¬ (h.disposition ≠ SignalDisposition.ignore ∧
        h.flags &&& signalNoChildWait = 0) := hk
    rw [if_neg hk] at hpar2
    refine ⟨w2, _, _, hterm, hself2, hpar2, ?_, ?_, ?_, rfl, rfl, rfl, hg⟩
    · simp only [hq0]
      constructor
      · intro hEq
        have := congrArg List.length hEq
        simp at this
      · intro hc
        exact absurd hc hk2
    · intro hc
      exact absurd hc hk2
    · intro _
      refine ⟨hq0, ?_, ?_, ?_⟩
      · simp [List.mem_filter]
      · intro e he hne
        simp only [List.mem_filter, ne_eq, decide_eq_true_eq]
        exact ⟨hc0 e he, hne⟩
      · simp only [hu0]

theorem terminate_notifies_witness :
    ∃ w2 me2 par2, terminateFinish 17 16 0 sampleTerminateKernel 4
        (beginWorld (terminateBegin sampleTerminateKernel sampleChain 3)) 3 2
        (TerminationState.byExit 0) = some (.done w2) ∧
      w2.procs 3 = some me2 ∧ w2.procs 2 = some par2 ∧
      par2._notifyQueue = [3] ∧ 3 ∈ par2._children ∧
      me2.notifyType_ = NotifyType.terminated := by
  obtain ⟨w2, me2, par2, h1, h2, h3, h4, h5, _, h7, _⟩ := (terminate_notifies 17 16 0
    sampleTerminateKernel 4 sampleChain _ _ 3 (TerminationState.byExit 0) _ _ 2 22 1 11 _ _
    sampleChain_begun sampleChain_terminating).2
  exact ⟨w2, me2, par2, h1, h2, h3, h4.mpr (by decide),
    (h5 (by decide)).1 3 (by decide), h7⟩

end Posix
